import Mathlib

/-! Lake vacuum: a shallow embedding of `be/src/storage/lake/vacuum.cpp`, and of
`SegmentCacheUpdater::_process_tasks` of `segment_cache_updater.cpp`.

The definitions below follow the C++ source function by function.

Conventions of the embedding.

* `int64_t` / `size_t` quantities are `Int`. Sums of `int64_t` file sizes are
  taken in unbounded integers (their overflow is not defined by the language);
  arithmetic in `size_t` is taken modulo `2 ^ 64`.
* A function that returns `Status` and mutates objects through pointers or
  references becomes a function returning the status together with the new
  value of every object it may have mutated.
* `CHECK` / `LOG(FATAL)` abort the process; this is the `aborted` outcome.
* The object store, the thread pool and the metadata store are external.  Their
  answers are fields of `Env`.  Everything the program does to them is appended
  to a chronological event list, the `World`.
* `TEST_SYNC_POINT_CALLBACK`, logging and bvar metrics are not modelled.
-/

namespace starrocks.lake

/-! ## Status -/

/-- Error codes of `Status` that the vacuum code distinguishes. -/
inductive ErrorCode where
  | NotFound
  | ResourceBusy
  | InvalidArgument
  | InternalError
  | NotSupported
  | IOError
  deriving DecidableEq, Repr

/-- The `Status` class: either OK or an error code with a message. -/
inductive Status where
  | OK
  | error (code : ErrorCode) (message : String)
  deriving DecidableEq, Repr

namespace Status

def ok : Status → Bool
  | OK => true
  | error _ _ => false

def is_not_found : Status → Bool
  | error ErrorCode.NotFound _ => true
  | _ => false

def is_resource_busy : Status → Bool
  | error ErrorCode.ResourceBusy _ => true
  | _ => false

def message : Status → String
  | OK => ""
  | error _ m => m

/-- Method `Status::update`: keep the first error. -/
def update (self st : Status) : Status :=
  if self.ok then st else self

end Status

/-- The `StatusOr<T>` template: a value, or a non-OK status. -/
inductive StatusOr (α : Type) where
  | value (v : α)
  | error (code : ErrorCode) (message : String)

namespace StatusOr

def status {α : Type} : StatusOr α → Status
  | value _ => Status.OK
  | error c m => Status.error c m

def ok {α : Type} : StatusOr α → Bool
  | value _ => true
  | error _ _ => false

end StatusOr

/-- The macro `RETURN_IF_ERROR(stmt); rest`: when the status of `stmt` is not OK
    the enclosing function returns it (with the state as `stmt` left it). -/
def RETURN_IF_ERROR {σ : Type} (r : Status × σ) (rest : σ → Status × σ) : Status × σ :=
  match r.1 with
  | Status.OK => rest r.2
  | Status.error c m => (Status.error c m, r.2)

/-- A range-for loop whose body ends in `RETURN_IF_ERROR`: the body is run on
    the elements in order and the first error leaves the loop and the function. -/
def for_each {α σ : Type} (body : α → σ → Status × σ) : List α → σ → Status × σ
  | [], s => (Status.OK, s)
  | x :: xs, s =>
    match (body x s).1 with
    | Status.OK => for_each body xs (body x s).2
    | Status.error c m => (Status.error c m, (body x s).2)

/-- The values of `v` in `for (auto v = lo; v < hi; v++)`. -/
def version_range (lo hi : Int) : List Int :=
  (List.range (hi - lo).toNat).map (fun (i : Nat) => lo + (i : Int))

/-! ## Data model (protobuf messages) -/

/-- Message `RowsetMetadataPB`, the fields vacuum reads. `del_files` holds the
    `name()` of each entry. -/
structure RowsetMetadataPB where
  segments : List String := []
  bundle_file_offsets : List Int := []
  del_files : List String := []
  data_size : Int := 0
  deriving DecidableEq, Repr

/-- Message `FileMetaPB` (an entry of `orphan_files`, of `version_to_file`). -/
structure FileMetaPB where
  name : String
  size : Int := 0
  deriving DecidableEq, Repr

/-- Message `TabletMetadataPB`, the fields vacuum reads. Optional scalar fields
    are `Option`s; the accessor of an unset field returns the default 0. -/
structure TabletMetadataPB where
  id : Int := 0
  version : Int := 0
  commit_time_field : Option Int := none
  prev_garbage_version_field : Option Int := none
  rowsets : List RowsetMetadataPB := []
  compaction_inputs : List RowsetMetadataPB := []
  orphan_files : List FileMetaPB := []
  delvec_meta : Option (List (Int × FileMetaPB)) := none
  sstable_meta : List String := []
  deriving DecidableEq, Repr

namespace TabletMetadataPB

def has_commit_time (m : TabletMetadataPB) : Bool := m.commit_time_field.isSome

def commit_time (m : TabletMetadataPB) : Int := m.commit_time_field.getD 0

def has_prev_garbage_version (m : TabletMetadataPB) : Bool := m.prev_garbage_version_field.isSome

def prev_garbage_version (m : TabletMetadataPB) : Int := m.prev_garbage_version_field.getD 0

end TabletMetadataPB

/-- Message `TabletInfoPB`. -/
structure TabletInfoPB where
  tablet_id : Int := 0
  min_version : Int := 0
  deriving DecidableEq, Repr

/-! ## VacuumTabletMetaVerionRange -/

/-- The version range `[min_version, max_version)`. -/
structure VacuumTabletMetaVerionRange where
  min_version : Int := 0
  max_version : Int := 0
  deriving DecidableEq, Repr

def VacuumTabletMetaVerionRange.merge (self : VacuumTabletMetaVerionRange) (min max : Int) :
    VacuumTabletMetaVerionRange :=
  if self.min_version = 0 ∧ self.max_version = 0 then
    { min_version := min, max_version := max }
  else
    { min_version := Min.min self.min_version min, max_version := Min.min self.max_version max }

/-! ## The outside world -/

/-- What the program does to its collaborators, in the order it does it. -/
inductive Event where
  /-- a call `tablet_mgr->get_tablet_metadata(tablet_id, version, false)` -/
  | load (tablet_id version : Int)
  /-- a call `metacache->erase(path)` -/
  | erase (path : String)
  /-- a deletion task for `files` handed to the delete-file thread pool -/
  | task (files : List String)
  deriving DecidableEq, Repr

/-- The chronological list of events, oldest first. -/
abbrev World := List Event

/-- Struct `DirEntry` of the file-system interface. -/
structure DirEntry where
  name : String
  size : Option Int := none
  mtime : Option Int := none
  is_dir : Option Bool := none
  deriving DecidableEq, Repr

/-- The external collaborators and the configuration. The helpers of
    `filenames.h` and `join_path.h` and the directory-name constants are not
    part of the translated file and are taken as given. -/
structure Env where
  /-- the answer of `tablet_mgr->get_tablet_metadata(tablet_id, version, false)` -/
  get_tablet_metadata : Int → Int → StatusOr TabletMetadataPB
  /-- the status the future of a non-empty deletion task yields, given what
      has happened before the task is handed over -/
  task_status : World → List String → Status
  /-- the status of `FileSystem::CreateSharedFromString(root)` -/
  create_fs : String → Status
  join_path : String → String → String
  tablet_metadata_filename : Int → Int → String
  kMetadataDirectoryName : String
  kSegmentDirectoryName : String
  kTxnLogDirectoryName : String
  lake_vacuum_min_batch_delete_size : Int
  /-- the answer of `tablet_mgr->tablet_root_location(tablet_id)` -/
  tablet_root_location : Int → String
  /-- what `fs->iterate_dir2(dir, cb)` presents to `cb`, in order, and the status
      it returns when `cb` never stops the listing -/
  iterate_dir2 : String → List DirEntry × Status
  is_txn_log : String → Bool
  is_txn_slog : String → Bool
  is_combined_txn_log : String → Bool
  /-- the pair `(tablet_id, txn_id)` -/
  parse_txn_log_filename : String → Int × Int
  /-- the pair `(tablet_id, txn_id)` -/
  parse_txn_slog_filename : String → Int × Int
  parse_combined_txn_log_filename : String → Int

/-- Function `delete_files_callable`: an empty list yields a completed OK future
    and hands nothing to the pool; otherwise the task is handed to the pool. The
    returned status is the one the future will yield. -/
def delete_files_callable (env : Env) (files_to_delete : List String) (w : World) :
    Status × World :=
  if files_to_delete.isEmpty then (Status.OK, w)
  else (env.task_status w files_to_delete, w ++ [Event.task files_to_delete])

/-! ## AsyncFileDeleter -/

/-- Class `AsyncFileDeleter`. `_prev_task_status` is `none` when the future is
    not valid. The callback `_cb` is given by the events it causes. `submitted`
    is not a member of the class: it records the batches this object has passed
    to `delete_files_callable`, oldest first. -/
structure AsyncFileDeleter where
  _batch_size : Int
  _delete_count : Int := 0
  _batch : List String := []
  _prev_task_status : Option Status := none
  _cb : Option (List String → List Event) := none
  submitted : List (List String) := []

namespace AsyncFileDeleter

/-- Method `wait`: `future::get()` yields the status and leaves the future invalid. -/
def wait (d : AsyncFileDeleter) : Status × AsyncFileDeleter :=
  match d._prev_task_status with
  | some st => (st, { d with _prev_task_status := none })
  | none => (Status.OK, d)

/-- Method `submit`, always called on `&_batch`. -/
def submit (env : Env) (d : AsyncFileDeleter) (w : World) : Status × AsyncFileDeleter × World :=
  match d.wait.1 with
  | Status.error c m => (Status.error c m, d.wait.2, w)
  | Status.OK =>
    let d1 := d.wait.2
    let files := d1._batch
    let w1 := match d1._cb with
      | some cb => w ++ cb files
      | none => w
    let r := delete_files_callable env files w1
    (Status.OK,
      { d1 with
        _delete_count := d1._delete_count + (files.length : Int)
        _prev_task_status := some r.1
        _batch := []
        submitted := d1.submitted ++ [files] },
      r.2)

/-- Method `delete_file`. The comparison `_batch.size() < _batch_size` is made
    in `size_t`, so `_batch_size` is taken modulo 2^64. -/
def delete_file (env : Env) (path : String) (d : AsyncFileDeleter) (w : World) :
    Status × AsyncFileDeleter × World :=
  let d1 := { d with _batch := d._batch ++ [path] }
  if (d1._batch.length : Int) < d1._batch_size % 2 ^ 64 then (Status.OK, d1, w)
  else submit env d1 w

/-- Method `finish`. -/
def finish (env : Env) (d : AsyncFileDeleter) (w : World) : Status × AsyncFileDeleter × World :=
  if d._batch.isEmpty then
    (d.wait.1, d.wait.2, w)
  else
    match (submit env d w).1 with
    | Status.error c m => (Status.error c m, (submit env d w).2)
    | Status.OK =>
      ((submit env d w).2.1.wait.1, (submit env d w).2.1.wait.2, (submit env d w).2.2)

def delete_count (d : AsyncFileDeleter) : Int := d._delete_count

/-- Every path this deleter has been given through `delete_file`, in call
    order: those already passed on in a batch, then those still in `_batch`. -/
def handed (d : AsyncFileDeleter) : List String := d.submitted.flatten ++ d._batch

end AsyncFileDeleter

/-! ## AsyncBundleFileDeleter -/

/-- Class `AsyncBundleFileDeleter`. `_pending_files` (file to shared count, a
    `uint32_t`) is kept as an association list in order of first insertion,
    `_delay_delete_files` as a list without repetition; the loop of `finish`
    visits `_pending_files` in list order. -/
structure AsyncBundleFileDeleter extends AsyncFileDeleter where
  _pending_files : List (String × Nat) := []
  _delay_delete_files : List String := []

/-- The statement `_pending_files[path]++`. -/
def pending_increment (path : String) : List (String × Nat) → List (String × Nat)
  | [] => [(path, 1)]
  | (p, c) :: rest =>
    if p = path then (p, (c + 1) % 2 ^ 32) :: rest
    else (p, c) :: pending_increment path rest

namespace AsyncBundleFileDeleter

/-- Method `delete_file` (override): only records the path. -/
def delete_file (path : String) (b : AsyncBundleFileDeleter) : Status × AsyncBundleFileDeleter :=
  (Status.OK, { b with _pending_files := pending_increment path b._pending_files })

/-- Method `delay_delete`. -/
def delay_delete (path : String) (b : AsyncBundleFileDeleter) : Status × AsyncBundleFileDeleter :=
  (Status.OK,
    { b with _delay_delete_files :=
        if path ∈ b._delay_delete_files then b._delay_delete_files
        else b._delay_delete_files ++ [path] })

/-- The body of the loop of `finish` for one entry of `_pending_files`. -/
def finish_entry (env : Env) (entry : String × Nat) (s : AsyncBundleFileDeleter × World) :
    Status × (AsyncBundleFileDeleter × World) :=
  if entry.1 ∈ s.1._delay_delete_files then (Status.OK, s)
  else
    let r := AsyncFileDeleter.delete_file env entry.1 s.1.toAsyncFileDeleter s.2
    (r.1, ({ s.1 with toAsyncFileDeleter := r.2.1 }, r.2.2))

/-- Method `finish` (override). -/
def finish (env : Env) (b : AsyncBundleFileDeleter) (w : World) :
    Status × (AsyncBundleFileDeleter × World) :=
  RETURN_IF_ERROR (for_each (finish_entry env) b._pending_files (b, w)) fun s =>
    let r := AsyncFileDeleter.finish env s.1.toAsyncFileDeleter s.2
    (r.1, ({ s.1 with toAsyncFileDeleter := r.2.1 }, r.2.2))

def is_empty (b : AsyncBundleFileDeleter) : Bool := b._pending_files.isEmpty

end AsyncBundleFileDeleter

/-! ## collect_garbage_files -/

/-- The objects `collect_garbage_files` works on: `deleter`,
    `bundle_file_deleter` (a null pointer is `none`), `*garbage_data_size`. -/
structure GarbageState where
  deleter : AsyncFileDeleter
  bundle_file_deleter : Option AsyncBundleFileDeleter
  garbage_data_size : Int
  world : World

/-- The call `deleter->delete_file(path)` on the plain deleter. -/
def GarbageState.delete_file (env : Env) (path : String) (s : GarbageState) :
    Status × GarbageState :=
  let r := AsyncFileDeleter.delete_file env path s.deleter s.world
  (r.1, { s with deleter := r.2.1, world := r.2.2 })

/-- The body of `for (const auto& segment : rowset.segments())`. -/
def collect_garbage_segment (env : Env) (base_dir : String) (rowset : RowsetMetadataPB)
    (segment : String) (s : GarbageState) : Status × GarbageState :=
  match s.bundle_file_deleter with
  | some b =>
    if rowset.bundle_file_offsets.length > 0 then
      let r := b.delete_file (env.join_path base_dir segment)
      (r.1, { s with bundle_file_deleter := some r.2 })
    else s.delete_file env (env.join_path base_dir segment)
  | none => s.delete_file env (env.join_path base_dir segment)

/-- The body of `for (const auto& rowset : metadata.compaction_inputs())`. -/
def collect_garbage_rowset (env : Env) (base_dir : String) (rowset : RowsetMetadataPB)
    (s : GarbageState) : Status × GarbageState :=
  RETURN_IF_ERROR (for_each (collect_garbage_segment env base_dir rowset) rowset.segments s) fun s1 =>
  RETURN_IF_ERROR
    (for_each (fun del_file s => s.delete_file env (env.join_path base_dir del_file))
      rowset.del_files s1) fun s2 =>
  (Status.OK, { s2 with garbage_data_size := s2.garbage_data_size + rowset.data_size })

/-- The body of `for (const auto& file : metadata.orphan_files())`. -/
def collect_garbage_orphan (env : Env) (base_dir : String) (file : FileMetaPB)
    (s : GarbageState) : Status × GarbageState :=
  RETURN_IF_ERROR (s.delete_file env (env.join_path base_dir file.name)) fun s1 =>
  (Status.OK, { s1 with garbage_data_size := s1.garbage_data_size + file.size })

/-- Function `collect_garbage_files`. -/
def collect_garbage_files (env : Env) (metadata : TabletMetadataPB) (base_dir : String)
    (s : GarbageState) : Status × GarbageState :=
  RETURN_IF_ERROR (for_each (collect_garbage_rowset env base_dir) metadata.compaction_inputs s)
    fun s1 =>
  for_each (collect_garbage_orphan env base_dir) metadata.orphan_files s1

/-! ## collect_extra_files_size -/

/-- The conversion of an unsigned 64-bit value to `int64_t`. -/
def to_int64 (x : Int) : Int :=
  if x % 2 ^ 64 < 2 ^ 63 then x % 2 ^ 64 else x % 2 ^ 64 - 2 ^ 64

/-- Function `collect_extra_files_size`. The sizes are added up in the `size_t`
    local `extra_file_size`, that is modulo `2 ^ 64`. -/
def collect_extra_files_size (metadata : TabletMetadataPB) (min_retain_version : Int) : Int :=
  if metadata.version > min_retain_version then 0
  else
    ((metadata.compaction_inputs.map (fun rowset => rowset.data_size)).sum
      + (metadata.orphan_files.map (fun file => file.size)).sum) % 2 ^ 64

/-! ## collect_files_to_vacuum -/

/-- How a function (or the process) ends. -/
inductive Outcome (σ : Type) where
  /-- the function returned `st`; `s` holds the objects it had access to -/
  | returned (st : Status) (s : σ)
  /-- a `CHECK` failed and the process aborted -/
  | aborted (s : σ)
  /-- the embedding ran out of loop fuel (shown below never to happen) -/
  | out_of_fuel (s : σ)

/-- The objects as the function left them. -/
def Outcome.state {σ : Type} : Outcome σ → σ
  | Outcome.returned _ s => s
  | Outcome.aborted s => s
  | Outcome.out_of_fuel s => s

/-- Whether the function returned OK. -/
def Outcome.succeeded {σ : Type} : Outcome σ → Bool
  | Outcome.returned Status.OK _ => true
  | _ => false

/-- How the `while` loop of `collect_files_to_vacuum` ends. -/
inductive LoopResult (σ : Type) where
  /-- the loop was left through its condition or through `break` -/
  | done (s : σ)
  /-- a `return` inside the loop -/
  | returned (st : Status) (s : σ)
  | aborted (s : σ)
  | out_of_fuel (s : σ)

/-- The variables as the loop left them. -/
def LoopResult.state {σ : Type} : LoopResult σ → σ
  | LoopResult.done s => s
  | LoopResult.returned _ s => s
  | LoopResult.aborted s => s
  | LoopResult.out_of_fuel s => s

/-- The local variables of `collect_files_to_vacuum` that the `while` loop
    uses, and the objects it reaches through its pointer arguments. -/
structure WalkState where
  version : Int
  final_retain_version : Int
  skip_check_grace_timestamp : Bool
  extra_file_size : Int := 0
  prepare_vacuum_file_size : Int := 0
  datafile_deleter : AsyncFileDeleter
  bundle_file_deleter : Option AsyncBundleFileDeleter
  total_datafile_size : Int
  world : World

/-- The call `collect_garbage_files(*metadata, data_dir, datafile_deleter,
    bundle_file_deleter, &prepare_vacuum_file_size)`. -/
def WalkState.collect_garbage_prepare (env : Env) (metadata : TabletMetadataPB)
    (data_dir : String) (s : WalkState) : Status × WalkState :=
  let r := collect_garbage_files env metadata data_dir
    { deleter := s.datafile_deleter, bundle_file_deleter := s.bundle_file_deleter,
      garbage_data_size := s.prepare_vacuum_file_size, world := s.world }
  (r.1, { s with
    datafile_deleter := r.2.deleter, bundle_file_deleter := r.2.bundle_file_deleter,
    prepare_vacuum_file_size := r.2.garbage_data_size, world := r.2.world })

/-- The call `collect_garbage_files(*metadata, data_dir, datafile_deleter,
    bundle_file_deleter, total_datafile_size)`. -/
def WalkState.collect_garbage_total (env : Env) (metadata : TabletMetadataPB)
    (data_dir : String) (s : WalkState) : Status × WalkState :=
  let r := collect_garbage_files env metadata data_dir
    { deleter := s.datafile_deleter, bundle_file_deleter := s.bundle_file_deleter,
      garbage_data_size := s.total_datafile_size, world := s.world }
  (r.1, { s with
    datafile_deleter := r.2.deleter, bundle_file_deleter := r.2.bundle_file_deleter,
    total_datafile_size := r.2.garbage_data_size, world := r.2.world })

/-- The loop state after `extra_file_size += collect_extra_files_size(...)`, an
    addition in `size_t`. -/
def WalkState.add_extra (s : WalkState) (metadata : TabletMetadataPB) (min_retain_version : Int) :
    WalkState :=
  { s with
    extra_file_size :=
      (s.extra_file_size + collect_extra_files_size metadata min_retain_version) % 2 ^ 64 }

/-- The local `compare_time` of the loop body. -/
def compare_time (metadata : TabletMetadataPB) : Int :=
  if metadata.has_commit_time ∧ metadata.commit_time > 0 then metadata.commit_time else 0

/-- The loop body of `collect_files_to_vacuum` from `extra_file_size += ...` up
    to, not including, `CHECK_LT`, for a snapshot that was loaded. -/
def walk_body (env : Env) (data_dir : String) (grace_timestamp min_retain_version : Int)
    (metadata : TabletMetadataPB) (s : WalkState) : Status × WalkState :=
  let s1 := s.add_extra metadata min_retain_version
  if s1.skip_check_grace_timestamp then
    s1.collect_garbage_prepare env metadata data_dir
  else if compare_time metadata < grace_timestamp then
    WalkState.collect_garbage_total env metadata data_dir
      { s1 with final_retain_version := s1.version, skip_check_grace_timestamp := true }
  else
    (Status.OK, { s1 with final_retain_version := s1.version })

/-- The loop state once the call of `get_tablet_metadata` for `s.version` is
    recorded. -/
def WalkState.load (s : WalkState) (tablet_id : Int) : WalkState :=
  { s with world := s.world ++ [Event.load tablet_id s.version] }

/-- The `while (version >= min_version)` loop of `collect_files_to_vacuum`. One
    unit of fuel is spent per iteration. -/
def walk (env : Env) (data_dir : String) (tablet_id min_version grace_timestamp
    min_retain_version : Int) : Nat → WalkState → LoopResult WalkState
  | 0, s => if s.version ≥ min_version then LoopResult.out_of_fuel s else LoopResult.done s
  | fuel + 1, s =>
    if s.version ≥ min_version then
      let s0 := s.load tablet_id
      match env.get_tablet_metadata tablet_id s.version with
      | StatusOr.error c m =>
        if (Status.error c m).is_not_found then LoopResult.done s0
        else LoopResult.returned (Status.error c m) s0
      | StatusOr.value metadata =>
        match (walk_body env data_dir grace_timestamp min_retain_version metadata s0).1 with
        | Status.error c m =>
          LoopResult.returned (Status.error c m)
            (walk_body env data_dir grace_timestamp min_retain_version metadata s0).2
        | Status.OK =>
          let s2 := (walk_body env data_dir grace_timestamp min_retain_version metadata s0).2
          if metadata.prev_garbage_version < s2.version then
            walk env data_dir tablet_id min_version grace_timestamp min_retain_version fuel
              { s2 with version := metadata.prev_garbage_version }
          else LoopResult.aborted s2
    else LoopResult.done s

/-- The arguments `collect_files_to_vacuum` receives by reference or pointer
    (`vacuum_version_range` may be null), and the world. -/
structure VacuumArgs where
  tablet_info : TabletInfoPB
  vacuum_version_range : Option VacuumTabletMetaVerionRange
  datafile_deleter : AsyncFileDeleter
  metafile_deleter : AsyncFileDeleter
  bundle_file_deleter : Option AsyncBundleFileDeleter
  total_datafile_size : Int
  vacuumed_version : Int
  extra_datafile_size : Int
  world : World

/-- The lower bound of the walk: `std::max(1L, tablet_info.min_version())`. -/
def walk_min_version (tablet_info : TabletInfoPB) : Int := Max.max 1 tablet_info.min_version

/-- The state in which `collect_files_to_vacuum` enters its loop. -/
def walk_init (a : VacuumArgs) (grace_timestamp min_retain_version : Int) : WalkState :=
  { version := min_retain_version
    final_retain_version := min_retain_version
    skip_check_grace_timestamp := decide (grace_timestamp ≤ 0)
    extra_file_size := 0
    prepare_vacuum_file_size := 0
    datafile_deleter := a.datafile_deleter
    bundle_file_deleter := a.bundle_file_deleter
    total_datafile_size := a.total_datafile_size
    world := a.world }

/-- The fuel that `collect_files_to_vacuum` gives its loop: the number of
    versions between the lower bound and `min_retain_version`. -/
def walk_fuel (tablet_info : TabletInfoPB) (min_retain_version : Int) : Nat :=
  (min_retain_version - walk_min_version tablet_info + 1).toNat

/-- The loop of `collect_files_to_vacuum` as run on the arguments `a`. -/
def collect_files_to_vacuum_walk (env : Env) (root_dir : String) (a : VacuumArgs)
    (grace_timestamp min_retain_version : Int) : LoopResult WalkState :=
  walk env (env.join_path root_dir env.kSegmentDirectoryName) a.tablet_info.tablet_id
    (walk_min_version a.tablet_info) grace_timestamp min_retain_version
    (walk_fuel a.tablet_info min_retain_version) (walk_init a grace_timestamp min_retain_version)

/-- The arguments as the loop left them. -/
def VacuumArgs.after_walk (a : VacuumArgs) (s : WalkState) : VacuumArgs :=
  { a with
    datafile_deleter := s.datafile_deleter
    bundle_file_deleter := s.bundle_file_deleter
    total_datafile_size := s.total_datafile_size
    world := s.world }

/-- The body of `for (auto v = version + 1; v < final_retain_version; v++)`. -/
def delete_metafile (env : Env) (meta_dir : String) (tablet_id : Int) (v : Int)
    (s : AsyncFileDeleter × World) : Status × (AsyncFileDeleter × World) :=
  AsyncFileDeleter.delete_file env
    (env.join_path meta_dir (env.tablet_metadata_filename tablet_id v)) s.1 s.2

/-- The part of `collect_files_to_vacuum` after the loop. The statement
    `*extra_datafile_size += extra_file_size` adds an `int64_t` and a `size_t`:
    the sum is taken in `size_t` and converted back. -/
def collect_files_to_vacuum_tail (env : Env) (meta_dir : String) (a : VacuumArgs)
    (s : WalkState) : Status × VacuumArgs :=
  if ¬ s.skip_check_grace_timestamp then
    (Status.OK, { a with vacuumed_version := s.final_retain_version - 1 })
  else
    let a1 := { a with vacuumed_version := s.final_retain_version }
    let finish_ok (a2 : VacuumArgs) : Status × VacuumArgs :=
      (Status.OK, { a2 with
        tablet_info := { a2.tablet_info with min_version := s.final_retain_version }
        total_datafile_size := a2.total_datafile_size + s.prepare_vacuum_file_size
        extra_datafile_size := to_int64 (a2.extra_datafile_size + s.extra_file_size) })
    match a1.vacuum_version_range with
    | none =>
      let r := for_each (delete_metafile env meta_dir a1.tablet_info.tablet_id)
        (version_range (s.version + 1) s.final_retain_version) (a1.metafile_deleter, a1.world)
      match r.1 with
      | Status.error c m =>
        (Status.error c m, { a1 with metafile_deleter := r.2.1, world := r.2.2 })
      | Status.OK => finish_ok { a1 with metafile_deleter := r.2.1, world := r.2.2 }
    | some range =>
      finish_ok { a1 with
        vacuum_version_range := some (range.merge (s.version + 1) s.final_retain_version) }

/-- Function `collect_files_to_vacuum`. -/
def collect_files_to_vacuum (env : Env) (root_dir : String) (a : VacuumArgs)
    (grace_timestamp min_retain_version : Int) : Outcome VacuumArgs :=
  match env.create_fs root_dir with
  | Status.error c m => Outcome.returned (Status.error c m) a
  | Status.OK =>
    match collect_files_to_vacuum_walk env root_dir a grace_timestamp min_retain_version with
    | LoopResult.returned st s => Outcome.returned st (a.after_walk s)
    | LoopResult.aborted s => Outcome.aborted (a.after_walk s)
    | LoopResult.out_of_fuel s => Outcome.out_of_fuel (a.after_walk s)
    | LoopResult.done s =>
      let r := collect_files_to_vacuum_tail env
        (env.join_path root_dir env.kMetadataDirectoryName) (a.after_walk s) s
      Outcome.returned r.1 r.2

/-! ## collect_alive_bundle_files -/

/-- The body of `for (const auto& rowset : metadata->rowsets())` in
    `collect_alive_bundle_files`. -/
def collect_alive_rowset (env : Env) (data_dir : String) (rowset : RowsetMetadataPB)
    (b : AsyncBundleFileDeleter) : Status × AsyncBundleFileDeleter :=
  if rowset.bundle_file_offsets.length > 0 then
    for_each (fun segment b => b.delay_delete (env.join_path data_dir segment)) rowset.segments b
  else (Status.OK, b)

/-- The body of `for (const auto& tablet_info : tablet_infos)` in
    `collect_alive_bundle_files`. -/
def collect_alive_tablet (env : Env) (data_dir : String) (version : Int)
    (tablet_info : TabletInfoPB) (s : AsyncBundleFileDeleter × World) :
    Status × (AsyncBundleFileDeleter × World) :=
  let w := s.2 ++ [Event.load tablet_info.tablet_id version]
  match env.get_tablet_metadata tablet_info.tablet_id version with
  | StatusOr.error c m => (Status.error c m, (s.1, w))
  | StatusOr.value metadata =>
    let r := for_each (collect_alive_rowset env data_dir) metadata.rowsets s.1
    (r.1, (r.2, w))

/-- Function `collect_alive_bundle_files`. -/
def collect_alive_bundle_files (env : Env) (tablet_infos : List TabletInfoPB) (version : Int)
    (root_dir : String) (deleter : AsyncBundleFileDeleter) (w : World) :
    Status × (AsyncBundleFileDeleter × World) :=
  for_each (collect_alive_tablet env (env.join_path root_dir env.kSegmentDirectoryName) version)
    tablet_infos (deleter, w)

/-! ## vacuum_tablet_metadata -/

/-- Function `erase_tablet_metadata_from_metacache`: one `erase` per path, in
    order. -/
def erase_tablet_metadata_from_metacache (metafiles : List String) : List Event :=
  metafiles.map Event.erase

def INT64_MAX : Int := 2 ^ 63 - 1

/-- The local variables of `vacuum_tablet_metadata` and what its pointer
    arguments point to. `tablet_infos` holds the elements of the vector that
    the loop has visited so far. -/
structure DriverState where
  tablet_infos : List TabletInfoPB := []
  vacuum_version_range : Option VacuumTabletMetaVerionRange
  bundle_file_deleter : AsyncBundleFileDeleter
  final_vacuum_version : Int := INT64_MAX
  max_vacuum_version : Int := 0
  vacuumed_files : Int
  vacuumed_file_size : Int
  vacuumed_version : Int
  extra_file_size : Int
  world : World

/-- The arguments of the call of `collect_files_to_vacuum` in the loop of
    `vacuum_tablet_metadata`, with the two deleters created for the tablet. -/
def DriverState.planner_args (env : Env) (s : DriverState) (tablet_info : TabletInfoPB) :
    VacuumArgs :=
  { tablet_info := tablet_info
    vacuum_version_range := s.vacuum_version_range
    datafile_deleter := { _batch_size := env.lake_vacuum_min_batch_delete_size }
    metafile_deleter :=
      { _batch_size := INT64_MAX, _cb := some erase_tablet_metadata_from_metacache }
    bundle_file_deleter := some s.bundle_file_deleter
    total_datafile_size := s.vacuumed_file_size
    vacuumed_version := 0
    extra_datafile_size := s.extra_file_size
    world := s.world }

/-- The driver's variables after the call of `collect_files_to_vacuum` came
    back with `a`; the tablet's element of the vector is `a.tablet_info`. -/
def DriverState.after_planner (s : DriverState) (a : VacuumArgs) : DriverState :=
  { s with
    tablet_infos := s.tablet_infos ++ [a.tablet_info]
    vacuum_version_range := a.vacuum_version_range
    bundle_file_deleter := a.bundle_file_deleter.getD s.bundle_file_deleter
    vacuumed_file_size := a.total_datafile_size
    extra_file_size := a.extra_datafile_size
    world := a.world }

/-- The loop body of `vacuum_tablet_metadata` after the call of
    `collect_files_to_vacuum` has returned OK with `a`. -/
def vacuum_tablet_finish (env : Env) (enable_file_bundling : Bool) (a : VacuumArgs)
    (s : DriverState) : Status × DriverState :=
  let r := a.datafile_deleter.finish env s.world
  match r.1 with
  | Status.error c m => (Status.error c m, { s with world := r.2.2 })
  | Status.OK =>
    let s1 := { s with
      vacuumed_files := s.vacuumed_files + r.2.1.delete_count, world := r.2.2 }
    let update (s2 : DriverState) : Status × DriverState :=
      (Status.OK, { s2 with
        final_vacuum_version := Min.min s2.final_vacuum_version a.vacuumed_version
        max_vacuum_version := Max.max s2.max_vacuum_version a.vacuumed_version })
    if ¬ enable_file_bundling then
      let r2 := a.metafile_deleter.finish env s1.world
      match r2.1 with
      | Status.error c m => (Status.error c m, { s1 with world := r2.2.2 })
      | Status.OK =>
        update { s1 with
          vacuumed_files := s1.vacuumed_files + r2.2.1.delete_count, world := r2.2.2 }
    else update s1

/-- The loop `for (auto& tablet_info : tablet_infos)` of `vacuum_tablet_metadata`
    over the elements not yet visited. When the loop is left early the elements
    that were not visited are appended unchanged. -/
def vacuum_tablets (env : Env) (root_dir : String) (min_retain_version grace_timestamp : Int)
    (enable_file_bundling : Bool) : List TabletInfoPB → DriverState → Outcome DriverState
  | [], s => Outcome.returned Status.OK s
  | tablet_info :: rest, s =>
    let unvisited (s1 : DriverState) : DriverState :=
      { s1 with tablet_infos := s1.tablet_infos ++ rest }
    match collect_files_to_vacuum env root_dir (s.planner_args env tablet_info)
        grace_timestamp min_retain_version with
    | Outcome.aborted a => Outcome.aborted (unvisited (s.after_planner a))
    | Outcome.out_of_fuel a => Outcome.out_of_fuel (unvisited (s.after_planner a))
    | Outcome.returned (Status.error c m) a =>
      Outcome.returned (Status.error c m) (unvisited (s.after_planner a))
    | Outcome.returned Status.OK a =>
      match (vacuum_tablet_finish env enable_file_bundling a (s.after_planner a)).1 with
      | Status.error c m =>
        Outcome.returned (Status.error c m)
          (unvisited (vacuum_tablet_finish env enable_file_bundling a (s.after_planner a)).2)
      | Status.OK =>
        vacuum_tablets env root_dir min_retain_version grace_timestamp enable_file_bundling rest
          (vacuum_tablet_finish env enable_file_bundling a (s.after_planner a)).2

/-- The block `// delete bundle files` of `vacuum_tablet_metadata`. -/
def vacuum_bundle_files (env : Env) (root_dir : String) (s : DriverState) :
    Status × DriverState :=
  if s.max_vacuum_version > 0 ∧ ¬ s.bundle_file_deleter.is_empty then
    let r := collect_alive_bundle_files env s.tablet_infos s.max_vacuum_version root_dir
      s.bundle_file_deleter s.world
    match r.1 with
    | Status.error c m =>
      (Status.error c m, { s with bundle_file_deleter := r.2.1, world := r.2.2 })
    | Status.OK =>
      let r2 := r.2.1.finish env r.2.2
      match r2.1 with
      | Status.error c m =>
        (Status.error c m, { s with bundle_file_deleter := r2.2.1, world := r2.2.2 })
      | Status.OK =>
        (Status.OK, { s with
          bundle_file_deleter := r2.2.1
          vacuumed_files := s.vacuumed_files + r2.2.1.delete_count
          world := r2.2.2 })
  else (Status.OK, s)

/-- The block `if (enable_file_bundling)` of `vacuum_tablet_metadata` up to and
    including `metafile_deleter.finish()`, on its local `metafile_deleter`. -/
def partition_metafile_deleter (env : Env) (meta_dir : String) (tablet_infos : List TabletInfoPB)
    (range : VacuumTabletMetaVerionRange) (w : World) : Status × (AsyncFileDeleter × World) :=
  let metafile_deleter : AsyncFileDeleter :=
    { _batch_size := INT64_MAX, _cb := some erase_tablet_metadata_from_metacache }
  RETURN_IF_ERROR
    (if range.min_version ≤ 1 then
      for_each (fun (tablet_info : TabletInfoPB) => delete_metafile env meta_dir tablet_info.tablet_id 1)
        tablet_infos (metafile_deleter, w)
    else (Status.OK, (metafile_deleter, w))) fun s1 =>
  RETURN_IF_ERROR
    (for_each (delete_metafile env meta_dir 0)
      (version_range range.min_version range.max_version) s1) fun s2 =>
  AsyncFileDeleter.finish env s2.1 s2.2

/-- The block `if (enable_file_bundling)` of `vacuum_tablet_metadata`; the
    range pointer is non-null there. -/
def vacuum_partition_metafiles (env : Env) (root_dir : String) (enable_file_bundling : Bool)
    (s : DriverState) : Status × DriverState :=
  if enable_file_bundling then
    let r := partition_metafile_deleter env (env.join_path root_dir env.kMetadataDirectoryName)
      s.tablet_infos (s.vacuum_version_range.getD {}) s.world
    match r.1 with
    | Status.error c m => (Status.error c m, { s with world := r.2.2 })
    | Status.OK =>
      (Status.OK, { s with
        vacuumed_files := s.vacuumed_files + r.2.1.delete_count, world := r.2.2 })
  else (Status.OK, s)

/-- The state in which `vacuum_tablet_metadata` enters its loop. -/
def driver_init (env : Env) (enable_file_bundling : Bool)
    (vacuumed_files vacuumed_file_size vacuumed_version extra_file_size : Int) (w : World) :
    DriverState :=
  { tablet_infos := []
    vacuum_version_range := if enable_file_bundling then some {} else none
    bundle_file_deleter := { _batch_size := env.lake_vacuum_min_batch_delete_size }
    final_vacuum_version := INT64_MAX
    max_vacuum_version := 0
    vacuumed_files := vacuumed_files
    vacuumed_file_size := vacuumed_file_size
    vacuumed_version := vacuumed_version
    extra_file_size := extra_file_size
    world := w }

/-- Function `vacuum_tablet_metadata`. The result holds the vector
    `tablet_infos` and the values of `*vacuumed_files`, `*vacuumed_file_size`,
    `*vacuumed_version` and `*extra_file_size`. -/
def vacuum_tablet_metadata (env : Env) (root_dir : String) (tablet_infos : List TabletInfoPB)
    (min_retain_version grace_timestamp : Int) (enable_file_bundling : Bool)
    (vacuumed_files vacuumed_file_size vacuumed_version extra_file_size : Int) (w : World) :
    Outcome DriverState :=
  match vacuum_tablets env root_dir min_retain_version grace_timestamp enable_file_bundling
      tablet_infos
      (driver_init env enable_file_bundling vacuumed_files vacuumed_file_size vacuumed_version
        extra_file_size w) with
  | Outcome.aborted s => Outcome.aborted s
  | Outcome.out_of_fuel s => Outcome.out_of_fuel s
  | Outcome.returned (Status.error c m) s => Outcome.returned (Status.error c m) s
  | Outcome.returned Status.OK s =>
    match (vacuum_bundle_files env root_dir s).1 with
    | Status.error c m => Outcome.returned (Status.error c m) (vacuum_bundle_files env root_dir s).2
    | Status.OK =>
      let s1 := (vacuum_bundle_files env root_dir s).2
      match (vacuum_partition_metafiles env root_dir enable_file_bundling s1).1 with
      | Status.error c m =>
        Outcome.returned (Status.error c m)
          (vacuum_partition_metafiles env root_dir enable_file_bundling s1).2
      | Status.OK =>
        let s2 := (vacuum_partition_metafiles env root_dir enable_file_bundling s1).2
        Outcome.returned Status.OK { s2 with vacuumed_version := s2.final_vacuum_version }

/-! ## vacuum_txn_log -/

/-- Function `ignore_not_found`. -/
def ignore_not_found (st : Status) : Status :=
  if st.is_not_found then Status.OK else st

/-- What the callback of `vacuum_txn_log` reads and writes. -/
structure TxnLogState where
  deleter : AsyncFileDeleter
  ret : Status := Status.OK
  vacuumed_files : Int
  vacuumed_file_size : Int
  world : World

/-- The test at the head of the callback of `vacuum_txn_log`: whether the entry
    is left alone (`return true` before anything is counted). -/
def txn_log_skipped (env : Env) (min_active_txn_id : Int) (name : String) : Bool :=
  if env.is_txn_log name then
    decide ((env.parse_txn_log_filename name).2 ≥ min_active_txn_id)
  else if env.is_txn_slog name then
    decide ((env.parse_txn_slog_filename name).2 ≥ min_active_txn_id)
  else if env.is_combined_txn_log name then
    decide (env.parse_combined_txn_log_filename name ≥ min_active_txn_id)
  else true

/-- The callback of `vacuum_txn_log`; the Boolean is its return value. -/
def vacuum_txn_log_visit (env : Env) (log_dir : String) (min_active_txn_id : Int)
    (entry : DirEntry) (s : TxnLogState) : Bool × TxnLogState :=
  if txn_log_skipped env min_active_txn_id entry.name then (true, s)
  else
    let r := s.deleter.delete_file env (env.join_path log_dir entry.name) s.world
    (r.1.ok,
      { s with
        deleter := r.2.1
        ret := if r.1.ok then s.ret else s.ret.update r.1
        vacuumed_files := s.vacuumed_files + 1
        vacuumed_file_size := s.vacuumed_file_size + entry.size.getD 0
        world := r.2.2 })

/-- A directory listing calling `visit` on the entries until it answers
    `false`; the Boolean tells whether the listing was stopped. -/
def visit_entries {σ : Type} (visit : DirEntry → σ → Bool × σ) : List DirEntry → σ → Bool × σ
  | [], s => (false, s)
  | entry :: rest, s =>
    if (visit entry s).1 then visit_entries visit rest (visit entry s).2
    else (true, (visit entry s).2)

/-- Method `FileSystem::iterate_dir2`: a listing stopped by the callback
    returns OK. -/
def iterate_dir2 {σ : Type} (env : Env) (dir : String) (visit : DirEntry → σ → Bool × σ)
    (s : σ) : Status × σ :=
  let r := visit_entries visit (env.iterate_dir2 dir).1 s
  (if r.1 then Status.OK else (env.iterate_dir2 dir).2, r.2)

/-- Function `vacuum_txn_log`; the result holds `*vacuumed_files` and
    `*vacuumed_file_size`. -/
def vacuum_txn_log (env : Env) (root_location : String) (min_active_txn_id : Int)
    (vacuumed_files vacuumed_file_size : Int) (w : World) : Status × TxnLogState :=
  let s0 : TxnLogState :=
    { deleter := { _batch_size := env.lake_vacuum_min_batch_delete_size }
      ret := Status.OK
      vacuumed_files := vacuumed_files
      vacuumed_file_size := vacuumed_file_size
      world := w }
  match env.create_fs root_location with
  | Status.error c m => (Status.error c m, s0)
  | Status.OK =>
    let log_dir := env.join_path root_location env.kTxnLogDirectoryName
    let it := iterate_dir2 env log_dir (vacuum_txn_log_visit env log_dir min_active_txn_id) s0
    let s1 := { it.2 with ret := it.2.ret.update (ignore_not_found it.1) }
    let fin := s1.deleter.finish env s1.world
    let s2 := { s1 with deleter := fin.2.1, ret := s1.ret.update fin.1, world := fin.2.2 }
    (s2.ret, s2)

/-! ## vacuum_impl -/

/-- Message `VacuumRequest`. -/
structure VacuumRequest where
  tablet_ids : List Int := []
  tablet_infos : List TabletInfoPB := []
  min_retain_version : Int := 0
  grace_timestamp : Int := 0
  min_active_txn_id : Int := 0
  delete_txn_log : Bool := false
  enable_file_bundling : Bool := false
  deriving DecidableEq, Repr

/-- Message `VacuumResponse`, without its status field. -/
structure VacuumResponse where
  vacuumed_files : Int := 0
  vacuumed_file_size : Int := 0
  vacuumed_version : Int := 0
  extra_file_size : Int := 0
  tablet_infos : List TabletInfoPB := []
  deriving DecidableEq, Repr

/-- The vector `tablet_infos` that `vacuum_impl` builds from the request,
    before sorting. -/
def request_tablet_infos (request : VacuumRequest) : List TabletInfoPB :=
  if request.tablet_infos.length > 0 then request.tablet_infos
  else request.tablet_ids.map fun tablet_id => { tablet_id := tablet_id, min_version := 0 }

/-- The call `std::sort(tablet_infos.begin(), tablet_infos.end(), by tablet_id)`;
    elements with equal `tablet_id` keep their order. -/
def sort_tablet_infos (tablet_infos : List TabletInfoPB) : List TabletInfoPB :=
  tablet_infos.insertionSort fun a b => a.tablet_id ≤ b.tablet_id

/-- Function `vacuum_impl`. `tablet_mgr_is_null` tells whether the pointer
    `tablet_mgr` is null; `response` is the message as passed in. -/
def vacuum_impl (env : Env) (tablet_mgr_is_null : Bool) (request : VacuumRequest)
    (response : VacuumResponse) (w : World) : Outcome (VacuumResponse × World) :=
  if tablet_mgr_is_null then
    Outcome.returned (Status.error ErrorCode.InvalidArgument "tablet_mgr is null") (response, w)
  else if request.tablet_ids.length = 0 ∧ request.tablet_infos.length = 0 then
    Outcome.returned
      (Status.error ErrorCode.InvalidArgument "both tablet_ids and tablet_infos are empty")
      (response, w)
  else if request.min_retain_version ≤ 0 then
    Outcome.returned
      (Status.error ErrorCode.InvalidArgument "value of min_retain_version is zero or negative")
      (response, w)
  else if request.grace_timestamp ≤ 0 then
    Outcome.returned
      (Status.error ErrorCode.InvalidArgument "value of grace_timestamp is zero or nagative")
      (response, w)
  else
    let tablet_infos := request_tablet_infos request
    let root_loc := env.tablet_root_location ((tablet_infos.headD {}).tablet_id)
    match vacuum_tablet_metadata env root_loc (sort_tablet_infos tablet_infos)
        request.min_retain_version request.grace_timestamp request.enable_file_bundling
        0 0 0 0 w with
    | Outcome.aborted s => Outcome.aborted (response, s.world)
    | Outcome.out_of_fuel s => Outcome.out_of_fuel (response, s.world)
    | Outcome.returned (Status.error c m) s =>
      Outcome.returned (Status.error c m) (response, s.world)
    | Outcome.returned Status.OK s =>
      let extra_file_size := s.extra_file_size - s.vacuumed_file_size
      let respond (vacuumed_files vacuumed_file_size : Int) (w1 : World) :
          Outcome (VacuumResponse × World) :=
        Outcome.returned Status.OK
          ({ vacuumed_files := vacuumed_files
             vacuumed_file_size := vacuumed_file_size
             vacuumed_version := s.vacuumed_version
             extra_file_size := extra_file_size
             tablet_infos := response.tablet_infos ++ s.tablet_infos }, w1)
      if request.delete_txn_log then
        let r := vacuum_txn_log env root_loc request.min_active_txn_id s.vacuumed_files
          s.vacuumed_file_size s.world
        match r.1 with
        | Status.error c m => Outcome.returned (Status.error c m) (response, r.2.world)
        | Status.OK => respond r.2.vacuumed_files r.2.vacuumed_file_size r.2.world
      else respond s.vacuumed_files s.vacuumed_file_size s.world

/-! ## Notions used to state the properties -/

/-- `Emits I act obs g f`: on states satisfying `I`, running `f` keeps `I` and
    extends the observation `obs` of the state, through the action `act`, by a
    prefix of the list `g`, and by all of `g` when `f` returns OK. -/
def Emits {σ γ β : Type} (I : σ → Prop) (act : γ → List β → γ) (obs : σ → γ) (g : List β)
    (f : σ → Status × σ) : Prop :=
  ∀ s, I s → I (f s).2 ∧
    ∃ l, l <+: g ∧ obs (f s).2 = act (obs s) l ∧ ((f s).1 = Status.OK → l = g)

/-- The action of a list of recorded paths on `_pending_files`. -/
def pending_add (pending : List (String × Nat)) (paths : List String) : List (String × Nat) :=
  paths.foldl (fun m p => pending_increment p m) pending

/-- The delete count of a deleter agrees with the batches it has passed on. -/
def AsyncFileDeleter.counted (d : AsyncFileDeleter) : Prop :=
  d._delete_count = (d.submitted.flatten.length : Int)

/-- The paths `collect_garbage_files` passes to the plain deleter for one
    rowset of `compaction_inputs`, in order; `has_bundle` tells whether the
    bundle deleter pointer is non-null. -/
def rowset_plain_paths (env : Env) (base_dir : String) (has_bundle : Bool)
    (rowset : RowsetMetadataPB) : List String :=
  (if has_bundle = true ∧ rowset.bundle_file_offsets.length > 0 then []
    else rowset.segments.map (env.join_path base_dir))
  ++ rowset.del_files.map (env.join_path base_dir)

/-- The paths `collect_garbage_files` passes to the bundle deleter for one
    rowset of `compaction_inputs`, in order. -/
def rowset_bundle_paths (env : Env) (base_dir : String) (has_bundle : Bool)
    (rowset : RowsetMetadataPB) : List String :=
  if has_bundle = true ∧ rowset.bundle_file_offsets.length > 0 then
    rowset.segments.map (env.join_path base_dir)
  else []

/-- The paths of the garbage a snapshot records that go to the plain deleter:
    per rowset of `compaction_inputs` its segments (unless they go to the bundle
    deleter) and del files, then the `orphan_files`. -/
def plain_garbage_paths (env : Env) (base_dir : String) (has_bundle : Bool)
    (metadata : TabletMetadataPB) : List String :=
  metadata.compaction_inputs.flatMap (rowset_plain_paths env base_dir has_bundle)
  ++ metadata.orphan_files.map fun file => env.join_path base_dir file.name

/-- The paths of the garbage a snapshot records that go to the bundle deleter. -/
def bundle_garbage_paths (env : Env) (base_dir : String) (has_bundle : Bool)
    (metadata : TabletMetadataPB) : List String :=
  metadata.compaction_inputs.flatMap (rowset_bundle_paths env base_dir has_bundle)

/-- A path under `base_dir` of a garbage file the snapshot records: a segment
    or a del file of a rowset of `compaction_inputs`, or an entry of
    `orphan_files`. -/
def is_garbage_path (env : Env) (base_dir : String) (metadata : TabletMetadataPB)
    (path : String) : Prop :=
  (∃ rowset ∈ metadata.compaction_inputs,
      (∃ segment ∈ rowset.segments, path = env.join_path base_dir segment) ∨
      (∃ del_file ∈ rowset.del_files, path = env.join_path base_dir del_file)) ∨
  (∃ file ∈ metadata.orphan_files, path = env.join_path base_dir file.name)

/-- The `_pending_files` of a bundle deleter pointer (none for a null pointer). -/
def pending_of (b : Option AsyncBundleFileDeleter) : List (String × Nat) :=
  match b with
  | some b => b._pending_files
  | none => []

/-- What `collect_garbage_files` leaves alone, relative to the state `s0` it
    started in: the batch size and callback of the plain deleter, whether there
    is a bundle deleter, and everything of the bundle deleter but
    `_pending_files`; the plain deleter's count stays in step and events are
    only added. -/
def GarbageFrame (s0 s : GarbageState) : Prop :=
  s.deleter._batch_size = s0.deleter._batch_size ∧
  s.deleter._cb = s0.deleter._cb ∧
  (s0.deleter.counted → s.deleter.counted) ∧
  s.bundle_file_deleter.isSome = s0.bundle_file_deleter.isSome ∧
  s.bundle_file_deleter.map (fun b => b.toAsyncFileDeleter.handed)
    = s0.bundle_file_deleter.map (fun b => b.toAsyncFileDeleter.handed) ∧
  s.bundle_file_deleter.map (fun b => b._delay_delete_files)
    = s0.bundle_file_deleter.map (fun b => b._delay_delete_files) ∧
  s0.world <+: s.world

/-- Provenance of a path handed to a deleter: it is the path of a garbage file
    recorded in a snapshot of the tablet that is loaded in `events` at a version
    not above `F`. -/
def FromWalked (env : Env) (data_dir : String) (tablet_id : Int) (events : World) (F : Int)
    (path : String) : Prop :=
  ∃ v metadata, Event.load tablet_id v ∈ events ∧
    env.get_tablet_metadata tablet_id v = StatusOr.value metadata ∧ v ≤ F ∧
    is_garbage_path env data_dir metadata path

/-- What a call of `collect_garbage_files` on the snapshot `metadata` inside the
    loop does, from loop state `s` to `s'` with returned status `st`: the loop
    variables other than the two size counters stay, the deleters are changed
    only by receiving garbage paths of `metadata`, events are only added. -/
structure GarbageStep (env : Env) (data_dir : String) (metadata : TabletMetadataPB)
    (s s' : WalkState) (st : Status) : Prop where
  version : s'.version = s.version
  final_retain_version : s'.final_retain_version = s.final_retain_version
  skip : s'.skip_check_grace_timestamp = s.skip_check_grace_timestamp
  extra : s'.extra_file_size = s.extra_file_size
  batch_size : s'.datafile_deleter._batch_size = s.datafile_deleter._batch_size
  cb : s'.datafile_deleter._cb = s.datafile_deleter._cb
  counted : s.datafile_deleter.counted → s'.datafile_deleter.counted
  bundle_some : s'.bundle_file_deleter.isSome = s.bundle_file_deleter.isSome
  bundle_handed : s'.bundle_file_deleter.map (fun b => b.toAsyncFileDeleter.handed)
    = s.bundle_file_deleter.map (fun b => b.toAsyncFileDeleter.handed)
  bundle_delay : s'.bundle_file_deleter.map (fun b => b._delay_delete_files)
    = s.bundle_file_deleter.map (fun b => b._delay_delete_files)
  world : s.world <+: s'.world
  plain : ∃ l, l <+: plain_garbage_paths env data_dir s.bundle_file_deleter.isSome metadata ∧
    s'.datafile_deleter.handed = s.datafile_deleter.handed ++ l ∧
    (st = Status.OK →
      l = plain_garbage_paths env data_dir s.bundle_file_deleter.isSome metadata)
  bundle : ∃ l, l <+: bundle_garbage_paths env data_dir s.bundle_file_deleter.isSome metadata ∧
    pending_of s'.bundle_file_deleter = pending_add (pending_of s.bundle_file_deleter) l ∧
    (st = Status.OK →
      l = bundle_garbage_paths env data_dir s.bundle_file_deleter.isSome metadata)

/-- What holds of the loop state `s` at every point of the loop started in
    state `init` with lower bound `min_version`, as far as single variables go. -/
structure WalkFrame (min_version : Int) (init s : WalkState) : Prop where
  version_le : s.version ≤ s.final_retain_version
  final_le : s.final_retain_version ≤ init.final_retain_version
  batch_size : s.datafile_deleter._batch_size = init.datafile_deleter._batch_size
  cb : s.datafile_deleter._cb = init.datafile_deleter._cb
  counted : init.datafile_deleter.counted → s.datafile_deleter.counted
  bundle_some : s.bundle_file_deleter.isSome = init.bundle_file_deleter.isSome
  bundle_handed : s.bundle_file_deleter.map (fun b => b.toAsyncFileDeleter.handed)
    = init.bundle_file_deleter.map (fun b => b.toAsyncFileDeleter.handed)
  bundle_delay : s.bundle_file_deleter.map (fun b => b._delay_delete_files)
    = init.bundle_file_deleter.map (fun b => b._delay_delete_files)
  skip_mono : init.skip_check_grace_timestamp = true →
    s.skip_check_grace_timestamp = true ∧ s.final_retain_version = init.final_retain_version
  flipped : init.skip_check_grace_timestamp = false → s.skip_check_grace_timestamp = true →
    min_version ≤ s.final_retain_version
  quiet : s.skip_check_grace_timestamp = false →
    s.datafile_deleter = init.datafile_deleter ∧
    s.bundle_file_deleter = init.bundle_file_deleter ∧
    s.total_datafile_size = init.total_datafile_size ∧
    s.prepare_vacuum_file_size = init.prepare_vacuum_file_size

/-- The events `events`, the paths `plain` handed to the data-file deleter and
    the paths `bundle` handed to the bundle deleter since the loop started in
    `init`, for the loop state `s`. -/
structure WalkTrace (env : Env) (data_dir : String) (tablet_id : Int) (init s : WalkState)
    (events : World) (plain bundle : List String) : Prop where
  world : s.world = init.world ++ events
  handed : s.datafile_deleter.handed = init.datafile_deleter.handed ++ plain
  pending : pending_of s.bundle_file_deleter
    = pending_add (pending_of init.bundle_file_deleter) bundle
  quiet : s.skip_check_grace_timestamp = false → plain = [] ∧ bundle = []
  plain_from : ∀ p ∈ plain,
    FromWalked env data_dir tablet_id events s.final_retain_version p
  bundle_from : ∀ p ∈ bundle,
    FromWalked env data_dir tablet_id events s.final_retain_version p

/-- `FirstPreGrace env tablet_id min_version grace_timestamp v r`: following
    `prev_garbage_version` from version `v`, while versions are at least
    `min_version` and snapshots are found, `r` is the version of the first
    snapshot whose `compare_time` is below `grace_timestamp`. -/
inductive FirstPreGrace (env : Env) (tablet_id min_version grace_timestamp : Int) :
    Int → Int → Prop where
  | found {v : Int} {metadata : TabletMetadataPB} :
    min_version ≤ v →
    env.get_tablet_metadata tablet_id v = StatusOr.value metadata →
    compare_time metadata < grace_timestamp →
    FirstPreGrace env tablet_id min_version grace_timestamp v v
  | older {v r : Int} {metadata : TabletMetadataPB} :
    min_version ≤ v →
    env.get_tablet_metadata tablet_id v = StatusOr.value metadata →
    ¬ compare_time metadata < grace_timestamp →
    FirstPreGrace env tablet_id min_version grace_timestamp metadata.prev_garbage_version r →
    FirstPreGrace env tablet_id min_version grace_timestamp v r

/-! ## Example stores -/

/-- A set of collaborators in which every deletion task and every file-system
    call succeeds, over the metadata store `store`; paths are joined with a
    slash and a metadata file is named by tablet id and version. -/
def example_env (store : Int → Int → StatusOr TabletMetadataPB) : Env :=
  { get_tablet_metadata := store
    task_status := fun _ _ => Status.OK
    create_fs := fun _ => Status.OK
    join_path := fun a b => a ++ "/" ++ b
    tablet_metadata_filename := fun t v => toString t ++ "_" ++ toString v ++ ".meta"
    kMetadataDirectoryName := "meta"
    kSegmentDirectoryName := "data"
    kTxnLogDirectoryName := "log"
    lake_vacuum_min_batch_delete_size := 100
    tablet_root_location := fun _ => "root"
    iterate_dir2 := fun _ => ([], Status.OK)
    is_txn_log := fun _ => false
    is_txn_slog := fun _ => false
    is_combined_txn_log := fun _ => false
    parse_txn_log_filename := fun _ => (0, 0)
    parse_txn_slog_filename := fun _ => (0, 0)
    parse_combined_txn_log_filename := fun _ => 0 }

/-- The arguments of a call of `collect_files_to_vacuum` for `tablet_info` with
    fresh deleters and counters at zero, as `vacuum_tablet_metadata` makes it
    when file bundling is off. -/
def example_args (tablet_info : TabletInfoPB) : VacuumArgs :=
  { tablet_info := tablet_info
    vacuum_version_range := none
    datafile_deleter := { _batch_size := 100 }
    metafile_deleter :=
      { _batch_size := INT64_MAX, _cb := some erase_tablet_metadata_from_metacache }
    bundle_file_deleter := some { _batch_size := 100 }
    total_datafile_size := 0
    vacuumed_version := 0
    extra_datafile_size := 0
    world := [] }

/-- Tablet 1 with the chain 10 -> 5, committed at 200 and 100; snapshot 5
    records one compaction input. -/
def store_10_5 (tablet_id version : Int) : StatusOr TabletMetadataPB :=
  if tablet_id = 1 ∧ version = 10 then
    StatusOr.value
      { id := 1, version := 10, commit_time_field := some 200,
        prev_garbage_version_field := some 5 }
  else if tablet_id = 1 ∧ version = 5 then
    StatusOr.value
      { id := 1, version := 5, commit_time_field := some 100,
        prev_garbage_version_field := some 0,
        compaction_inputs := [{ segments := ["a.dat"], data_size := 7 }] }
  else StatusOr.error ErrorCode.NotFound "not found"

/-- The metadata file paths of the versions `lo ≤ v < hi` of a tablet, in
    ascending order of version. -/
def metafile_paths (env : Env) (meta_dir : String) (tablet_id lo hi : Int) : List String :=
  (version_range lo hi).map fun v =>
    env.join_path meta_dir (env.tablet_metadata_filename tablet_id v)

/-- Tablet 1 with the chain 20 -> 15 -> 10 -> 5, committed at 250, 200, 150
    and 100; snapshots 15, 10 and 5 each record one compaction input and one
    orphan file. -/
def store_20_15_10_5 (tablet_id version : Int) : StatusOr TabletMetadataPB :=
  if tablet_id = 1 ∧ version = 20 then
    StatusOr.value
      { id := 1, version := 20, commit_time_field := some 250,
        prev_garbage_version_field := some 15 }
  else if tablet_id = 1 ∧ version = 15 then
    StatusOr.value
      { id := 1, version := 15, commit_time_field := some 200,
        prev_garbage_version_field := some 10,
        compaction_inputs := [{ segments := ["c15.dat"], data_size := 1 }],
        orphan_files := [{ name := "o15.dat", size := 1 }] }
  else if tablet_id = 1 ∧ version = 10 then
    StatusOr.value
      { id := 1, version := 10, commit_time_field := some 150,
        prev_garbage_version_field := some 5,
        compaction_inputs := [{ segments := ["c10.dat"], data_size := 1 }],
        orphan_files := [{ name := "o10.dat", size := 1 }] }
  else if tablet_id = 1 ∧ version = 5 then
    StatusOr.value
      { id := 1, version := 5, commit_time_field := some 100,
        prev_garbage_version_field := some 0,
        compaction_inputs := [{ segments := ["c5.dat"], data_size := 1 }],
        orphan_files := [{ name := "o5.dat", size := 1 }] }
  else StatusOr.error ErrorCode.NotFound "not found"

/-- The snapshot with its live state removed: no `rowsets`, no `delvec_meta`,
    no `sstable_meta`. -/
def TabletMetadataPB.without_live (metadata : TabletMetadataPB) : TabletMetadataPB :=
  { metadata with rowsets := [], delvec_meta := none, sstable_meta := [] }

/-- The collaborators with the live state removed from every snapshot of the
    metadata store. -/
def Env.without_live (env : Env) : Env :=
  { env with
    get_tablet_metadata := fun tablet_id version =>
      match env.get_tablet_metadata tablet_id version with
      | StatusOr.value metadata => StatusOr.value metadata.without_live
      | StatusOr.error c m => StatusOr.error c m }

/-- Whether the loop was left through its condition or through `break`. -/
def LoopResult.is_done {σ : Type} : LoopResult σ → Bool
  | LoopResult.done _ => true
  | _ => false

/-- `WalkEndsRecent env tablet_id min_version grace_timestamp v cur r`: the walk
    that is at version `v` with `final_retain_version = cur` ends, at a version
    below `min_version` or at a version that is not found, after loading only
    snapshots whose `compare_time` is not below `grace_timestamp` and whose
    `prev_garbage_version` is below their version; `r` is the lowest version
    loaded, or `cur` when none is. -/
inductive WalkEndsRecent (env : Env) (tablet_id min_version grace_timestamp : Int) :
    Int → Int → Int → Prop where
  | stop_below {v cur : Int} :
    v < min_version →
    WalkEndsRecent env tablet_id min_version grace_timestamp v cur cur
  | stop_not_found {v cur : Int} {c : ErrorCode} {m : String} :
    min_version ≤ v →
    env.get_tablet_metadata tablet_id v = StatusOr.error c m →
    (Status.error c m).is_not_found = true →
    WalkEndsRecent env tablet_id min_version grace_timestamp v cur cur
  | step_recent {v cur r : Int} {metadata : TabletMetadataPB} :
    min_version ≤ v →
    env.get_tablet_metadata tablet_id v = StatusOr.value metadata →
    ¬ compare_time metadata < grace_timestamp →
    metadata.prev_garbage_version < v →
    WalkEndsRecent env tablet_id min_version grace_timestamp metadata.prev_garbage_version v r →
    WalkEndsRecent env tablet_id min_version grace_timestamp v cur r

/-- A metadata store in which every load fails with an I/O error. -/
def store_io_error (_tablet_id _version : Int) : StatusOr TabletMetadataPB :=
  StatusOr.error ErrorCode.IOError "io error"

/-- Tablet 1 with the single snapshot 10, committed at 200. -/
def store_10 (tablet_id version : Int) : StatusOr TabletMetadataPB :=
  if tablet_id = 1 ∧ version = 10 then
    StatusOr.value
      { id := 1, version := 10, commit_time_field := some 200,
        prev_garbage_version_field := some 9,
        compaction_inputs := [{ segments := ["a.dat"], data_size := 7 }] }
  else StatusOr.error ErrorCode.NotFound "not found"

/-- A call made on an `AsyncBundleFileDeleter` before `finish`. -/
inductive BundleOp where
  | delete_file (path : String)
  | delay_delete (path : String)
  deriving DecidableEq, Repr

/-- The deleter after one call. -/
def BundleOp.apply (b : AsyncBundleFileDeleter) : BundleOp → AsyncBundleFileDeleter
  | BundleOp.delete_file path => (b.delete_file path).2
  | BundleOp.delay_delete path => (b.delay_delete path).2

/-- The paths given to `delete_file` in a sequence of calls. -/
def deleted_paths : List BundleOp → List String
  | [] => []
  | BundleOp.delete_file path :: ops => path :: deleted_paths ops
  | BundleOp.delay_delete _ :: ops => deleted_paths ops

/-- The paths given to `delay_delete` in a sequence of calls. -/
def delayed_paths : List BundleOp → List String
  | [] => []
  | BundleOp.delete_file _ :: ops => delayed_paths ops
  | BundleOp.delay_delete path :: ops => path :: delayed_paths ops

/-- A newly constructed `AsyncBundleFileDeleter(batch_size)` after the calls
    `ops`, made in list order. -/
def bundle_after (batch_size : Int) (ops : List BundleOp) : AsyncBundleFileDeleter :=
  ops.foldl BundleOp.apply { _batch_size := batch_size }

/-- The keys of `_pending_files`. -/
def pending_keys (pending : List (String × Nat)) : List String := pending.map Prod.fst

/-- The keys of `_pending_files` that are not in `_delay_delete_files`, in the
    order of `_pending_files`. -/
def deletable_paths (b : AsyncBundleFileDeleter) : List String :=
  (pending_keys b._pending_files).filter fun p => decide (p ∉ b._delay_delete_files)

/-- `OnChain env tablet_id v p metadata`: the snapshot `metadata` of version
    `p` is on the chain of snapshots reached from version `v` along
    `prev_garbage_version`. -/
inductive OnChain (env : Env) (tablet_id : Int) : Int → Int → TabletMetadataPB → Prop where
  | head {v : Int} {metadata : TabletMetadataPB} :
    env.get_tablet_metadata tablet_id v = StatusOr.value metadata →
    OnChain env tablet_id v v metadata
  | next {v p : Int} {first metadata : TabletMetadataPB} :
    env.get_tablet_metadata tablet_id v = StatusOr.value first →
    OnChain env tablet_id first.prev_garbage_version p metadata →
    OnChain env tablet_id v p metadata

/-- The tablet info `resp` echoes the request row `req`: same tablet, and a
    `min_version` that is not lower. -/
def Echoes (req resp : TabletInfoPB) : Prop :=
  resp.tablet_id = req.tablet_id ∧ req.min_version ≤ resp.min_version

/-- The path `path` is that of a segment of a rowset with bundle file offsets
    in the live `rowsets` of `metadata`, under `data_dir`. -/
def is_alive_bundle_path (env : Env) (data_dir : String) (metadata : TabletMetadataPB)
    (path : String) : Prop :=
  ∃ rowset ∈ metadata.rowsets, rowset.bundle_file_offsets.length > 0 ∧
    ∃ segment ∈ rowset.segments, path = env.join_path data_dir segment

/-- A snapshot of version 10, committed at 100, in which the file `B` is both a
    segment of a live rowset with bundle file offsets and a segment of a
    compaction input without bundle file offsets. -/
def clash_snapshot : TabletMetadataPB :=
  { id := 1, version := 10, commit_time_field := some 100,
    prev_garbage_version_field := some 0,
    rowsets := [{ segments := ["B"], bundle_file_offsets := [0] }],
    compaction_inputs := [{ segments := ["B"], data_size := 1 }] }

/-- Tablet 1 with the single snapshot `clash_snapshot`. -/
def store_clash (tablet_id version : Int) : StatusOr TabletMetadataPB :=
  if tablet_id = 1 ∧ version = 10 then StatusOr.value clash_snapshot
  else StatusOr.error ErrorCode.NotFound "not found"

/-- Two tablets with one snapshot each, of version 10 and committed at 100:
    tablet 1 records the bundle files `B` and `C` as compaction inputs, tablet 2
    still has `B` in a live rowset. -/
def store_shared_bundle (tablet_id version : Int) : StatusOr TabletMetadataPB :=
  if tablet_id = 1 ∧ version = 10 then
    StatusOr.value
      { id := 1, version := 10, commit_time_field := some 100,
        prev_garbage_version_field := some 0,
        compaction_inputs :=
          [{ segments := ["B", "C"], bundle_file_offsets := [0, 1], data_size := 2 }] }
  else if tablet_id = 2 ∧ version = 10 then
    StatusOr.value
      { id := 2, version := 10, commit_time_field := some 100,
        prev_garbage_version_field := some 0,
        rowsets := [{ segments := ["B"], bundle_file_offsets := [0] }] }
  else StatusOr.error ErrorCode.NotFound "not found"

/-- The collaborators in a later state of the storage: snapshots are served
    by `store` and deletion tasks end as `task_status` says; everything else
    is as in `env`. -/
def Env.later (env : Env) (store : Int → Int → StatusOr TabletMetadataPB)
    (task_status : World → List String → Status) : Env :=
  { env with get_tablet_metadata := store, task_status := task_status }


/-! ## Notions used to state the properties of the deleters -/

/-- The events that passing one batch on causes: those of the callback, when
    there is one, and then the deletion task (an empty batch is not handed to
    the pool). -/
def dispatch_events (cb : Option (List String → List Event)) (batch : List String) :
    List Event :=
  (match cb with
    | some f => f batch
    | none => []) ++
  (if batch.isEmpty then [] else [Event.task batch])

/-- The calls `delete_file(path)` for the paths of `paths`, in order, whatever
    they return. -/
def AsyncFileDeleter.delete_each (env : Env) (paths : List String)
    (s : AsyncFileDeleter × World) : AsyncFileDeleter × World :=
  paths.foldl (fun s path => (s.1.delete_file env path s.2).2) s

/-- A deleter of batch size `b` and callback `cb`, started in world `w0`, none
    of whose tasks has failed, between two calls: every batch passed on so far
    has `b` paths, fewer than `b` paths wait in `_batch`, no failure is pending,
    the count is in step, and the world has grown by the events of the batches. -/
def AsyncFileDeleter.Steady (b : Int) (cb : Option (List String → List Event)) (w0 : World)
    (s : AsyncFileDeleter × World) : Prop :=
  s.1._batch_size = b ∧ s.1._cb = cb ∧
  (∀ batch ∈ s.1.submitted, (batch.length : Int) = b) ∧
  (s.1._batch.length : Int) < b ∧
  (s.1._prev_task_status = none ∨ s.1._prev_task_status = some Status.OK) ∧
  s.1.counted ∧
  s.2 = w0 ++ s.1.submitted.flatMap (dispatch_events cb)

/-- The two constructors of `AsyncFileDeleter`: `cb` is `none` for the one
    without a callback. -/
def AsyncFileDeleter.create (batch_size : Int) (cb : Option (List String → List Event)) :
    AsyncFileDeleter :=
  { _batch_size := batch_size, _cb := cb }

/-- The calls `delete_file(path)` for the paths of `paths`, in order, and then
    `finish()`; the status is that of `finish`. -/
def AsyncFileDeleter.delete_each_then_finish (env : Env) (paths : List String)
    (s : AsyncFileDeleter × World) : Status × AsyncFileDeleter × World :=
  (AsyncFileDeleter.delete_each env paths s).1.finish env
    (AsyncFileDeleter.delete_each env paths s).2

/-- Collaborators like those of `example_env`, but the deletion task for the
    single path `a` fails with an I/O error. -/
def env_task_a_fails : Env :=
  (example_env store_10_5).later store_10_5 fun _ files =>
    if files = ["a"] then Status.error ErrorCode.IOError "disk" else Status.OK

/-! ## delete_files_with_retry -/

/-- What the synchronous deletion code does to the file system and the clock,
    in order. The delay of a sleep is `none` when the language does not define
    the value of the expression that computes it. -/
inductive FsEvent where
  /-- a call `fs->delete_files(paths)` -/
  | delete_files (paths : List String)
  /-- a call `std::this_thread::sleep_for(std::chrono::milliseconds(delay))` -/
  | sleep (delay : Option Int)
  deriving DecidableEq, Repr

/-- Message `TxnLogPB.OpWrite`, the fields `delete_tablets_impl` reads. -/
structure OpWrite where
  rowset : RowsetMetadataPB := {}
  dels : List String := []
  deriving DecidableEq, Repr

/-- Message `TxnLogPB.OpCompaction`, the field `delete_tablets_impl` reads. -/
structure OpCompaction where
  output_rowset : RowsetMetadataPB := {}
  deriving DecidableEq, Repr

/-- Message `TxnLogPB.OpSchemaChange`, the field `delete_tablets_impl` reads. -/
structure OpSchemaChange where
  rowsets : List RowsetMetadataPB := []
  deriving DecidableEq, Repr

/-- Message `TxnLogPB`: an operation that is not set is `none`. -/
structure TxnLogPB where
  op_write : Option OpWrite := none
  op_compaction : Option OpCompaction := none
  op_schema_change : Option OpSchemaChange := none
  deriving DecidableEq, Repr

/-- The collaborators of `Env` together with those of the synchronous deletion
    code, of `delete_tablets_impl` and of the data-file garbage collection, and
    the configuration they read. The helpers of `filenames.h`, `MatchPattern`
    and the methods of `FileSystem` and `TabletManager` are not part of the
    translated file and are taken as given. -/
structure FsEnv extends Env where
  lake_vacuum_retry_max_attempts : Int
  lake_vacuum_retry_pattern : String
  lake_vacuum_retry_min_delay_ms : Int
  experimental_lake_wait_per_delete_ms : Int
  /-- the answer of `MatchPattern(str, pattern)` -/
  MatchPattern : String → String → Bool
  /-- the status of a call `fs->delete_files(paths)`, given what was done before -/
  fs_delete_files : List FsEvent → List String → Status
  /-- what `fs->iterate_dir(dir, cb)` presents to `cb`, in order, and the status
      it returns when `cb` never stops the listing -/
  iterate_dir : String → List String × Status
  is_txn_vlog : String → Bool
  /-- the pair `(tablet_id, version)` -/
  parse_txn_vlog_filename : String → Int × Int
  is_tablet_metadata : String → Bool
  /-- the pair `(tablet_id, version)` -/
  parse_tablet_metadata_filename : String → Int × Int
  is_segment : String → Bool
  is_sst : String → Bool
  /-- the value of `std::time(nullptr)` -/
  now : Int
  /-- what `ProtobufFile(metadata_location).load` reads, or its error -/
  load_tablet_metadata : String → StatusOr TabletMetadataPB
  /-- the answer of `tablet_mgr->get_txn_log(path, false)` -/
  get_txn_log : String → StatusOr TxnLogPB

/-- Function `should_retry`. -/
def should_retry (env : FsEnv) (st : Status) (attempted_retries : Int) : Bool :=
  if attempted_retries ≥ env.lake_vacuum_retry_max_attempts then false
  else if st.is_resource_busy then true
  else env.MatchPattern st.message env.lake_vacuum_retry_pattern

/-- The expression `1 << attempted_retries` on the `int` 1: not defined by the
    language for a negative count or a count of 32 or more; a count of 31 gives
    the least `int`. -/
def shift_left_one (attempted_retries : Int) : Option Int :=
  if 0 ≤ attempted_retries ∧ attempted_retries < 31 then some (2 ^ attempted_retries.toNat)
  else if attempted_retries = 31 then some (-(2 ^ 31))
  else none

/-- Function `calculate_retry_delay`; the product is not defined by the language
    when it does not fit an `int64_t`. -/
def calculate_retry_delay (env : FsEnv) (attempted_retries : Int) : Option Int :=
  match shift_left_one attempted_retries with
  | none => none
  | some factor =>
    let delay := env.lake_vacuum_retry_min_delay_ms * factor
    if -(2 ^ 63) ≤ delay ∧ delay ≤ INT64_MAX then some delay else none

/-- The loop of `delete_files_with_retry` from the iteration with the given
    value of `attempted_retries`, for at most `fuel` iterations. `trace` is what
    has been done so far; the sleep does not change what the loop does next. -/
def delete_files_with_retry_loop (env : FsEnv) (paths : List String) :
    Nat → Int → List FsEvent → Outcome (List FsEvent)
  | 0, _, trace => Outcome.out_of_fuel trace
  | fuel + 1, attempted_retries, trace =>
    let st := env.fs_delete_files trace paths
    let trace1 := trace ++ [FsEvent.delete_files paths]
    if ¬ st.ok ∧ should_retry env st attempted_retries then
      delete_files_with_retry_loop env paths fuel (attempted_retries + 1)
        (trace1 ++ [FsEvent.sleep (calculate_retry_delay env attempted_retries)])
    else Outcome.returned st trace1

/-- Function `delete_files_with_retry`. The loop is given one iteration more
    than `lake_vacuum_retry_max_attempts`. -/
def delete_files_with_retry (env : FsEnv) (paths : List String) (trace : List FsEvent) :
    Outcome (List FsEvent) :=
  delete_files_with_retry_loop env paths (env.lake_vacuum_retry_max_attempts.toNat + 1) 0 trace

/-- What has been done before attempt number `k` (from 0) of
    `delete_files_with_retry`, when all attempts before it were retried. -/
def retry_trace (env : FsEnv) (paths : List String) (trace : List FsEvent) : Nat → List FsEvent
  | 0 => trace
  | k + 1 =>
    retry_trace env paths trace k ++
      [FsEvent.delete_files paths, FsEvent.sleep (calculate_retry_delay env (k : Int))]

/-- The status of attempt number `k` (from 0) of `delete_files_with_retry`. -/
def retry_attempt (env : FsEnv) (paths : List String) (trace : List FsEvent) (k : Nat) : Status :=
  env.fs_delete_files (retry_trace env paths trace k) paths

/-- The number of calls `fs->delete_files` in a trace. -/
def delete_files_calls (trace : List FsEvent) : Nat :=
  (trace.filter fun e =>
    match e with
    | FsEvent.delete_files _ => true
    | FsEvent.sleep _ => false).length

/-! ## Notions used to state the properties of the driver -/

/-- One iteration of the loop of `vacuum_tablet_metadata`: the arguments of the
    call of `collect_files_to_vacuum`, the state in which its loop ended, and
    the arguments as the call left them. -/
structure TabletRun where
  args : VacuumArgs
  walk : WalkState
  result : VacuumArgs

/-- `TabletRuns … tablet_infos s runs s'`: the loop of `vacuum_tablet_metadata`
    over `tablet_infos`, entered in state `s`, runs to its end in state `s'`;
    `runs` holds, tablet by tablet, the successful call of
    `collect_files_to_vacuum` made for the tablet. -/
inductive TabletRuns (env : Env) (root_dir : String) (min_retain_version grace_timestamp : Int)
    (enable_file_bundling : Bool) :
    List TabletInfoPB → DriverState → List TabletRun → DriverState → Prop where
  | done (s : DriverState) :
    TabletRuns env root_dir min_retain_version grace_timestamp enable_file_bundling [] s [] s
  | step {tablet_info : TabletInfoPB} {rest : List TabletInfoPB} {s s' : DriverState}
      {run : TabletRun} {runs : List TabletRun} :
    run.args = s.planner_args env tablet_info →
    collect_files_to_vacuum_walk env root_dir run.args grace_timestamp min_retain_version
      = LoopResult.done run.walk →
    collect_files_to_vacuum env root_dir run.args grace_timestamp min_retain_version
      = Outcome.returned Status.OK run.result →
    (vacuum_tablet_finish env enable_file_bundling run.result
      (s.after_planner run.result)).1 = Status.OK →
    TabletRuns env root_dir min_retain_version grace_timestamp enable_file_bundling rest
      (vacuum_tablet_finish env enable_file_bundling run.result
        (s.after_planner run.result)).2 runs s' →
    TabletRuns env root_dir min_retain_version grace_timestamp enable_file_bundling
      (tablet_info :: rest) s (run :: runs) s'

/-! ## Notions used to state the properties of vacuum_txn_log -/

/-- The transaction id that the callback of `vacuum_txn_log` reads off a file
    name: that of a txn log, else of a txn slog, else of a combined txn log;
    none for any other name. -/
def parsed_txn_id (env : Env) (name : String) : Option Int :=
  if env.is_txn_log name then some (env.parse_txn_log_filename name).2
  else if env.is_txn_slog name then some (env.parse_txn_slog_filename name).2
  else if env.is_combined_txn_log name then some (env.parse_combined_txn_log_filename name)
  else none

/-- The entries of a listing that are txn logs, txn slogs or combined txn logs
    of a transaction below `min_active_txn_id`, in listing order. -/
def expired_txn_logs (env : Env) (min_active_txn_id : Int) (entries : List DirEntry) :
    List DirEntry :=
  entries.filter fun entry =>
    match parsed_txn_id env entry.name with
    | some txn_id => decide (txn_id < min_active_txn_id)
    | none => false

/-- Collaborators like those of `example_env` whose `txnlog` directory lists
    the txn logs of transactions 999 and 1000 of tablet 1, the combined txn log
    of transaction 998 and the file `foo.txt`, of sizes 10, 20, 30 and 40. -/
def env_txn_logs : Env :=
  { example_env store_10_5 with
    iterate_dir2 := fun dir =>
      if dir = "root/log" then
        ([{ name := "1_999.log", size := some 10 }, { name := "1_1000.log", size := some 20 },
          { name := "998.logs", size := some 30 }, { name := "foo.txt", size := some 40 }],
          Status.OK)
      else ([], Status.error ErrorCode.NotFound "no such directory")
    is_txn_log := fun name => name = "1_999.log" ∨ name = "1_1000.log"
    is_combined_txn_log := fun name => name = "998.logs"
    parse_txn_log_filename := fun name => if name = "1_999.log" then (1, 999) else (1, 1000)
    parse_combined_txn_log_filename := fun _ => 998 }

/-- No failed deletion task is waiting to be reported by the deleter. -/
def AsyncFileDeleter.no_failure (d : AsyncFileDeleter) : Prop :=
  d._prev_task_status = none ∨ d._prev_task_status = some Status.OK

/-- The world is `w0` followed by the events of the batches the deleter has
    passed on, in order: what holds of a deleter created in world `w0` as long
    as nothing else acts on the world. -/
def AsyncFileDeleter.Logged (w0 : World) (s : AsyncFileDeleter × World) : Prop :=
  s.2 = w0 ++ s.1.submitted.flatMap (dispatch_events s.1._cb)

/-- The state in which `vacuum_txn_log` starts its listing. -/
def txn_log_init (env : Env) (vacuumed_files vacuumed_file_size : Int) (w : World) :
    TxnLogState :=
  { deleter := { _batch_size := env.lake_vacuum_min_batch_delete_size }
    ret := Status.OK
    vacuumed_files := vacuumed_files
    vacuumed_file_size := vacuumed_file_size
    world := w }

/-- The version range that the loop of `vacuum_tablet_metadata` accumulates
    from `range`: the range `[stop version + 1, final_retain_version)` of every
    tablet whose walk came to a snapshot older than the grace timestamp (or
    ran without a grace timestamp) is merged in, in order. -/
def merged_range (range : VacuumTabletMetaVerionRange) (runs : List TabletRun) :
    VacuumTabletMetaVerionRange :=
  runs.foldl (fun r run =>
    if run.walk.skip_check_grace_timestamp then
      r.merge (run.walk.version + 1) run.walk.final_retain_version
    else r) range

/-- The metadata file paths the partition-level block of
    `vacuum_tablet_metadata` gives its deleter for the range `range`: version 1
    of every tablet of `tablet_infos` when the range starts at 1 or below, then
    the versions of the range for tablet id 0. -/
def partition_metafile_paths (env : Env) (meta_dir : String) (tablet_infos : List TabletInfoPB)
    (range : VacuumTabletMetaVerionRange) : List String :=
  (if range.min_version ≤ 1 then
    tablet_infos.map fun tablet_info =>
      env.join_path meta_dir (env.tablet_metadata_filename tablet_info.tablet_id 1)
  else []) ++ metafile_paths env meta_dir 0 range.min_version range.max_version

/-! ## Notions used to state cache coherence -/

/-- A call made on an `AsyncFileDeleter`. -/
inductive DeleterOp where
  | delete_file (path : String)
  | finish
  deriving DecidableEq, Repr

/-- The deleter and the world after the call, whatever it returns. -/
def DeleterOp.run (env : Env) (s : AsyncFileDeleter × World) :
    DeleterOp → AsyncFileDeleter × World
  | DeleterOp.delete_file path => (s.1.delete_file env path s.2).2
  | DeleterOp.finish => (s.1.finish env s.2).2

/-- The deleter and the world after a sequence of calls, whatever they return. -/
def run_deleter_ops (env : Env) (ops : List DeleterOp) (s : AsyncFileDeleter × World) :
    AsyncFileDeleter × World :=
  ops.foldl (DeleterOp.run env) s

/-- The path names a file of the segment directory `data_dir`. -/
def is_data_path (env : Env) (data_dir : String) (path : String) : Prop :=
  ∃ name, path = env.join_path data_dir name

/-- Events in which every deletion task either consists of paths of the
    segment directory only, or comes right after the erasure from the metacache
    of each of its paths, in order. -/
inductive ErasedFirst (env : Env) (data_dir : String) : List Event → Prop where
  | nil : ErasedFirst env data_dir []
  | load (tablet_id version : Int) {events : List Event} :
    ErasedFirst env data_dir events →
    ErasedFirst env data_dir (Event.load tablet_id version :: events)
  | data_task (files : List String) {events : List Event} :
    (∀ p ∈ files, is_data_path env data_dir p) →
    ErasedFirst env data_dir events →
    ErasedFirst env data_dir (Event.task files :: events)
  | erased_task (files : List String) {events : List Event} :
    ErasedFirst env data_dir events →
    ErasedFirst env data_dir (files.map Event.erase ++ Event.task files :: events)

/-- The world `w` is `w0` followed by events in which deletions come after
    erasure. -/
def Orderly (env : Env) (data_dir : String) (w0 w : World) : Prop :=
  ∃ events, w = w0 ++ events ∧ ErasedFirst env data_dir events

/-- A deleter without callback that has been given paths of the segment
    directory only. -/
def AsyncFileDeleter.is_data_deleter (env : Env) (data_dir : String) (d : AsyncFileDeleter) :
    Prop :=
  d._cb = none ∧ ∀ p ∈ d.handed, is_data_path env data_dir p

/-- A bundle deleter that has recorded, and handed to its underlying deleter,
    paths of the segment directory only. -/
def AsyncBundleFileDeleter.is_data_deleter (env : Env) (data_dir : String)
    (b : AsyncBundleFileDeleter) : Prop :=
  b.toAsyncFileDeleter.is_data_deleter env data_dir ∧
  ∀ p ∈ b._pending_files.map Prod.fst, is_data_path env data_dir p

/-- The deleters `collect_garbage_files` works on are data deleters of the
    segment directory `data_dir` and the world is orderly since `w0`. -/
def GarbageState.tidy (env : Env) (data_dir : String) (w0 : World) (s : GarbageState) : Prop :=
  s.deleter.is_data_deleter env data_dir ∧
  (∀ b, s.bundle_file_deleter = some b → b.is_data_deleter env data_dir) ∧
  Orderly env data_dir w0 s.world

/-- The same of the loop state of `collect_files_to_vacuum`. -/
def WalkState.tidy (env : Env) (data_dir : String) (w0 : World) (s : WalkState) : Prop :=
  s.datafile_deleter.is_data_deleter env data_dir ∧
  (∀ b, s.bundle_file_deleter = some b → b.is_data_deleter env data_dir) ∧
  Orderly env data_dir w0 s.world

/-- The same of the arguments of `collect_files_to_vacuum`, whose
    metadata-file deleter erases from the metacache. -/
def VacuumArgs.tidy (env : Env) (data_dir : String) (w0 : World) (a : VacuumArgs) : Prop :=
  a.datafile_deleter.is_data_deleter env data_dir ∧
  (∀ b, a.bundle_file_deleter = some b → b.is_data_deleter env data_dir) ∧
  a.metafile_deleter._cb = some erase_tablet_metadata_from_metacache ∧
  Orderly env data_dir w0 a.world

/-- The same of the variables of `vacuum_tablet_metadata`. -/
def DriverState.tidy (env : Env) (data_dir : String) (w0 : World) (s : DriverState) : Prop :=
  s.bundle_file_deleter.is_data_deleter env data_dir ∧ Orderly env data_dir w0 s.world

/-- The paths given to `delete_file` in a sequence of calls, in order. -/
def deleter_op_paths : List DeleterOp → List String
  | [] => []
  | DeleterOp.delete_file path :: ops => path :: deleter_op_paths ops
  | DeleterOp.finish :: ops => deleter_op_paths ops

/-! ## datafile_gc: orphan data files -/

/-- The call `data_files.emplace(name, entry)` on the `std::map`, kept as a
    list in key order: a key that is present keeps its entry. -/
def map_emplace (data_files : List (String × DirEntry)) (name : String) (entry : DirEntry) :
    List (String × DirEntry) :=
  if name ∈ data_files.map Prod.fst then data_files
  else data_files.orderedInsert (fun a b => a.1 ≤ b.1) (name, entry)

/-- The call `data_files.erase(name)`. -/
def map_erase (data_files : List (String × DirEntry)) (name : String) :
    List (String × DirEntry) :=
  data_files.filter fun kv => decide (kv.1 ≠ name)

/-- The call `emplace(name)` on a `std::set<std::string>`, kept as a list in
    order. -/
def set_emplace (names : List String) (name : String) : List String :=
  if name ∈ names then names else names.orderedInsert (fun a b => a ≤ b) name

/-- A directory listing by `iterate_dir` calling `visit` on the names until it
    answers `false`; the Boolean tells whether the listing was stopped. -/
def visit_names {σ : Type} (visit : String → σ → Bool × σ) : List String → σ → Bool × σ
  | [], s => (false, s)
  | name :: rest, s =>
    if (visit name s).1 then visit_names visit rest (visit name s).2
    else (true, (visit name s).2)

/-- Method `FileSystem::iterate_dir`: a listing stopped by the callback returns
    OK. -/
def iterate_dir {σ : Type} (env : FsEnv) (dir : String) (visit : String → σ → Bool × σ)
    (s : σ) : Status × σ :=
  let r := visit_names visit (env.iterate_dir dir).1 s
  (if r.1 then Status.OK else (env.iterate_dir dir).2, r.2)

/-- The callback of `list_data_files`, without the counters it keeps for the
    log. -/
def list_data_files_visit (env : FsEnv) (expired_seconds : Int) (entry : DirEntry)
    (data_files : List (String × DirEntry)) : Bool × List (String × DirEntry) :=
  if ¬ env.is_segment entry.name ∧ ¬ env.is_sst entry.name then (true, data_files)
  else
    match entry.mtime with
    | none => (true, data_files)
    | some mtime =>
      if env.now ≥ mtime + expired_seconds then (true, map_emplace data_files entry.name entry)
      else (true, data_files)

/-- Function `list_data_files`. -/
def list_data_files (env : FsEnv) (segment_root_location : String) (expired_seconds : Int) :
    StatusOr (List (String × DirEntry)) :=
  let r := iterate_dir2 env.toEnv segment_root_location
    (list_data_files_visit env expired_seconds) []
  match ignore_not_found r.1 with
  | Status.error c m => StatusOr.error c m
  | Status.OK => StatusOr.value r.2

/-- Function `list_meta_files`. -/
def list_meta_files (env : FsEnv) (metadata_root_location : String) : StatusOr (List String) :=
  let r := iterate_dir env metadata_root_location
    (fun name (meta_files : List String) =>
      if ¬ env.is_tablet_metadata name then (true, meta_files)
      else (true, meta_files ++ [name])) []
  match ignore_not_found r.1 with
  | Status.error c m => StatusOr.error c m
  | Status.OK => StatusOr.value r.2

/-- The locals `data_files` and `data_files_in_metadatas` of
    `find_orphan_data_files`. -/
structure OrphanState where
  data_files : List (String × DirEntry)
  data_files_in_metadatas : List String := []

/-- The two statements that `check_rowset` and `check_sst_meta` run for one
    file name. -/
def check_data_file (s : OrphanState) (name : String) : OrphanState :=
  { data_files := map_erase s.data_files name
    data_files_in_metadatas := set_emplace s.data_files_in_metadatas name }

/-- The body of `for (const auto& name : meta_files)` in
    `find_orphan_data_files`: a metadata file that does not load is passed over. -/
def filter_with_metadata (env : FsEnv) (metadata_root_location : String) (s : OrphanState)
    (name : String) : OrphanState :=
  match env.load_tablet_metadata (env.join_path metadata_root_location name) with
  | StatusOr.error _ _ => s
  | StatusOr.value metadata =>
    metadata.sstable_meta.foldl check_data_file
      (metadata.rowsets.foldl (fun s1 rowset => rowset.segments.foldl check_data_file s1) s)

/-- Function `find_orphan_data_files`; what it writes to the audit stream is
    not modelled. -/
def find_orphan_data_files (env : FsEnv) (root_location : String) (expired_seconds : Int) :
    StatusOr (List (String × DirEntry)) :=
  let metadata_root_location := env.join_path root_location env.kMetadataDirectoryName
  let segment_root_location := env.join_path root_location env.kSegmentDirectoryName
  match list_data_files env segment_root_location expired_seconds with
  | StatusOr.error c m => StatusOr.error c m
  | StatusOr.value data_files =>
    if data_files.isEmpty then StatusOr.value data_files
    else
      match list_meta_files env metadata_root_location with
      | StatusOr.error c m => StatusOr.error c m
      | StatusOr.value meta_files =>
        let s := meta_files.foldl (filter_with_metadata env metadata_root_location)
          { data_files := data_files }
        if s.data_files.any fun kv => decide (kv.1 ∈ s.data_files_in_metadatas) then
          StatusOr.error ErrorCode.InternalError "Failed to do double checking"
        else StatusOr.value s.data_files

/-! ## do_delete_files and partition_datafile_gc -/

/-- The lambda `delete_single_batch` of `do_delete_files`. -/
def delete_single_batch (env : FsEnv) (batch : List String) (trace : List FsEvent) :
    Outcome (List FsEvent) :=
  delete_files_with_retry env batch
    (if env.experimental_lake_wait_per_delete_ms > 0 then
      trace ++ [FsEvent.sleep (some env.experimental_lake_wait_per_delete_ms)]
    else trace)

/-- The loop `for (auto i = int64_t{0}; i < batch_count; i++)` of
    `do_delete_files` with `remaining` iterations to go. With a negative
    `batch_size` the iterator arithmetic of the body has no defined behaviour:
    the outcome is `aborted`. -/
def do_delete_batches (env : FsEnv) (paths : List String) (batch_size : Int) :
    Nat → Nat → List FsEvent → Outcome (List FsEvent)
  | 0, _, trace => Outcome.returned Status.OK trace
  | remaining + 1, i, trace =>
    if batch_size < 0 then Outcome.aborted trace
    else
      match delete_single_batch env
          ((paths.drop (i * batch_size.toNat)).take batch_size.toNat) trace with
      | Outcome.returned Status.OK trace1 =>
        do_delete_batches env paths batch_size remaining (i + 1) trace1
      | other => other

/-- Function `do_delete_files`. The batch count is computed in `size_t` (the
    batch size is converted to unsigned) and converted back; a division by zero
    ends the process. -/
def do_delete_files (env : FsEnv) (paths : List String) (trace : List FsEvent) :
    Outcome (List FsEvent) :=
  if paths.isEmpty then Outcome.returned Status.OK trace
  else
    let batch_size := env.lake_vacuum_min_batch_delete_size
    if batch_size % 2 ^ 64 = 0 then Outcome.aborted trace
    else
      let batch_count := to_int64
        ((((paths.length : Int) + batch_size % 2 ^ 64 - 1) % 2 ^ 64) / (batch_size % 2 ^ 64))
      do_delete_batches env paths batch_size batch_count.toNat 0 trace

/-- Function `partition_datafile_gc`. The state of the outcome holds the
    returned pair, when there is one, and the trace; the audit file and the
    transaction ids collected for it are not modelled. -/
def partition_datafile_gc (env : FsEnv) (root_location : String) (expired_seconds : Int)
    (do_delete : Bool) (trace : List FsEvent) : Outcome (Option (Int × Int) × List FsEvent) :=
  match env.create_fs root_location with
  | Status.error c m => Outcome.returned (Status.error c m) (none, trace)
  | Status.OK =>
    match find_orphan_data_files env root_location expired_seconds with
    | StatusOr.error c m => Outcome.returned (Status.error c m) (none, trace)
    | StatusOr.value orphan_data_files =>
      let segment_root_location := env.join_path root_location env.kSegmentDirectoryName
      let files_to_delete :=
        orphan_data_files.map fun kv => env.join_path segment_root_location kv.1
      let bytes_to_delete := (orphan_data_files.map fun kv => kv.2.size.getD 0).sum
      let result : Int × Int := ((orphan_data_files.length : Int), bytes_to_delete)
      if ¬ do_delete then Outcome.returned Status.OK (some result, trace)
      else
        match do_delete_files env files_to_delete trace with
        | Outcome.returned Status.OK trace1 => Outcome.returned Status.OK (some result, trace1)
        | Outcome.returned (Status.error c m) trace1 =>
          Outcome.returned (Status.error c m) (none, trace1)
        | Outcome.aborted trace1 => Outcome.aborted (none, trace1)
        | Outcome.out_of_fuel trace1 => Outcome.out_of_fuel (none, trace1)

/-! ## Notions used to state the properties of the data-file garbage collection -/

/-- The entry has a segment or SST name and carries a modification time that is
    at least `expired_seconds` old. -/
def is_gc_candidate (env : FsEnv) (expired_seconds : Int) (entry : DirEntry) : Bool :=
  (env.is_segment entry.name || env.is_sst entry.name) &&
  match entry.mtime with
  | some mtime => decide (mtime + expired_seconds ≤ env.now)
  | none => false

/-- The file names that a snapshot names in the segment lists of its rowsets
    and in its `sstable_meta`. -/
def TabletMetadataPB.data_file_names (metadata : TabletMetadataPB) : List String :=
  metadata.rowsets.flatMap (fun rowset => rowset.segments) ++ metadata.sstable_meta

/-- The file names named by the metadata file `name` of the directory
    `metadata_root_location`; none when the file does not load. -/
def metadata_file_names (env : FsEnv) (metadata_root_location : String) (name : String) :
    List String :=
  match env.load_tablet_metadata (env.join_path metadata_root_location name) with
  | StatusOr.error _ _ => []
  | StatusOr.value metadata => metadata.data_file_names

/-- The file names named by the tablet metadata files that the directory
    `metadata_root_location` lists (and that load). -/
def referenced_data_files (env : FsEnv) (metadata_root_location : String) : List String :=
  ((env.iterate_dir metadata_root_location).1.filter env.is_tablet_metadata).flatMap
    (metadata_file_names env metadata_root_location)

/-- The state `s` is `s0` after the names `names` went through `check_rowset`
    or `check_sst_meta`. -/
def OrphanState.filtered (s0 : OrphanState) (names : List String) (s : OrphanState) : Prop :=
  (∀ k v, (k, v) ∈ s.data_files ↔ (k, v) ∈ s0.data_files ∧ k ∉ names) ∧
  (∀ x, x ∈ s.data_files_in_metadatas ↔ x ∈ s0.data_files_in_metadatas ∨ x ∈ names) ∧
  ((s0.data_files.map Prod.fst).Nodup → (s.data_files.map Prod.fst).Nodup)

/-- Collaborators for the data-file garbage collection at time 1000: the
    segment directory lists `a.dat` (modified at 100, 7 bytes), `c.dat`
    (modified at 990) and `notes.txt`; the metadata directory lists the tablet
    metadata file `1_10.meta`, which names `c.dat`, and `readme`. -/
def example_fs_env : FsEnv :=
  { toEnv :=
      { example_env store_10_5 with
        iterate_dir2 := fun dir =>
          if dir = "root/data" then
            ([{ name := "a.dat", size := some 7, mtime := some 100 },
              { name := "c.dat", size := some 9, mtime := some 990 },
              { name := "notes.txt", size := some 1, mtime := some 100 }], Status.OK)
          else ([], Status.error ErrorCode.NotFound "no such directory") }
    lake_vacuum_retry_max_attempts := 3
    lake_vacuum_retry_pattern := "*SlowDown*"
    lake_vacuum_retry_min_delay_ms := 100
    experimental_lake_wait_per_delete_ms := 0
    MatchPattern := fun _ _ => false
    fs_delete_files := fun _ _ => Status.OK
    iterate_dir := fun dir =>
      if dir = "root/meta" then (["1_10.meta", "readme"], Status.OK)
      else ([], Status.error ErrorCode.NotFound "no such directory")
    is_txn_vlog := fun _ => false
    parse_txn_vlog_filename := fun _ => (0, 0)
    is_tablet_metadata := fun name => name = "1_10.meta"
    parse_tablet_metadata_filename := fun _ => (1, 10)
    is_segment := fun name => name = "a.dat" ∨ name = "c.dat"
    is_sst := fun _ => false
    now := 1000
    load_tablet_metadata := fun path =>
      if path = "root/meta/1_10.meta" then
        StatusOr.value { id := 1, version := 10, rowsets := [{ segments := ["c.dat"] }] }
      else StatusOr.error ErrorCode.NotFound "no such file"
    get_txn_log := fun _ => StatusOr.error ErrorCode.NotFound "no such file" }

/-! ## delete_tablets_impl -/

/-- The loop of `std::lower_bound` on the range `[first, first + count)` of a
    vector, for at most `fuel` iterations; the result is the index reached. -/
def lower_bound (l : List Int) (value : Int) : Nat → Nat → Nat → Nat
  | 0, first, _ => first
  | fuel + 1, first, count =>
    if count = 0 then first
    else if l.getD (first + count / 2) 0 < value then
      lower_bound l value fuel (first + count / 2 + 1) (count - (count / 2 + 1))
    else lower_bound l value fuel first (count / 2)

/-- The call `std::binary_search(l.begin(), l.end(), value)`: the element at
    the lower bound, when there is one, is not above `value`. The loop halves
    its range, so `l.size()` iterations are enough. -/
def binary_search (l : List Int) (value : Int) : Bool :=
  decide (lower_bound l value l.length 0 l.length < l.length) &&
  !decide (value < l.getD (lower_bound l value l.length 0 l.length) 0)

/-- The test at the head of the callback of the first listing of
    `delete_tablets_impl`: the name is that of a txn log, txn slog or txn vlog of
    one of the tablets. -/
def txn_log_of_tablets (env : FsEnv) (tablet_ids : List Int) (name : String) : Bool :=
  if env.is_txn_log name then binary_search tablet_ids (env.parse_txn_log_filename name).1
  else if env.is_txn_slog name then
    binary_search tablet_ids (env.parse_txn_slog_filename name).1
  else if env.is_txn_vlog name then
    binary_search tablet_ids (env.parse_txn_vlog_filename name).1
  else false

/-- The callback of the listing of the txn log directory on the `std::set`
    `txn_logs`, kept as a list in order. `none` stands for the end of the
    process by `LOG(FATAL)` on a name that is listed twice. -/
def collect_txn_log (env : FsEnv) (tablet_ids : List Int) (name : String)
    (txn_logs : Option (List String)) : Bool × Option (List String) :=
  match txn_logs with
  | none => (false, none)
  | some logs =>
    if ¬ txn_log_of_tablets env tablet_ids name then (true, some logs)
    else if name ∈ logs then (false, none)
    else (true, some (logs.orderedInsert (fun a b => a ≤ b) name))

/-- The statement `RETURN_IF_ERROR(deleter.delete_file(join_path(dir, name)))`. -/
def delete_in (env : FsEnv) (dir : String) (name : String) (s : AsyncFileDeleter × World) :
    Status × (AsyncFileDeleter × World) :=
  AsyncFileDeleter.delete_file env.toEnv (env.join_path dir name) s.1 s.2

/-- The body of `for (const auto& log_name : txn_logs)`; a txn log that is not
    found is passed over. -/
def delete_txn_log (env : FsEnv) (data_dir log_dir : String) (log_name : String)
    (s : AsyncFileDeleter × World) : Status × (AsyncFileDeleter × World) :=
  match env.get_txn_log (env.join_path log_dir log_name) with
  | StatusOr.error c m =>
    if (Status.error c m).is_not_found then (Status.OK, s) else (Status.error c m, s)
  | StatusOr.value log =>
    RETURN_IF_ERROR
      (match log.op_write with
        | some op =>
          RETURN_IF_ERROR (for_each (delete_in env data_dir) op.rowset.segments s) fun s1 =>
          for_each (delete_in env data_dir) op.dels s1
        | none => (Status.OK, s)) fun s1 =>
    RETURN_IF_ERROR
      (match log.op_compaction with
        | some op => for_each (delete_in env data_dir) op.output_rowset.segments s1
        | none => (Status.OK, s1)) fun s2 =>
    RETURN_IF_ERROR
      (match log.op_schema_change with
        | some op =>
          for_each (fun (rowset : RowsetMetadataPB) s3 =>
            for_each (delete_in env data_dir) rowset.segments s3) op.rowsets s2
        | none => (Status.OK, s2)) fun s3 =>
    delete_in env log_dir log_name s3

/-- The statement `tablet_versions[tablet_id].insert(version)` on the map of
    version sets, kept as a list of tablets in order of first insertion, each
    with its versions in ascending order; `none` when the version is already
    there. -/
def versions_insert (tablet_versions : List (Int × List Int)) (tablet_id version : Int) :
    Option (List (Int × List Int)) :=
  match tablet_versions with
  | [] => some [(tablet_id, [version])]
  | (t, versions) :: rest =>
    if t = tablet_id then
      if version ∈ versions then none
      else some ((t, versions.orderedInsert (fun a b => a ≤ b) version) :: rest)
    else (versions_insert rest tablet_id version).map fun r => (t, versions) :: r

/-- The callback of the listing of the metadata directory. `none` stands for
    the end of the process by `LOG(FATAL)` on a file that is listed twice. -/
def collect_tablet_version (env : FsEnv) (tablet_ids : List Int) (name : String)
    (tablet_versions : Option (List (Int × List Int))) :
    Bool × Option (List (Int × List Int)) :=
  match tablet_versions with
  | none => (false, none)
  | some tv =>
    if ¬ env.is_tablet_metadata name then (true, some tv)
    else if ¬ binary_search tablet_ids (env.parse_tablet_metadata_filename name).1 then
      (true, some tv)
    else
      match versions_insert tv (env.parse_tablet_metadata_filename name).1
          (env.parse_tablet_metadata_filename name).2 with
      | none => (false, none)
      | some tv1 => (true, some tv1)

/-- The loop `for (garbage_version = *versions.rbegin(); garbage_version >= min_v;)`
    of `delete_tablets_impl`, for at most `fuel` iterations, from the given
    value of `garbage_version`. The state holds `latest_metadata`, the deleter
    and the world. -/
def find_garbage (env : FsEnv) (data_dir : String) (tablet_id min_v : Int) :
    Nat → Int → Option TabletMetadataPB × (AsyncFileDeleter × World) →
    LoopResult (Option TabletMetadataPB × (AsyncFileDeleter × World))
  | 0, garbage_version, s =>
    if garbage_version ≥ min_v then LoopResult.out_of_fuel s else LoopResult.done s
  | fuel + 1, garbage_version, s =>
    if garbage_version ≥ min_v then
      let w0 := s.2.2 ++ [Event.load tablet_id garbage_version]
      match env.get_tablet_metadata tablet_id garbage_version with
      | StatusOr.error c m =>
        if (Status.error c m).is_not_found then LoopResult.done (s.1, (s.2.1, w0))
        else LoopResult.returned (Status.error c m) (s.1, (s.2.1, w0))
      | StatusOr.value metadata =>
        let latest_metadata :=
          match s.1 with
          | none => some metadata
          | some latest => some latest
        let r := collect_garbage_files env.toEnv metadata data_dir
          { deleter := s.2.1, bundle_file_deleter := none, garbage_data_size := 0,
            world := w0 }
        match r.1 with
        | Status.error c m =>
          LoopResult.returned (Status.error c m) (latest_metadata, (r.2.deleter, r.2.world))
        | Status.OK =>
          if metadata.has_prev_garbage_version then
            find_garbage env data_dir tablet_id min_v fuel metadata.prev_garbage_version
              (latest_metadata, (r.2.deleter, r.2.world))
          else LoopResult.done (latest_metadata, (r.2.deleter, r.2.world))
    else LoopResult.done s

/-- The block `if (latest_metadata != nullptr) { ... }` of `delete_tablets_impl`
    for a metadata at hand: the segments of the rowsets, the files of
    `delvec_meta` and the sstables. -/
def delete_latest (env : FsEnv) (data_dir : String) (latest_metadata : TabletMetadataPB)
    (s : AsyncFileDeleter × World) : Status × (AsyncFileDeleter × World) :=
  RETURN_IF_ERROR
    (for_each (fun (rowset : RowsetMetadataPB) s0 =>
      for_each (delete_in env data_dir) rowset.segments s0) latest_metadata.rowsets s)
    fun s1 =>
  RETURN_IF_ERROR
    (match latest_metadata.delvec_meta with
      | some version_to_file =>
        for_each (fun (vf : Int × FileMetaPB) s0 => delete_in env data_dir vf.2.name s0)
          version_to_file s1
      | none => (Status.OK, s1)) fun s2 =>
  for_each (delete_in env data_dir) latest_metadata.sstable_meta s2

/-- The body of `for (auto& [tablet_id, versions] : tablet_versions)`, with
    `fuel` iterations at most for the loop over the garbage versions. -/
def delete_tablet (env : FsEnv) (fuel : Nat) (data_dir meta_dir : String)
    (entry : Int × List Int) (s : AsyncFileDeleter × World) :
    Outcome (AsyncFileDeleter × World) :=
  match find_garbage env data_dir entry.1 (entry.2.headD 0) fuel (entry.2.getLastD 0)
      (none, s) with
  | LoopResult.returned st r => Outcome.returned st r.2
  | LoopResult.aborted r => Outcome.aborted r.2
  | LoopResult.out_of_fuel r => Outcome.out_of_fuel r.2
  | LoopResult.done r =>
    let purge :=
      match r.1 with
      | some latest_metadata => delete_latest env data_dir latest_metadata r.2
      | none => (Status.OK, r.2)
    match purge.1 with
    | Status.error c m => Outcome.returned (Status.error c m) purge.2
    | Status.OK =>
      let r2 := for_each (fun (version : Int) s0 =>
        delete_in env meta_dir (env.tablet_metadata_filename entry.1 version) s0)
        entry.2 purge.2
      Outcome.returned r2.1 r2.2

/-- The loop `for (auto& [tablet_id, versions] : tablet_versions)`. -/
def delete_tablets_loop (env : FsEnv) (fuel : Nat) (data_dir meta_dir : String) :
    List (Int × List Int) → AsyncFileDeleter × World → Outcome (AsyncFileDeleter × World)
  | [], s => Outcome.returned Status.OK s
  | entry :: rest, s =>
    match delete_tablet env fuel data_dir meta_dir entry s with
    | Outcome.returned Status.OK s1 => delete_tablets_loop env fuel data_dir meta_dir rest s1
    | other => other

/-- Function `delete_tablets_impl`, with `fuel` iterations at most for each
    loop over garbage versions. The deleter is in the state from the start; it
    is not used before the point where the source constructs it. -/
def delete_tablets_impl (env : FsEnv) (fuel : Nat) (root_dir : String) (tablet_ids : List Int)
    (w : World) : Outcome (AsyncFileDeleter × World) :=
  let deleter : AsyncFileDeleter := { _batch_size := env.lake_vacuum_min_batch_delete_size }
  match env.create_fs root_dir with
  | Status.error c m => Outcome.returned (Status.error c m) (deleter, w)
  | Status.OK =>
    let meta_dir := env.join_path root_dir env.kMetadataDirectoryName
    let data_dir := env.join_path root_dir env.kSegmentDirectoryName
    let log_dir := env.join_path root_dir env.kTxnLogDirectoryName
    let listed := iterate_dir env log_dir (collect_txn_log env tablet_ids) (some [])
    match listed.2 with
    | none => Outcome.aborted (deleter, w)
    | some txn_logs =>
      match ignore_not_found listed.1 with
      | Status.error c m => Outcome.returned (Status.error c m) (deleter, w)
      | Status.OK =>
        let r1 := for_each (delete_txn_log env data_dir log_dir) txn_logs (deleter, w)
        match r1.1 with
        | Status.error c m => Outcome.returned (Status.error c m) r1.2
        | Status.OK =>
          let listed2 := iterate_dir env meta_dir (collect_tablet_version env tablet_ids)
            (some [])
          match listed2.2 with
          | none => Outcome.aborted r1.2
          | some tablet_versions =>
            match ignore_not_found listed2.1 with
            | Status.error c m => Outcome.returned (Status.error c m) r1.2
            | Status.OK =>
              match delete_tablets_loop env fuel data_dir meta_dir tablet_versions r1.2 with
              | Outcome.returned Status.OK s =>
                Outcome.returned (s.1.finish env.toEnv s.2).1 (s.1.finish env.toEnv s.2).2
              | other => other

/-- The tablet id the first listing of `delete_tablets_impl` reads off a name
    of the txn log directory, if it takes the name for a log at all. -/
def txn_log_tablet_id (env : FsEnv) (name : String) : Option Int :=
  if env.is_txn_log name then some (env.parse_txn_log_filename name).1
  else if env.is_txn_slog name then some (env.parse_txn_slog_filename name).1
  else if env.is_txn_vlog name then some (env.parse_txn_vlog_filename name).1
  else none

/-- The paths of the segments of the rowsets, of the files of `delvec_meta` and
    of the sstables of a metadata. -/
def live_paths (env : FsEnv) (data_dir : String) (metadata : TabletMetadataPB) :
    List String :=
  (metadata.rowsets.flatMap fun rowset => rowset.segments.map (env.join_path data_dir))
    ++ (((metadata.delvec_meta.getD []).map fun vf => env.join_path data_dir vf.2.name)
      ++ metadata.sstable_meta.map (env.join_path data_dir))

/-- The paths `delete_tablets_impl` asks to delete for one txn log it has
    listed: the files the log names, then the log itself; nothing when the log
    cannot be read. -/
def txn_log_paths (env : FsEnv) (data_dir log_dir : String) (log_name : String) : List String :=
  match env.get_txn_log (env.join_path log_dir log_name) with
  | StatusOr.error _ _ => []
  | StatusOr.value log =>
    (match log.op_write with
      | some op =>
        op.rowset.segments.map (env.join_path data_dir) ++ op.dels.map (env.join_path data_dir)
      | none => [])
    ++ ((match log.op_compaction with
      | some op => op.output_rowset.segments.map (env.join_path data_dir)
      | none => [])
    ++ ((match log.op_schema_change with
      | some op =>
        op.rowsets.flatMap fun rowset => rowset.segments.map (env.join_path data_dir)
      | none => [])
    ++ [env.join_path log_dir log_name]))

/-- Running `f` hands the deleter a prefix of `g`, all of `g` when `f` returns
    OK. -/
def Hands (g : List String)
    (f : AsyncFileDeleter × World → Status × (AsyncFileDeleter × World)) : Prop :=
  Emits (fun _ => True) (fun (x l : List String) => x ++ l)
    (fun (s : AsyncFileDeleter × World) => s.1.handed) g f

/-- The pairs of a tablet id and a version held in `tablet_versions`. -/
def version_pairs (tablet_versions : List (Int × List Int)) : List (Int × Int) :=
  tablet_versions.flatMap fun entry => entry.2.map fun version => (entry.1, version)

/-- The map `tablet_versions` as a list is well formed: no tablet comes twice,
    and every set of versions is non-empty, ascending and free of repetition. -/
def versions_wf (tablet_versions : List (Int × List Int)) : Prop :=
  (tablet_versions.map Prod.fst).Nodup ∧
  ∀ entry ∈ tablet_versions,
    entry.2 ≠ [] ∧ entry.2.Sorted (fun a b => a ≤ b) ∧ entry.2.Nodup

/-- The path `join_path(meta_dir, tablet_metadata_filename(tablet_id, version))`. -/
def metadata_path (env : FsEnv) (meta_dir : String) (tablet_id version : Int) : String :=
  env.join_path meta_dir (env.tablet_metadata_filename tablet_id version)

/-- What `part`, the paths handed to the deleter for one tablet and its listed
    versions, consists of: paths of the segment directory, among them the live
    files of the metadata of the highest listed version if that loads, then
    the metadata file of each listed version, in ascending order. -/
def purged_tablet (env : FsEnv) (data_dir meta_dir : String) (entry : Int × List Int)
    (part : List String) : Prop :=
  ∃ data, part = data ++ entry.2.map (metadata_path env meta_dir entry.1) ∧
    (∀ p ∈ data, is_data_path env.toEnv data_dir p) ∧
    ∀ metadata, env.get_tablet_metadata entry.1 (entry.2.getLastD 0) = StatusOr.value metadata →
      ∀ p ∈ live_paths env data_dir metadata, p ∈ data

/-- The listing of the metadata directory shows a tablet metadata file of the
    tablet `tablet_id`, one of `tablet_ids`, at the version `version`. -/
def listed_version (env : FsEnv) (meta_dir : String) (tablet_ids : List Int)
    (tablet_id version : Int) : Prop :=
  tablet_id ∈ tablet_ids ∧
  ∃ name ∈ (env.iterate_dir meta_dir).1, env.is_tablet_metadata name = true ∧
    env.parse_tablet_metadata_filename name = (tablet_id, version)

/-- The listing of the txn log directory shows the name, and it is that of a
    txn log, txn slog or txn vlog of one of `tablet_ids`. -/
def listed_txn_log (env : FsEnv) (log_dir : String) (tablet_ids : List Int)
    (name : String) : Prop :=
  name ∈ (env.iterate_dir log_dir).1 ∧
  ∃ tablet_id, txn_log_tablet_id env name = some tablet_id ∧ tablet_id ∈ tablet_ids

/-- The names of the files keep the listed metadata files apart: no path of the
    segment directory and no path of the txn log directory is the path of a
    listed metadata file, and two listed metadata files with the same path are
    of the same tablet and version. -/
def metadata_paths_apart (env : FsEnv) (root_dir : String) (tablet_ids : List Int) : Prop :=
  (∀ name t v,
    listed_version env (env.join_path root_dir env.kMetadataDirectoryName) tablet_ids t v →
    env.join_path (env.join_path root_dir env.kSegmentDirectoryName) name
      ≠ metadata_path env (env.join_path root_dir env.kMetadataDirectoryName) t v) ∧
  (∀ name t v,
    listed_version env (env.join_path root_dir env.kMetadataDirectoryName) tablet_ids t v →
    env.join_path (env.join_path root_dir env.kTxnLogDirectoryName) name
      ≠ metadata_path env (env.join_path root_dir env.kMetadataDirectoryName) t v) ∧
  ∀ t v t1 v1,
    listed_version env (env.join_path root_dir env.kMetadataDirectoryName) tablet_ids t v →
    listed_version env (env.join_path root_dir env.kMetadataDirectoryName) tablet_ids t1 v1 →
    metadata_path env (env.join_path root_dir env.kMetadataDirectoryName) t v
      = metadata_path env (env.join_path root_dir env.kMetadataDirectoryName) t1 v1 →
    t = t1 ∧ v = v1

/-- Tablet 7 at version 3, with one live segment, one delvec file, one sstable
    and one compaction input; it names version 2, which does not load, as the
    previous version with garbage. -/
def store_7_3 (tablet_id version : Int) : StatusOr TabletMetadataPB :=
  if tablet_id = 7 ∧ version = 3 then
    StatusOr.value
      { id := 7, version := 3, prev_garbage_version_field := some 2,
        rowsets := [{ segments := ["s1.dat"] }],
        compaction_inputs := [{ segments := ["old.dat"] }],
        delvec_meta := some [(3, { name := "d1.delvec" })],
        sstable_meta := ["k1.sst"] }
  else StatusOr.error ErrorCode.NotFound "not found"

/-- Collaborators for the removal of tablet 7: the txn log directory lists the
    txn log of transaction 99 of tablet 7, which wrote `w.dat` and `w.del`, a
    txn log of tablet 8 and `foo.txt`; the metadata directory lists the
    metadata files of tablet 7 at versions 3 and 2, one of tablet 8 and
    `readme`. -/
def purge_env : FsEnv :=
  { toEnv :=
      { example_env store_7_3 with
        is_txn_log := fun name => name = "7_99.log" ∨ name = "8_1.log"
        parse_txn_log_filename := fun name => if name = "7_99.log" then (7, 99) else (8, 1) }
    lake_vacuum_retry_max_attempts := 3
    lake_vacuum_retry_pattern := "*SlowDown*"
    lake_vacuum_retry_min_delay_ms := 100
    experimental_lake_wait_per_delete_ms := 0
    MatchPattern := fun _ _ => false
    fs_delete_files := fun _ _ => Status.OK
    iterate_dir := fun dir =>
      if dir = "root/log" then (["7_99.log", "8_1.log", "foo.txt"], Status.OK)
      else if dir = "root/meta" then (["7_3.meta", "8_1.meta", "7_2.meta", "readme"], Status.OK)
      else ([], Status.error ErrorCode.NotFound "no such directory")
    is_txn_vlog := fun _ => false
    parse_txn_vlog_filename := fun _ => (0, 0)
    is_tablet_metadata := fun name => name = "7_3.meta" ∨ name = "7_2.meta" ∨ name = "8_1.meta"
    parse_tablet_metadata_filename := fun name =>
      if name = "7_3.meta" then (7, 3) else if name = "7_2.meta" then (7, 2) else (8, 1)
    is_segment := fun _ => false
    is_sst := fun _ => false
    now := 1000
    load_tablet_metadata := fun _ => StatusOr.error ErrorCode.NotFound "no such file"
    get_txn_log := fun path =>
      if path = "root/log/7_99.log" then
        StatusOr.value
          { op_write := some { rowset := { segments := ["w.dat"] }, dels := ["w.del"] } }
      else StatusOr.error ErrorCode.NotFound "no such file" }

/-! ## Examples for the properties of single functions -/

/-- A snapshot of version 5 that records one compaction input of 7 bytes and
    one orphan file of 3 bytes. -/
def snapshot_5_with_garbage : TabletMetadataPB :=
  { id := 1, version := 5,
    compaction_inputs := [{ segments := ["a.dat"], data_size := 7 }],
    orphan_files := [{ name := "o.dat", size := 3 }] }

/-- The collaborators of `example_fs_env` with 40 retry attempts allowed. -/
def env_40_attempts : FsEnv :=
  { example_fs_env with lake_vacuum_retry_max_attempts := 40 }

/-- The paths given to `fs->delete_files` in a trace, in order. -/
def fs_deleted_paths (trace : List FsEvent) : List String :=
  trace.flatMap fun e =>
    match e with
    | FsEvent.delete_files paths => paths
    | FsEvent.sleep _ => []

/-- A tablet metadata that names the segment `a.dat`. -/
def metadata_naming_a : TabletMetadataPB :=
  { id := 1, version := 10, rowsets := [{ segments := ["a.dat"] }] }

/-- The collaborators of `example_fs_env`, with `load` for the outcome of
    loading the one listed metadata file, `root/meta/1_10.meta`. -/
def orphan_env (load : StatusOr TabletMetadataPB) : FsEnv :=
  { example_fs_env with
    load_tablet_metadata := fun path =>
      if path = "root/meta/1_10.meta" then load
      else StatusOr.error ErrorCode.NotFound "no such file" }

/-! ## Notions used to state the properties of the walks -/

/-- The calls of `get_tablet_metadata` in a world, in order, each as the pair
    of the tablet id and the version asked for. -/
def loads_of (w : World) : List (Int × Int) :=
  w.filterMap fun e =>
    match e with
    | Event.load tablet_id version => some (tablet_id, version)
    | _ => none

/-- The callback of a deleter loads no tablet metadata: passing a batch on
    causes no call of `get_tablet_metadata`. -/
def quiet_callback (cb : Option (List String → List Event)) : Prop :=
  ∀ files, loads_of (dispatch_events cb files) = []

/-- Whether the process was aborted. -/
def Outcome.is_aborted {σ : Type} : Outcome σ → Bool
  | Outcome.aborted _ => true
  | _ => false

/-- Whether the embedding ran out of loop fuel. -/
def Outcome.is_out_of_fuel {σ : Type} : Outcome σ → Bool
  | Outcome.out_of_fuel _ => true
  | _ => false

/-- Tablet 1 with the single snapshot 10, committed at 100, that names itself
    as the previous version with garbage. -/
def store_10_self (tablet_id version : Int) : StatusOr TabletMetadataPB :=
  if tablet_id = 1 ∧ version = 10 then
    StatusOr.value
      { id := 1, version := 10, commit_time_field := some 100,
        prev_garbage_version_field := some 10 }
  else StatusOr.error ErrorCode.NotFound "not found"

/-- Tablet 7 at version 3, a snapshot without garbage that names itself as the
    previous version with garbage. -/
def store_7_3_self (tablet_id version : Int) : StatusOr TabletMetadataPB :=
  if tablet_id = 7 ∧ version = 3 then
    StatusOr.value
      { id := 7, version := 3, prev_garbage_version_field := some 3,
        rowsets := [{ segments := ["s1.dat"] }] }
  else StatusOr.error ErrorCode.NotFound "not found"

/-- The collaborators of `purge_env` over the metadata store `store_7_3_self`. -/
def purge_env_self : FsEnv :=
  { purge_env with get_tablet_metadata := store_7_3_self }

/-! ## SegmentCacheUpdater

The method `_process_tasks` of `be/src/storage/lake/segment_cache_updater.cpp`.
The metacache and the flag `_stopped`, which other threads write, are external:
their answers are fields of `CacheEnv`, given what `_process_tasks` has done so
far. -/

/-- What `_process_tasks` does to its collaborators, in the order it does it. -/
inductive CacheEvent where
  /-- a read of the atomic `_stopped` -/
  | read_stopped
  /-- a call `_metacache->lookup_segment(path)` -/
  | lookup_segment (path : String)
  /-- a call `_metacache->cache_segment_if_present(path, mem_cost, hint)` and the
      value `done` it returned -/
  | cache_segment_if_present (path : String) (mem_cost : Int) (segment_addr_hint : Int)
      (done : Int)
  deriving DecidableEq, Repr

/-- A segment that `lookup_segment` found: the address of the object and the
    value of its `mem_usage()`. -/
structure SegmentRef where
  addr : Int
  mem_usage : Int
  deriving DecidableEq, Repr

/-- The collaborators of `SegmentCacheUpdater::_process_tasks`. -/
structure CacheEnv where
  /-- the value of `_stopped` when read after the given events -/
  stopped : List CacheEvent → Bool
  /-- the answer of `lookup_segment(path)` after the given events; `none` is
      the null pointer -/
  lookup_segment : List CacheEvent → String → Option SegmentRef
  /-- the answer of `cache_segment_if_present(path, mem_cost, hint)` after the
      given events -/
  cache_segment_if_present : List CacheEvent → String → Int → Int → Int

/-- The loop `for (const auto& task : tasks)` of `_process_tasks` on the set
    `processed_paths` and the trace. -/
def process_tasks_loop (env : CacheEnv) :
    List (String × Int) → List String × List CacheEvent → List String × List CacheEvent
  | [], s => s
  | task :: rest, s =>
    let trace0 := s.2 ++ [CacheEvent.read_stopped]
    if env.stopped s.2 then (s.1, trace0)
    else if task.1 ∈ s.1 then process_tasks_loop env rest (s.1, trace0)
    else
      let trace1 := trace0 ++ [CacheEvent.lookup_segment task.1]
      match env.lookup_segment trace0 task.1 with
      | none => process_tasks_loop env rest (s.1, trace1)
      | some seg =>
        if task.2 ≠ 0 ∧ seg.addr ≠ task.2 then process_tasks_loop env rest (s.1, trace1)
        else
          let mem_cost := seg.mem_usage
          let done := env.cache_segment_if_present trace1 task.1 mem_cost task.2
          let trace2 :=
            trace1 ++ [CacheEvent.cache_segment_if_present task.1 mem_cost task.2 done]
          if done ≠ 0 then process_tasks_loop env rest (set_emplace s.1 task.1, trace2)
          else process_tasks_loop env rest (s.1, trace2)

/-- Method `SegmentCacheUpdater::_process_tasks`, on the member `_segments`: the
    swap leaves `_segments` empty. The result holds `_segments` and the trace. -/
def SegmentCacheUpdater._process_tasks (env : CacheEnv) (_segments : List (String × Int))
    (trace : List CacheEvent) : List (String × Int) × List CacheEvent :=
  let tasks := _segments
  ([], (process_tasks_loop env tasks ([], trace)).2)

/-- The values returned by the calls of `cache_segment_if_present` for `path`
    in a trace, in order. -/
def cache_calls (path : String) (trace : List CacheEvent) : List Int :=
  trace.filterMap fun e =>
    match e with
    | CacheEvent.cache_segment_if_present p _ _ done => if p = path then some done else none
    | _ => none

/-- A metacache that holds every segment at address 1 with 10 bytes, and
    answers `done` to every call of `cache_segment_if_present`; `_stopped` is
    never set. -/
def cache_env (done : Int) : CacheEnv :=
  { stopped := fun _ => false
    lookup_segment := fun _ _ => some { addr := 1, mem_usage := 10 }
    cache_segment_if_present := fun _ _ _ _ => done }

/-- What holds of the set `processed_paths` and of the events of the run so
    far: the calls of `cache_segment_if_present` for a path returned 0, but for
    the last one when the path is in the set; every recorded value is an answer
    of the metacache. -/
def CacheRun (env : CacheEnv) (processed : List String) (added : List CacheEvent) : Prop :=
  ∀ path,
    (path ∈ processed →
      ∃ n d, d ≠ 0 ∧ cache_calls path added = List.replicate n 0 ++ [d]) ∧
    (path ∉ processed → ∃ n, cache_calls path added = List.replicate n 0) ∧
    ∀ d ∈ cache_calls path added, ∃ h m a, d = env.cache_segment_if_present h path m a

/-- Tablet 1 with the single snapshot 10, committed at 100, that names itself
    as the previous version with garbage and records the compaction inputs `a`
    and `b`. -/
def store_10_self_garbage (tablet_id version : Int) : StatusOr TabletMetadataPB :=
  if tablet_id = 1 ∧ version = 10 then
    StatusOr.value
      { id := 1, version := 10, commit_time_field := some 100,
        prev_garbage_version_field := some 10,
        compaction_inputs := [{ segments := ["a", "b"] }] }
  else StatusOr.error ErrorCode.NotFound "not found"

/-- The environment over `store_10_self_garbage` in which every deletion task
    fails. -/
def env_failing_tasks : Env :=
  { example_env store_10_self_garbage with
    task_status := fun _ _ => Status.error ErrorCode.IOError "disk" }

/-- The arguments of `example_args` with a data-file deleter of batch size 1. -/
def example_args_batch_1 (tablet_info : TabletInfoPB) : VacuumArgs :=
  { example_args tablet_info with datafile_deleter := { _batch_size := 1 } }
/-! # Properties -/

/-! ## Loops and early returns -/

theorem RETURN_IF_ERROR_ok {σ : Type} (r : Status × σ) (rest : σ → Status × σ)
    (h : r.1 = Status.OK) : RETURN_IF_ERROR r rest = rest r.2 := by
  unfold RETURN_IF_ERROR
  rw [h]

theorem RETURN_IF_ERROR_error {σ : Type} (r : Status × σ) (rest : σ → Status × σ)
    (h : r.1 ≠ Status.OK) : RETURN_IF_ERROR r rest = r := by
  unfold RETURN_IF_ERROR
  rcases r with ⟨st, s⟩
  cases st with
  | OK => exact absurd rfl h
  | error c m => rfl

theorem for_each_nil {α σ : Type} (body : α → σ → Status × σ) (s : σ) :
    for_each body [] s = (Status.OK, s) := rfl

theorem for_each_cons_ok {α σ : Type} (body : α → σ → Status × σ) (x : α) (xs : List α) (s : σ)
    (h : (body x s).1 = Status.OK) :
    for_each body (x :: xs) s = for_each body xs (body x s).2 := by
  simp only [for_each]
  rw [h]

theorem for_each_cons_error {α σ : Type} (body : α → σ → Status × σ) (x : α) (xs : List α)
    (s : σ) (h : (body x s).1 ≠ Status.OK) :
    for_each body (x :: xs) s = body x s := by
  simp only [for_each]
  rcases hb : body x s with ⟨st, s1⟩
  rw [hb] at h
  cases st with
  | OK => exact absurd rfl h
  | error c m => rfl

/-- An invariant of the loop body is an invariant of the loop. -/
theorem for_each_invariant {α σ : Type} (body : α → σ → Status × σ) (P : σ → Prop)
    (xs : List α) (hbody : ∀ x ∈ xs, ∀ s, P s → P (body x s).2) (s : σ) (hs : P s) :
    P (for_each body xs s).2 := by
  induction xs generalizing s with
  | nil => exact hs
  | cons x xs ih =>
    by_cases h : (body x s).1 = Status.OK
    · rw [for_each_cons_ok body x xs s h]
      exact ih (fun y hy => hbody y (List.mem_cons_of_mem x hy)) _
        (hbody x (List.mem_cons_self x xs) s hs)
    · rw [for_each_cons_error body x xs s h]
      exact hbody x (List.mem_cons_self x xs) s hs

/-- A loop whose body always returns OK returns OK. -/
theorem for_each_ok {α σ : Type} (body : α → σ → Status × σ) (xs : List α)
    (hbody : ∀ x ∈ xs, ∀ s, (body x s).1 = Status.OK) (s : σ) :
    (for_each body xs s).1 = Status.OK := by
  induction xs generalizing s with
  | nil => rfl
  | cons x xs ih =>
    rw [for_each_cons_ok body x xs s (hbody x (List.mem_cons_self x xs) s)]
    exact ih (fun y hy => hbody y (List.mem_cons_of_mem x hy)) _

theorem Emits.of_frame {σ γ β : Type} {I : σ → Prop} {act : γ → List β → γ} {obs : σ → γ}
    (hnil : ∀ x, act x [] = x) (f : σ → Status × σ) (hI : ∀ s, I s → I (f s).2)
    (h : ∀ s, I s → obs (f s).2 = obs s) : Emits I act obs [] f := by
  intro s hs
  exact ⟨hI s hs, [], List.prefix_rfl, by rw [h s hs, hnil], fun _ => rfl⟩

theorem Emits.of_always {σ γ β : Type} {I : σ → Prop} {act : γ → List β → γ} {obs : σ → γ}
    (g : List β) (f : σ → Status × σ) (hI : ∀ s, I s → I (f s).2)
    (h : ∀ s, I s → obs (f s).2 = act (obs s) g) : Emits I act obs g f := by
  intro s hs
  exact ⟨hI s hs, g, List.prefix_rfl, h s hs, fun _ => rfl⟩

theorem Emits.seq {σ γ β : Type} {I : σ → Prop} {act : γ → List β → γ} {obs : σ → γ}
    (happ : ∀ x l₁ l₂, act (act x l₁) l₂ = act x (l₁ ++ l₂))
    {g₁ g₂ : List β} {f : σ → Status × σ} {rest : σ → Status × σ}
    (h₁ : Emits I act obs g₁ f) (h₂ : Emits I act obs g₂ rest) :
    Emits I act obs (g₁ ++ g₂) (fun s => RETURN_IF_ERROR (f s) rest) := by
  intro s hs
  obtain ⟨hI₁, l₁, hp₁, ho₁, hk₁⟩ := h₁ s hs
  by_cases hst : (f s).1 = Status.OK
  · obtain ⟨hI₂, l₂, hp₂, ho₂, hk₂⟩ := h₂ (f s).2 hI₁
    rw [hk₁ hst] at ho₁
    refine ⟨?_, g₁ ++ l₂, (List.prefix_append_right_inj g₁).2 hp₂, ?_, ?_⟩
    · show I (RETURN_IF_ERROR (f s) rest).2
      rw [RETURN_IF_ERROR_ok _ _ hst]
      exact hI₂
    · show obs (RETURN_IF_ERROR (f s) rest).2 = _
      rw [RETURN_IF_ERROR_ok _ _ hst, ho₂, ho₁, happ]
    · intro hok
      have hok2 : (rest (f s).2).1 = Status.OK := by
        have := hok
        simp only [RETURN_IF_ERROR_ok _ _ hst] at this
        exact this
      rw [hk₂ hok2]
  · refine ⟨?_, l₁, hp₁.trans (List.prefix_append g₁ g₂), ?_, ?_⟩
    · show I (RETURN_IF_ERROR (f s) rest).2
      rw [RETURN_IF_ERROR_error _ _ hst]
      exact hI₁
    · show obs (RETURN_IF_ERROR (f s) rest).2 = _
      rw [RETURN_IF_ERROR_error _ _ hst, ho₁]
    · intro hok
      have := hok
      simp only [RETURN_IF_ERROR_error _ _ hst] at this
      exact absurd this hst

theorem Emits.for_each {α σ γ β : Type} {I : σ → Prop} {act : γ → List β → γ} {obs : σ → γ}
    (hnil : ∀ x, act x [] = x) (happ : ∀ x l₁ l₂, act (act x l₁) l₂ = act x (l₁ ++ l₂))
    (g : α → List β) (body : α → σ → Status × σ) (xs : List α)
    (h : ∀ x ∈ xs, Emits I act obs (g x) (body x)) :
    Emits I act obs (xs.flatMap g) (starrocks.lake.for_each body xs) := by
  induction xs with
  | nil =>
    intro s hs
    exact ⟨hs, [], List.prefix_rfl, by rw [for_each_nil, hnil], fun _ => rfl⟩
  | cons x xs ih =>
    intro s hs
    have ih := ih (fun y hy => h y (List.mem_cons_of_mem x hy))
    obtain ⟨hI₁, l₁, hp₁, ho₁, hk₁⟩ := h x (List.mem_cons_self x xs) s hs
    rw [List.flatMap_cons]
    by_cases hst : (body x s).1 = Status.OK
    · obtain ⟨hI₂, l₂, hp₂, ho₂, hk₂⟩ := ih (body x s).2 hI₁
      rw [hk₁ hst] at ho₁
      rw [for_each_cons_ok body x xs s hst]
      exact ⟨hI₂, g x ++ l₂, (List.prefix_append_right_inj (g x)).2 hp₂,
        by rw [ho₂, ho₁, happ], fun hok => by rw [hk₂ hok]⟩
    · rw [for_each_cons_error body x xs s hst]
      exact ⟨hI₁, l₁, hp₁.trans (List.prefix_append _ _), ho₁, fun hok => absurd hok hst⟩

/-- A loop over single emissions: `for_each` over `xs` where the body for `x`
    emits the one element `g x`. -/
theorem Emits.for_each_map {α σ γ β : Type} {I : σ → Prop} {act : γ → List β → γ}
    {obs : σ → γ} (hnil : ∀ x, act x [] = x)
    (happ : ∀ x l₁ l₂, act (act x l₁) l₂ = act x (l₁ ++ l₂))
    (g : α → β) (body : α → σ → Status × σ) (xs : List α)
    (h : ∀ x ∈ xs, Emits I act obs [g x] (body x)) :
    Emits I act obs (xs.map g) (starrocks.lake.for_each body xs) := by
  have := Emits.for_each hnil happ (fun x => [g x]) body xs h
  have e : xs.flatMap (fun x => [g x]) = xs.map g := by
    induction xs with
    | nil => rfl
    | cons x xs ih =>
      rw [List.flatMap_cons, List.map_cons, ih (fun y hy => h y (List.mem_cons_of_mem x hy))
        (Emits.for_each hnil happ (fun x => [g x]) body xs
          (fun y hy => h y (List.mem_cons_of_mem x hy)))]
      rfl
  rw [e] at this
  exact this

/-! ## AsyncFileDeleter -/

theorem AsyncFileDeleter.wait_fields (d : AsyncFileDeleter) :
    d.wait.2._batch = d._batch ∧ d.wait.2.submitted = d.submitted ∧
    d.wait.2._batch_size = d._batch_size ∧ d.wait.2._delete_count = d._delete_count ∧
    d.wait.2._cb = d._cb ∧ d.wait.2._prev_task_status = none := by
  unfold AsyncFileDeleter.wait
  cases h : d._prev_task_status <;> simp [h]

theorem AsyncFileDeleter.wait_status (d : AsyncFileDeleter) :
    d.wait.1 = d._prev_task_status.getD Status.OK := by
  unfold AsyncFileDeleter.wait
  cases d._prev_task_status <;> simp

theorem AsyncFileDeleter.submit_error (env : Env) (d : AsyncFileDeleter) (w : World)
    (c : ErrorCode) (m : String) (h : d.wait.1 = Status.error c m) :
    d.submit env w = (Status.error c m, d.wait.2, w) := by
  unfold AsyncFileDeleter.submit
  rw [h]

theorem AsyncFileDeleter.submit_ok (env : Env) (d : AsyncFileDeleter) (w : World)
    (h : d.wait.1 = Status.OK) :
    d.submit env w =
      (Status.OK,
        { d.wait.2 with
          _delete_count := d.wait.2._delete_count + (d.wait.2._batch.length : Int)
          _prev_task_status := some (delete_files_callable env d.wait.2._batch
            (match d.wait.2._cb with
              | some cb => w ++ cb d.wait.2._batch
              | none => w)).1
          _batch := []
          submitted := d.wait.2.submitted ++ [d.wait.2._batch] },
        (delete_files_callable env d.wait.2._batch
            (match d.wait.2._cb with
              | some cb => w ++ cb d.wait.2._batch
              | none => w)).2) := by
  unfold AsyncFileDeleter.submit
  rw [h]

/-- Whatever `submit` returns, the paths the deleter has been given, its batch
    size and its callback stay the same, and the count stays in step. -/
theorem AsyncFileDeleter.submit_frame (env : Env) (d : AsyncFileDeleter) (w : World) :
    (d.submit env w).2.1.handed = d.handed ∧
    (d.submit env w).2.1._batch_size = d._batch_size ∧
    (d.submit env w).2.1._cb = d._cb ∧
    (d.counted → (d.submit env w).2.1.counted) := by
  obtain ⟨hb, hs, hbs, hc, hcb, _⟩ := d.wait_fields
  cases h : d.wait.1 with
  | error c m =>
    rw [AsyncFileDeleter.submit_error env d w c m h]
    refine ⟨?_, hbs, hcb, ?_⟩
    · simp only [AsyncFileDeleter.handed, hb, hs]
    · intro hcnt
      simp only [AsyncFileDeleter.counted, hc, hs] at *
      exact hcnt
  | OK =>
    rw [AsyncFileDeleter.submit_ok env d w h]
    refine ⟨?_, hbs, hcb, ?_⟩
    · simp only [AsyncFileDeleter.handed, hb, hs, List.flatten_append, List.flatten_cons,
        List.flatten_nil, List.append_nil]
    · intro hcnt
      simp only [AsyncFileDeleter.counted, hc, hs, hb, List.flatten_append, List.flatten_cons,
        List.flatten_nil, List.append_nil, List.length_append] at *
      rw [hcnt]
      push_cast
      ring

/-- After a `submit` that returned OK the batch is empty. -/
theorem AsyncFileDeleter.submit_ok_batch (env : Env) (d : AsyncFileDeleter) (w : World)
    (h : (d.submit env w).1 = Status.OK) : (d.submit env w).2.1._batch = [] := by
  cases hw : d.wait.1 with
  | error c m =>
    rw [AsyncFileDeleter.submit_error env d w c m hw] at h
    exact absurd h (by simp)
  | OK =>
    rw [AsyncFileDeleter.submit_ok env d w hw]

/-- Method `delete_file` records exactly the path it is given, whatever it
    returns. -/
theorem AsyncFileDeleter.delete_file_frame (env : Env) (path : String) (d : AsyncFileDeleter)
    (w : World) :
    (d.delete_file env path w).2.1.handed = d.handed ++ [path] ∧
    (d.delete_file env path w).2.1._batch_size = d._batch_size ∧
    (d.delete_file env path w).2.1._cb = d._cb ∧
    (d.counted → (d.delete_file env path w).2.1.counted) := by
  unfold AsyncFileDeleter.delete_file
  simp only
  split
  · refine ⟨?_, rfl, rfl, fun h => h⟩
    simp only [AsyncFileDeleter.handed, List.append_assoc]
  · obtain ⟨h1, h2, h3, h4⟩ :=
      AsyncFileDeleter.submit_frame env { d with _batch := d._batch ++ [path] } w
    refine ⟨?_, h2, h3, fun h => h4 h⟩
    rw [h1]
    simp only [AsyncFileDeleter.handed, List.append_assoc]

/-- Method `finish` gives the deleter no new path; when it returns OK every
    path given so far has been passed on in a batch. -/
theorem AsyncFileDeleter.finish_frame (env : Env) (d : AsyncFileDeleter) (w : World) :
    (d.finish env w).2.1.handed = d.handed ∧
    (d.counted → (d.finish env w).2.1.counted) ∧
    ((d.finish env w).1 = Status.OK → (d.finish env w).2.1._batch = []) := by
  unfold AsyncFileDeleter.finish
  by_cases hb : d._batch.isEmpty = true
  · rw [if_pos hb]
    obtain ⟨h1, h2, _, h4, _, _⟩ := d.wait_fields
    refine ⟨?_, ?_, ?_⟩
    · simp only [AsyncFileDeleter.handed, h1, h2]
    · intro hc
      simp only [AsyncFileDeleter.counted, h2, h4] at *
      exact hc
    · intro _
      simp only [h1]
      exact List.isEmpty_iff.1 hb
  · rw [if_neg hb]
    obtain ⟨s1, s2, s3, s4⟩ := AsyncFileDeleter.submit_frame env d w
    cases hs : (d.submit env w).1 with
    | error c m =>
      simp only
      refine ⟨s1, s4, ?_⟩
      intro h
      exact absurd h (by simp)
    | OK =>
      simp only
      obtain ⟨h1, h2, _, h4, _, _⟩ := (d.submit env w).2.1.wait_fields
      refine ⟨?_, ?_, ?_⟩
      · rw [← s1]
        simp only [AsyncFileDeleter.handed, h1, h2]
      · intro hc
        have := s4 hc
        simp only [AsyncFileDeleter.counted, h2, h4] at *
        exact this
      · intro _
        rw [h1]
        exact AsyncFileDeleter.submit_ok_batch env d w hs

theorem delete_files_callable_world (env : Env) (files : List String) (w : World) :
    w <+: (delete_files_callable env files w).2 := by
  unfold delete_files_callable
  split
  · exact List.prefix_rfl
  · exact List.prefix_append _ _

theorem AsyncFileDeleter.submit_world (env : Env) (d : AsyncFileDeleter) (w : World) :
    w <+: (d.submit env w).2.2 := by
  cases h : d.wait.1 with
  | error c m =>
    rw [AsyncFileDeleter.submit_error env d w c m h]
  | OK =>
    rw [AsyncFileDeleter.submit_ok env d w h]
    refine List.IsPrefix.trans ?_ (delete_files_callable_world env _ _)
    cases d.wait.2._cb with
    | none => exact List.prefix_rfl
    | some cb => exact List.prefix_append _ _

theorem AsyncFileDeleter.delete_file_world (env : Env) (path : String) (d : AsyncFileDeleter)
    (w : World) : w <+: (d.delete_file env path w).2.2 := by
  unfold AsyncFileDeleter.delete_file
  simp only
  split
  · exact List.prefix_rfl
  · exact AsyncFileDeleter.submit_world env _ w

theorem AsyncFileDeleter.finish_world (env : Env) (d : AsyncFileDeleter) (w : World) :
    w <+: (d.finish env w).2.2 := by
  unfold AsyncFileDeleter.finish
  split
  · exact List.prefix_rfl
  · cases hs : (d.submit env w).1 with
    | error c m => exact AsyncFileDeleter.submit_world env d w
    | OK => exact AsyncFileDeleter.submit_world env d w

/-- When the count is in step and the batch is empty, the count is the number
    of paths the deleter was given. -/
theorem AsyncFileDeleter.delete_count_eq (d : AsyncFileDeleter) (hc : d.counted)
    (hb : d._batch = []) : d.delete_count = (d.handed.length : Int) := by
  simp only [AsyncFileDeleter.delete_count, AsyncFileDeleter.handed, hb, List.append_nil]
  exact hc


/-! ## collect_garbage_files -/

theorem pending_add_nil (m : List (String × Nat)) : pending_add m [] = m := rfl

theorem pending_add_append (m : List (String × Nat)) (l₁ l₂ : List String) :
    pending_add (pending_add m l₁) l₂ = pending_add m (l₁ ++ l₂) := by
  simp only [pending_add, List.foldl_append]

theorem GarbageFrame.refl (s : GarbageState) : GarbageFrame s s :=
  ⟨rfl, rfl, fun h => h, rfl, rfl, rfl, List.prefix_rfl⟩

theorem GarbageState.delete_file_garbage_frame (env : Env) (path : String) (s0 s : GarbageState)
    (h : GarbageFrame s0 s) : GarbageFrame s0 (s.delete_file env path).2 := by
  obtain ⟨h1, h2, h3, h4, h5, h6, h7⟩ := h
  obtain ⟨_, f2, f3, f4⟩ := AsyncFileDeleter.delete_file_frame env path s.deleter s.world
  exact ⟨f2.trans h1, f3.trans h2, fun hc => f4 (h3 hc), h4, h5, h6,
    h7.trans (AsyncFileDeleter.delete_file_world env path s.deleter s.world)⟩

theorem GarbageState.delete_file_plain (env : Env) (path : String) (s0 : GarbageState) :
    Emits (GarbageFrame s0) (fun (x l : List String) => x ++ l) (fun s => s.deleter.handed)
      [path] (GarbageState.delete_file env path) :=
  Emits.of_always [path] _ (GarbageState.delete_file_garbage_frame env path s0)
    (fun s _ => (AsyncFileDeleter.delete_file_frame env path s.deleter s.world).1)

theorem GarbageState.delete_file_bundle (env : Env) (path : String) (s0 : GarbageState) :
    Emits (GarbageFrame s0) pending_add (fun s => pending_of s.bundle_file_deleter)
      [] (GarbageState.delete_file env path) :=
  Emits.of_frame pending_add_nil _ (GarbageState.delete_file_garbage_frame env path s0)
    (fun _ _ => rfl)

theorem collect_garbage_segment_frame (env : Env) (base_dir : String)
    (rowset : RowsetMetadataPB) (segment : String) (s0 s : GarbageState)
    (h : GarbageFrame s0 s) :
    GarbageFrame s0 (collect_garbage_segment env base_dir rowset segment s).2 := by
  unfold collect_garbage_segment
  cases hb : s.bundle_file_deleter with
  | none => exact GarbageState.delete_file_garbage_frame env _ s0 s h
  | some b =>
    simp only
    split
    · obtain ⟨h1, h2, h3, h4, h5, h6, h7⟩ := h
      rw [hb] at h4 h5 h6
      exact ⟨h1, h2, h3, h4, h5, h6, h7⟩
    · exact GarbageState.delete_file_garbage_frame env _ s0 s h

theorem collect_garbage_segment_plain (env : Env) (base_dir : String)
    (rowset : RowsetMetadataPB) (segment : String) (s0 : GarbageState) :
    Emits (GarbageFrame s0) (fun (x l : List String) => x ++ l) (fun s => s.deleter.handed)
      (if s0.bundle_file_deleter.isSome = true ∧ rowset.bundle_file_offsets.length > 0 then []
        else [env.join_path base_dir segment])
      (collect_garbage_segment env base_dir rowset segment) := by
  intro s hs
  refine ⟨collect_garbage_segment_frame env base_dir rowset segment s0 s hs, ?_⟩
  have hsome := hs.2.2.2.1
  unfold collect_garbage_segment
  cases hb : s.bundle_file_deleter with
  | none =>
    rw [hb] at hsome
    have : ¬ (s0.bundle_file_deleter.isSome = true ∧ rowset.bundle_file_offsets.length > 0) := by
      rw [← hsome]
      simp
    rw [if_neg this]
    exact ⟨_, List.prefix_rfl,
      (AsyncFileDeleter.delete_file_frame env _ s.deleter s.world).1, fun _ => rfl⟩
  | some b =>
    rw [hb] at hsome
    simp only
    by_cases ho : rowset.bundle_file_offsets.length > 0
    · rw [if_pos ho, if_pos ⟨hsome.symm, ho⟩]
      exact ⟨[], List.prefix_rfl, by simp, fun _ => rfl⟩
    · rw [if_neg ho, if_neg (fun h => ho h.2)]
      exact ⟨_, List.prefix_rfl,
        (AsyncFileDeleter.delete_file_frame env _ s.deleter s.world).1, fun _ => rfl⟩

theorem collect_garbage_segment_bundle (env : Env) (base_dir : String)
    (rowset : RowsetMetadataPB) (segment : String) (s0 : GarbageState) :
    Emits (GarbageFrame s0) pending_add (fun s => pending_of s.bundle_file_deleter)
      (if s0.bundle_file_deleter.isSome = true ∧ rowset.bundle_file_offsets.length > 0 then
        [env.join_path base_dir segment] else [])
      (collect_garbage_segment env base_dir rowset segment) := by
  intro s hs
  refine ⟨collect_garbage_segment_frame env base_dir rowset segment s0 s hs, ?_⟩
  have hsome := hs.2.2.2.1
  unfold collect_garbage_segment
  cases hb : s.bundle_file_deleter with
  | none =>
    rw [hb] at hsome
    have : ¬ (s0.bundle_file_deleter.isSome = true ∧ rowset.bundle_file_offsets.length > 0) := by
      rw [← hsome]
      simp
    rw [if_neg this]
    refine ⟨[], List.prefix_rfl, ?_, fun _ => rfl⟩
    simp only [GarbageState.delete_file, hb, pending_add_nil]
  | some b =>
    rw [hb] at hsome
    simp only
    by_cases ho : rowset.bundle_file_offsets.length > 0
    · rw [if_pos ho, if_pos ⟨hsome.symm, ho⟩]
      exact ⟨_, List.prefix_rfl, by rw [hb]; rfl, fun _ => rfl⟩
    · rw [if_neg ho, if_neg (fun h => ho h.2)]
      refine ⟨[], List.prefix_rfl, ?_, fun _ => rfl⟩
      simp only [GarbageState.delete_file, hb, pending_add_nil]

theorem flatMap_ite_singleton {α β : Type} (c : Prop) [Decidable c] (f : α → β) (xs : List α) :
    xs.flatMap (fun x => if c then [] else [f x]) = if c then [] else xs.map f := by
  by_cases h : c
  · simp only [if_pos h]
    induction xs with
    | nil => rfl
    | cons x xs ih => rw [List.flatMap_cons, ih]; rfl
  · simp only [if_neg h]
    induction xs with
    | nil => rfl
    | cons x xs ih => rw [List.flatMap_cons, ih]; rfl

theorem flatMap_ite_singleton' {α β : Type} (c : Prop) [Decidable c] (f : α → β) (xs : List α) :
    xs.flatMap (fun x => if c then [f x] else []) = if c then xs.map f else [] := by
  by_cases h : c
  · simp only [if_pos h]
    induction xs with
    | nil => rfl
    | cons x xs ih => rw [List.flatMap_cons, ih]; rfl
  · simp only [if_neg h]
    induction xs with
    | nil => rfl
    | cons x xs ih => rw [List.flatMap_cons, ih]; rfl

theorem GarbageFrame.set_size (s0 s : GarbageState) (n : Int) (h : GarbageFrame s0 s) :
    GarbageFrame s0 { s with garbage_data_size := n } := h

theorem collect_garbage_rowset_plain (env : Env) (base_dir : String)
    (rowset : RowsetMetadataPB) (s0 : GarbageState) :
    Emits (GarbageFrame s0) (fun (x l : List String) => x ++ l) (fun s => s.deleter.handed)
      (rowset_plain_paths env base_dir s0.bundle_file_deleter.isSome rowset)
      (collect_garbage_rowset env base_dir rowset) := by
  have hnil : ∀ x : List String, x ++ [] = x := List.append_nil
  have happ : ∀ x l₁ l₂ : List String, (x ++ l₁) ++ l₂ = x ++ (l₁ ++ l₂) := List.append_assoc
  have h1 := Emits.for_each hnil happ _ _ rowset.segments
    (fun segment _ => collect_garbage_segment_plain env base_dir rowset segment s0)
  have h2 := Emits.for_each_map hnil happ (env.join_path base_dir)
    (fun del_file (s : GarbageState) => s.delete_file env (env.join_path base_dir del_file))
    rowset.del_files
    (fun del_file _ => GarbageState.delete_file_plain env (env.join_path base_dir del_file) s0)
  have h3 : Emits (GarbageFrame s0) (fun (x l : List String) => x ++ l)
      (fun s => s.deleter.handed) []
      (fun s2 : GarbageState =>
        (Status.OK, { s2 with garbage_data_size := s2.garbage_data_size + rowset.data_size })) :=
    Emits.of_frame hnil _ (fun s hs => hs) (fun _ _ => rfl)
  have h := Emits.seq happ h1 (Emits.seq happ h2 h3)
  rw [flatMap_ite_singleton, List.append_nil] at h
  exact h

theorem collect_garbage_rowset_bundle (env : Env) (base_dir : String)
    (rowset : RowsetMetadataPB) (s0 : GarbageState) :
    Emits (GarbageFrame s0) pending_add (fun s => pending_of s.bundle_file_deleter)
      (rowset_bundle_paths env base_dir s0.bundle_file_deleter.isSome rowset)
      (collect_garbage_rowset env base_dir rowset) := by
  have h1 := Emits.for_each pending_add_nil pending_add_append _ _ rowset.segments
    (fun segment _ => collect_garbage_segment_bundle env base_dir rowset segment s0)
  have h2 := Emits.for_each pending_add_nil pending_add_append (fun _ => [])
    (fun del_file (s : GarbageState) => s.delete_file env (env.join_path base_dir del_file))
    rowset.del_files
    (fun del_file _ => GarbageState.delete_file_bundle env (env.join_path base_dir del_file) s0)
  have h3 : Emits (GarbageFrame s0) pending_add (fun s => pending_of s.bundle_file_deleter) []
      (fun s2 : GarbageState =>
        (Status.OK, { s2 with garbage_data_size := s2.garbage_data_size + rowset.data_size })) :=
    Emits.of_frame pending_add_nil _ (fun s hs => hs) (fun _ _ => rfl)
  have h := Emits.seq pending_add_append h1 (Emits.seq pending_add_append h2 h3)
  have e : rowset.del_files.flatMap (fun _ => ([] : List String)) = [] := by
    induction rowset.del_files with
    | nil => rfl
    | cons x xs ih => rw [List.flatMap_cons, ih]; rfl
  rw [flatMap_ite_singleton', e, List.append_nil, List.append_nil] at h
  exact h

theorem collect_garbage_orphan_plain (env : Env) (base_dir : String) (file : FileMetaPB)
    (s0 : GarbageState) :
    Emits (GarbageFrame s0) (fun (x l : List String) => x ++ l) (fun s => s.deleter.handed)
      [env.join_path base_dir file.name] (collect_garbage_orphan env base_dir file) := by
  have hnil : ∀ x : List String, x ++ [] = x := List.append_nil
  have happ : ∀ x l₁ l₂ : List String, (x ++ l₁) ++ l₂ = x ++ (l₁ ++ l₂) := List.append_assoc
  have h3 : Emits (GarbageFrame s0) (fun (x l : List String) => x ++ l)
      (fun s => s.deleter.handed) []
      (fun s1 : GarbageState =>
        (Status.OK, { s1 with garbage_data_size := s1.garbage_data_size + file.size })) :=
    Emits.of_frame hnil _ (fun s hs => hs) (fun _ _ => rfl)
  exact Emits.seq happ
    (GarbageState.delete_file_plain env (env.join_path base_dir file.name) s0) h3

theorem collect_garbage_orphan_bundle (env : Env) (base_dir : String) (file : FileMetaPB)
    (s0 : GarbageState) :
    Emits (GarbageFrame s0) pending_add (fun s => pending_of s.bundle_file_deleter)
      [] (collect_garbage_orphan env base_dir file) := by
  have h3 : Emits (GarbageFrame s0) pending_add (fun s => pending_of s.bundle_file_deleter) []
      (fun s1 : GarbageState =>
        (Status.OK, { s1 with garbage_data_size := s1.garbage_data_size + file.size })) :=
    Emits.of_frame pending_add_nil _ (fun s hs => hs) (fun _ _ => rfl)
  exact Emits.seq pending_add_append
    (GarbageState.delete_file_bundle env (env.join_path base_dir file.name) s0) h3

/-- The plain deleter receives from `collect_garbage_files` a prefix of the
    plain garbage paths of the snapshot, all of them when it returns OK. -/
theorem collect_garbage_files_plain (env : Env) (metadata : TabletMetadataPB)
    (base_dir : String) (s0 : GarbageState) :
    Emits (GarbageFrame s0) (fun (x l : List String) => x ++ l) (fun s => s.deleter.handed)
      (plain_garbage_paths env base_dir s0.bundle_file_deleter.isSome metadata)
      (collect_garbage_files env metadata base_dir) := by
  have hnil : ∀ x : List String, x ++ [] = x := List.append_nil
  have happ : ∀ x l₁ l₂ : List String, (x ++ l₁) ++ l₂ = x ++ (l₁ ++ l₂) := List.append_assoc
  have h1 := Emits.for_each hnil happ _ _ metadata.compaction_inputs
    (fun rowset _ => collect_garbage_rowset_plain env base_dir rowset s0)
  have h2 := Emits.for_each_map hnil happ
    (fun file : FileMetaPB => env.join_path base_dir file.name) _ metadata.orphan_files
    (fun file _ => collect_garbage_orphan_plain env base_dir file s0)
  exact Emits.seq happ h1 h2

/-- The bundle deleter receives from `collect_garbage_files` a prefix of the
    bundle garbage paths of the snapshot, all of them when it returns OK. -/
theorem collect_garbage_files_bundle (env : Env) (metadata : TabletMetadataPB)
    (base_dir : String) (s0 : GarbageState) :
    Emits (GarbageFrame s0) pending_add (fun s => pending_of s.bundle_file_deleter)
      (bundle_garbage_paths env base_dir s0.bundle_file_deleter.isSome metadata)
      (collect_garbage_files env metadata base_dir) := by
  have h1 := Emits.for_each pending_add_nil pending_add_append _ _ metadata.compaction_inputs
    (fun rowset _ => collect_garbage_rowset_bundle env base_dir rowset s0)
  have h2 := Emits.for_each pending_add_nil pending_add_append (fun _ => [])
    (collect_garbage_orphan env base_dir) metadata.orphan_files
    (fun file _ => collect_garbage_orphan_bundle env base_dir file s0)
  have e : metadata.orphan_files.flatMap (fun _ => ([] : List String)) = [] := by
    induction metadata.orphan_files with
    | nil => rfl
    | cons x xs ih => rw [List.flatMap_cons, ih]; rfl
  have h := Emits.seq pending_add_append h1 h2
  rw [e, List.append_nil] at h
  exact h

theorem mem_rowset_plain_paths (env : Env) (base_dir : String) (hb : Bool)
    (rowset : RowsetMetadataPB) (p : String) (h : p ∈ rowset_plain_paths env base_dir hb rowset) :
    (∃ segment ∈ rowset.segments, p = env.join_path base_dir segment) ∨
    (∃ del_file ∈ rowset.del_files, p = env.join_path base_dir del_file) := by
  unfold rowset_plain_paths at h
  rcases List.mem_append.1 h with h | h
  · split at h
    · exact absurd h (List.not_mem_nil p)
    · obtain ⟨x, hx, rfl⟩ := List.mem_map.1 h
      exact Or.inl ⟨x, hx, rfl⟩
  · obtain ⟨x, hx, rfl⟩ := List.mem_map.1 h
    exact Or.inr ⟨x, hx, rfl⟩

theorem mem_plain_garbage_paths (env : Env) (base_dir : String) (hb : Bool)
    (metadata : TabletMetadataPB) (p : String)
    (h : p ∈ plain_garbage_paths env base_dir hb metadata) :
    is_garbage_path env base_dir metadata p := by
  unfold plain_garbage_paths at h
  rcases List.mem_append.1 h with h | h
  · obtain ⟨rowset, hr, hp⟩ := List.mem_flatMap.1 h
    exact Or.inl ⟨rowset, hr, mem_rowset_plain_paths env base_dir hb rowset p hp⟩
  · obtain ⟨file, hf, rfl⟩ := List.mem_map.1 h
    exact Or.inr ⟨file, hf, rfl⟩

theorem mem_bundle_garbage_paths (env : Env) (base_dir : String) (hb : Bool)
    (metadata : TabletMetadataPB) (p : String)
    (h : p ∈ bundle_garbage_paths env base_dir hb metadata) :
    is_garbage_path env base_dir metadata p := by
  unfold bundle_garbage_paths at h
  obtain ⟨rowset, hr, hp⟩ := List.mem_flatMap.1 h
  unfold rowset_bundle_paths at hp
  split at hp
  · obtain ⟨x, hx, rfl⟩ := List.mem_map.1 hp
    exact Or.inl ⟨rowset, hr, Or.inl ⟨x, hx, rfl⟩⟩
  · exact absurd hp (List.not_mem_nil p)

/-- What one call of `collect_garbage_files` does to the two deleters. -/
theorem collect_garbage_files_spec (env : Env) (metadata : TabletMetadataPB)
    (base_dir : String) (s : GarbageState) :
    GarbageFrame s (collect_garbage_files env metadata base_dir s).2 ∧
    (∃ l, l <+: plain_garbage_paths env base_dir s.bundle_file_deleter.isSome metadata ∧
      (collect_garbage_files env metadata base_dir s).2.deleter.handed = s.deleter.handed ++ l ∧
      ((collect_garbage_files env metadata base_dir s).1 = Status.OK →
        l = plain_garbage_paths env base_dir s.bundle_file_deleter.isSome metadata)) ∧
    (∃ l, l <+: bundle_garbage_paths env base_dir s.bundle_file_deleter.isSome metadata ∧
      pending_of (collect_garbage_files env metadata base_dir s).2.bundle_file_deleter
        = pending_add (pending_of s.bundle_file_deleter) l ∧
      ((collect_garbage_files env metadata base_dir s).1 = Status.OK →
        l = bundle_garbage_paths env base_dir s.bundle_file_deleter.isSome metadata)) := by
  obtain ⟨hf, hp⟩ := collect_garbage_files_plain env metadata base_dir s s (GarbageFrame.refl s)
  obtain ⟨_, hb⟩ := collect_garbage_files_bundle env metadata base_dir s s (GarbageFrame.refl s)
  exact ⟨hf, hp, hb⟩

/-! ## The loop of collect_files_to_vacuum -/

/-- A proof rule for the loop: `Head` holds whenever the loop condition is
    evaluated, `Exit` of every way the loop can end. -/
theorem walk_rule (env : Env) (data_dir : String)
    (tablet_id min_version grace_timestamp min_retain_version : Int)
    (Head : WalkState → Prop) (Exit : LoopResult WalkState → Prop)
    (h_below : ∀ s, Head s → ¬ s.version ≥ min_version → Exit (LoopResult.done s))
    (h_fuel : ∀ s, Head s → s.version ≥ min_version → Exit (LoopResult.out_of_fuel s))
    (h_not_found : ∀ s c m, Head s → s.version ≥ min_version →
      env.get_tablet_metadata tablet_id s.version = StatusOr.error c m →
      (Status.error c m).is_not_found = true → Exit (LoopResult.done (s.load tablet_id)))
    (h_load_error : ∀ s c m, Head s → s.version ≥ min_version →
      env.get_tablet_metadata tablet_id s.version = StatusOr.error c m →
      (Status.error c m).is_not_found = false →
      Exit (LoopResult.returned (Status.error c m) (s.load tablet_id)))
    (h_body_error : ∀ s metadata c m, Head s → s.version ≥ min_version →
      env.get_tablet_metadata tablet_id s.version = StatusOr.value metadata →
      (walk_body env data_dir grace_timestamp min_retain_version metadata
        (s.load tablet_id)).1 = Status.error c m →
      Exit (LoopResult.returned (Status.error c m)
        (walk_body env data_dir grace_timestamp min_retain_version metadata
          (s.load tablet_id)).2))
    (h_abort : ∀ s metadata, Head s → s.version ≥ min_version →
      env.get_tablet_metadata tablet_id s.version = StatusOr.value metadata →
      (walk_body env data_dir grace_timestamp min_retain_version metadata
        (s.load tablet_id)).1 = Status.OK →
      ¬ metadata.prev_garbage_version < (walk_body env data_dir grace_timestamp
        min_retain_version metadata (s.load tablet_id)).2.version →
      Exit (LoopResult.aborted
        (walk_body env data_dir grace_timestamp min_retain_version metadata
          (s.load tablet_id)).2))
    (h_step : ∀ s metadata, Head s → s.version ≥ min_version →
      env.get_tablet_metadata tablet_id s.version = StatusOr.value metadata →
      (walk_body env data_dir grace_timestamp min_retain_version metadata
        (s.load tablet_id)).1 = Status.OK →
      metadata.prev_garbage_version < (walk_body env data_dir grace_timestamp
        min_retain_version metadata (s.load tablet_id)).2.version →
      Head { (walk_body env data_dir grace_timestamp min_retain_version metadata
        (s.load tablet_id)).2 with version := metadata.prev_garbage_version })
    (fuel : Nat) (s : WalkState) (hs : Head s) :
    Exit (walk env data_dir tablet_id min_version grace_timestamp min_retain_version fuel s) := by
  induction fuel generalizing s with
  | zero =>
    unfold walk
    split
    · exact h_fuel s hs (by assumption)
    · exact h_below s hs (by assumption)
  | succ n ih =>
    unfold walk
    by_cases hv : s.version ≥ min_version
    · rw [if_pos hv]
      simp only
      cases hg : env.get_tablet_metadata tablet_id s.version with
      | error c m =>
        simp only
        by_cases hnf : (Status.error c m).is_not_found = true
        · rw [if_pos hnf]
          exact h_not_found s c m hs hv hg hnf
        · rw [if_neg hnf]
          exact h_load_error s c m hs hv hg (by simpa using hnf)
      | value metadata =>
        simp only
        cases hb : (walk_body env data_dir grace_timestamp min_retain_version metadata
            (s.load tablet_id)).1 with
        | error c m =>
          simp only
          exact h_body_error s metadata c m hs hv hg hb
        | OK =>
          simp only
          by_cases hp : metadata.prev_garbage_version < (walk_body env data_dir grace_timestamp
              min_retain_version metadata (s.load tablet_id)).2.version
          · rw [if_pos hp]
            exact ih _ (h_step s metadata hs hv hg hb hp)
          · rw [if_neg hp]
            exact h_abort s metadata hs hv hg hb hp
    · rw [if_neg hv]
      exact h_below s hs hv

theorem WalkState.collect_garbage_total_spec (env : Env) (metadata : TabletMetadataPB)
    (data_dir : String) (s : WalkState) :
    GarbageStep env data_dir metadata s (s.collect_garbage_total env metadata data_dir).2
      (s.collect_garbage_total env metadata data_dir).1 ∧
    (s.collect_garbage_total env metadata data_dir).2.prepare_vacuum_file_size
      = s.prepare_vacuum_file_size := by
  obtain ⟨⟨f1, f2, f3, f4, f5, f6, f7⟩, hp, hb⟩ := collect_garbage_files_spec env metadata data_dir
    { deleter := s.datafile_deleter, bundle_file_deleter := s.bundle_file_deleter,
      garbage_data_size := s.total_datafile_size, world := s.world }
  exact ⟨⟨rfl, rfl, rfl, rfl, f1, f2, f3, f4, f5, f6, f7, hp, hb⟩, rfl⟩

theorem WalkState.collect_garbage_prepare_spec (env : Env) (metadata : TabletMetadataPB)
    (data_dir : String) (s : WalkState) :
    GarbageStep env data_dir metadata s (s.collect_garbage_prepare env metadata data_dir).2
      (s.collect_garbage_prepare env metadata data_dir).1 ∧
    (s.collect_garbage_prepare env metadata data_dir).2.total_datafile_size
      = s.total_datafile_size := by
  obtain ⟨⟨f1, f2, f3, f4, f5, f6, f7⟩, hp, hb⟩ := collect_garbage_files_spec env metadata data_dir
    { deleter := s.datafile_deleter, bundle_file_deleter := s.bundle_file_deleter,
      garbage_data_size := s.prepare_vacuum_file_size, world := s.world }
  exact ⟨⟨rfl, rfl, rfl, rfl, f1, f2, f3, f4, f5, f6, f7, hp, hb⟩, rfl⟩

/-- The loop body on a snapshot committed at or after the grace timestamp,
    before any older one was seen: only `final_retain_version` moves. -/
theorem walk_body_recent (env : Env) (data_dir : String) (grace_timestamp min_retain_version : Int)
    (metadata : TabletMetadataPB) (s : WalkState) (hskip : s.skip_check_grace_timestamp = false)
    (hc : ¬ compare_time metadata < grace_timestamp) :
    walk_body env data_dir grace_timestamp min_retain_version metadata s =
      (Status.OK,
        { s.add_extra metadata min_retain_version with final_retain_version := s.version }) := by
  have h1 : ¬ (s.add_extra metadata min_retain_version).skip_check_grace_timestamp = true := by
    simp [WalkState.add_extra, hskip]
  unfold walk_body
  dsimp only
  rw [if_neg h1, if_neg hc]
  rfl

/-- The loop body on the first snapshot committed before the grace timestamp. -/
theorem walk_body_flip (env : Env) (data_dir : String) (grace_timestamp min_retain_version : Int)
    (metadata : TabletMetadataPB) (s : WalkState) (hskip : s.skip_check_grace_timestamp = false)
    (hc : compare_time metadata < grace_timestamp) :
    walk_body env data_dir grace_timestamp min_retain_version metadata s =
      WalkState.collect_garbage_total env metadata data_dir
        { s.add_extra metadata min_retain_version with
          final_retain_version := s.version, skip_check_grace_timestamp := true } := by
  have h1 : ¬ (s.add_extra metadata min_retain_version).skip_check_grace_timestamp = true := by
    simp [WalkState.add_extra, hskip]
  unfold walk_body
  dsimp only
  rw [if_neg h1, if_pos hc]
  rfl

/-- The loop body once grace timestamps are no longer checked. -/
theorem walk_body_skip (env : Env) (data_dir : String) (grace_timestamp min_retain_version : Int)
    (metadata : TabletMetadataPB) (s : WalkState) (hskip : s.skip_check_grace_timestamp = true) :
    walk_body env data_dir grace_timestamp min_retain_version metadata s =
      WalkState.collect_garbage_prepare env metadata data_dir
        (s.add_extra metadata min_retain_version) := by
  have h1 : (s.add_extra metadata min_retain_version).skip_check_grace_timestamp = true := hskip
  unfold walk_body
  dsimp only
  rw [if_pos h1]

/-- The loop body never changes `version`. -/
theorem walk_body_version (env : Env) (data_dir : String) (grace_timestamp min_retain_version : Int)
    (metadata : TabletMetadataPB) (s : WalkState) :
    (walk_body env data_dir grace_timestamp min_retain_version metadata s).2.version
      = s.version := by
  cases hskip : s.skip_check_grace_timestamp with
  | true =>
    rw [walk_body_skip env data_dir grace_timestamp min_retain_version metadata s hskip]
    exact (WalkState.collect_garbage_prepare_spec env metadata data_dir _).1.version
  | false =>
    by_cases hc : compare_time metadata < grace_timestamp
    · rw [walk_body_flip env data_dir grace_timestamp min_retain_version metadata s hskip hc]
      exact (WalkState.collect_garbage_total_spec env metadata data_dir _).1.version
    · rw [walk_body_recent env data_dir grace_timestamp min_retain_version metadata s hskip hc]
      rfl

/-- A proof rule for the loop in terms of states only: `J` holds whenever the
    loop condition is evaluated and `E` of the state in which the loop ends. -/
theorem walk_state_rule (env : Env) (data_dir : String)
    (tablet_id min_version grace_timestamp min_retain_version : Int)
    (J E : WalkState → Prop)
    (h_head : ∀ s, J s → E s)
    (h_load : ∀ s, J s → s.version ≥ min_version → E (s.load tablet_id))
    (h_body : ∀ s metadata, J s → s.version ≥ min_version →
      env.get_tablet_metadata tablet_id s.version = StatusOr.value metadata →
      E (walk_body env data_dir grace_timestamp min_retain_version metadata
        (s.load tablet_id)).2 ∧
      ((walk_body env data_dir grace_timestamp min_retain_version metadata
          (s.load tablet_id)).1 = Status.OK →
        metadata.prev_garbage_version < s.version →
        J { (walk_body env data_dir grace_timestamp min_retain_version metadata
          (s.load tablet_id)).2 with version := metadata.prev_garbage_version }))
    (fuel : Nat) (s : WalkState) (hs : J s) :
    E (walk env data_dir tablet_id min_version grace_timestamp min_retain_version fuel
      s).state := by
  refine walk_rule env data_dir tablet_id min_version grace_timestamp min_retain_version J
    (fun r => E r.state) ?_ ?_ ?_ ?_ ?_ ?_ ?_ fuel s hs
  · intro s hs _
    exact h_head s hs
  · intro s hs _
    exact h_head s hs
  · intro s c m hs hv _ _
    exact h_load s hs hv
  · intro s c m hs hv _ _
    exact h_load s hs hv
  · intro s metadata c m hs hv hg _
    exact (h_body s metadata hs hv hg).1
  · intro s metadata hs hv hg _ _
    exact (h_body s metadata hs hv hg).1
  · intro s metadata hs hv hg hb hp
    rw [walk_body_version] at hp
    exact (h_body s metadata hs hv hg).2 hb hp

theorem FromWalked.mono (env : Env) (data_dir : String) (tablet_id : Int) (e₁ e₂ : World)
    (F : Int) (p : String) (h : FromWalked env data_dir tablet_id e₁ F p) :
    FromWalked env data_dir tablet_id (e₁ ++ e₂) F p := by
  obtain ⟨v, md, h1, h2, h3, h4⟩ := h
  exact ⟨v, md, List.mem_append_left _ h1, h2, h3, h4⟩

theorem WalkFrame.frame_init (min_version : Int) (init : WalkState)
    (h : init.version ≤ init.final_retain_version) : WalkFrame min_version init init where
  version_le := h
  final_le := le_refl _
  batch_size := rfl
  cb := rfl
  counted := fun h => h
  bundle_some := rfl
  bundle_handed := rfl
  bundle_delay := rfl
  skip_mono := fun h => ⟨h, rfl⟩
  flipped := fun h h' => by rw [h] at h'; exact absurd h' (by simp)
  quiet := fun _ => ⟨rfl, rfl, rfl, rfl⟩

theorem WalkTrace.trace_init (env : Env) (data_dir : String) (tablet_id : Int) (init : WalkState) :
    WalkTrace env data_dir tablet_id init init [] [] [] where
  world := (List.append_nil _).symm
  handed := (List.append_nil _).symm
  pending := rfl
  quiet := fun _ => ⟨rfl, rfl⟩
  plain_from := fun p hp => absurd hp (List.not_mem_nil p)
  bundle_from := fun p hp => absurd hp (List.not_mem_nil p)

theorem WalkFrame.frame_load (min_version tablet_id : Int) (init s : WalkState)
    (h : WalkFrame min_version init s) : WalkFrame min_version init (s.load tablet_id) :=
  ⟨h.version_le, h.final_le, h.batch_size, h.cb, h.counted, h.bundle_some, h.bundle_handed,
    h.bundle_delay, h.skip_mono, h.flipped, h.quiet⟩

theorem WalkTrace.trace_load (env : Env) (data_dir : String) (tablet_id : Int) (init s : WalkState)
    (events : World) (plain bundle : List String)
    (h : WalkTrace env data_dir tablet_id init s events plain bundle) :
    WalkTrace env data_dir tablet_id init (s.load tablet_id)
      (events ++ [Event.load tablet_id s.version]) plain bundle where
  world := by
    show s.world ++ _ = _
    rw [h.world, List.append_assoc]
  handed := h.handed
  pending := h.pending
  quiet := h.quiet
  plain_from := fun p hp => FromWalked.mono env data_dir tablet_id _ _ _ p (h.plain_from p hp)
  bundle_from := fun p hp => FromWalked.mono env data_dir tablet_id _ _ _ p (h.bundle_from p hp)

theorem WalkFrame.frame_add_extra (min_version : Int) (init s : WalkState) (metadata : TabletMetadataPB)
    (min_retain_version : Int) (h : WalkFrame min_version init s) :
    WalkFrame min_version init (s.add_extra metadata min_retain_version) :=
  ⟨h.version_le, h.final_le, h.batch_size, h.cb, h.counted, h.bundle_some, h.bundle_handed,
    h.bundle_delay, h.skip_mono, h.flipped, h.quiet⟩

theorem WalkTrace.trace_add_extra (env : Env) (data_dir : String) (tablet_id : Int)
    (init s : WalkState) (events : World) (plain bundle : List String)
    (metadata : TabletMetadataPB) (min_retain_version : Int)
    (h : WalkTrace env data_dir tablet_id init s events plain bundle) :
    WalkTrace env data_dir tablet_id init (s.add_extra metadata min_retain_version)
      events plain bundle :=
  ⟨h.world, h.handed, h.pending, h.quiet, h.plain_from, h.bundle_from⟩

theorem WalkFrame.frame_next (min_version : Int) (init s : WalkState) (v : Int)
    (h : WalkFrame min_version init s) (hv : v < s.version) :
    WalkFrame min_version init { s with version := v } :=
  ⟨le_of_lt (lt_of_lt_of_le hv h.version_le), h.final_le, h.batch_size, h.cb, h.counted,
    h.bundle_some, h.bundle_handed, h.bundle_delay, h.skip_mono, h.flipped, h.quiet⟩

theorem WalkTrace.trace_next (env : Env) (data_dir : String) (tablet_id : Int)
    (init s : WalkState) (events : World) (plain bundle : List String) (v : Int)
    (h : WalkTrace env data_dir tablet_id init s events plain bundle) :
    WalkTrace env data_dir tablet_id init { s with version := v } events plain bundle :=
  ⟨h.world, h.handed, h.pending, h.quiet, h.plain_from, h.bundle_from⟩

theorem WalkFrame.frame_recent (min_version : Int) (init s : WalkState)
    (h : WalkFrame min_version init s) (hskip : s.skip_check_grace_timestamp = false) :
    WalkFrame min_version init { s with final_retain_version := s.version } where
  version_le := le_refl _
  final_le := le_trans h.version_le h.final_le
  batch_size := h.batch_size
  cb := h.cb
  counted := h.counted
  bundle_some := h.bundle_some
  bundle_handed := h.bundle_handed
  bundle_delay := h.bundle_delay
  skip_mono := fun hi => by
    have := (h.skip_mono hi).1
    rw [hskip] at this
    exact absurd this (by simp)
  flipped := fun _ hs => by
    have hs' : s.skip_check_grace_timestamp = true := hs
    rw [hskip] at hs'
    exact absurd hs' (by simp)
  quiet := fun _ => h.quiet hskip

theorem WalkTrace.trace_recent (env : Env) (data_dir : String) (tablet_id : Int)
    (init s : WalkState) (events : World) (plain bundle : List String)
    (h : WalkTrace env data_dir tablet_id init s events plain bundle)
    (hskip : s.skip_check_grace_timestamp = false) :
    WalkTrace env data_dir tablet_id init { s with final_retain_version := s.version }
      events [] [] where
  world := h.world
  handed := by
    have := h.handed
    rw [(h.quiet hskip).1] at this
    exact this
  pending := by
    have := h.pending
    rw [(h.quiet hskip).2] at this
    exact this
  quiet := fun _ => ⟨rfl, rfl⟩
  plain_from := fun p hp => absurd hp (List.not_mem_nil p)
  bundle_from := fun p hp => absurd hp (List.not_mem_nil p)

theorem WalkFrame.frame_flip (min_version : Int) (init s : WalkState)
    (h : WalkFrame min_version init s) (hskip : s.skip_check_grace_timestamp = false)
    (hv : min_version ≤ s.version) :
    WalkFrame min_version init
      { s with final_retain_version := s.version, skip_check_grace_timestamp := true } where
  version_le := le_refl _
  final_le := le_trans h.version_le h.final_le
  batch_size := h.batch_size
  cb := h.cb
  counted := h.counted
  bundle_some := h.bundle_some
  bundle_handed := h.bundle_handed
  bundle_delay := h.bundle_delay
  skip_mono := fun hi => by
    have := (h.skip_mono hi).1
    rw [hskip] at this
    exact absurd this (by simp)
  flipped := fun _ _ => hv
  quiet := fun hs => by
    have hs' : true = false := hs
    exact absurd hs' (by simp)

theorem WalkTrace.trace_flip (env : Env) (data_dir : String) (tablet_id : Int)
    (init s : WalkState) (events : World) (plain bundle : List String)
    (h : WalkTrace env data_dir tablet_id init s events plain bundle)
    (hskip : s.skip_check_grace_timestamp = false) :
    WalkTrace env data_dir tablet_id init
      { s with final_retain_version := s.version, skip_check_grace_timestamp := true }
      events [] [] where
  world := h.world
  handed := by
    have := h.handed
    rw [(h.quiet hskip).1] at this
    exact this
  pending := by
    have := h.pending
    rw [(h.quiet hskip).2] at this
    exact this
  quiet := fun _ => ⟨rfl, rfl⟩
  plain_from := fun p hp => absurd hp (List.not_mem_nil p)
  bundle_from := fun p hp => absurd hp (List.not_mem_nil p)

/-- The effect of one call of `collect_garbage_files` in the loop on what is
    known of the loop state. -/
theorem garbage_step_inv (env : Env) (data_dir : String) (tablet_id min_version : Int)
    (init s s' : WalkState) (st : Status) (metadata : TabletMetadataPB)
    (events : World) (plain bundle : List String)
    (hF : WalkFrame min_version init s)
    (hT : WalkTrace env data_dir tablet_id init s events plain bundle)
    (hskip : s.skip_check_grace_timestamp = true)
    (hload : Event.load tablet_id s.version ∈ events)
    (hget : env.get_tablet_metadata tablet_id s.version = StatusOr.value metadata)
    (hG : GarbageStep env data_dir metadata s s' st) :
    WalkFrame min_version init s' ∧
    ∃ e l l', WalkTrace env data_dir tablet_id init s' (events ++ e) (plain ++ l) (bundle ++ l') ∧
      l <+: plain_garbage_paths env data_dir s.bundle_file_deleter.isSome metadata ∧
      l' <+: bundle_garbage_paths env data_dir s.bundle_file_deleter.isSome metadata ∧
      (st = Status.OK →
        l = plain_garbage_paths env data_dir s.bundle_file_deleter.isSome metadata ∧
        l' = bundle_garbage_paths env data_dir s.bundle_file_deleter.isSome metadata) := by
  have hskip' : s'.skip_check_grace_timestamp = true := hG.skip.trans hskip
  refine ⟨?_, ?_⟩
  · refine ⟨?_, ?_, hG.batch_size.trans hF.batch_size, hG.cb.trans hF.cb,
      fun h => hG.counted (hF.counted h), hG.bundle_some.trans hF.bundle_some,
      hG.bundle_handed.trans hF.bundle_handed, hG.bundle_delay.trans hF.bundle_delay, ?_, ?_, ?_⟩
    · rw [hG.version, hG.final_retain_version]
      exact hF.version_le
    · rw [hG.final_retain_version]
      exact hF.final_le
    · intro hi
      rw [hG.final_retain_version]
      exact ⟨hskip', (hF.skip_mono hi).2⟩
    · intro hi _
      rw [hG.final_retain_version]
      exact hF.flipped hi hskip
    · intro hs
      rw [hskip'] at hs
      exact absurd hs (by simp)
  · obtain ⟨e, he⟩ := hG.world
    obtain ⟨l, hl1, hl2, hl3⟩ := hG.plain
    obtain ⟨l', hl1', hl2', hl3'⟩ := hG.bundle
    have hfrom : ∀ p, is_garbage_path env data_dir metadata p →
        FromWalked env data_dir tablet_id (events ++ e) s'.final_retain_version p := by
      intro p hp
      refine ⟨s.version, metadata, List.mem_append_left _ hload, hget, ?_, hp⟩
      rw [hG.final_retain_version]
      exact hF.version_le
    refine ⟨e, l, l', ⟨?_, ?_, ?_, ?_, ?_, ?_⟩, hl1, hl1', fun h => ⟨hl3 h, hl3' h⟩⟩
    · rw [← he, hT.world, List.append_assoc]
    · rw [hl2, hT.handed, List.append_assoc]
    · rw [hl2', hT.pending, pending_add_append]
    · intro hs
      rw [hskip'] at hs
      exact absurd hs (by simp)
    · intro p hp
      rcases List.mem_append.1 hp with hp | hp
      · have := hT.plain_from p hp
        rw [← hG.final_retain_version] at this
        exact FromWalked.mono env data_dir tablet_id _ _ _ p this
      · exact hfrom p (mem_plain_garbage_paths env data_dir _ metadata p (hl1.subset hp))
    · intro p hp
      rcases List.mem_append.1 hp with hp | hp
      · have := hT.bundle_from p hp
        rw [← hG.final_retain_version] at this
        exact FromWalked.mono env data_dir tablet_id _ _ _ p this
      · exact hfrom p (mem_bundle_garbage_paths env data_dir _ metadata p (hl1'.subset hp))

/-- One iteration of the loop keeps what is known of the loop state. -/
theorem walk_body_inv (env : Env) (data_dir : String)
    (tablet_id min_version grace_timestamp min_retain_version : Int)
    (init s : WalkState) (metadata : TabletMetadataPB) (events : World)
    (plain bundle : List String)
    (hF : WalkFrame min_version init s)
    (hT : WalkTrace env data_dir tablet_id init s events plain bundle)
    (hv : min_version ≤ s.version)
    (hload : Event.load tablet_id s.version ∈ events)
    (hget : env.get_tablet_metadata tablet_id s.version = StatusOr.value metadata) :
    WalkFrame min_version init
      (walk_body env data_dir grace_timestamp min_retain_version metadata s).2 ∧
    ∃ e l l', WalkTrace env data_dir tablet_id init
      (walk_body env data_dir grace_timestamp min_retain_version metadata s).2
      (events ++ e) l l' := by
  cases hskip : s.skip_check_grace_timestamp with
  | true =>
    rw [walk_body_skip env data_dir grace_timestamp min_retain_version metadata s hskip]
    obtain ⟨hF2, e, l, l', hT2, _⟩ := garbage_step_inv env data_dir tablet_id min_version init
      (s.add_extra metadata min_retain_version) _ _ metadata events plain bundle
      (hF.frame_add_extra min_version init s metadata min_retain_version)
      (hT.trace_add_extra env data_dir tablet_id init s events plain bundle metadata
        min_retain_version)
      hskip hload hget
      (WalkState.collect_garbage_prepare_spec env metadata data_dir _).1
    exact ⟨hF2, e, _, _, hT2⟩
  | false =>
    by_cases hc : compare_time metadata < grace_timestamp
    · rw [walk_body_flip env data_dir grace_timestamp min_retain_version metadata s hskip hc]
      have hF1 := (hF.frame_add_extra min_version init s metadata min_retain_version).frame_flip
        min_version init _ hskip hv
      have hT1 := (hT.trace_add_extra env data_dir tablet_id init s events plain bundle metadata
        min_retain_version).trace_flip env data_dir tablet_id init _ events plain bundle hskip
      obtain ⟨hF2, e, l, l', hT2, _⟩ := garbage_step_inv env data_dir tablet_id min_version init
        _ _ _ metadata events [] [] hF1 hT1 rfl hload hget
        (WalkState.collect_garbage_total_spec env metadata data_dir _).1
      exact ⟨hF2, e, _, _, hT2⟩
    · rw [walk_body_recent env data_dir grace_timestamp min_retain_version metadata s hskip hc]
      have hF1 := (hF.frame_add_extra min_version init s metadata min_retain_version).frame_recent
        min_version init _ hskip
      have hT1 := (hT.trace_add_extra env data_dir tablet_id init s events plain bundle metadata
        min_retain_version).trace_recent env data_dir tablet_id init _ events plain bundle hskip
      refine ⟨hF1, [], [], [], ?_⟩
      rw [List.append_nil]
      exact hT1

/-- What is known of the state in which the loop ends, however it ends. -/
theorem walk_inv (env : Env) (data_dir : String)
    (tablet_id min_version grace_timestamp min_retain_version : Int) (fuel : Nat)
    (init : WalkState) (h : init.version ≤ init.final_retain_version) :
    WalkFrame min_version init
      (walk env data_dir tablet_id min_version grace_timestamp min_retain_version fuel
        init).state ∧
    ∃ events plain bundle, WalkTrace env data_dir tablet_id init
      (walk env data_dir tablet_id min_version grace_timestamp min_retain_version fuel
        init).state events plain bundle := by
  refine walk_state_rule env data_dir tablet_id min_version grace_timestamp min_retain_version
    (fun s => WalkFrame min_version init s ∧
      ∃ events plain bundle, WalkTrace env data_dir tablet_id init s events plain bundle)
    (fun s => WalkFrame min_version init s ∧
      ∃ events plain bundle, WalkTrace env data_dir tablet_id init s events plain bundle)
    (fun s hs => hs) ?_ ?_ fuel init
    ⟨WalkFrame.frame_init min_version init h, [], [], [], WalkTrace.trace_init env data_dir tablet_id init⟩
  · rintro s ⟨hF, events, plain, bundle, hT⟩ _
    exact ⟨hF.frame_load min_version tablet_id init s, _, _, _,
      hT.trace_load env data_dir tablet_id init s events plain bundle⟩
  · rintro s metadata ⟨hF, events, plain, bundle, hT⟩ hv hget
    obtain ⟨hF2, e, l, l', hT2⟩ := walk_body_inv env data_dir tablet_id min_version
      grace_timestamp min_retain_version init (s.load tablet_id) metadata
      (events ++ [Event.load tablet_id s.version]) plain bundle
      (hF.frame_load min_version tablet_id init s)
      (hT.trace_load env data_dir tablet_id init s events plain bundle) hv
      (List.mem_append_right _ (List.mem_singleton_self _)) hget
    refine ⟨⟨hF2, _, _, _, hT2⟩, fun _ hp => ⟨?_, _, _, _,
      hT2.trace_next env data_dir tablet_id init _ _ _ _ metadata.prev_garbage_version⟩⟩
    refine hF2.frame_next min_version init _ _ ?_
    rw [walk_body_version]
    exact hp

/-! ### Single steps of the loop -/

theorem walk_below (env : Env) (data_dir : String)
    (tablet_id min_version grace_timestamp min_retain_version : Int) (fuel : Nat)
    (s : WalkState) (h : ¬ s.version ≥ min_version) :
    walk env data_dir tablet_id min_version grace_timestamp min_retain_version fuel s
      = LoopResult.done s := by
  cases fuel with
  | zero => unfold walk; rw [if_neg h]
  | succ n => unfold walk; rw [if_neg h]

theorem walk_load_failed (env : Env) (data_dir : String)
    (tablet_id min_version grace_timestamp min_retain_version : Int) (fuel : Nat)
    (s : WalkState) (c : ErrorCode) (m : String) (h : s.version ≥ min_version)
    (hg : env.get_tablet_metadata tablet_id s.version = StatusOr.error c m) :
    walk env data_dir tablet_id min_version grace_timestamp min_retain_version (fuel + 1) s
      = if (Status.error c m).is_not_found = true then LoopResult.done (s.load tablet_id)
        else LoopResult.returned (Status.error c m) (s.load tablet_id) := by
  unfold walk
  rw [if_pos h]
  simp only [hg]

theorem walk_body_failed (env : Env) (data_dir : String)
    (tablet_id min_version grace_timestamp min_retain_version : Int) (fuel : Nat)
    (s : WalkState) (metadata : TabletMetadataPB) (c : ErrorCode) (m : String)
    (h : s.version ≥ min_version)
    (hg : env.get_tablet_metadata tablet_id s.version = StatusOr.value metadata)
    (hb : (walk_body env data_dir grace_timestamp min_retain_version metadata
      (s.load tablet_id)).1 = Status.error c m) :
    walk env data_dir tablet_id min_version grace_timestamp min_retain_version (fuel + 1) s
      = LoopResult.returned (Status.error c m)
        (walk_body env data_dir grace_timestamp min_retain_version metadata
          (s.load tablet_id)).2 := by
  unfold walk
  rw [if_pos h]
  simp only [hg, hb]

theorem walk_step (env : Env) (data_dir : String)
    (tablet_id min_version grace_timestamp min_retain_version : Int) (fuel : Nat)
    (s : WalkState) (metadata : TabletMetadataPB) (h : s.version ≥ min_version)
    (hg : env.get_tablet_metadata tablet_id s.version = StatusOr.value metadata)
    (hb : (walk_body env data_dir grace_timestamp min_retain_version metadata
      (s.load tablet_id)).1 = Status.OK)
    (hp : metadata.prev_garbage_version < s.version) :
    walk env data_dir tablet_id min_version grace_timestamp min_retain_version (fuel + 1) s
      = walk env data_dir tablet_id min_version grace_timestamp min_retain_version fuel
        { (walk_body env data_dir grace_timestamp min_retain_version metadata
          (s.load tablet_id)).2 with version := metadata.prev_garbage_version } := by
  have hp' : metadata.prev_garbage_version < (walk_body env data_dir grace_timestamp
      min_retain_version metadata (s.load tablet_id)).2.version := by
    rw [walk_body_version]
    exact hp
  conv => lhs; unfold walk
  rw [if_pos h]
  simp only [hg, hb, if_pos hp']

theorem walk_check_failed (env : Env) (data_dir : String)
    (tablet_id min_version grace_timestamp min_retain_version : Int) (fuel : Nat)
    (s : WalkState) (metadata : TabletMetadataPB) (h : s.version ≥ min_version)
    (hg : env.get_tablet_metadata tablet_id s.version = StatusOr.value metadata)
    (hb : (walk_body env data_dir grace_timestamp min_retain_version metadata
      (s.load tablet_id)).1 = Status.OK)
    (hp : ¬ metadata.prev_garbage_version < s.version) :
    walk env data_dir tablet_id min_version grace_timestamp min_retain_version (fuel + 1) s
      = LoopResult.aborted
        (walk_body env data_dir grace_timestamp min_retain_version metadata
          (s.load tablet_id)).2 := by
  have hp' : ¬ metadata.prev_garbage_version < (walk_body env data_dir grace_timestamp
      min_retain_version metadata (s.load tablet_id)).2.version := by
    rw [walk_body_version]
    exact hp
  unfold walk
  rw [if_pos h]
  simp only [hg, hb, if_neg hp']

/-- The loop never runs out of fuel when given at least as much fuel as there
    are versions from the lower bound up to the current one. -/
theorem walk_fuel_enough (env : Env) (data_dir : String)
    (tablet_id min_version grace_timestamp min_retain_version : Int) (fuel : Nat)
    (s : WalkState) (h : (s.version - min_version + 1).toNat ≤ fuel) (s' : WalkState) :
    walk env data_dir tablet_id min_version grace_timestamp min_retain_version fuel s
      ≠ LoopResult.out_of_fuel s' := by
  induction fuel generalizing s with
  | zero =>
    have hv : ¬ s.version ≥ min_version := by omega
    rw [walk_below _ _ _ _ _ _ _ _ hv]
    simp
  | succ n ih =>
    by_cases hv : s.version ≥ min_version
    · cases hg : env.get_tablet_metadata tablet_id s.version with
      | error c m =>
        rw [walk_load_failed _ _ _ _ _ _ _ _ c m hv hg]
        split <;> simp
      | value metadata =>
        cases hb : (walk_body env data_dir grace_timestamp min_retain_version metadata
            (s.load tablet_id)).1 with
        | error c m =>
          rw [walk_body_failed _ _ _ _ _ _ _ _ metadata c m hv hg hb]
          simp
        | OK =>
          by_cases hp : metadata.prev_garbage_version < s.version
          · rw [walk_step _ _ _ _ _ _ _ _ metadata hv hg hb hp]
            apply ih
            show (metadata.prev_garbage_version - min_version + 1).toNat ≤ n
            omega
          · rw [walk_check_failed _ _ _ _ _ _ _ _ metadata hv hg hb hp]
            simp
    · rw [walk_below _ _ _ _ _ _ _ _ hv]
      simp

/-- Once grace timestamps are no longer checked, `final_retain_version` stays. -/
theorem walk_skip_final (env : Env) (data_dir : String)
    (tablet_id min_version grace_timestamp min_retain_version : Int) (fuel : Nat)
    (s : WalkState) (hle : s.version ≤ s.final_retain_version)
    (hskip : s.skip_check_grace_timestamp = true) :
    (walk env data_dir tablet_id min_version grace_timestamp min_retain_version fuel
      s).state.skip_check_grace_timestamp = true ∧
    (walk env data_dir tablet_id min_version grace_timestamp min_retain_version fuel
      s).state.final_retain_version = s.final_retain_version :=
  (walk_inv env data_dir tablet_id min_version grace_timestamp min_retain_version fuel s
    hle).1.skip_mono hskip

/-- When the walk finds a first snapshot older than the grace timestamp and
    the loop runs to its end, that snapshot's version is `final_retain_version`. -/
theorem walk_first_pre_grace (env : Env) (data_dir : String)
    (tablet_id min_version grace_timestamp min_retain_version : Int) (fuel : Nat)
    (s s' : WalkState) (v r : Int) (hv : s.version = v)
    (hskip : s.skip_check_grace_timestamp = false)
    (h : FirstPreGrace env tablet_id min_version grace_timestamp v r)
    (hw : walk env data_dir tablet_id min_version grace_timestamp min_retain_version fuel s
      = LoopResult.done s') :
    s'.skip_check_grace_timestamp = true ∧ s'.final_retain_version = r := by
  induction fuel generalizing s v with
  | zero =>
    have hm : s.version ≥ min_version := by
      cases h with
      | found h1 _ _ => rw [hv]; exact h1
      | older h1 _ _ _ => rw [hv]; exact h1
    unfold walk at hw
    rw [if_pos hm] at hw
    exact absurd hw (by simp)
  | succ n ih =>
    subst hv
    cases h with
    | @found _ metadata hm hg hc =>
      have hskip0 : (s.load tablet_id).skip_check_grace_timestamp = false := hskip
      have hflip := walk_body_flip env data_dir grace_timestamp min_retain_version metadata
        (s.load tablet_id) hskip0 hc
      have hG := (WalkState.collect_garbage_total_spec env metadata data_dir
        { (s.load tablet_id).add_extra metadata min_retain_version with
          final_retain_version := (s.load tablet_id).version
          skip_check_grace_timestamp := true }).1
      rw [← hflip] at hG
      cases hb : (walk_body env data_dir grace_timestamp min_retain_version metadata
          (s.load tablet_id)).1 with
      | error c m =>
        rw [walk_body_failed _ _ _ _ _ _ _ _ metadata c m hm hg hb] at hw
        exact absurd hw (by simp)
      | OK =>
        by_cases hp : metadata.prev_garbage_version < s.version
        · rw [walk_step _ _ _ _ _ _ _ _ metadata hm hg hb hp] at hw
          have hfin : (walk_body env data_dir grace_timestamp min_retain_version metadata
              (s.load tablet_id)).2.final_retain_version = s.version := hG.final_retain_version
          have hsk : (walk_body env data_dir grace_timestamp min_retain_version metadata
              (s.load tablet_id)).2.skip_check_grace_timestamp = true := hG.skip
          have := walk_skip_final env data_dir tablet_id min_version grace_timestamp
            min_retain_version n
            { (walk_body env data_dir grace_timestamp min_retain_version metadata
              (s.load tablet_id)).2 with version := metadata.prev_garbage_version }
            (by show metadata.prev_garbage_version ≤ _; rw [hfin]; exact le_of_lt hp) hsk
          rw [hw] at this
          exact ⟨this.1, this.2.trans hfin⟩
        · rw [walk_check_failed _ _ _ _ _ _ _ _ metadata hm hg hb hp] at hw
          exact absurd hw (by simp)
    | @older _ _ metadata hm hg hc hrest =>
      have hskip0 : (s.load tablet_id).skip_check_grace_timestamp = false := hskip
      have hrec := walk_body_recent env data_dir grace_timestamp min_retain_version metadata
        (s.load tablet_id) hskip0 hc
      have hb : (walk_body env data_dir grace_timestamp min_retain_version metadata
          (s.load tablet_id)).1 = Status.OK := by rw [hrec]
      by_cases hp : metadata.prev_garbage_version < s.version
      · rw [walk_step _ _ _ _ _ _ _ _ metadata hm hg hb hp] at hw
        refine ih _ metadata.prev_garbage_version rfl ?_ hrest hw
        show (walk_body env data_dir grace_timestamp min_retain_version metadata
          (s.load tablet_id)).2.skip_check_grace_timestamp = false
        rw [hrec]
        exact hskip
      · rw [walk_check_failed _ _ _ _ _ _ _ _ metadata hm hg hb hp] at hw
        exact absurd hw (by simp)

/-! ## collect_files_to_vacuum -/

theorem Outcome.eq_of_succeeded {σ : Type} (o : Outcome σ) (h : o.succeeded = true) :
    o = Outcome.returned Status.OK o.state := by
  cases o with
  | returned st s =>
    cases st with
    | OK => rfl
    | error c m => exact absurd h (by simp [Outcome.succeeded])
  | aborted s => exact absurd h (by simp [Outcome.succeeded])
  | out_of_fuel s => exact absurd h (by simp [Outcome.succeeded])

/-- A call of `collect_files_to_vacuum` that returns OK has created the file
    system handle, run its loop to the end and run the part after the loop. -/
theorem collect_files_to_vacuum_ok (env : Env) (root_dir : String) (a a' : VacuumArgs)
    (grace_timestamp min_retain_version : Int)
    (h : collect_files_to_vacuum env root_dir a grace_timestamp min_retain_version
      = Outcome.returned Status.OK a') :
    env.create_fs root_dir = Status.OK ∧
    ∃ s, collect_files_to_vacuum_walk env root_dir a grace_timestamp min_retain_version
        = LoopResult.done s ∧
      collect_files_to_vacuum_tail env (env.join_path root_dir env.kMetadataDirectoryName)
        (a.after_walk s) s = (Status.OK, a') := by
  unfold collect_files_to_vacuum at h
  cases hfs : env.create_fs root_dir with
  | error c m =>
    rw [hfs] at h
    simp only at h
    exact absurd h (by simp)
  | OK =>
    rw [hfs] at h
    simp only at h
    refine ⟨rfl, ?_⟩
    cases hw : collect_files_to_vacuum_walk env root_dir a grace_timestamp
        min_retain_version with
    | done s =>
      rw [hw] at h
      simp only at h
      refine ⟨s, rfl, ?_⟩
      injection h with h1 h2
      exact Prod.ext h1 h2
    | returned st s =>
      rw [hw] at h
      simp only at h
      injection h with h1 h2
      exfalso
      subst h1
      revert hw
      unfold collect_files_to_vacuum_walk
      refine walk_rule env _ _ _ _ _ (fun _ => True)
        (fun r => r ≠ LoopResult.returned Status.OK s) ?_ ?_ ?_ ?_ ?_ ?_ ?_ _ _ trivial
      all_goals intros
      all_goals simp
    | aborted s =>
      rw [hw] at h
      exact absurd h (by simp)
    | out_of_fuel s =>
      rw [hw] at h
      exact absurd h (by simp)

theorem mem_version_range (lo hi v : Int) : v ∈ version_range lo hi ↔ lo ≤ v ∧ v < hi := by
  unfold version_range
  constructor
  · intro h
    obtain ⟨i, hi', rfl⟩ := List.mem_map.1 h
    have := List.mem_range.1 hi'
    omega
  · rintro ⟨h1, h2⟩
    refine List.mem_map.2 ⟨(v - lo).toNat, List.mem_range.2 (by omega), by omega⟩

/-- The loop over the metadata versions hands the deleter a prefix of their
    paths, all of them when it returns OK. -/
theorem for_each_delete_metafile (env : Env) (meta_dir : String) (tablet_id : Int)
    (versions : List Int) (s : AsyncFileDeleter × World) :
    ∃ l, l <+: versions.map
        (fun v => env.join_path meta_dir (env.tablet_metadata_filename tablet_id v)) ∧
      (for_each (delete_metafile env meta_dir tablet_id) versions s).2.1.handed
        = s.1.handed ++ l ∧
      ((for_each (delete_metafile env meta_dir tablet_id) versions s).1 = Status.OK →
        l = versions.map
          (fun v => env.join_path meta_dir (env.tablet_metadata_filename tablet_id v))) := by
  have h := @Emits.for_each_map Int (AsyncFileDeleter × World) (List String) String
    (fun _ => True) (fun (x l : List String) => x ++ l)
    (fun (s : AsyncFileDeleter × World) => s.1.handed)
    List.append_nil List.append_assoc
    (fun v => env.join_path meta_dir (env.tablet_metadata_filename tablet_id v))
    (delete_metafile env meta_dir tablet_id) versions
    (fun v _ => Emits.of_always _ _ (fun _ _ => trivial)
      (fun s _ => (AsyncFileDeleter.delete_file_frame env _ s.1 s.2).1))
  exact (h s trivial).2

/-- The part after the loop when no snapshot older than the grace timestamp
    was seen. -/
theorem collect_files_to_vacuum_tail_recent (env : Env) (meta_dir : String) (a : VacuumArgs)
    (s : WalkState) (h : s.skip_check_grace_timestamp = false) :
    collect_files_to_vacuum_tail env meta_dir a s
      = (Status.OK, { a with vacuumed_version := s.final_retain_version - 1 }) := by
  unfold collect_files_to_vacuum_tail
  rw [if_pos (by simp [h])]

/-- The part after the loop when grace timestamps are no longer checked, and it
    returns OK. -/
theorem collect_files_to_vacuum_tail_flip (env : Env) (meta_dir : String) (a a' : VacuumArgs)
    (s : WalkState) (h : s.skip_check_grace_timestamp = true)
    (hok : collect_files_to_vacuum_tail env meta_dir a s = (Status.OK, a')) :
    a'.vacuumed_version = s.final_retain_version ∧
    a'.tablet_info = { a.tablet_info with min_version := s.final_retain_version } ∧
    a'.datafile_deleter = a.datafile_deleter ∧
    a'.bundle_file_deleter = a.bundle_file_deleter ∧
    a'.total_datafile_size = a.total_datafile_size + s.prepare_vacuum_file_size ∧
    a'.extra_datafile_size = to_int64 (a.extra_datafile_size + s.extra_file_size) ∧
    (a.vacuum_version_range = none →
      a'.vacuum_version_range = none ∧
      a'.metafile_deleter.handed = a.metafile_deleter.handed ++
        metafile_paths env meta_dir a.tablet_info.tablet_id (s.version + 1)
          s.final_retain_version) ∧
    (∀ range, a.vacuum_version_range = some range →
      a'.vacuum_version_range = some (range.merge (s.version + 1) s.final_retain_version) ∧
      a'.metafile_deleter = a.metafile_deleter ∧ a'.world = a.world) := by
  unfold collect_files_to_vacuum_tail at hok
  rw [if_neg (by simp [h])] at hok
  simp only at hok
  cases hr : a.vacuum_version_range with
  | none =>
    rw [hr] at hok
    simp only at hok
    obtain ⟨l, _, hl2, hl3⟩ := for_each_delete_metafile env meta_dir a.tablet_info.tablet_id
      (version_range (s.version + 1) s.final_retain_version) (a.metafile_deleter, a.world)
    cases hf : (for_each (delete_metafile env meta_dir a.tablet_info.tablet_id)
        (version_range (s.version + 1) s.final_retain_version)
        (a.metafile_deleter, a.world)).1 with
    | error c m =>
      rw [hf] at hok
      simp only at hok
      exact absurd (congrArg Prod.fst hok) (by simp)
    | OK =>
      rw [hf] at hok
      simp only at hok
      have ha' := (congrArg Prod.snd hok).symm
      simp only at ha'
      subst ha'
      refine ⟨rfl, rfl, rfl, rfl, rfl, rfl, fun _ => ⟨rfl, ?_⟩, fun range hrange => ?_⟩
      · exact hl2.trans (by rw [hl3 hf]; rfl)
      · exact absurd hrange (by simp)
  | some range =>
    rw [hr] at hok
    simp only at hok
    have ha' := (congrArg Prod.snd hok).symm
    simp only at ha'
    subst ha'
    refine ⟨rfl, rfl, rfl, rfl, rfl, rfl, fun hn => absurd hn (by simp), fun range' hrange => ?_⟩
    have : range = range' := by
      injection hrange
    subst this
    exact ⟨rfl, rfl, rfl⟩

/-- A loop that ends normally from a version at or above the lower bound whose
    snapshot is found has run its body with status OK, passed the check on
    `prev_garbage_version` and gone on from there. -/
theorem walk_done_step (env : Env) (data_dir : String)
    (tablet_id min_version grace_timestamp min_retain_version : Int) (fuel : Nat)
    (s s' : WalkState) (metadata : TabletMetadataPB) (hv : s.version ≥ min_version)
    (hg : env.get_tablet_metadata tablet_id s.version = StatusOr.value metadata)
    (hw : walk env data_dir tablet_id min_version grace_timestamp min_retain_version fuel s
      = LoopResult.done s') :
    (walk_body env data_dir grace_timestamp min_retain_version metadata
      (s.load tablet_id)).1 = Status.OK ∧
    metadata.prev_garbage_version < s.version ∧
    ∃ n, fuel = n + 1 ∧
      walk env data_dir tablet_id min_version grace_timestamp min_retain_version n
        { (walk_body env data_dir grace_timestamp min_retain_version metadata
          (s.load tablet_id)).2 with version := metadata.prev_garbage_version }
        = LoopResult.done s' := by
  cases fuel with
  | zero =>
    unfold walk at hw
    rw [if_pos hv] at hw
    exact absurd hw (by simp)
  | succ n =>
    cases hb : (walk_body env data_dir grace_timestamp min_retain_version metadata
        (s.load tablet_id)).1 with
    | error c m =>
      rw [walk_body_failed _ _ _ _ _ _ _ _ metadata c m hv hg hb] at hw
      exact absurd hw (by simp)
    | OK =>
      by_cases hp : metadata.prev_garbage_version < s.version
      · rw [walk_step _ _ _ _ _ _ _ _ metadata hv hg hb hp] at hw
        exact ⟨rfl, hp, n, rfl, hw⟩
      · rw [walk_check_failed _ _ _ _ _ _ _ _ metadata hv hg hb hp] at hw
        exact absurd hw (by simp)

/-- The loop body on the first snapshot older than the grace timestamp, when it
    returns OK: the snapshot's version becomes `final_retain_version` and the
    deleters receive exactly its garbage. -/
theorem walk_body_flip_ok (env : Env) (data_dir : String)
    (grace_timestamp min_retain_version : Int) (metadata : TabletMetadataPB) (s : WalkState)
    (hskip : s.skip_check_grace_timestamp = false)
    (hc : compare_time metadata < grace_timestamp)
    (hb : (walk_body env data_dir grace_timestamp min_retain_version metadata s).1
      = Status.OK) :
    (walk_body env data_dir grace_timestamp min_retain_version metadata
      s).2.skip_check_grace_timestamp = true ∧
    (walk_body env data_dir grace_timestamp min_retain_version metadata
      s).2.final_retain_version = s.version ∧
    (walk_body env data_dir grace_timestamp min_retain_version metadata
      s).2.prepare_vacuum_file_size = s.prepare_vacuum_file_size ∧
    (walk_body env data_dir grace_timestamp min_retain_version metadata
      s).2.bundle_file_deleter.isSome = s.bundle_file_deleter.isSome ∧
    (walk_body env data_dir grace_timestamp min_retain_version metadata
      s).2.datafile_deleter.handed = s.datafile_deleter.handed ++
        plain_garbage_paths env data_dir s.bundle_file_deleter.isSome metadata ∧
    pending_of (walk_body env data_dir grace_timestamp min_retain_version metadata
      s).2.bundle_file_deleter = pending_add (pending_of s.bundle_file_deleter)
        (bundle_garbage_paths env data_dir s.bundle_file_deleter.isSome metadata) := by
  have hflip := walk_body_flip env data_dir grace_timestamp min_retain_version metadata s
    hskip hc
  obtain ⟨hG, hprep⟩ := WalkState.collect_garbage_total_spec env metadata data_dir
    { s.add_extra metadata min_retain_version with
      final_retain_version := s.version, skip_check_grace_timestamp := true }
  rw [← hflip] at hG hprep
  obtain ⟨l, _, hl2, hl3⟩ := hG.plain
  obtain ⟨l', _, hl2', hl3'⟩ := hG.bundle
  rw [hl3 hb] at hl2
  rw [hl3' hb] at hl2'
  exact ⟨hG.skip, hG.final_retain_version, hprep, hG.bundle_some, hl2, hl2'⟩

/-- The loop body once grace timestamps are no longer checked, when it returns
    OK: the deleters receive exactly the garbage of the snapshot. -/
theorem walk_body_skip_ok (env : Env) (data_dir : String)
    (grace_timestamp min_retain_version : Int) (metadata : TabletMetadataPB) (s : WalkState)
    (hskip : s.skip_check_grace_timestamp = true)
    (hb : (walk_body env data_dir grace_timestamp min_retain_version metadata s).1
      = Status.OK) :
    (walk_body env data_dir grace_timestamp min_retain_version metadata
      s).2.skip_check_grace_timestamp = true ∧
    (walk_body env data_dir grace_timestamp min_retain_version metadata
      s).2.final_retain_version = s.final_retain_version ∧
    (walk_body env data_dir grace_timestamp min_retain_version metadata
      s).2.total_datafile_size = s.total_datafile_size ∧
    (walk_body env data_dir grace_timestamp min_retain_version metadata
      s).2.bundle_file_deleter.isSome = s.bundle_file_deleter.isSome ∧
    (walk_body env data_dir grace_timestamp min_retain_version metadata
      s).2.datafile_deleter.handed = s.datafile_deleter.handed ++
        plain_garbage_paths env data_dir s.bundle_file_deleter.isSome metadata ∧
    pending_of (walk_body env data_dir grace_timestamp min_retain_version metadata
      s).2.bundle_file_deleter = pending_add (pending_of s.bundle_file_deleter)
        (bundle_garbage_paths env data_dir s.bundle_file_deleter.isSome metadata) := by
  have hsk := walk_body_skip env data_dir grace_timestamp min_retain_version metadata s hskip
  obtain ⟨hG, htot⟩ := WalkState.collect_garbage_prepare_spec env metadata data_dir
    (s.add_extra metadata min_retain_version)
  rw [← hsk] at hG htot
  obtain ⟨l, _, hl2, hl3⟩ := hG.plain
  obtain ⟨l', _, hl2', hl3'⟩ := hG.bundle
  rw [hl3 hb] at hl2
  rw [hl3' hb] at hl2'
  exact ⟨hG.skip.trans hskip, hG.final_retain_version, htot, hG.bundle_some, hl2, hl2'⟩

/-- A loop that ends normally, at a snapshot committed at or after the grace
    timestamp while none older has been seen: it goes on from the previous
    garbage version with nothing but `final_retain_version` and
    `extra_file_size` changed. -/
theorem walk_done_recent (env : Env) (data_dir : String)
    (tablet_id min_version grace_timestamp min_retain_version : Int) (fuel : Nat)
    (s s' : WalkState) (metadata : TabletMetadataPB) (hv : s.version ≥ min_version)
    (hg : env.get_tablet_metadata tablet_id s.version = StatusOr.value metadata)
    (hskip : s.skip_check_grace_timestamp = false)
    (hc : ¬ compare_time metadata < grace_timestamp)
    (hw : walk env data_dir tablet_id min_version grace_timestamp min_retain_version fuel s
      = LoopResult.done s') :
    metadata.prev_garbage_version < s.version ∧
    ∃ n s1, walk env data_dir tablet_id min_version grace_timestamp min_retain_version n s1
        = LoopResult.done s' ∧
      s1.version = metadata.prev_garbage_version ∧
      s1.skip_check_grace_timestamp = false ∧
      s1.final_retain_version = s.version ∧
      s1.datafile_deleter = s.datafile_deleter ∧
      s1.bundle_file_deleter = s.bundle_file_deleter ∧
      s1.total_datafile_size = s.total_datafile_size ∧
      s1.prepare_vacuum_file_size = s.prepare_vacuum_file_size := by
  obtain ⟨_, hp, n, _, hw1⟩ := walk_done_step env data_dir tablet_id min_version
    grace_timestamp min_retain_version fuel s s' metadata hv hg hw
  have hskip0 : (s.load tablet_id).skip_check_grace_timestamp = false := hskip
  rw [walk_body_recent env data_dir grace_timestamp min_retain_version metadata
    (s.load tablet_id) hskip0 hc] at hw1
  exact ⟨hp, n, _, hw1, rfl, hskip, rfl, rfl, rfl, rfl, rfl⟩

/-- A loop that ends normally, at the first snapshot older than the grace
    timestamp: it goes on from the previous garbage version with that snapshot
    retained and its garbage handed to the deleters. -/
theorem walk_done_flip (env : Env) (data_dir : String)
    (tablet_id min_version grace_timestamp min_retain_version : Int) (fuel : Nat)
    (s s' : WalkState) (metadata : TabletMetadataPB) (hv : s.version ≥ min_version)
    (hg : env.get_tablet_metadata tablet_id s.version = StatusOr.value metadata)
    (hskip : s.skip_check_grace_timestamp = false)
    (hc : compare_time metadata < grace_timestamp)
    (hw : walk env data_dir tablet_id min_version grace_timestamp min_retain_version fuel s
      = LoopResult.done s') :
    metadata.prev_garbage_version < s.version ∧
    ∃ n s1, walk env data_dir tablet_id min_version grace_timestamp min_retain_version n s1
        = LoopResult.done s' ∧
      s1.version = metadata.prev_garbage_version ∧
      s1.skip_check_grace_timestamp = true ∧
      s1.final_retain_version = s.version ∧
      s1.prepare_vacuum_file_size = s.prepare_vacuum_file_size ∧
      s1.bundle_file_deleter.isSome = s.bundle_file_deleter.isSome ∧
      s1.datafile_deleter.handed = s.datafile_deleter.handed ++
        plain_garbage_paths env data_dir s.bundle_file_deleter.isSome metadata ∧
      pending_of s1.bundle_file_deleter = pending_add (pending_of s.bundle_file_deleter)
        (bundle_garbage_paths env data_dir s.bundle_file_deleter.isSome metadata) := by
  obtain ⟨hb, hp, n, _, hw1⟩ := walk_done_step env data_dir tablet_id min_version
    grace_timestamp min_retain_version fuel s s' metadata hv hg hw
  have hskip0 : (s.load tablet_id).skip_check_grace_timestamp = false := hskip
  obtain ⟨h1, h2, h3, h4, h5, h6⟩ := walk_body_flip_ok env data_dir grace_timestamp
    min_retain_version metadata (s.load tablet_id) hskip0 hc hb
  exact ⟨hp, n, _, hw1, rfl, h1, h2, h3, h4, h5, h6⟩

/-- A loop that ends normally, at a snapshot reached when grace timestamps are
    no longer checked: it goes on from the previous garbage version with the
    snapshot's garbage handed to the deleters. -/
theorem walk_done_skip (env : Env) (data_dir : String)
    (tablet_id min_version grace_timestamp min_retain_version : Int) (fuel : Nat)
    (s s' : WalkState) (metadata : TabletMetadataPB) (hv : s.version ≥ min_version)
    (hg : env.get_tablet_metadata tablet_id s.version = StatusOr.value metadata)
    (hskip : s.skip_check_grace_timestamp = true)
    (hw : walk env data_dir tablet_id min_version grace_timestamp min_retain_version fuel s
      = LoopResult.done s') :
    metadata.prev_garbage_version < s.version ∧
    ∃ n s1, walk env data_dir tablet_id min_version grace_timestamp min_retain_version n s1
        = LoopResult.done s' ∧
      s1.version = metadata.prev_garbage_version ∧
      s1.skip_check_grace_timestamp = true ∧
      s1.final_retain_version = s.final_retain_version ∧
      s1.total_datafile_size = s.total_datafile_size ∧
      s1.bundle_file_deleter.isSome = s.bundle_file_deleter.isSome ∧
      s1.datafile_deleter.handed = s.datafile_deleter.handed ++
        plain_garbage_paths env data_dir s.bundle_file_deleter.isSome metadata ∧
      pending_of s1.bundle_file_deleter = pending_add (pending_of s.bundle_file_deleter)
        (bundle_garbage_paths env data_dir s.bundle_file_deleter.isSome metadata) := by
  obtain ⟨hb, hp, n, _, hw1⟩ := walk_done_step env data_dir tablet_id min_version
    grace_timestamp min_retain_version fuel s s' metadata hv hg hw
  have hskip0 : (s.load tablet_id).skip_check_grace_timestamp = true := hskip
  obtain ⟨h1, h2, h3, h4, h5, h6⟩ := walk_body_skip_ok env data_dir grace_timestamp
    min_retain_version metadata (s.load tablet_id) hskip0 hb
  exact ⟨hp, n, _, hw1, rfl, h1, h2, h3, h4, h5, h6⟩

/-- A loop that ends normally from a version below the lower bound has done
    nothing. -/
theorem walk_done_below (env : Env) (data_dir : String)
    (tablet_id min_version grace_timestamp min_retain_version : Int) (fuel : Nat)
    (s s' : WalkState) (hv : s.version < min_version)
    (hw : walk env data_dir tablet_id min_version grace_timestamp min_retain_version fuel s
      = LoopResult.done s') : s' = s := by
  rw [walk_below _ _ _ _ _ _ _ _ (by omega)] at hw
  injection hw with h
  exact h.symm

theorem compare_time_of_commit_time (metadata : TabletMetadataPB) (c : Int)
    (h : metadata.commit_time_field = some c) (hc : 0 < c) : compare_time metadata = c := by
  unfold compare_time TabletMetadataPB.has_commit_time TabletMetadataPB.commit_time
  rw [h]
  simp [hc]

/-- The part after the loop leaves the data-file deleter and the bundle
    deleter alone. -/
theorem collect_files_to_vacuum_tail_frame (env : Env) (meta_dir : String) (a : VacuumArgs)
    (s : WalkState) :
    (collect_files_to_vacuum_tail env meta_dir a s).2.datafile_deleter = a.datafile_deleter ∧
    (collect_files_to_vacuum_tail env meta_dir a s).2.bundle_file_deleter
      = a.bundle_file_deleter ∧
    (collect_files_to_vacuum_tail env meta_dir a s).2.tablet_info.tablet_id
      = a.tablet_info.tablet_id := by
  unfold collect_files_to_vacuum_tail
  split
  · exact ⟨rfl, rfl, rfl⟩
  · simp only
    split
    · split
      · exact ⟨rfl, rfl, rfl⟩
      · exact ⟨rfl, rfl, rfl⟩
    · exact ⟨rfl, rfl, rfl⟩

/-- When the file-system handle is created, the deleters are at the end of the
    call as the loop left them. -/
theorem collect_files_to_vacuum_deleters (env : Env) (root_dir : String) (a : VacuumArgs)
    (grace_timestamp min_retain_version : Int) (hfs : env.create_fs root_dir = Status.OK) :
    (collect_files_to_vacuum env root_dir a grace_timestamp
      min_retain_version).state.datafile_deleter
      = (collect_files_to_vacuum_walk env root_dir a grace_timestamp
        min_retain_version).state.datafile_deleter ∧
    (collect_files_to_vacuum env root_dir a grace_timestamp
      min_retain_version).state.bundle_file_deleter
      = (collect_files_to_vacuum_walk env root_dir a grace_timestamp
        min_retain_version).state.bundle_file_deleter := by
  unfold collect_files_to_vacuum
  rw [hfs]
  simp only
  cases hw : collect_files_to_vacuum_walk env root_dir a grace_timestamp min_retain_version with
  | done s =>
    simp only
    obtain ⟨h1, h2, _⟩ := collect_files_to_vacuum_tail_frame env
      (env.join_path root_dir env.kMetadataDirectoryName) (a.after_walk s) s
    exact ⟨h1, h2⟩
  | returned st s => exact ⟨rfl, rfl⟩
  | aborted s => exact ⟨rfl, rfl⟩
  | out_of_fuel s => exact ⟨rfl, rfl⟩

theorem walk_body_without_live (env : Env) (data_dir : String)
    (grace_timestamp min_retain_version : Int) (metadata : TabletMetadataPB) (s : WalkState) :
    walk_body env.without_live data_dir grace_timestamp min_retain_version
      metadata.without_live s
      = walk_body env data_dir grace_timestamp min_retain_version metadata s := rfl

/-- The loop does not depend on the live state of the snapshots. -/
theorem walk_without_live (env : Env) (data_dir : String)
    (tablet_id min_version grace_timestamp min_retain_version : Int) (fuel : Nat)
    (s : WalkState) :
    walk env.without_live data_dir tablet_id min_version grace_timestamp min_retain_version
      fuel s
      = walk env data_dir tablet_id min_version grace_timestamp min_retain_version fuel s := by
  induction fuel generalizing s with
  | zero => rfl
  | succ n ih =>
    have hget : env.without_live.get_tablet_metadata tablet_id s.version =
        match env.get_tablet_metadata tablet_id s.version with
        | StatusOr.value metadata => StatusOr.value metadata.without_live
        | StatusOr.error c m => StatusOr.error c m := rfl
    unfold walk
    by_cases hv : s.version ≥ min_version
    · rw [if_pos hv, if_pos hv]
      simp only
      rw [hget]
      cases env.get_tablet_metadata tablet_id s.version with
      | error c m => rfl
      | value metadata =>
        simp only
        rw [walk_body_without_live]
        cases (walk_body env data_dir grace_timestamp min_retain_version metadata
            (s.load tablet_id)).1 with
        | error c m => rfl
        | OK =>
          simp only
          have hp : metadata.without_live.prev_garbage_version = metadata.prev_garbage_version :=
            rfl
          rw [hp]
          split
          · exact ih _
          · rfl
    · rw [if_neg hv, if_neg hv]

/-- The planner does not depend on the live state of the snapshots. -/
theorem collect_files_to_vacuum_without_live (env : Env) (root_dir : String) (a : VacuumArgs)
    (grace_timestamp min_retain_version : Int) :
    collect_files_to_vacuum env.without_live root_dir a grace_timestamp min_retain_version
      = collect_files_to_vacuum env root_dir a grace_timestamp min_retain_version := by
  have hw : collect_files_to_vacuum_walk env.without_live root_dir a grace_timestamp
      min_retain_version
      = collect_files_to_vacuum_walk env root_dir a grace_timestamp min_retain_version :=
    walk_without_live env _ _ _ _ _ _ _
  unfold collect_files_to_vacuum
  rw [hw]
  rfl

theorem LoopResult.eq_done_of_is_done {σ : Type} (r : LoopResult σ) (h : r.is_done = true) :
    r = LoopResult.done r.state := by
  cases r with
  | done s => rfl
  | returned st s => exact absurd h (by simp [LoopResult.is_done])
  | aborted s => exact absurd h (by simp [LoopResult.is_done])
  | out_of_fuel s => exact absurd h (by simp [LoopResult.is_done])

theorem version_range_pairwise (lo hi : Int) :
    (version_range lo hi).Pairwise (fun v w => v < w) := by
  unfold version_range
  rw [List.pairwise_map]
  refine List.Pairwise.imp ?_ (List.pairwise_lt_range _)
  intro i j hij
  omega

/-- The loop started with grace timestamps not checked ends that way. -/
theorem walk_init_skip (env : Env) (root_dir : String) (a : VacuumArgs)
    (grace_timestamp min_retain_version : Int) (s : WalkState)
    (hgrace : grace_timestamp ≤ 0)
    (hw : collect_files_to_vacuum_walk env root_dir a grace_timestamp min_retain_version
      = LoopResult.done s) :
    s.skip_check_grace_timestamp = true := by
  have h := (walk_skip_final env (env.join_path root_dir env.kSegmentDirectoryName)
    a.tablet_info.tablet_id (walk_min_version a.tablet_info) grace_timestamp
    min_retain_version (walk_fuel a.tablet_info min_retain_version)
    (walk_init a grace_timestamp min_retain_version) (le_refl _)
    (by simp [walk_init, hgrace])).1
  unfold collect_files_to_vacuum_walk at hw
  rw [hw] at h
  exact h

/-- A walk that ends after loading only snapshots committed at or after the
    grace timestamp changes nothing but `version`, `final_retain_version` and
    `extra_file_size`, and does nothing but load snapshots. -/
theorem walk_ends_recent (env : Env) (data_dir : String)
    (tablet_id min_version grace_timestamp min_retain_version : Int)
    (v cur r : Int) (h : WalkEndsRecent env tablet_id min_version grace_timestamp v cur r)
    (fuel : Nat) (s : WalkState) (hv : s.version = v)
    (hcur : s.final_retain_version = cur)
    (hskip : s.skip_check_grace_timestamp = false)
    (hfuel : (s.version - min_version + 1).toNat ≤ fuel) :
    ∃ v' x events,
      walk env data_dir tablet_id min_version grace_timestamp min_retain_version fuel s
        = LoopResult.done
          { s with
            version := v', final_retain_version := r, extra_file_size := x,
            world := s.world ++ events } ∧
      ∀ e ∈ events, ∃ w, e = Event.load tablet_id w := by
  induction h generalizing fuel s with
  | @stop_below v cur hlt =>
    refine ⟨s.version, s.extra_file_size, [], ?_, fun e he => absurd he (List.not_mem_nil e)⟩
    rw [walk_below _ _ _ _ _ _ _ _ (by omega), List.append_nil, ← hcur]
  | @stop_not_found v cur c m hle hg hnf =>
    subst hv
    cases fuel with
    | zero => omega
    | succ n =>
      refine ⟨s.version, s.extra_file_size, [Event.load tablet_id s.version], ?_, ?_⟩
      · rw [walk_load_failed _ _ _ _ _ _ _ _ c m hle hg, if_pos hnf, ← hcur]
        rfl
      · intro e he
        exact ⟨s.version, List.mem_singleton.1 he⟩
  | @step_recent v cur r metadata hle hg hc hp _ ih =>
    subst hv
    cases fuel with
    | zero => omega
    | succ n =>
      have hskip0 : (s.load tablet_id).skip_check_grace_timestamp = false := hskip
      have hrec := walk_body_recent env data_dir grace_timestamp min_retain_version metadata
        (s.load tablet_id) hskip0 hc
      have hb : (walk_body env data_dir grace_timestamp min_retain_version metadata
          (s.load tablet_id)).1 = Status.OK := by rw [hrec]
      rw [walk_step _ _ _ _ _ _ _ _ metadata hle hg hb hp, hrec]
      obtain ⟨v', x, events, hw, hev⟩ := ih n
        { ((s.load tablet_id).add_extra metadata min_retain_version) with
          final_retain_version := s.version
          version := metadata.prev_garbage_version }
        rfl rfl hskip (by show (metadata.prev_garbage_version - _ + 1).toNat ≤ n; omega)
      refine ⟨v', x, Event.load tablet_id s.version :: events, hw.trans ?_, ?_⟩
      · simp only [WalkState.load, WalkState.add_extra, List.append_assoc, List.singleton_append]
      · intro e he
        rcases List.mem_cons.1 he with he | he
        · exact ⟨s.version, he⟩
        · exact hev e he

/-! ## AsyncBundleFileDeleter -/

theorem pending_keys_increment (path : String) (pending : List (String × Nat)) :
    pending_keys (pending_increment path pending)
      = if path ∈ pending_keys pending then pending_keys pending
        else pending_keys pending ++ [path] := by
  induction pending with
  | nil => simp [pending_increment, pending_keys]
  | cons e rest ih =>
    obtain ⟨p, c⟩ := e
    unfold pending_increment
    by_cases h : p = path
    · subst h
      simp [pending_keys]
    · rw [if_neg h]
      have ih' := ih
      simp only [pending_keys, List.map_cons] at ih' ⊢
      rw [ih']
      by_cases hm : path ∈ List.map Prod.fst rest
      · simp [hm]
      · have hne : ¬ path = p := fun e => h e.symm
        simp [hm, hne]

theorem mem_pending_keys_increment (path q : String) (pending : List (String × Nat)) :
    q ∈ pending_keys (pending_increment path pending) ↔ q = path ∨ q ∈ pending_keys pending := by
  rw [pending_keys_increment]
  split
  · constructor
    · exact Or.inr
    · rintro (h | h)
      · subst h; assumption
      · exact h
  · simp [or_comm]

theorem nodup_pending_keys_increment (path : String) (pending : List (String × Nat))
    (h : (pending_keys pending).Nodup) :
    (pending_keys (pending_increment path pending)).Nodup := by
  rw [pending_keys_increment]
  split
  · exact h
  · rename_i hm
    exact List.Nodup.append h (List.nodup_singleton _) (by simpa using hm)

/-- After any sequence of `delete_file` and `delay_delete` calls on a new
    bundle deleter: nothing has reached the underlying deleter, the keys of
    `_pending_files` are the paths given to `delete_file`, without repetition,
    and `_delay_delete_files` holds the paths given to `delay_delete`. -/
theorem bundle_after_spec (batch_size : Int) (ops : List BundleOp) :
    (bundle_after batch_size ops).toAsyncFileDeleter = { _batch_size := batch_size } ∧
    (pending_keys (bundle_after batch_size ops)._pending_files).Nodup ∧
    (∀ p, p ∈ pending_keys (bundle_after batch_size ops)._pending_files ↔
      p ∈ deleted_paths ops) ∧
    (∀ p, p ∈ (bundle_after batch_size ops)._delay_delete_files ↔ p ∈ delayed_paths ops) := by
  unfold bundle_after
  have key : ∀ (ops : List BundleOp) (b : AsyncBundleFileDeleter),
      (pending_keys b._pending_files).Nodup →
      (ops.foldl BundleOp.apply b).toAsyncFileDeleter = b.toAsyncFileDeleter ∧
      (pending_keys (ops.foldl BundleOp.apply b)._pending_files).Nodup ∧
      (∀ p, p ∈ pending_keys (ops.foldl BundleOp.apply b)._pending_files ↔
        p ∈ pending_keys b._pending_files ∨ p ∈ deleted_paths ops) ∧
      (∀ p, p ∈ (ops.foldl BundleOp.apply b)._delay_delete_files ↔
        p ∈ b._delay_delete_files ∨ p ∈ delayed_paths ops) := by
    intro ops
    induction ops with
    | nil =>
      intro b hb
      simp [deleted_paths, delayed_paths, hb]
    | cons op ops ih =>
      intro b hb
      cases op with
      | delete_file path =>
        obtain ⟨h1, h2, h3, h4⟩ := ih (BundleOp.apply b (BundleOp.delete_file path))
          (nodup_pending_keys_increment path _ hb)
        refine ⟨h1, h2, fun p => ?_, fun p => ?_⟩
        · rw [List.foldl_cons, h3]
          show p ∈ pending_keys (pending_increment path b._pending_files) ∨ _ ↔ _
          rw [mem_pending_keys_increment]
          simp only [deleted_paths, List.mem_cons]
          tauto
        · rw [List.foldl_cons, h4]
          rfl
      | delay_delete path =>
        obtain ⟨h1, h2, h3, h4⟩ := ih (BundleOp.apply b (BundleOp.delay_delete path)) hb
        refine ⟨h1, h2, fun p => ?_, fun p => ?_⟩
        · rw [List.foldl_cons, h3]
          rfl
        · rw [List.foldl_cons, h4]
          show p ∈ (if path ∈ b._delay_delete_files then b._delay_delete_files
            else b._delay_delete_files ++ [path]) ∨ _ ↔ _
          simp only [delayed_paths, List.mem_cons]
          split
          · constructor
            · rintro (h | h)
              · exact Or.inl h
              · exact Or.inr (Or.inr h)
            · rintro (h | h | h)
              · exact Or.inl h
              · subst h
                exact Or.inl (by assumption)
              · exact Or.inr h
          · simp only [List.mem_append, List.mem_singleton]
            tauto
  obtain ⟨h1, h2, h3, h4⟩ := key ops { _batch_size := batch_size } List.nodup_nil
  refine ⟨h1, h2, fun p => ?_, fun p => ?_⟩
  · rw [h3]
    simp [pending_keys]
  · rw [h4]
    simp

theorem flatMap_deletable (delay : List String) (pending : List (String × Nat)) :
    pending.flatMap (fun entry => if entry.1 ∈ delay then [] else [entry.1])
      = (pending_keys pending).filter (fun p => decide (p ∉ delay)) := by
  induction pending with
  | nil => rfl
  | cons e rest ih =>
    rw [List.flatMap_cons, ih]
    simp only [pending_keys, List.map_cons, List.filter_cons]
    by_cases h : e.1 ∈ delay
    · simp [h]
    · simp [h]

/-- Method `finish` of the bundle deleter hands the underlying deleter a prefix
    of the pending paths that are not delayed, in the order of
    `_pending_files`; when it returns OK it has handed over all of them and the
    batch of the underlying deleter is empty. -/
theorem AsyncBundleFileDeleter.finish_spec (env : Env) (b : AsyncBundleFileDeleter)
    (w : World) :
    (b.finish env w).2.1._delay_delete_files = b._delay_delete_files ∧
    (b.finish env w).2.1._pending_files = b._pending_files ∧
    (b.toAsyncFileDeleter.counted → (b.finish env w).2.1.toAsyncFileDeleter.counted) ∧
    ((b.finish env w).1 = Status.OK → (b.finish env w).2.1.toAsyncFileDeleter._batch = []) ∧
    ∃ l, l <+: deletable_paths b ∧
      (b.finish env w).2.1.toAsyncFileDeleter.handed = b.toAsyncFileDeleter.handed ++ l ∧
      ((b.finish env w).1 = Status.OK → l = deletable_paths b) := by
  have hnil : ∀ x : List String, x ++ [] = x := List.append_nil
  have happ : ∀ x l₁ l₂ : List String, (x ++ l₁) ++ l₂ = x ++ (l₁ ++ l₂) := List.append_assoc
  let I : AsyncBundleFileDeleter × World → Prop := fun s =>
    s.1._delay_delete_files = b._delay_delete_files ∧
    s.1._pending_files = b._pending_files ∧
    (b.toAsyncFileDeleter.counted → s.1.toAsyncFileDeleter.counted)
  have hentry : ∀ entry ∈ b._pending_files,
      Emits I (fun (x l : List String) => x ++ l)
        (fun s : AsyncBundleFileDeleter × World => s.1.toAsyncFileDeleter.handed)
        (if entry.1 ∈ b._delay_delete_files then [] else [entry.1])
        (AsyncBundleFileDeleter.finish_entry env entry) := by
    intro entry _ s hs
    obtain ⟨h1, h2, h3⟩ := hs
    unfold AsyncBundleFileDeleter.finish_entry
    by_cases hm : entry.1 ∈ s.1._delay_delete_files
    · rw [if_pos hm, if_pos (h1 ▸ hm)]
      exact ⟨⟨h1, h2, h3⟩, [], List.prefix_rfl, (hnil _).symm, fun _ => rfl⟩
    · rw [if_neg hm, if_neg (h1 ▸ hm)]
      obtain ⟨f1, _, _, f4⟩ := AsyncFileDeleter.delete_file_frame env entry.1
        s.1.toAsyncFileDeleter s.2
      exact ⟨⟨h1, h2, fun hc => f4 (h3 hc)⟩, _, List.prefix_rfl, f1, fun _ => rfl⟩
  have hloop := Emits.for_each hnil happ _ _ b._pending_files hentry
  have hlast : Emits I (fun (x l : List String) => x ++ l)
      (fun s : AsyncBundleFileDeleter × World => s.1.toAsyncFileDeleter.handed) []
      (fun s => ((AsyncFileDeleter.finish env s.1.toAsyncFileDeleter s.2).1,
        ({ s.1 with toAsyncFileDeleter :=
            (AsyncFileDeleter.finish env s.1.toAsyncFileDeleter s.2).2.1 },
          (AsyncFileDeleter.finish env s.1.toAsyncFileDeleter s.2).2.2))) := by
    refine Emits.of_frame hnil _ ?_ ?_
    · rintro s ⟨h1, h2, h3⟩
      exact ⟨h1, h2, fun hc =>
        (AsyncFileDeleter.finish_frame env s.1.toAsyncFileDeleter s.2).2.1 (h3 hc)⟩
    · intro s _
      exact (AsyncFileDeleter.finish_frame env s.1.toAsyncFileDeleter s.2).1
  have hall := Emits.seq happ hloop hlast (b, w) ⟨rfl, rfl, fun h => h⟩
  rw [flatMap_deletable, List.append_nil] at hall
  obtain ⟨⟨i1, i2, i3⟩, l, hl1, hl2, hl3⟩ := hall
  refine ⟨i1, i2, i3, ?_, l, hl1, hl2, hl3⟩
  intro hok
  unfold AsyncBundleFileDeleter.finish at hok ⊢
  by_cases hst : (for_each (AsyncBundleFileDeleter.finish_entry env) b._pending_files
      (b, w)).1 = Status.OK
  · rw [RETURN_IF_ERROR_ok _ _ hst] at hok ⊢
    exact (AsyncFileDeleter.finish_frame env _ _).2.2 hok
  · rw [RETURN_IF_ERROR_error _ _ hst] at hok
    exact absurd hok hst

theorem OnChain.found_first (env : Env) (tablet_id v p : Int) (metadata : TabletMetadataPB)
    (h : OnChain env tablet_id v p metadata) :
    ∃ first, env.get_tablet_metadata tablet_id v = StatusOr.value first := by
  cases h with
  | head hg => exact ⟨_, hg⟩
  | next hg _ => exact ⟨_, hg⟩

theorem OnChain.found_last (env : Env) (tablet_id v p : Int) (metadata : TabletMetadataPB)
    (h : OnChain env tablet_id v p metadata) :
    env.get_tablet_metadata tablet_id p = StatusOr.value metadata := by
  induction h with
  | head hg => exact hg
  | next _ _ ih => exact ih

theorem compare_time_lt_of_commit_time_lt (metadata : TabletMetadataPB) (grace_timestamp : Int)
    (hgrace : 0 < grace_timestamp) (h : metadata.commit_time < grace_timestamp) :
    compare_time metadata < grace_timestamp := by
  unfold compare_time
  split
  · exact h
  · exact hgrace

/-- With snapshot versions at least 1 and a snapshot older than the grace
    timestamp on the chain below the starting point, a loop that ends normally
    has `final_retain_version >= 1` when it stopped checking grace timestamps
    and `final_retain_version >= 2` when it did not. -/
theorem walk_progress (env : Env) (data_dir : String)
    (tablet_id min_version grace_timestamp min_retain_version : Int)
    (hmin : 1 ≤ min_version)
    (hversions : ∀ v metadata,
      env.get_tablet_metadata tablet_id v = StatusOr.value metadata → 1 ≤ v)
    (fuel : Nat) (s s' : WalkState)
    (hs : (s.skip_check_grace_timestamp = true → 1 ≤ s.final_retain_version) ∧
      (s.skip_check_grace_timestamp = false →
        (∃ p metadata, OnChain env tablet_id s.version p metadata ∧
          compare_time metadata < grace_timestamp) ∧
        (s.version < s.final_retain_version ∨ 2 ≤ s.final_retain_version)))
    (hw : walk env data_dir tablet_id min_version grace_timestamp min_retain_version fuel s
      = LoopResult.done s') :
    (s'.skip_check_grace_timestamp = true → 1 ≤ s'.final_retain_version) ∧
    (s'.skip_check_grace_timestamp = false → 2 ≤ s'.final_retain_version) := by
  refine walk_rule env data_dir tablet_id min_version grace_timestamp min_retain_version
    (fun s => (s.skip_check_grace_timestamp = true → 1 ≤ s.final_retain_version) ∧
      (s.skip_check_grace_timestamp = false →
        (∃ p metadata, OnChain env tablet_id s.version p metadata ∧
          compare_time metadata < grace_timestamp) ∧
        (s.version < s.final_retain_version ∨ 2 ≤ s.final_retain_version)))
    (fun r => ∀ s', r = LoopResult.done s' →
      (s'.skip_check_grace_timestamp = true → 1 ≤ s'.final_retain_version) ∧
      (s'.skip_check_grace_timestamp = false → 2 ≤ s'.final_retain_version))
    ?_ ?_ ?_ ?_ ?_ ?_ ?_ fuel s hs s' hw
  · -- the loop condition fails
    rintro s ⟨h1, h2⟩ _ s' hd
    injection hd with hd
    subst hd
    refine ⟨h1, fun hk => ?_⟩
    obtain ⟨⟨p, metadata, hc, _⟩, hor⟩ := h2 hk
    obtain ⟨first, hf⟩ := hc.found_first
    have := hversions _ _ hf
    omega
  · intro s _ _ s' hd
    exact absurd hd (by simp)
  · -- the version is not found
    rintro s c m ⟨h1, h2⟩ _ hg _ s' hd
    injection hd with hd
    subst hd
    refine ⟨h1, fun hk => ?_⟩
    obtain ⟨⟨p, metadata, hc, _⟩, _⟩ := h2 hk
    obtain ⟨first, hf⟩ := hc.found_first
    rw [hg] at hf
    exact absurd hf (by simp)
  · intro s c m _ _ _ _ s' hd
    exact absurd hd (by simp)
  · intro s metadata c m _ _ _ _ s' hd
    exact absurd hd (by simp)
  · intro s metadata _ _ _ _ _ s' hd
    exact absurd hd (by simp)
  · -- one more iteration
    rintro s metadata ⟨h1, h2⟩ hv hg hb hp
    rw [walk_body_version] at hp
    cases hskip : s.skip_check_grace_timestamp with
    | true =>
      obtain ⟨k1, k2, _⟩ := walk_body_skip_ok env data_dir grace_timestamp min_retain_version
        metadata (s.load tablet_id) hskip hb
      refine ⟨fun _ => ?_, fun hk => ?_⟩
      · show 1 ≤ (walk_body env data_dir grace_timestamp min_retain_version metadata
          (s.load tablet_id)).2.final_retain_version
        rw [k2]
        exact h1 hskip
      · have hk' : (walk_body env data_dir grace_timestamp min_retain_version metadata
            (s.load tablet_id)).2.skip_check_grace_timestamp = false := hk
        rw [k1] at hk'
        exact absurd hk' (by simp)
    | false =>
      have hskip0 : (s.load tablet_id).skip_check_grace_timestamp = false := hskip
      by_cases hc : compare_time metadata < grace_timestamp
      · obtain ⟨k1, k2, _⟩ := walk_body_flip_ok env data_dir grace_timestamp
          min_retain_version metadata (s.load tablet_id) hskip0 hc hb
        refine ⟨fun _ => ?_, fun hk => ?_⟩
        · show 1 ≤ (walk_body env data_dir grace_timestamp min_retain_version metadata
            (s.load tablet_id)).2.final_retain_version
          rw [k2]
          show 1 ≤ s.version
          omega
        · have hk' : (walk_body env data_dir grace_timestamp min_retain_version metadata
              (s.load tablet_id)).2.skip_check_grace_timestamp = false := hk
          rw [k1] at hk'
          exact absurd hk' (by simp)
      · have hrec := walk_body_recent env data_dir grace_timestamp min_retain_version
          metadata (s.load tablet_id) hskip0 hc
        rw [hrec]
        refine ⟨fun hk => ?_, fun _ => ⟨?_, Or.inl hp⟩⟩
        · have hk' : s.skip_check_grace_timestamp = true := hk
          rw [hskip] at hk'
          exact absurd hk' (by simp)
        · obtain ⟨⟨p, last, hch, hlt⟩, _⟩ := h2 hskip
          cases hch with
          | head hg' =>
            rw [hg] at hg'
            injection hg' with e
            subst e
            exact absurd hlt hc
          | next hg' hrest =>
            rw [hg] at hg'
            injection hg' with e
            subst e
            exact ⟨p, last, hrest, hlt⟩

/-! ## vacuum_tablet_metadata and vacuum_impl -/

/-- A successful call of the planner with a positive grace timestamp keeps the
    tablet id and does not lower `min_version`. -/
theorem collect_files_to_vacuum_echoes (env : Env) (root_dir : String) (a a' : VacuumArgs)
    (grace_timestamp min_retain_version : Int) (hgrace : 0 < grace_timestamp)
    (hok : collect_files_to_vacuum env root_dir a grace_timestamp min_retain_version
      = Outcome.returned Status.OK a') :
    Echoes a.tablet_info a'.tablet_info := by
  obtain ⟨_, s, hw, ht⟩ := collect_files_to_vacuum_ok env root_dir a a' grace_timestamp
    min_retain_version hok
  have hskip0 : (walk_init a grace_timestamp min_retain_version).skip_check_grace_timestamp
      = false := by
    simp only [walk_init, decide_eq_false_iff_not, not_le]
    exact hgrace
  cases hskip : s.skip_check_grace_timestamp with
  | false =>
    rw [collect_files_to_vacuum_tail_recent env _ _ s hskip] at ht
    injection ht with _ ha
    rw [← ha]
    exact ⟨rfl, le_refl _⟩
  | true =>
    obtain ⟨_, hti, _⟩ := collect_files_to_vacuum_tail_flip env _ _ a' s hskip ht
    rw [hti]
    refine ⟨rfl, ?_⟩
    have hF := (walk_inv env (env.join_path root_dir env.kSegmentDirectoryName)
      a.tablet_info.tablet_id (walk_min_version a.tablet_info) grace_timestamp
      min_retain_version (walk_fuel a.tablet_info min_retain_version)
      (walk_init a grace_timestamp min_retain_version) (le_refl _)).1
    unfold collect_files_to_vacuum_walk at hw
    rw [hw] at hF
    have := hF.flipped hskip0 hskip
    show a.tablet_info.min_version ≤ s.final_retain_version
    exact le_trans (le_max_right 1 _) this

theorem vacuum_tablet_finish_tablet_infos (env : Env) (enable_file_bundling : Bool)
    (a : VacuumArgs) (s : DriverState) :
    (vacuum_tablet_finish env enable_file_bundling a s).2.tablet_infos = s.tablet_infos := by
  unfold vacuum_tablet_finish
  simp only
  split
  · rfl
  · split
    · split
      · rfl
      · rfl
    · rfl

/-- A successful run of the loop over the tablets appends to the visited
    tablet infos one element per tablet, in order, related to the tablet's
    element before the call by any relation `R` that a successful call of the
    planner establishes. -/
theorem vacuum_tablets_forall₂ (env : Env) (root_dir : String)
    (min_retain_version grace_timestamp : Int) (enable_file_bundling : Bool)
    (R : TabletInfoPB → TabletInfoPB → Prop)
    (hR : ∀ a a', collect_files_to_vacuum env root_dir a grace_timestamp min_retain_version
      = Outcome.returned Status.OK a' → R a.tablet_info a'.tablet_info)
    (tablet_infos : List TabletInfoPB) (s s' : DriverState)
    (hok : vacuum_tablets env root_dir min_retain_version grace_timestamp enable_file_bundling
      tablet_infos s = Outcome.returned Status.OK s') :
    ∃ echoed, s'.tablet_infos = s.tablet_infos ++ echoed ∧
      List.Forall₂ R tablet_infos echoed := by
  induction tablet_infos generalizing s with
  | nil =>
    unfold vacuum_tablets at hok
    injection hok with _ h
    subst h
    exact ⟨[], (List.append_nil _).symm, List.Forall₂.nil⟩
  | cons tablet_info rest ih =>
    unfold vacuum_tablets at hok
    simp only at hok
    cases hc : collect_files_to_vacuum env root_dir (s.planner_args env tablet_info)
        grace_timestamp min_retain_version with
    | aborted a =>
      rw [hc] at hok
      exact absurd hok (by simp)
    | out_of_fuel a =>
      rw [hc] at hok
      exact absurd hok (by simp)
    | returned st a =>
      rw [hc] at hok
      cases st with
      | error c m =>
        simp only at hok
        exact absurd hok (by simp)
      | OK =>
        simp only at hok
        cases hf : (vacuum_tablet_finish env enable_file_bundling a (s.after_planner a)).1 with
        | error c m =>
          rw [hf] at hok
          simp only at hok
          exact absurd hok (by simp)
        | OK =>
          rw [hf] at hok
          simp only at hok
          obtain ⟨echoed, he1, he2⟩ := ih _ hok
          rw [vacuum_tablet_finish_tablet_infos] at he1
          refine ⟨a.tablet_info :: echoed, ?_, List.Forall₂.cons ?_ he2⟩
          · rw [he1]
            show (s.tablet_infos ++ [a.tablet_info]) ++ echoed = _
            rw [List.append_assoc]
            rfl
          · exact hR _ a hc

theorem vacuum_bundle_files_tablet_infos (env : Env) (root_dir : String) (s : DriverState) :
    (vacuum_bundle_files env root_dir s).2.tablet_infos = s.tablet_infos := by
  unfold vacuum_bundle_files
  split
  · simp only
    split
    · rfl
    · split
      · rfl
      · rfl
  · rfl

theorem vacuum_partition_metafiles_tablet_infos (env : Env) (root_dir : String)
    (enable_file_bundling : Bool) (s : DriverState) :
    (vacuum_partition_metafiles env root_dir enable_file_bundling s).2.tablet_infos
      = s.tablet_infos := by
  unfold vacuum_partition_metafiles
  split
  · simp only
    split
    · rfl
    · rfl
  · rfl

/-- A call of `vacuum_tablet_metadata` that returns OK has run its loop and
    its two later blocks with status OK. -/
theorem vacuum_tablet_metadata_ok (env : Env) (root_dir : String)
    (tablet_infos : List TabletInfoPB) (min_retain_version grace_timestamp : Int)
    (enable_file_bundling : Bool)
    (vacuumed_files vacuumed_file_size vacuumed_version extra_file_size : Int) (w : World)
    (s' : DriverState)
    (hok : vacuum_tablet_metadata env root_dir tablet_infos min_retain_version grace_timestamp
      enable_file_bundling vacuumed_files vacuumed_file_size vacuumed_version extra_file_size w
      = Outcome.returned Status.OK s') :
    ∃ s1, vacuum_tablets env root_dir min_retain_version grace_timestamp enable_file_bundling
        tablet_infos
        (driver_init env enable_file_bundling vacuumed_files vacuumed_file_size vacuumed_version
          extra_file_size w) = Outcome.returned Status.OK s1 ∧
      (vacuum_bundle_files env root_dir s1).1 = Status.OK ∧
      (vacuum_partition_metafiles env root_dir enable_file_bundling
        (vacuum_bundle_files env root_dir s1).2).1 = Status.OK ∧
      s' = { (vacuum_partition_metafiles env root_dir enable_file_bundling
          (vacuum_bundle_files env root_dir s1).2).2 with
        vacuumed_version := (vacuum_partition_metafiles env root_dir enable_file_bundling
          (vacuum_bundle_files env root_dir s1).2).2.final_vacuum_version } := by
  unfold vacuum_tablet_metadata at hok
  cases hl : vacuum_tablets env root_dir min_retain_version grace_timestamp
      enable_file_bundling tablet_infos
      (driver_init env enable_file_bundling vacuumed_files vacuumed_file_size vacuumed_version
        extra_file_size w) with
  | aborted s =>
    rw [hl] at hok
    exact absurd hok (by simp)
  | out_of_fuel s =>
    rw [hl] at hok
    exact absurd hok (by simp)
  | returned st s1 =>
    rw [hl] at hok
    cases st with
    | error c m =>
      simp only at hok
      exact absurd hok (by simp)
    | OK =>
      simp only at hok
      cases hb : (vacuum_bundle_files env root_dir s1).1 with
      | error c m =>
        rw [hb] at hok
        simp only at hok
        exact absurd hok (by simp)
      | OK =>
        rw [hb] at hok
        simp only at hok
        cases hm : (vacuum_partition_metafiles env root_dir enable_file_bundling
            (vacuum_bundle_files env root_dir s1).2).1 with
        | error c m =>
          rw [hm] at hok
          simp only at hok
          exact absurd hok (by simp)
        | OK =>
          rw [hm] at hok
          simp only at hok
          injection hok with _ h
          exact ⟨s1, rfl, hb, hm, h.symm⟩

/-- A successful `vacuum_tablet_metadata` leaves in the vector one element
    per tablet, in order, related to the tablet's element before the call by
    any relation `R` that a successful call of the planner establishes. -/
theorem vacuum_tablet_metadata_forall₂ (env : Env) (root_dir : String)
    (tablet_infos : List TabletInfoPB) (min_retain_version grace_timestamp : Int)
    (enable_file_bundling : Bool)
    (vacuumed_files vacuumed_file_size vacuumed_version extra_file_size : Int) (w : World)
    (s' : DriverState) (R : TabletInfoPB → TabletInfoPB → Prop)
    (hR : ∀ a a', collect_files_to_vacuum env root_dir a grace_timestamp min_retain_version
      = Outcome.returned Status.OK a' → R a.tablet_info a'.tablet_info)
    (hok : vacuum_tablet_metadata env root_dir tablet_infos min_retain_version grace_timestamp
      enable_file_bundling vacuumed_files vacuumed_file_size vacuumed_version extra_file_size w
      = Outcome.returned Status.OK s') :
    List.Forall₂ R tablet_infos s'.tablet_infos := by
  obtain ⟨s1, hl, _, _, hs'⟩ := vacuum_tablet_metadata_ok env root_dir tablet_infos
    min_retain_version grace_timestamp enable_file_bundling vacuumed_files vacuumed_file_size
    vacuumed_version extra_file_size w s' hok
  obtain ⟨echoed, he1, he2⟩ := vacuum_tablets_forall₂ env root_dir min_retain_version
    grace_timestamp enable_file_bundling R hR tablet_infos _ s1 hl
  have : s'.tablet_infos = echoed := by
    rw [hs']
    show (vacuum_partition_metafiles env root_dir enable_file_bundling
      (vacuum_bundle_files env root_dir s1).2).2.tablet_infos = _
    rw [vacuum_partition_metafiles_tablet_infos, vacuum_bundle_files_tablet_infos, he1]
    rfl
  rw [this]
  exact he2

theorem forall₂_exists_left {α β : Type} (R : α → β → Prop) (l : List α) (l' : List β)
    (h : List.Forall₂ R l l') (y : β) (hy : y ∈ l') : ∃ x ∈ l, R x y := by
  induction h with
  | nil => exact absurd hy (List.not_mem_nil y)
  | cons hr _ ih =>
    rcases List.mem_cons.1 hy with hy | hy
    · subst hy
      exact ⟨_, List.mem_cons_self _ _, hr⟩
    · obtain ⟨x, hx, hxy⟩ := ih hy
      exact ⟨x, List.mem_cons_of_mem _ hx, hxy⟩

/-- A call of `vacuum_impl` that returns OK has passed the validation of the
    request and a successful `vacuum_tablet_metadata` on the sorted tablet
    infos, whose vector it echoes. -/
theorem vacuum_impl_ok (env : Env) (tablet_mgr_is_null : Bool) (request : VacuumRequest)
    (response response' : VacuumResponse) (w w' : World)
    (hok : vacuum_impl env tablet_mgr_is_null request response w
      = Outcome.returned Status.OK (response', w')) :
    0 < request.min_retain_version ∧ 0 < request.grace_timestamp ∧
    ∃ s, vacuum_tablet_metadata env
        (env.tablet_root_location ((request_tablet_infos request).headD {}).tablet_id)
        (sort_tablet_infos (request_tablet_infos request))
        request.min_retain_version request.grace_timestamp request.enable_file_bundling
        0 0 0 0 w = Outcome.returned Status.OK s ∧
      response'.tablet_infos = response.tablet_infos ++ s.tablet_infos ∧
      response'.vacuumed_version = s.vacuumed_version := by
  unfold vacuum_impl at hok
  split at hok
  · exact absurd hok (by simp)
  · split at hok
    · exact absurd hok (by simp)
    · split at hok
      · exact absurd hok (by simp)
      · split at hok
        · exact absurd hok (by simp)
        · rename_i _ _ hmrv hgr
          refine ⟨by omega, by omega, ?_⟩
          simp only at hok
          cases hd : vacuum_tablet_metadata env
              (env.tablet_root_location ((request_tablet_infos request).headD {}).tablet_id)
              (sort_tablet_infos (request_tablet_infos request))
              request.min_retain_version request.grace_timestamp request.enable_file_bundling
              0 0 0 0 w with
          | aborted s =>
            rw [hd] at hok
            exact absurd hok (by simp)
          | out_of_fuel s =>
            rw [hd] at hok
            exact absurd hok (by simp)
          | returned st s =>
            rw [hd] at hok
            cases st with
            | error c m =>
              simp only at hok
              exact absurd hok (by simp)
            | OK =>
              simp only at hok
              refine ⟨s, rfl, ?_⟩
              split at hok
              · split at hok
                · exact absurd hok (by simp)
                · injection hok with _ h
                  injection h with h1 _
                  rw [← h1]
                  exact ⟨rfl, rfl⟩
              · injection hok with _ h
                injection h with h1 _
                rw [← h1]
                exact ⟨rfl, rfl⟩

/-- When a loop returns OK, every element's body has run with status OK, so a
    property that the body of `x` establishes and no body destroys holds of
    every element at the end. -/
theorem for_each_ok_all {α σ : Type} (body : α → σ → Status × σ) (Q : α → σ → Prop)
    (xs : List α)
    (hest : ∀ x ∈ xs, ∀ s, (body x s).1 = Status.OK → Q x (body x s).2)
    (hpres : ∀ x, ∀ y ∈ xs, ∀ s, Q x s → Q x (body y s).2)
    (s : σ) (hok : (for_each body xs s).1 = Status.OK) :
    ∀ x ∈ xs, Q x (for_each body xs s).2 := by
  induction xs generalizing s with
  | nil =>
    intro x hx
    exact absurd hx (List.not_mem_nil x)
  | cons y ys ih =>
    by_cases hy : (body y s).1 = Status.OK
    · rw [for_each_cons_ok body y ys s hy] at hok ⊢
      intro x hx
      rcases List.mem_cons.1 hx with hx | hx
      · subst hx
        exact for_each_invariant body (Q x) ys
          (fun z hz s' hs' => hpres x z (List.mem_cons_of_mem _ hz) s' hs') _
          (hest x (List.mem_cons_self _ _) s hy)
      · exact ih (fun z hz => hest z (List.mem_cons_of_mem _ hz))
          (fun z w hw => hpres z w (List.mem_cons_of_mem _ hw)) _ hok x hx
    · rw [for_each_cons_error body y ys s hy] at hok
      exact absurd hok hy

theorem AsyncBundleFileDeleter.mem_delay_delete (path q : String)
    (b : AsyncBundleFileDeleter) :
    q ∈ (b.delay_delete path).2._delay_delete_files ↔ q = path ∨ q ∈ b._delay_delete_files := by
  unfold AsyncBundleFileDeleter.delay_delete
  simp only
  split
  · constructor
    · exact Or.inr
    · rintro (h | h)
      · subst h; assumption
      · exact h
  · simp [or_comm]

/-- The loop of `collect_alive_bundle_files` over the rowsets of one snapshot:
    it only adds to `_delay_delete_files`, always returns OK, and adds the path
    of every segment of every rowset with bundle file offsets. -/
theorem collect_alive_rowsets_spec (env : Env) (data_dir : String)
    (rowsets : List RowsetMetadataPB) (b : AsyncBundleFileDeleter) :
    (for_each (collect_alive_rowset env data_dir) rowsets b).2.toAsyncFileDeleter
      = b.toAsyncFileDeleter ∧
    (for_each (collect_alive_rowset env data_dir) rowsets b).2._pending_files
      = b._pending_files ∧
    (∀ q ∈ b._delay_delete_files,
      q ∈ (for_each (collect_alive_rowset env data_dir) rowsets b).2._delay_delete_files) ∧
    (∀ rowset ∈ rowsets, rowset.bundle_file_offsets.length > 0 →
      ∀ segment ∈ rowset.segments, env.join_path data_dir segment ∈
        (for_each (collect_alive_rowset env data_dir) rowsets b).2._delay_delete_files) := by
  have hseg : ∀ (segments : List String) (b : AsyncBundleFileDeleter),
      (for_each (fun segment (b : AsyncBundleFileDeleter) =>
          b.delay_delete (env.join_path data_dir segment)) segments b).1 = Status.OK ∧
      (for_each (fun segment (b : AsyncBundleFileDeleter) =>
          b.delay_delete (env.join_path data_dir segment)) segments b).2.toAsyncFileDeleter
        = b.toAsyncFileDeleter ∧
      (for_each (fun segment (b : AsyncBundleFileDeleter) =>
          b.delay_delete (env.join_path data_dir segment)) segments b).2._pending_files
        = b._pending_files ∧
      (∀ q, q ∈ (for_each (fun segment (b : AsyncBundleFileDeleter) =>
          b.delay_delete (env.join_path data_dir segment)) segments b).2._delay_delete_files ↔
        q ∈ b._delay_delete_files ∨ q ∈ segments.map (env.join_path data_dir)) := by
    intro segments
    induction segments with
    | nil =>
      intro b
      exact ⟨rfl, rfl, rfl, fun q => by simp [for_each]⟩
    | cons x xs ih =>
      intro b
      rw [for_each_cons_ok _ x xs b rfl]
      obtain ⟨h1, h2, h3, h4⟩ := ih (b.delay_delete (env.join_path data_dir x)).2
      refine ⟨h1, h2, h3, fun q => ?_⟩
      rw [h4, AsyncBundleFileDeleter.mem_delay_delete, List.map_cons, List.mem_cons]
      tauto
  have hrow : ∀ (rowset : RowsetMetadataPB) (b : AsyncBundleFileDeleter),
      (collect_alive_rowset env data_dir rowset b).1 = Status.OK ∧
      (collect_alive_rowset env data_dir rowset b).2.toAsyncFileDeleter
        = b.toAsyncFileDeleter ∧
      (collect_alive_rowset env data_dir rowset b).2._pending_files = b._pending_files ∧
      (∀ q ∈ b._delay_delete_files,
        q ∈ (collect_alive_rowset env data_dir rowset b).2._delay_delete_files) ∧
      (rowset.bundle_file_offsets.length > 0 → ∀ segment ∈ rowset.segments,
        env.join_path data_dir segment ∈
          (collect_alive_rowset env data_dir rowset b).2._delay_delete_files) := by
    intro rowset b
    unfold collect_alive_rowset
    split
    · obtain ⟨h1, h2, h3, h4⟩ := hseg rowset.segments b
      exact ⟨h1, h2, h3, fun q hq => (h4 q).2 (Or.inl hq),
        fun _ segment hs => (h4 _).2 (Or.inr (List.mem_map_of_mem _ hs))⟩
    · rename_i hno
      exact ⟨rfl, rfl, rfl, fun q hq => hq, fun h => absurd h hno⟩
  have hok : (for_each (collect_alive_rowset env data_dir) rowsets b).1 = Status.OK :=
    for_each_ok _ rowsets (fun rowset _ b => (hrow rowset b).1) b
  refine ⟨?_, ?_, ?_, ?_⟩
  · exact for_each_invariant _ (fun s => s.toAsyncFileDeleter = b.toAsyncFileDeleter) rowsets
      (fun rowset _ s hs => (hrow rowset s).2.1.trans hs) b rfl
  · exact for_each_invariant _ (fun s => s._pending_files = b._pending_files) rowsets
      (fun rowset _ s hs => (hrow rowset s).2.2.1.trans hs) b rfl
  · intro q hq
    exact for_each_invariant _ (fun s => q ∈ s._delay_delete_files) rowsets
      (fun rowset _ s hs => (hrow rowset s).2.2.2.1 q hs) b hq
  · intro rowset hr ho segment hs
    exact for_each_ok_all (collect_alive_rowset env data_dir)
      (fun rowset s => rowset.bundle_file_offsets.length > 0 → ∀ segment ∈ rowset.segments,
        env.join_path data_dir segment ∈ s._delay_delete_files) rowsets
      (fun rowset _ s _ => (hrow rowset s).2.2.2.2)
      (fun rowset y _ s hq ho segment hs => (hrow y s).2.2.2.1 _ (hq ho segment hs))
      b hok rowset hr ho segment hs

/-- Function `collect_alive_bundle_files`, when it returns OK, has loaded the
    snapshot of every tablet at `version` and put the path of every segment of
    its rowsets with bundle file offsets into `_delay_delete_files`; it leaves
    the rest of the deleter alone. -/
theorem collect_alive_bundle_files_spec (env : Env) (tablet_infos : List TabletInfoPB)
    (version : Int) (root_dir : String) (deleter : AsyncBundleFileDeleter) (w : World)
    (hok : (collect_alive_bundle_files env tablet_infos version root_dir deleter w).1
      = Status.OK) :
    (collect_alive_bundle_files env tablet_infos version root_dir deleter
      w).2.1.toAsyncFileDeleter = deleter.toAsyncFileDeleter ∧
    (collect_alive_bundle_files env tablet_infos version root_dir deleter
      w).2.1._pending_files = deleter._pending_files ∧
    ∀ tablet_info ∈ tablet_infos, ∀ metadata,
      env.get_tablet_metadata tablet_info.tablet_id version = StatusOr.value metadata →
      ∀ path, is_alive_bundle_path env (env.join_path root_dir env.kSegmentDirectoryName)
        metadata path →
      path ∈ (collect_alive_bundle_files env tablet_infos version root_dir deleter
        w).2.1._delay_delete_files := by
  have htab : ∀ (tablet_info : TabletInfoPB) (s : AsyncBundleFileDeleter × World),
      (collect_alive_tablet env (env.join_path root_dir env.kSegmentDirectoryName) version
        tablet_info s).2.1.toAsyncFileDeleter = s.1.toAsyncFileDeleter ∧
      (collect_alive_tablet env (env.join_path root_dir env.kSegmentDirectoryName) version
        tablet_info s).2.1._pending_files = s.1._pending_files ∧
      (∀ q ∈ s.1._delay_delete_files,
        q ∈ (collect_alive_tablet env (env.join_path root_dir env.kSegmentDirectoryName)
          version tablet_info s).2.1._delay_delete_files) ∧
      ((collect_alive_tablet env (env.join_path root_dir env.kSegmentDirectoryName) version
        tablet_info s).1 = Status.OK → ∀ metadata,
        env.get_tablet_metadata tablet_info.tablet_id version = StatusOr.value metadata →
        ∀ path, is_alive_bundle_path env (env.join_path root_dir env.kSegmentDirectoryName)
          metadata path →
        path ∈ (collect_alive_tablet env (env.join_path root_dir env.kSegmentDirectoryName)
          version tablet_info s).2.1._delay_delete_files) := by
    intro tablet_info s
    unfold collect_alive_tablet
    cases hg : env.get_tablet_metadata tablet_info.tablet_id version with
    | error c m =>
      exact ⟨rfl, rfl, fun q hq => hq, fun h => absurd h (by simp)⟩
    | value metadata =>
      obtain ⟨h1, h2, h3, h4⟩ := collect_alive_rowsets_spec env
        (env.join_path root_dir env.kSegmentDirectoryName) metadata.rowsets s.1
      refine ⟨h1, h2, h3, fun _ metadata' hm path hp => ?_⟩
      injection hm with hm
      subst hm
      obtain ⟨rowset, hr, ho, segment, hs, rfl⟩ := hp
      exact h4 rowset hr ho segment hs
  unfold collect_alive_bundle_files at hok ⊢
  refine ⟨?_, ?_, ?_⟩
  · exact for_each_invariant _
      (fun s : AsyncBundleFileDeleter × World =>
        s.1.toAsyncFileDeleter = deleter.toAsyncFileDeleter) tablet_infos
      (fun tablet_info _ s hs => (htab tablet_info s).1.trans hs) (deleter, w) rfl
  · exact for_each_invariant _
      (fun s : AsyncBundleFileDeleter × World => s.1._pending_files = deleter._pending_files)
      tablet_infos (fun tablet_info _ s hs => (htab tablet_info s).2.1.trans hs) (deleter, w) rfl
  · intro tablet_info ht metadata hm path hp
    exact for_each_ok_all _
      (fun (tablet_info : TabletInfoPB) (s : AsyncBundleFileDeleter × World) =>
        ∀ metadata,
          env.get_tablet_metadata tablet_info.tablet_id version = StatusOr.value metadata →
          ∀ path, is_alive_bundle_path env (env.join_path root_dir env.kSegmentDirectoryName)
            metadata path → path ∈ s.1._delay_delete_files) tablet_infos
      (fun tablet_info _ s hs => (htab tablet_info s).2.2.2 hs)
      (fun tablet_info y _ s hq metadata hm path hp =>
        (htab y s).2.2.1 _ (hq metadata hm path hp))
      (deleter, w) hok tablet_info ht metadata hm path hp

/-- Whatever it returns, the planner leaves everything of the bundle deleter
    but `_pending_files` alone. -/
theorem collect_files_to_vacuum_bundle_frame (env : Env) (root_dir : String) (a : VacuumArgs)
    (grace_timestamp min_retain_version : Int) :
    (collect_files_to_vacuum env root_dir a grace_timestamp
      min_retain_version).state.bundle_file_deleter.isSome = a.bundle_file_deleter.isSome ∧
    (collect_files_to_vacuum env root_dir a grace_timestamp
      min_retain_version).state.bundle_file_deleter.map (fun b => b.toAsyncFileDeleter.handed)
      = a.bundle_file_deleter.map (fun b => b.toAsyncFileDeleter.handed) ∧
    (collect_files_to_vacuum env root_dir a grace_timestamp
      min_retain_version).state.bundle_file_deleter.map (fun b => b._delay_delete_files)
      = a.bundle_file_deleter.map (fun b => b._delay_delete_files) := by
  cases hfs : env.create_fs root_dir with
  | error c m =>
    unfold collect_files_to_vacuum
    rw [hfs]
    exact ⟨rfl, rfl, rfl⟩
  | OK =>
    have hF := (walk_inv env (env.join_path root_dir env.kSegmentDirectoryName)
      a.tablet_info.tablet_id (walk_min_version a.tablet_info) grace_timestamp
      min_retain_version (walk_fuel a.tablet_info min_retain_version)
      (walk_init a grace_timestamp min_retain_version) (le_refl _)).1
    rw [(collect_files_to_vacuum_deleters env root_dir a grace_timestamp min_retain_version
      hfs).2]
    exact ⟨hF.bundle_some, hF.bundle_handed, hF.bundle_delay⟩

/-- A property of the driver's variables that every successful iteration of
    the loop over the tablets keeps holds after a successful loop. -/
theorem vacuum_tablets_invariant (env : Env) (root_dir : String)
    (min_retain_version grace_timestamp : Int) (enable_file_bundling : Bool)
    (P : DriverState → Prop)
    (hstep : ∀ s tablet_info a, P s →
      collect_files_to_vacuum env root_dir (s.planner_args env tablet_info) grace_timestamp
        min_retain_version = Outcome.returned Status.OK a →
      (vacuum_tablet_finish env enable_file_bundling a (s.after_planner a)).1 = Status.OK →
      P (vacuum_tablet_finish env enable_file_bundling a (s.after_planner a)).2)
    (tablet_infos : List TabletInfoPB) (s s' : DriverState) (hs : P s)
    (hok : vacuum_tablets env root_dir min_retain_version grace_timestamp enable_file_bundling
      tablet_infos s = Outcome.returned Status.OK s') : P s' := by
  induction tablet_infos generalizing s with
  | nil =>
    unfold vacuum_tablets at hok
    injection hok with _ h
    subst h
    exact hs
  | cons tablet_info rest ih =>
    unfold vacuum_tablets at hok
    simp only at hok
    cases hc : collect_files_to_vacuum env root_dir (s.planner_args env tablet_info)
        grace_timestamp min_retain_version with
    | aborted a =>
      rw [hc] at hok
      exact absurd hok (by simp)
    | out_of_fuel a =>
      rw [hc] at hok
      exact absurd hok (by simp)
    | returned st a =>
      rw [hc] at hok
      cases st with
      | error c m =>
        simp only at hok
        exact absurd hok (by simp)
      | OK =>
        simp only at hok
        cases hf : (vacuum_tablet_finish env enable_file_bundling a (s.after_planner a)).1 with
        | error c m =>
          rw [hf] at hok
          simp only at hok
          exact absurd hok (by simp)
        | OK =>
          rw [hf] at hok
          simp only at hok
          exact ih _ (hstep s tablet_info a hs hc hf) hok

theorem vacuum_tablet_finish_bundle (env : Env) (enable_file_bundling : Bool)
    (a : VacuumArgs) (s : DriverState) :
    (vacuum_tablet_finish env enable_file_bundling a s).2.bundle_file_deleter
      = s.bundle_file_deleter := by
  unfold vacuum_tablet_finish
  simp only
  split
  · rfl
  · split
    · split
      · rfl
      · rfl
    · rfl

/-- After a successful loop over the tablets the bundle deleter still has
    handed nothing to its underlying deleter and delays nothing. -/
theorem vacuum_tablets_bundle_untouched (env : Env) (root_dir : String)
    (min_retain_version grace_timestamp : Int) (enable_file_bundling : Bool)
    (tablet_infos : List TabletInfoPB) (s s' : DriverState)
    (hs : s.bundle_file_deleter.toAsyncFileDeleter.handed = [] ∧
      s.bundle_file_deleter._delay_delete_files = [])
    (hok : vacuum_tablets env root_dir min_retain_version grace_timestamp enable_file_bundling
      tablet_infos s = Outcome.returned Status.OK s') :
    s'.bundle_file_deleter.toAsyncFileDeleter.handed = [] ∧
    s'.bundle_file_deleter._delay_delete_files = [] := by
  refine vacuum_tablets_invariant env root_dir min_retain_version grace_timestamp
    enable_file_bundling
    (fun s => s.bundle_file_deleter.toAsyncFileDeleter.handed = [] ∧
      s.bundle_file_deleter._delay_delete_files = []) ?_ tablet_infos s s' hs hok
  intro s tablet_info a hs hc _
  rw [vacuum_tablet_finish_bundle]
  obtain ⟨h1, h2, h3⟩ := collect_files_to_vacuum_bundle_frame env root_dir
    (s.planner_args env tablet_info) grace_timestamp min_retain_version
  rw [hc] at h1 h2 h3
  simp only [Outcome.state, DriverState.planner_args] at h1 h2 h3
  show (a.bundle_file_deleter.getD s.bundle_file_deleter).toAsyncFileDeleter.handed = [] ∧
    (a.bundle_file_deleter.getD s.bundle_file_deleter)._delay_delete_files = []
  cases hb : a.bundle_file_deleter with
  | none =>
    rw [hb] at h1
    exact absurd h1 (by simp)
  | some b' =>
    rw [hb] at h2 h3
    simp only [Option.map_some', Option.some.injEq] at h2 h3
    simp only [Option.getD_some]
    exact ⟨h2.trans hs.1, h3.trans hs.2⟩

/-- The block that deletes bundle files, when it returns OK, hands the
    deleter underlying the bundle deleter no path of a segment of a rowset with
    bundle file offsets in the snapshot at `max_vacuum_version` of any tablet
    of the vector. -/
theorem vacuum_bundle_files_safe (env : Env) (root_dir : String) (s : DriverState)
    (hs : s.bundle_file_deleter.toAsyncFileDeleter.handed = [] ∧
      s.bundle_file_deleter._delay_delete_files = [])
    (hok : (vacuum_bundle_files env root_dir s).1 = Status.OK) :
    ∀ tablet_info ∈ s.tablet_infos, ∀ metadata,
      env.get_tablet_metadata tablet_info.tablet_id s.max_vacuum_version
        = StatusOr.value metadata →
      ∀ path, is_alive_bundle_path env (env.join_path root_dir env.kSegmentDirectoryName)
        metadata path →
      path ∉ (vacuum_bundle_files env root_dir s).2.bundle_file_deleter.toAsyncFileDeleter.handed
      := by
  intro tablet_info ht metadata hm path hp
  unfold vacuum_bundle_files at hok ⊢
  split at hok
  · rename_i hcond
    rw [if_pos hcond]
    simp only at hok ⊢
    obtain ⟨_, _, _, _, l, hl1, hl2, _⟩ := AsyncBundleFileDeleter.finish_spec env
      (collect_alive_bundle_files env s.tablet_infos s.max_vacuum_version root_dir
        s.bundle_file_deleter s.world).2.1
      (collect_alive_bundle_files env s.tablet_infos s.max_vacuum_version root_dir
        s.bundle_file_deleter s.world).2.2
    cases hc : (collect_alive_bundle_files env s.tablet_infos s.max_vacuum_version root_dir
        s.bundle_file_deleter s.world).1 with
    | error c m =>
      rw [hc] at hok
      simp only at hok
      exact absurd hok (by simp)
    | OK =>
      rw [hc] at hok
      simp only at hok ⊢
      obtain ⟨hbase, _, halive⟩ := collect_alive_bundle_files_spec env s.tablet_infos
        s.max_vacuum_version root_dir s.bundle_file_deleter s.world hc
      have hdel : path ∉ l := by
        intro hin
        have := hl1.subset hin
        unfold deletable_paths at this
        rw [List.mem_filter, decide_eq_true_iff] at this
        exact this.2 (halive tablet_info ht metadata hm path hp)
      cases hf : ((collect_alive_bundle_files env s.tablet_infos s.max_vacuum_version root_dir
          s.bundle_file_deleter s.world).2.1.finish env
          (collect_alive_bundle_files env s.tablet_infos s.max_vacuum_version root_dir
            s.bundle_file_deleter s.world).2.2).1 with
      | error c m =>
        rw [hf] at hok
        simp only at hok
        exact absurd hok (by simp)
      | OK =>
        simp only
        rw [hl2, hbase, hs.1, List.nil_append]
        exact hdel
  · rename_i hcond
    rw [if_neg hcond, hs.1]
    exact List.not_mem_nil _

theorem vacuum_partition_metafiles_bundle (env : Env) (root_dir : String)
    (enable_file_bundling : Bool) (s : DriverState) :
    (vacuum_partition_metafiles env root_dir enable_file_bundling s).2.bundle_file_deleter
      = s.bundle_file_deleter ∧
    (vacuum_partition_metafiles env root_dir enable_file_bundling s).2.max_vacuum_version
      = s.max_vacuum_version := by
  unfold vacuum_partition_metafiles
  split
  · simp only
    split
    · exact ⟨rfl, rfl⟩
    · exact ⟨rfl, rfl⟩
  · exact ⟨rfl, rfl⟩

theorem vacuum_bundle_files_max (env : Env) (root_dir : String) (s : DriverState) :
    (vacuum_bundle_files env root_dir s).2.max_vacuum_version = s.max_vacuum_version := by
  unfold vacuum_bundle_files
  split
  · simp only
    split
    · rfl
    · split
      · rfl
      · rfl
  · rfl

theorem forall₂_exists_right {α β : Type} (R : α → β → Prop) (l : List α) (l' : List β)
    (h : List.Forall₂ R l l') (x : α) (hx : x ∈ l) : ∃ y ∈ l', R x y := by
  induction h with
  | nil => exact absurd hx (List.not_mem_nil x)
  | cons hr _ ih =>
    rcases List.mem_cons.1 hx with hx | hx
    · subst hx
      exact ⟨_, List.mem_cons_self _ _, hr⟩
    · obtain ⟨y, hy, hxy⟩ := ih hx
      exact ⟨y, List.mem_cons_of_mem _ hy, hxy⟩

/-- A successful call of the planner keeps the tablet id. -/
theorem collect_files_to_vacuum_tablet_id (env : Env) (root_dir : String) (a a' : VacuumArgs)
    (grace_timestamp min_retain_version : Int)
    (hok : collect_files_to_vacuum env root_dir a grace_timestamp min_retain_version
      = Outcome.returned Status.OK a') :
    a'.tablet_info.tablet_id = a.tablet_info.tablet_id := by
  obtain ⟨_, s, _, ht⟩ := collect_files_to_vacuum_ok env root_dir a a' grace_timestamp
    min_retain_version hok
  have := (collect_files_to_vacuum_tail_frame env
    (env.join_path root_dir env.kMetadataDirectoryName) (a.after_walk s) s).2.2
  rw [ht] at this
  exact this

/-! ## Running the planner a second time -/

theorem FirstPreGrace.lower_bound (env : Env) (tablet_id min_version grace_timestamp v r : Int)
    (h : FirstPreGrace env tablet_id min_version grace_timestamp v r) : min_version ≤ r := by
  induction h with
  | found h1 _ _ => exact h1
  | older _ _ _ _ ih => exact ih

theorem FirstPreGrace.start_bound (env : Env)
    (tablet_id min_version grace_timestamp v r : Int)
    (h : FirstPreGrace env tablet_id min_version grace_timestamp v r) : min_version ≤ v := by
  cases h with
  | found h1 _ _ => exact h1
  | older h1 _ _ _ => exact h1

/-- If the loop ends normally and finds `r` as the first snapshot older than
    the grace timestamp, then in any later state of the storage that keeps the
    snapshots of versions `r` and above, the walk bounded below by `r` finds
    `r` again. -/
theorem first_pre_grace_kept (env : Env) (store : Int → Int → StatusOr TabletMetadataPB)
    (task_status : World → List String → Status) (data_dir : String)
    (tablet_id min_version grace_timestamp min_retain_version : Int) (fuel : Nat)
    (s s' : WalkState) (v r : Int) (hv : s.version = v)
    (hskip : s.skip_check_grace_timestamp = false)
    (hkept : ∀ u, r ≤ u → store tablet_id u = env.get_tablet_metadata tablet_id u)
    (h : FirstPreGrace env tablet_id min_version grace_timestamp v r)
    (hw : walk env data_dir tablet_id min_version grace_timestamp min_retain_version fuel s
      = LoopResult.done s') :
    FirstPreGrace (env.later store task_status) tablet_id r grace_timestamp v r := by
  induction fuel generalizing s v with
  | zero =>
    have hm : s.version ≥ min_version := by
      cases h with
      | found h1 _ _ => rw [hv]; exact h1
      | older h1 _ _ _ => rw [hv]; exact h1
    unfold walk at hw
    rw [if_pos hm] at hw
    exact absurd hw (by simp)
  | succ n ih =>
    subst hv
    cases h with
    | @found _ metadata hm hg hc =>
      exact FirstPreGrace.found (le_refl _) ((hkept _ (le_refl _)).trans hg) hc
    | @older _ _ metadata hm hg hc hrest =>
      obtain ⟨hp, n', s1, hw1, v1, k1, _⟩ := walk_done_recent env data_dir tablet_id
        min_version grace_timestamp min_retain_version (n + 1) s s' metadata hm hg hskip hc hw
      obtain ⟨_, _, n'', hn, hw2⟩ := walk_done_step env data_dir tablet_id min_version
        grace_timestamp min_retain_version (n + 1) s s' metadata hm hg hw
      have hn' : n'' = n := by omega
      subst hn'
      have hskip0 : (s.load tablet_id).skip_check_grace_timestamp = false := hskip
      have hrec := walk_body_recent env data_dir grace_timestamp min_retain_version metadata
        (s.load tablet_id) hskip0 hc
      have hnext := ih _ metadata.prev_garbage_version rfl
        (by
          show (walk_body env data_dir grace_timestamp min_retain_version metadata
            (s.load tablet_id)).2.skip_check_grace_timestamp = false
          rw [hrec]
          exact hskip)
        hrest hw2
      have hle : r ≤ metadata.prev_garbage_version := hnext.start_bound
      have hle' : r ≤ s.version := le_trans hle (le_of_lt hp)
      exact FirstPreGrace.older hle' ((hkept _ hle').trans hg) hc hnext

/-- A loop that ends normally and finds the snapshot `metadata` of version `r`
    as the first one older than the grace timestamp: right after the iteration
    for `r` the deleters have received exactly the garbage of `metadata`, and
    the loop goes on from the previous garbage version. -/
theorem walk_first_pre_grace_exact (env : Env) (data_dir : String)
    (tablet_id min_version grace_timestamp min_retain_version : Int) (fuel : Nat)
    (s s' : WalkState) (v r : Int) (metadata : TabletMetadataPB) (hv : s.version = v)
    (hskip : s.skip_check_grace_timestamp = false)
    (h : FirstPreGrace env tablet_id min_version grace_timestamp v r)
    (hr : env.get_tablet_metadata tablet_id r = StatusOr.value metadata)
    (hw : walk env data_dir tablet_id min_version grace_timestamp min_retain_version fuel s
      = LoopResult.done s') :
    metadata.prev_garbage_version < r ∧
    ∃ n s1, walk env data_dir tablet_id min_version grace_timestamp min_retain_version n s1
        = LoopResult.done s' ∧
      s1.version = metadata.prev_garbage_version ∧
      s1.skip_check_grace_timestamp = true ∧
      s1.final_retain_version = r ∧
      s1.prepare_vacuum_file_size = s.prepare_vacuum_file_size ∧
      s1.bundle_file_deleter.isSome = s.bundle_file_deleter.isSome ∧
      s1.datafile_deleter.handed = s.datafile_deleter.handed ++
        plain_garbage_paths env data_dir s.bundle_file_deleter.isSome metadata ∧
      pending_of s1.bundle_file_deleter = pending_add (pending_of s.bundle_file_deleter)
        (bundle_garbage_paths env data_dir s.bundle_file_deleter.isSome metadata) := by
  induction fuel generalizing s v with
  | zero =>
    have hm : s.version ≥ min_version := by
      cases h with
      | found h1 _ _ => rw [hv]; exact h1
      | older h1 _ _ _ => rw [hv]; exact h1
    unfold walk at hw
    rw [if_pos hm] at hw
    exact absurd hw (by simp)
  | succ n ih =>
    subst hv
    cases h with
    | @found _ first hm hg hc =>
      rw [hr] at hg
      injection hg with e
      subst e
      obtain ⟨hp, n', s1, hw1, h1, h2, h3, h4, h5, h6, h7⟩ := walk_done_flip env data_dir
        tablet_id min_version grace_timestamp min_retain_version (n + 1) s s' metadata hm hr
        hskip hc hw
      exact ⟨hp, n', s1, hw1, h1, h2, h3, h4, h5, h6, h7⟩
    | @older _ _ first hm hg hc hrest =>
      obtain ⟨_, _, n'', hn, _⟩ := walk_done_step env data_dir tablet_id min_version
        grace_timestamp min_retain_version (n + 1) s s' first hm hg hw
      have hn' : n'' = n := by omega
      subst hn'
      have hskip0 : (s.load tablet_id).skip_check_grace_timestamp = false := hskip
      have hrec := walk_body_recent env data_dir grace_timestamp min_retain_version first
        (s.load tablet_id) hskip0 hc
      have hb : (walk_body env data_dir grace_timestamp min_retain_version first
          (s.load tablet_id)).1 = Status.OK := by rw [hrec]
      have hp : first.prev_garbage_version < s.version := by assumption
      rw [walk_step _ _ _ _ _ _ _ _ first hm hg hb hp, hrec] at hw
      obtain ⟨h0, m, s1, hw1, h1, h2, h3, h4, h5, h6, h7⟩ := ih
        { ((s.load tablet_id).add_extra first min_retain_version) with
          final_retain_version := (s.load tablet_id).version
          version := first.prev_garbage_version }
        first.prev_garbage_version rfl hskip hrest hw
      exact ⟨h0, m, s1, hw1, h1, h2, h3, h4, h5, h6, h7⟩

/-- The loop never raises `version`. -/
theorem walk_version_le (env : Env) (data_dir : String)
    (tablet_id min_version grace_timestamp min_retain_version : Int) (fuel : Nat)
    (s : WalkState) :
    (walk env data_dir tablet_id min_version grace_timestamp min_retain_version fuel
      s).state.version ≤ s.version := by
  refine walk_state_rule env data_dir tablet_id min_version grace_timestamp min_retain_version
    (fun s1 => s1.version ≤ s.version) (fun s1 => s1.version ≤ s.version)
    (fun _ h => h) (fun _ h _ => h) ?_ fuel s (le_refl _)
  intro s1 metadata h1 _ _
  refine ⟨?_, fun _ hp => ?_⟩
  · show (walk_body env data_dir grace_timestamp min_retain_version metadata
      (s1.load tablet_id)).2.version ≤ s.version
    rw [walk_body_version]
    exact h1
  · show metadata.prev_garbage_version ≤ s.version
    exact le_trans (le_of_lt hp) h1

theorem mem_pending_keys_add (pending : List (String × Nat)) (paths : List String) (q : String) :
    q ∈ pending_keys (pending_add pending paths) ↔ q ∈ pending_keys pending ∨ q ∈ paths := by
  induction paths generalizing pending with
  | nil => simp [pending_add]
  | cons p ps ih =>
    show q ∈ pending_keys (pending_add (pending_increment p pending) ps) ↔ _
    rw [ih, mem_pending_keys_increment, List.mem_cons]
    tauto

/-- Every garbage path of a snapshot is among its plain or its bundle garbage
    paths. -/
theorem garbage_path_routed (env : Env) (base_dir : String) (hb : Bool)
    (metadata : TabletMetadataPB) (p : String) (h : is_garbage_path env base_dir metadata p) :
    p ∈ plain_garbage_paths env base_dir hb metadata ∨
    p ∈ bundle_garbage_paths env base_dir hb metadata := by
  rcases h with ⟨rowset, hr, hseg | hdel⟩ | ⟨file, hf, rfl⟩
  · obtain ⟨segment, hs, rfl⟩ := hseg
    by_cases hc : hb = true ∧ rowset.bundle_file_offsets.length > 0
    · refine Or.inr (List.mem_flatMap.2 ⟨rowset, hr, ?_⟩)
      unfold rowset_bundle_paths
      rw [if_pos hc]
      exact List.mem_map_of_mem _ hs
    · refine Or.inl (List.mem_append_left _ (List.mem_flatMap.2 ⟨rowset, hr, ?_⟩))
      unfold rowset_plain_paths
      rw [if_neg hc]
      exact List.mem_append_left _ (List.mem_map_of_mem _ hs)
  · obtain ⟨del_file, hd, rfl⟩ := hdel
    refine Or.inl (List.mem_append_left _ (List.mem_flatMap.2 ⟨rowset, hr, ?_⟩))
    unfold rowset_plain_paths
    exact List.mem_append_right _ (List.mem_map_of_mem _ hd)
  · exact Or.inl (List.mem_append_right _ (List.mem_map_of_mem _ hf))

/-! ## AsyncFileDeleter when every task succeeds -/

theorem delete_files_callable_events (env : Env) (files : List String) (w : World) :
    (delete_files_callable env files w).2
      = w ++ (if files.isEmpty then [] else [Event.task files]) := by
  unfold delete_files_callable
  split <;> simp

theorem delete_files_callable_ok (env : Env) (files : List String) (w : World)
    (hsucc : ∀ w files, env.task_status w files = Status.OK) :
    (delete_files_callable env files w).1 = Status.OK := by
  unfold delete_files_callable
  split
  · rfl
  · exact hsucc _ _

/-- The world after a `submit` that passes the batch on. -/
theorem AsyncFileDeleter.submit_ok_events (env : Env) (d : AsyncFileDeleter) (w : World)
    (h : d.wait.1 = Status.OK) :
    (d.submit env w).2.2 = w ++ dispatch_events d._cb d._batch := by
  obtain ⟨hb, _, _, _, hcb, _⟩ := d.wait_fields
  rw [AsyncFileDeleter.submit_ok env d w h]
  simp only [delete_files_callable_events, hb, hcb, dispatch_events]
  cases d._cb <;> simp

theorem AsyncFileDeleter.wait_ok_of_steady (d : AsyncFileDeleter)
    (h : d._prev_task_status = none ∨ d._prev_task_status = some Status.OK) :
    d.wait.1 = Status.OK := by
  rw [AsyncFileDeleter.wait_status]
  rcases h with h | h <;> rw [h] <;> rfl

/-- A call of `delete_file` on a steady deleter returns OK and leaves it steady. -/
theorem AsyncFileDeleter.delete_file_steady (env : Env) (b : Int)
    (cb : Option (List String → List Event)) (w0 : World) (path : String)
    (s : AsyncFileDeleter × World) (hb1 : 1 ≤ b) (hb2 : b ≤ INT64_MAX)
    (hsucc : ∀ w files, env.task_status w files = Status.OK)
    (hs : AsyncFileDeleter.Steady b cb w0 s) :
    (s.1.delete_file env path s.2).1 = Status.OK ∧
    AsyncFileDeleter.Steady b cb w0 (s.1.delete_file env path s.2).2 := by
  obtain ⟨h1, h2, h3, h4, h5, h6, h7⟩ := hs
  have hmod : b % 2 ^ 64 = b := by
    unfold INT64_MAX at hb2
    exact Int.emod_eq_of_lt (by omega) (by omega)
  obtain ⟨d1, hd1⟩ : ∃ d1 : AsyncFileDeleter, d1 = { s.1 with _batch := s.1._batch ++ [path] } :=
    ⟨_, rfl⟩
  have e1 : d1._batch_size = b := by rw [hd1]; exact h1
  have e2 : d1._cb = cb := by rw [hd1]; exact h2
  have e3 : d1.submitted = s.1.submitted := by rw [hd1]
  have e4 : d1._batch = s.1._batch ++ [path] := by rw [hd1]
  have e5 : d1._prev_task_status = s.1._prev_task_status := by rw [hd1]
  have e6 : d1._delete_count = s.1._delete_count := by rw [hd1]
  have hdef : s.1.delete_file env path s.2
      = if (d1._batch.length : Int) < d1._batch_size % 2 ^ 64 then (Status.OK, d1, s.2)
        else d1.submit env s.2 := by
    rw [hd1]
    rfl
  rw [hdef, e1, hmod]
  by_cases hlt : (d1._batch.length : Int) < b
  · rw [if_pos hlt]
    refine ⟨rfl, e1, e2, ?_, hlt, ?_, ?_, ?_⟩
    · show ∀ batch ∈ d1.submitted, _
      rw [e3]
      exact h3
    · show d1._prev_task_status = none ∨ _
      rw [e5]
      exact h5
    · show d1._delete_count = _
      rw [e6, e3]
      exact h6
    · show s.2 = w0 ++ d1.submitted.flatMap _
      rw [e3]
      exact h7
  · rw [if_neg hlt]
    have hw : d1.wait.1 = Status.OK := AsyncFileDeleter.wait_ok_of_steady _ (e5 ▸ h5)
    have hev := AsyncFileDeleter.submit_ok_events env d1 s.2 hw
    obtain ⟨f1, f2, f3, f4, f5, f6⟩ := d1.wait_fields
    rw [AsyncFileDeleter.submit_ok env _ s.2 hw] at hev ⊢
    simp only at hev
    have hlen : (d1._batch.length : Int) = b := by
      rw [e4] at hlt ⊢
      simp only [List.length_append, List.length_singleton] at hlt ⊢
      push_cast at hlt ⊢
      omega
    refine ⟨rfl, ?_, ?_, ?_, ?_, ?_, ?_, ?_⟩
    · exact f3.trans e1
    · exact f5.trans e2
    · intro batch hbatch
      simp only [f2, f1, e3, List.mem_append, List.mem_singleton] at hbatch
      rcases hbatch with hbatch | hbatch
      · exact h3 batch hbatch
      · rw [hbatch]
        exact hlen
    · simp only [List.length_nil]
      omega
    · right
      simp only
      rw [delete_files_callable_ok env _ _ hsucc]
    · simp only [AsyncFileDeleter.counted, f4, f2, f1, e3, e6, List.flatten_append,
        List.flatten_cons, List.flatten_nil, List.append_nil, List.length_append] at h6 ⊢
      rw [h6]
      push_cast
      ring
    · simp only
      rw [hev, h7]
      simp only [f2, f1, e2, e3, List.flatMap_append, List.flatMap_cons, List.flatMap_nil,
        List.append_nil, List.append_assoc]

theorem AsyncFileDeleter.delete_each_nil (env : Env) (s : AsyncFileDeleter × World) :
    AsyncFileDeleter.delete_each env [] s = s := rfl

theorem AsyncFileDeleter.delete_each_cons (env : Env) (path : String) (paths : List String)
    (s : AsyncFileDeleter × World) :
    AsyncFileDeleter.delete_each env (path :: paths) s
      = AsyncFileDeleter.delete_each env paths (s.1.delete_file env path s.2).2 := rfl

theorem AsyncFileDeleter.delete_each_concat (env : Env) (path : String) (paths : List String)
    (s : AsyncFileDeleter × World) :
    AsyncFileDeleter.delete_each env (paths ++ [path]) s
      = ((AsyncFileDeleter.delete_each env paths s).1.delete_file env path
          (AsyncFileDeleter.delete_each env paths s).2).2 := by
  unfold AsyncFileDeleter.delete_each
  rw [List.foldl_append]
  rfl

/-- The calls of `delete_file` for `paths` leave a steady deleter steady; the
    deleter has been given `paths` in addition. -/
theorem AsyncFileDeleter.delete_each_steady (env : Env) (b : Int)
    (cb : Option (List String → List Event)) (w0 : World) (hb1 : 1 ≤ b) (hb2 : b ≤ INT64_MAX)
    (hsucc : ∀ w files, env.task_status w files = Status.OK)
    (paths : List String) (s : AsyncFileDeleter × World)
    (hs : AsyncFileDeleter.Steady b cb w0 s) :
    AsyncFileDeleter.Steady b cb w0 (AsyncFileDeleter.delete_each env paths s) ∧
    (AsyncFileDeleter.delete_each env paths s).1.handed = s.1.handed ++ paths := by
  induction paths generalizing s with
  | nil => exact ⟨hs, (List.append_nil _).symm⟩
  | cons path rest ih =>
    rw [AsyncFileDeleter.delete_each_cons]
    obtain ⟨h1, h2⟩ := ih _
      (AsyncFileDeleter.delete_file_steady env b cb w0 path s hb1 hb2 hsucc hs).2
    refine ⟨h1, ?_⟩
    rw [h2, (AsyncFileDeleter.delete_file_frame env path s.1 s.2).1, List.append_assoc]
    rfl

/-- Method `finish` on a steady deleter returns OK and passes on what waits in
    `_batch`, as a last batch of fewer than `b` paths. -/
theorem AsyncFileDeleter.finish_steady (env : Env) (b : Int)
    (cb : Option (List String → List Event)) (w0 : World) (hb1 : 1 ≤ b)
    (hsucc : ∀ w files, env.task_status w files = Status.OK)
    (s : AsyncFileDeleter × World) (hs : AsyncFileDeleter.Steady b cb w0 s) :
    (s.1.finish env s.2).1 = Status.OK ∧
    (s.1.finish env s.2).2.1.submitted.flatten = s.1.handed ∧
    (∀ batch ∈ (s.1.finish env s.2).2.1.submitted, batch ≠ []) ∧
    (∀ batch ∈ (s.1.finish env s.2).2.1.submitted.dropLast, (batch.length : Int) = b) ∧
    (s.1.finish env s.2).2.1._batch = [] ∧
    (s.1.finish env s.2).2.1.counted ∧
    (s.1.finish env s.2).2.2
      = w0 ++ (s.1.finish env s.2).2.1.submitted.flatMap (dispatch_events cb) := by
  obtain ⟨h1, h2, h3, h4, h5, h6, h7⟩ := hs
  have hw : s.1.wait.1 = Status.OK := AsyncFileDeleter.wait_ok_of_steady _ h5
  obtain ⟨f1, f2, f3, f4, f5, f6⟩ := s.1.wait_fields
  have hne : ∀ batch ∈ s.1.submitted, batch ≠ [] := by
    intro batch hbatch hnil
    have := h3 batch hbatch
    rw [hnil] at this
    simp only [List.length_nil] at this
    omega
  unfold AsyncFileDeleter.finish
  by_cases hempty : s.1._batch.isEmpty = true
  · rw [if_pos hempty]
    have hnil : s.1._batch = [] := List.isEmpty_iff.1 hempty
    refine ⟨hw, ?_, ?_, ?_, ?_, ?_, ?_⟩
    · simp only [f2, AsyncFileDeleter.handed, hnil, List.append_nil]
    · simp only [f2]
      exact hne
    · simp only [f2]
      intro batch hbatch
      exact h3 batch (List.mem_of_mem_dropLast hbatch)
    · simp only [f1]
      exact hnil
    · simp only [AsyncFileDeleter.counted, f2, f4]
      exact h6
    · simp only [f2]
      exact h7
  · rw [if_neg hempty]
    have hev := AsyncFileDeleter.submit_ok_events env s.1 s.2 hw
    have hsub := AsyncFileDeleter.submit_ok env s.1 s.2 hw
    have hst : (s.1.submit env s.2).1 = Status.OK := by rw [hsub]
    have hsm : (s.1.submit env s.2).2.1.submitted = s.1.submitted ++ [s.1._batch] := by
      rw [hsub]
      simp only [f1, f2]
    have hbt : (s.1.submit env s.2).2.1._batch = [] := by rw [hsub]
    have hps : (s.1.submit env s.2).2.1._prev_task_status = some Status.OK := by
      rw [hsub]
      simp only
      rw [delete_files_callable_ok env _ _ hsucc]
    have hcn : (s.1.submit env s.2).2.1.counted :=
      (AsyncFileDeleter.submit_frame env s.1 s.2).2.2.2 h6
    obtain ⟨g1, g2, g3, g4, g5, g6⟩ := (s.1.submit env s.2).2.1.wait_fields
    rw [hst]
    simp only
    refine ⟨?_, ?_, ?_, ?_, ?_, ?_, ?_⟩
    · rw [AsyncFileDeleter.wait_status, hps]
      rfl
    · rw [g2, hsm]
      simp only [AsyncFileDeleter.handed, List.flatten_append, List.flatten_cons,
        List.flatten_nil, List.append_nil]
    · rw [g2, hsm]
      intro batch hbatch
      rcases List.mem_append.1 hbatch with hbatch | hbatch
      · exact hne batch hbatch
      · rw [List.mem_singleton.1 hbatch]
        intro hnil
        exact hempty (List.isEmpty_iff.2 hnil)
    · rw [g2, hsm, List.dropLast_concat]
      exact h3
    · rw [g1]
      exact hbt
    · simp only [AsyncFileDeleter.counted, g2, g4]
      exact hcn
    · rw [g2, hsm, hev, h7, h2]
      simp only [List.flatMap_append, List.flatMap_cons, List.flatMap_nil, List.append_nil,
        List.append_assoc]

/-- A deleter as its constructor leaves it is steady. -/
theorem AsyncFileDeleter.steady_new (b : Int) (cb : Option (List String → List Event))
    (w0 : World) (hb1 : 1 ≤ b) :
    AsyncFileDeleter.Steady b cb w0 (AsyncFileDeleter.create b cb, w0) := by
  refine ⟨rfl, rfl, ?_, ?_, Or.inl rfl, rfl, ?_⟩
  · intro batch hbatch
    exact absurd hbatch (List.not_mem_nil _)
  · show ((0 : Nat) : Int) < b
    omega
  · show w0 = w0 ++ []
    rw [List.append_nil]

/-! ## delete_files_with_retry -/

theorem should_retry_iff (env : FsEnv) (st : Status) (attempted_retries : Int) :
    should_retry env st attempted_retries = true ↔
      attempted_retries < env.lake_vacuum_retry_max_attempts ∧
      (st.is_resource_busy = true ∨
        env.MatchPattern st.message env.lake_vacuum_retry_pattern = true) := by
  unfold should_retry
  by_cases h1 : attempted_retries ≥ env.lake_vacuum_retry_max_attempts
  · rw [if_pos h1]
    constructor
    · intro h
      exact absurd h (by simp)
    · intro h
      omega
  · rw [if_neg h1]
    by_cases h2 : st.is_resource_busy = true
    · rw [if_pos h2]
      exact ⟨fun _ => ⟨by omega, Or.inl h2⟩, fun _ => rfl⟩
    · rw [if_neg h2]
      constructor
      · intro h
        exact ⟨by omega, Or.inr h⟩
      · intro h
        rcases h.2 with h | h
        · exact absurd h h2
        · exact h

/-- The loop of `delete_files_with_retry`, entered at attempt `k0` with enough
    fuel, returns after some attempt `n`: the attempts before `n` failed and
    were retried, attempt `n` succeeded or was not to be retried. -/
theorem delete_files_with_retry_loop_spec (env : FsEnv) (paths : List String)
    (trace : List FsEvent) (fuel : Nat) (k0 : Nat)
    (hfuel : (env.lake_vacuum_retry_max_attempts - (k0 : Int)).toNat + 1 ≤ fuel) :
    ∃ n : Nat, k0 ≤ n ∧
      (n = k0 ∨ (n : Int) ≤ env.lake_vacuum_retry_max_attempts) ∧
      delete_files_with_retry_loop env paths fuel (k0 : Int) (retry_trace env paths trace k0)
        = Outcome.returned (retry_attempt env paths trace n)
            (retry_trace env paths trace n ++ [FsEvent.delete_files paths]) ∧
      (∀ k, k0 ≤ k → k < n →
        (retry_attempt env paths trace k).ok = false ∧
        should_retry env (retry_attempt env paths trace k) (k : Int) = true) ∧
      ((retry_attempt env paths trace n).ok = true ∨
        should_retry env (retry_attempt env paths trace n) (n : Int) = false) := by
  induction fuel generalizing k0 with
  | zero => omega
  | succ fuel ih =>
    unfold delete_files_with_retry_loop
    simp only
    by_cases hc : ¬ (env.fs_delete_files (retry_trace env paths trace k0) paths).ok = true ∧
        should_retry env (env.fs_delete_files (retry_trace env paths trace k0) paths) (k0 : Int)
          = true
    · rw [if_pos hc]
      have hlt := ((should_retry_iff env _ _).1 hc.2).1
      obtain ⟨n, h1, h2, h3, h4, h5⟩ := ih (k0 + 1) (by push_cast; omega)
      refine ⟨n, by omega, Or.inr ?_, ?_, ?_, h5⟩
      · rcases h2 with h2 | h2
        · rw [h2]
          push_cast
          omega
        · exact h2
      · rw [← h3]
        simp only [retry_trace, List.append_assoc, List.singleton_append, Nat.cast_add,
          Nat.cast_one]
      · intro k hk1 hk2
        rcases Nat.eq_or_lt_of_le hk1 with hk | hk
        · subst hk
          refine ⟨?_, hc.2⟩
          simpa using hc.1
        · exact h4 k hk hk2
    · rw [if_neg hc]
      refine ⟨k0, le_refl _, Or.inl rfl, rfl, ?_, ?_⟩
      · intro k hk1 hk2
        omega
      · by_cases hok : (env.fs_delete_files (retry_trace env paths trace k0) paths).ok = true
        · exact Or.inl hok
        · right
          have : ¬ should_retry env (env.fs_delete_files (retry_trace env paths trace k0) paths)
              (k0 : Int) = true := fun h => hc ⟨hok, h⟩
          simpa using this

theorem delete_files_calls_append (l₁ l₂ : List FsEvent) :
    delete_files_calls (l₁ ++ l₂) = delete_files_calls l₁ + delete_files_calls l₂ := by
  unfold delete_files_calls
  rw [List.filter_append, List.length_append]

theorem delete_files_calls_retry_trace (env : FsEnv) (paths : List String)
    (trace : List FsEvent) (n : Nat) :
    delete_files_calls (retry_trace env paths trace n) = delete_files_calls trace + n := by
  induction n with
  | zero => rfl
  | succ n ih =>
    unfold retry_trace
    rw [delete_files_calls_append, ih]
    rfl

/-! ## The loop of vacuum_tablet_metadata, tablet by tablet -/

/-- A loop over the tablets that returns OK is a sequence of successful runs. -/
theorem vacuum_tablets_runs (env : Env) (root_dir : String)
    (min_retain_version grace_timestamp : Int) (enable_file_bundling : Bool)
    (tablet_infos : List TabletInfoPB) (s s' : DriverState)
    (hok : vacuum_tablets env root_dir min_retain_version grace_timestamp enable_file_bundling
      tablet_infos s = Outcome.returned Status.OK s') :
    ∃ runs, TabletRuns env root_dir min_retain_version grace_timestamp enable_file_bundling
      tablet_infos s runs s' := by
  induction tablet_infos generalizing s with
  | nil =>
    unfold vacuum_tablets at hok
    injection hok with _ h
    subst h
    exact ⟨[], TabletRuns.done s⟩
  | cons tablet_info rest ih =>
    unfold vacuum_tablets at hok
    simp only at hok
    cases hc : collect_files_to_vacuum env root_dir (s.planner_args env tablet_info)
        grace_timestamp min_retain_version with
    | aborted a =>
      rw [hc] at hok
      exact absurd hok (by simp)
    | out_of_fuel a =>
      rw [hc] at hok
      exact absurd hok (by simp)
    | returned st a =>
      rw [hc] at hok
      cases st with
      | error c m =>
        simp only at hok
        exact absurd hok (by simp)
      | OK =>
        simp only at hok
        cases hf : (vacuum_tablet_finish env enable_file_bundling a (s.after_planner a)).1 with
        | error c m =>
          rw [hf] at hok
          simp only at hok
          exact absurd hok (by simp)
        | OK =>
          rw [hf] at hok
          simp only at hok
          obtain ⟨runs, hr⟩ := ih _ hok
          obtain ⟨_, ws, hws, _⟩ := collect_files_to_vacuum_ok env root_dir _ a _ _ hc
          exact ⟨{ args := s.planner_args env tablet_info, walk := ws, result := a } :: runs,
            TabletRuns.step rfl hws hc hf hr⟩

theorem TabletRuns.length_eq {env : Env} {root_dir : String}
    {min_retain_version grace_timestamp : Int} {enable_file_bundling : Bool}
    {tablet_infos : List TabletInfoPB} {s s' : DriverState} {runs : List TabletRun}
    (h : TabletRuns env root_dir min_retain_version grace_timestamp enable_file_bundling
      tablet_infos s runs s') : runs.length = tablet_infos.length := by
  induction h with
  | done s => rfl
  | step _ _ _ _ _ ih => simp only [List.length_cons, ih]

/-- A successful iteration lowers `final_vacuum_version` to the tablet's
    vacuumed version when that is smaller. -/
theorem vacuum_tablet_finish_final (env : Env) (enable_file_bundling : Bool)
    (a : VacuumArgs) (s : DriverState)
    (h : (vacuum_tablet_finish env enable_file_bundling a s).1 = Status.OK) :
    (vacuum_tablet_finish env enable_file_bundling a s).2.final_vacuum_version
      = Min.min s.final_vacuum_version a.vacuumed_version := by
  revert h
  unfold vacuum_tablet_finish
  simp only
  split
  · intro h
    exact absurd h (by simp)
  · split
    · split
      · intro h
        exact absurd h (by simp)
      · intro _
        rfl
    · intro _
      rfl

theorem TabletRuns.final_vacuum_version_eq {env : Env} {root_dir : String}
    {min_retain_version grace_timestamp : Int} {enable_file_bundling : Bool}
    {tablet_infos : List TabletInfoPB} {s s' : DriverState} {runs : List TabletRun}
    (h : TabletRuns env root_dir min_retain_version grace_timestamp enable_file_bundling
      tablet_infos s runs s') :
    s'.final_vacuum_version
      = runs.foldl (fun m run => Min.min m run.result.vacuumed_version)
          s.final_vacuum_version := by
  induction h with
  | done s => rfl
  | step _ _ _ hf _ ih =>
    rw [ih, vacuum_tablet_finish_final _ _ _ _ hf]
    rfl

/-- The vacuumed version a successful planner call returns is at most
    `min_retain_version`. -/
theorem collect_files_to_vacuum_vacuumed_le (env : Env) (root_dir : String) (a a' : VacuumArgs)
    (grace_timestamp min_retain_version : Int)
    (h : collect_files_to_vacuum env root_dir a grace_timestamp min_retain_version
      = Outcome.returned Status.OK a') :
    a'.vacuumed_version ≤ min_retain_version := by
  obtain ⟨_, s, hw, ht⟩ := collect_files_to_vacuum_ok env root_dir a a' grace_timestamp
    min_retain_version h
  unfold collect_files_to_vacuum_walk at hw
  obtain ⟨hframe, _⟩ := walk_inv env (env.join_path root_dir env.kSegmentDirectoryName)
    a.tablet_info.tablet_id (walk_min_version a.tablet_info) grace_timestamp min_retain_version
    (walk_fuel a.tablet_info min_retain_version)
    (walk_init a grace_timestamp min_retain_version) (le_refl _)
  rw [hw] at hframe
  have hle : s.final_retain_version ≤ min_retain_version := hframe.final_le
  cases hskip : s.skip_check_grace_timestamp with
  | true =>
    obtain ⟨hvv, _⟩ := collect_files_to_vacuum_tail_flip env _ _ a' s hskip ht
    rw [hvv]
    exact hle
  | false =>
    rw [collect_files_to_vacuum_tail_recent env _ _ s hskip] at ht
    injection ht with _ ha
    rw [← ha]
    show s.final_retain_version - 1 ≤ min_retain_version
    omega

theorem vacuum_bundle_files_final (env : Env) (root_dir : String) (s : DriverState) :
    (vacuum_bundle_files env root_dir s).2.final_vacuum_version = s.final_vacuum_version := by
  unfold vacuum_bundle_files
  simp only
  split
  · split
    · rfl
    · split
      · rfl
      · rfl
  · rfl

theorem vacuum_partition_metafiles_final (env : Env) (root_dir : String)
    (enable_file_bundling : Bool) (s : DriverState) :
    (vacuum_partition_metafiles env root_dir enable_file_bundling s).2.final_vacuum_version
      = s.final_vacuum_version := by
  unfold vacuum_partition_metafiles
  simp only
  split
  · split
    · rfl
    · rfl
  · rfl

theorem foldl_min_le_init {α : Type} (f : α → Int) (l : List α) (m : Int) :
    l.foldl (fun m a => Min.min m (f a)) m ≤ m := by
  induction l generalizing m with
  | nil => exact le_refl _
  | cons x rest ih => exact le_trans (ih _) (min_le_left _ _)

theorem foldl_min_le_mem {α : Type} (f : α → Int) (l : List α) (m : Int) :
    ∀ a ∈ l, l.foldl (fun m a => Min.min m (f a)) m ≤ f a := by
  induction l generalizing m with
  | nil =>
    intro a ha
    exact absurd ha (List.not_mem_nil _)
  | cons x rest ih =>
    intro a ha
    rcases List.mem_cons.1 ha with h | h
    · subst h
      exact le_trans (foldl_min_le_init f rest _) (min_le_right _ _)
    · exact ih _ a h

theorem foldl_min_mem {α : Type} (f : α → Int) (l : List α) (m : Int) :
    l.foldl (fun m a => Min.min m (f a)) m = m ∨
    ∃ a ∈ l, l.foldl (fun m a => Min.min m (f a)) m = f a := by
  induction l generalizing m with
  | nil => exact Or.inl rfl
  | cons x rest ih =>
    rcases ih (Min.min m (f x)) with h | ⟨a, ha, h⟩
    · rcases min_choice m (f x) with hm | hm
      · left
        exact h.trans hm
      · right
        exact ⟨x, List.mem_cons_self _ _, h.trans hm⟩
    · exact Or.inr ⟨a, List.mem_cons_of_mem _ ha, h⟩

theorem TabletRuns.vacuumed_le {env : Env} {root_dir : String}
    {min_retain_version grace_timestamp : Int} {enable_file_bundling : Bool}
    {tablet_infos : List TabletInfoPB} {s s' : DriverState} {runs : List TabletRun}
    (h : TabletRuns env root_dir min_retain_version grace_timestamp enable_file_bundling
      tablet_infos s runs s') :
    ∀ run ∈ runs, run.result.vacuumed_version ≤ min_retain_version := by
  induction h with
  | done s =>
    intro a ha
    exact absurd ha (List.not_mem_nil _)
  | step _ _ hc _ _ ih =>
    intro a ha
    rcases List.mem_cons.1 ha with h | h
    · subst h
      exact collect_files_to_vacuum_vacuumed_le env root_dir _ _ _ _ hc
    · exact ih a h

/-! ## vacuum_txn_log -/

theorem AsyncFileDeleter.delete_file_no_failure (env : Env) (path : String)
    (d : AsyncFileDeleter) (w : World)
    (hsucc : ∀ w files, env.task_status w files = Status.OK) (h : d.no_failure) :
    (d.delete_file env path w).1 = Status.OK ∧ (d.delete_file env path w).2.1.no_failure := by
  obtain ⟨d1, hd1⟩ : ∃ d1 : AsyncFileDeleter, d1 = { d with _batch := d._batch ++ [path] } :=
    ⟨_, rfl⟩
  have e5 : d1._prev_task_status = d._prev_task_status := by rw [hd1]
  have hdef : d.delete_file env path w
      = if (d1._batch.length : Int) < d1._batch_size % 2 ^ 64 then (Status.OK, d1, w)
        else d1.submit env w := by
    rw [hd1]
    rfl
  rw [hdef]
  split
  · refine ⟨rfl, ?_⟩
    show d1._prev_task_status = none ∨ _
    rw [e5]
    exact h
  · have hw : d1.wait.1 = Status.OK := AsyncFileDeleter.wait_ok_of_steady _ (e5 ▸ h)
    rw [AsyncFileDeleter.submit_ok env d1 w hw]
    refine ⟨rfl, Or.inr ?_⟩
    simp only
    rw [delete_files_callable_ok env _ _ hsucc]

theorem AsyncFileDeleter.finish_no_failure (env : Env) (d : AsyncFileDeleter) (w : World)
    (hsucc : ∀ w files, env.task_status w files = Status.OK) (h : d.no_failure) :
    (d.finish env w).1 = Status.OK := by
  have hw : d.wait.1 = Status.OK := AsyncFileDeleter.wait_ok_of_steady _ h
  unfold AsyncFileDeleter.finish
  split
  · exact hw
  · have hsub := AsyncFileDeleter.submit_ok env d w hw
    have hst : (d.submit env w).1 = Status.OK := by rw [hsub]
    have hps : (d.submit env w).2.1._prev_task_status = some Status.OK := by
      rw [hsub]
      simp only
      rw [delete_files_callable_ok env _ _ hsucc]
    rw [hst]
    simp only
    rw [AsyncFileDeleter.wait_status, hps]
    rfl

theorem decide_ge_eq_not_decide_lt (a b : Int) : decide (a ≥ b) = !decide (a < b) := by
  by_cases h : a < b
  · simp [h, not_le.2 h]
  · simp [h, not_lt.1 h]

theorem txn_log_skipped_eq (env : Env) (min_active_txn_id : Int) (name : String) :
    txn_log_skipped env min_active_txn_id name
      = !(match parsed_txn_id env name with
          | some txn_id => decide (txn_id < min_active_txn_id)
          | none => false) := by
  unfold txn_log_skipped parsed_txn_id
  split
  · exact decide_ge_eq_not_decide_lt _ _
  · split
    · exact decide_ge_eq_not_decide_lt _ _
    · split
      · exact decide_ge_eq_not_decide_lt _ _
      · rfl

theorem expired_txn_logs_cons (env : Env) (min_active_txn_id : Int) (entry : DirEntry)
    (rest : List DirEntry) :
    expired_txn_logs env min_active_txn_id (entry :: rest)
      = if txn_log_skipped env min_active_txn_id entry.name then
          expired_txn_logs env min_active_txn_id rest
        else entry :: expired_txn_logs env min_active_txn_id rest := by
  rw [txn_log_skipped_eq]
  unfold expired_txn_logs
  rw [List.filter_cons]
  cases (match parsed_txn_id env entry.name with
    | some txn_id => decide (txn_id < min_active_txn_id)
    | none => false) <;> simp

/-- When no task fails, the listing of `vacuum_txn_log` visits every entry: the
    deleter is given the paths of the expired txn logs, the two counters grow by
    their number and their sizes, and `ret` stays as it was. -/
theorem vacuum_txn_log_visit_entries (env : Env) (log_dir : String) (min_active_txn_id : Int)
    (hsucc : ∀ w files, env.task_status w files = Status.OK)
    (entries : List DirEntry) (s : TxnLogState) (h : s.deleter.no_failure) :
    (visit_entries (vacuum_txn_log_visit env log_dir min_active_txn_id) entries s).1 = false ∧
    (visit_entries (vacuum_txn_log_visit env log_dir min_active_txn_id) entries
      s).2.deleter.no_failure ∧
    (visit_entries (vacuum_txn_log_visit env log_dir min_active_txn_id) entries
      s).2.deleter.handed = s.deleter.handed ++
        (expired_txn_logs env min_active_txn_id entries).map
          (fun entry => env.join_path log_dir entry.name) ∧
    (s.deleter.counted →
      (visit_entries (vacuum_txn_log_visit env log_dir min_active_txn_id) entries
        s).2.deleter.counted) ∧
    (visit_entries (vacuum_txn_log_visit env log_dir min_active_txn_id) entries
      s).2.ret = s.ret ∧
    (visit_entries (vacuum_txn_log_visit env log_dir min_active_txn_id) entries
      s).2.vacuumed_files = s.vacuumed_files +
        ((expired_txn_logs env min_active_txn_id entries).length : Int) ∧
    (visit_entries (vacuum_txn_log_visit env log_dir min_active_txn_id) entries
      s).2.vacuumed_file_size = s.vacuumed_file_size +
        ((expired_txn_logs env min_active_txn_id entries).map
          (fun entry => entry.size.getD 0)).sum := by
  induction entries generalizing s with
  | nil =>
    refine ⟨rfl, h, ?_, fun hc => hc, rfl, ?_, ?_⟩
    · show s.deleter.handed = s.deleter.handed ++ []
      rw [List.append_nil]
    · show s.vacuumed_files = s.vacuumed_files + 0
      rw [add_zero]
    · show s.vacuumed_file_size = s.vacuumed_file_size + 0
      rw [add_zero]
  | cons entry rest ih =>
    rw [expired_txn_logs_cons]
    unfold visit_entries
    by_cases hskip : txn_log_skipped env min_active_txn_id entry.name = true
    · have hv : vacuum_txn_log_visit env log_dir min_active_txn_id entry s = (true, s) := by
        unfold vacuum_txn_log_visit
        rw [if_pos hskip]
      rw [hv, if_pos hskip]
      simp only [if_true]
      exact ih s h
    · obtain ⟨hst, hnf⟩ := AsyncFileDeleter.delete_file_no_failure env
        (env.join_path log_dir entry.name) s.deleter s.world hsucc h
      obtain ⟨fh, _, _, fc⟩ := AsyncFileDeleter.delete_file_frame env
        (env.join_path log_dir entry.name) s.deleter s.world
      have hv : vacuum_txn_log_visit env log_dir min_active_txn_id entry s
          = (true,
            { s with
              deleter := (s.deleter.delete_file env (env.join_path log_dir entry.name)
                s.world).2.1
              vacuumed_files := s.vacuumed_files + 1
              vacuumed_file_size := s.vacuumed_file_size + entry.size.getD 0
              world := (s.deleter.delete_file env (env.join_path log_dir entry.name)
                s.world).2.2 }) := by
        unfold vacuum_txn_log_visit
        rw [if_neg hskip]
        simp only [hst, Status.ok, if_true]
      rw [hv, if_neg hskip]
      simp only [if_true]
      obtain ⟨i1, i2, i3, i4, i5, i6, i7⟩ := ih
        { s with
          deleter := (s.deleter.delete_file env (env.join_path log_dir entry.name)
            s.world).2.1
          vacuumed_files := s.vacuumed_files + 1
          vacuumed_file_size := s.vacuumed_file_size + entry.size.getD 0
          world := (s.deleter.delete_file env (env.join_path log_dir entry.name)
            s.world).2.2 } hnf
      refine ⟨i1, i2, ?_, ?_, i5, ?_, ?_⟩
      · rw [i3]
        simp only [fh, List.map_cons, List.append_assoc, List.singleton_append]
      · intro hc
        exact i4 (fc hc)
      · rw [i6]
        simp only [List.length_cons]
        push_cast
        ring
      · rw [i7]
        simp only [List.map_cons, List.sum_cons]
        ring

/-! ## The events of a deleter -/

/-- Method `submit` adds the events of the batch it passes on, if any. -/
theorem AsyncFileDeleter.submit_logged (env : Env) (d : AsyncFileDeleter) (w w0 : World)
    (h : AsyncFileDeleter.Logged w0 (d, w)) :
    AsyncFileDeleter.Logged w0 (d.submit env w).2 := by
  obtain ⟨f1, f2, f3, f4, f5, f6⟩ := d.wait_fields
  have h' : w = w0 ++ d.submitted.flatMap (dispatch_events d._cb) := h
  cases hw : d.wait.1 with
  | error c m =>
    rw [AsyncFileDeleter.submit_error env d w c m hw]
    show w = w0 ++ d.wait.2.submitted.flatMap (dispatch_events d.wait.2._cb)
    rw [f2, f5]
    exact h'
  | OK =>
    have hev := AsyncFileDeleter.submit_ok_events env d w hw
    have hsub := AsyncFileDeleter.submit_ok env d w hw
    have hsm : (d.submit env w).2.1.submitted = d.submitted ++ [d._batch] := by
      rw [hsub]
      simp only [f1, f2]
    have hcb : (d.submit env w).2.1._cb = d._cb :=
      (AsyncFileDeleter.submit_frame env d w).2.2.1
    show (d.submit env w).2.2
      = w0 ++ (d.submit env w).2.1.submitted.flatMap (dispatch_events (d.submit env w).2.1._cb)
    rw [hev, hsm, hcb, h']
    simp only [List.flatMap_append, List.flatMap_cons, List.flatMap_nil, List.append_nil,
      List.append_assoc]

theorem AsyncFileDeleter.delete_file_logged (env : Env) (path : String) (d : AsyncFileDeleter)
    (w w0 : World) (h : AsyncFileDeleter.Logged w0 (d, w)) :
    AsyncFileDeleter.Logged w0 (d.delete_file env path w).2 := by
  obtain ⟨d1, hd1⟩ : ∃ d1 : AsyncFileDeleter, d1 = { d with _batch := d._batch ++ [path] } :=
    ⟨_, rfl⟩
  have hdef : d.delete_file env path w
      = if (d1._batch.length : Int) < d1._batch_size % 2 ^ 64 then (Status.OK, d1, w)
        else d1.submit env w := by
    rw [hd1]
    rfl
  have h1 : AsyncFileDeleter.Logged w0 (d1, w) := by
    rw [hd1]
    exact h
  rw [hdef]
  split
  · exact h1
  · exact AsyncFileDeleter.submit_logged env d1 w w0 h1

theorem AsyncFileDeleter.wait_logged (d : AsyncFileDeleter) (w w0 : World)
    (h : AsyncFileDeleter.Logged w0 (d, w)) : AsyncFileDeleter.Logged w0 (d.wait.2, w) := by
  obtain ⟨f1, f2, f3, f4, f5, f6⟩ := d.wait_fields
  show w = w0 ++ d.wait.2.submitted.flatMap (dispatch_events d.wait.2._cb)
  rw [f2, f5]
  exact h

theorem AsyncFileDeleter.finish_logged (env : Env) (d : AsyncFileDeleter) (w w0 : World)
    (h : AsyncFileDeleter.Logged w0 (d, w)) :
    AsyncFileDeleter.Logged w0 (d.finish env w).2 := by
  unfold AsyncFileDeleter.finish
  split
  · exact AsyncFileDeleter.wait_logged d w w0 h
  · have hs := AsyncFileDeleter.submit_logged env d w w0 h
    split
    · exact hs
    · exact AsyncFileDeleter.wait_logged _ _ w0 hs

theorem visit_entries_invariant {σ : Type} (visit : DirEntry → σ → Bool × σ) (P : σ → Prop)
    (hvisit : ∀ entry s, P s → P (visit entry s).2) (entries : List DirEntry) (s : σ)
    (hs : P s) : P (visit_entries visit entries s).2 := by
  induction entries generalizing s with
  | nil => exact hs
  | cons entry rest ih =>
    unfold visit_entries
    split
    · exact ih _ (hvisit entry s hs)
    · exact hvisit entry s hs

theorem vacuum_txn_log_visit_logged (env : Env) (log_dir : String) (min_active_txn_id : Int)
    (w0 : World) (entry : DirEntry) (s : TxnLogState)
    (h : AsyncFileDeleter.Logged w0 (s.deleter, s.world)) :
    AsyncFileDeleter.Logged w0
      ((vacuum_txn_log_visit env log_dir min_active_txn_id entry s).2.deleter,
        (vacuum_txn_log_visit env log_dir min_active_txn_id entry s).2.world) := by
  unfold vacuum_txn_log_visit
  split
  · exact h
  · exact AsyncFileDeleter.delete_file_logged env _ s.deleter s.world w0 h

/-- Function `vacuum_txn_log` when the file system is created, in terms of the
    state its listing ends in. -/
theorem vacuum_txn_log_eq (env : Env) (root_location : String) (min_active_txn_id : Int)
    (vacuumed_files vacuumed_file_size : Int) (w : World)
    (hfs : env.create_fs root_location = Status.OK) (v : Bool × TxnLogState)
    (hv : v = visit_entries
      (vacuum_txn_log_visit env (env.join_path root_location env.kTxnLogDirectoryName)
        min_active_txn_id)
      (env.iterate_dir2 (env.join_path root_location env.kTxnLogDirectoryName)).1
      (txn_log_init env vacuumed_files vacuumed_file_size w)) :
    vacuum_txn_log env root_location min_active_txn_id vacuumed_files vacuumed_file_size w
      = (((v.2.ret.update (ignore_not_found
            (if v.1 then Status.OK
              else (env.iterate_dir2
                (env.join_path root_location env.kTxnLogDirectoryName)).2))).update
            (v.2.deleter.finish env v.2.world).1),
          { v.2 with
            deleter := (v.2.deleter.finish env v.2.world).2.1
            ret := (v.2.ret.update (ignore_not_found
              (if v.1 then Status.OK
                else (env.iterate_dir2
                  (env.join_path root_location env.kTxnLogDirectoryName)).2))).update
              (v.2.deleter.finish env v.2.world).1
            world := (v.2.deleter.finish env v.2.world).2.2 }) := by
  unfold vacuum_txn_log
  rw [hfs, hv]
  rfl

theorem Status.OK_update (st : Status) : Status.OK.update st = st := rfl

theorem Status.update_OK (st : Status) : st.update Status.OK = st := by
  cases st <;> rfl

/-! ## The partition-level metadata files -/

theorem vacuum_tablet_finish_range (env : Env) (enable_file_bundling : Bool)
    (a : VacuumArgs) (s : DriverState) :
    (vacuum_tablet_finish env enable_file_bundling a s).2.vacuum_version_range
      = s.vacuum_version_range := by
  unfold vacuum_tablet_finish
  simp only
  split
  · rfl
  · split
    · split
      · rfl
      · rfl
    · rfl

theorem vacuum_bundle_files_range (env : Env) (root_dir : String) (s : DriverState) :
    (vacuum_bundle_files env root_dir s).2.vacuum_version_range = s.vacuum_version_range := by
  unfold vacuum_bundle_files
  simp only
  split
  · split
    · rfl
    · split
      · rfl
      · rfl
  · rfl

/-- With a version range, a successful call of the planner merges the tablet's
    range into it when the walk came to a snapshot older than the grace
    timestamp, and leaves the metadata-file deleter alone. -/
theorem collect_files_to_vacuum_range (env : Env) (root_dir : String) (a a' : VacuumArgs)
    (ws : WalkState) (grace_timestamp min_retain_version : Int)
    (range : VacuumTabletMetaVerionRange) (hrange : a.vacuum_version_range = some range)
    (hw : collect_files_to_vacuum_walk env root_dir a grace_timestamp min_retain_version
      = LoopResult.done ws)
    (hok : collect_files_to_vacuum env root_dir a grace_timestamp min_retain_version
      = Outcome.returned Status.OK a') :
    a'.vacuum_version_range
      = some (if ws.skip_check_grace_timestamp then
          range.merge (ws.version + 1) ws.final_retain_version else range) ∧
    a'.metafile_deleter = a.metafile_deleter := by
  obtain ⟨_, s, hws, ht⟩ := collect_files_to_vacuum_ok env root_dir a a' grace_timestamp
    min_retain_version hok
  rw [hw] at hws
  injection hws with hws
  subst hws
  cases hskip : ws.skip_check_grace_timestamp with
  | true =>
    obtain ⟨_, _, _, _, _, _, _, hsome⟩ := collect_files_to_vacuum_tail_flip env _ _ a' ws
      hskip ht
    obtain ⟨h1, h2, _⟩ := hsome range hrange
    exact ⟨by rw [h1]; rfl, h2⟩
  | false =>
    rw [collect_files_to_vacuum_tail_recent env _ _ ws hskip] at ht
    injection ht with _ ha
    rw [← ha]
    exact ⟨hrange, rfl⟩

theorem TabletRuns.range_eq {env : Env} {root_dir : String}
    {min_retain_version grace_timestamp : Int} {enable_file_bundling : Bool}
    {tablet_infos : List TabletInfoPB} {s s' : DriverState} {runs : List TabletRun}
    (h : TabletRuns env root_dir min_retain_version grace_timestamp enable_file_bundling
      tablet_infos s runs s') :
    ∀ range, s.vacuum_version_range = some range →
      s'.vacuum_version_range = some (merged_range range runs) ∧
      ∀ run ∈ runs, run.result.metafile_deleter
        = { _batch_size := INT64_MAX, _cb := some erase_tablet_metadata_from_metacache } := by
  induction h with
  | done s =>
    intro range hr
    exact ⟨hr, fun run hrun => absurd hrun (List.not_mem_nil _)⟩
  | @step tablet_info rest s s' run runs hargs hw hc hf _ ih =>
    intro range hr
    have hr' : run.args.vacuum_version_range = some range := by
      rw [hargs]
      exact hr
    obtain ⟨h1, h2⟩ := collect_files_to_vacuum_range env root_dir run.args run.result run.walk
      grace_timestamp min_retain_version range hr' hw hc
    obtain ⟨i1, i2⟩ := ih _ (by
      rw [vacuum_tablet_finish_range]
      exact h1)
    refine ⟨i1, ?_⟩
    intro r hrun
    rcases List.mem_cons.1 hrun with h | h
    · subst h
      rw [h2, hargs]
      rfl
    · exact i2 r h

theorem forall₂_map_eq {α β γ : Type} (f : α → γ) (g : β → γ) (l₁ : List α) (l₂ : List β)
    (h : List.Forall₂ (fun a b => g b = f a) l₁ l₂) : l₂.map g = l₁.map f := by
  induction h with
  | nil => rfl
  | cons hab _ ih => simp only [List.map_cons, hab, ih]

/-- A loop of `delete_file` calls, one per element, hands the deleter a prefix
    of the paths, all of them when it returns OK. -/
theorem for_each_delete_file {α : Type} (env : Env) (path : α → String) (xs : List α)
    (s : AsyncFileDeleter × World) :
    ∃ l, l <+: xs.map path ∧
      (for_each (fun x (s : AsyncFileDeleter × World) =>
        AsyncFileDeleter.delete_file env (path x) s.1 s.2) xs s).2.1.handed = s.1.handed ++ l ∧
      ((for_each (fun x (s : AsyncFileDeleter × World) =>
        AsyncFileDeleter.delete_file env (path x) s.1 s.2) xs s).1 = Status.OK →
        l = xs.map path) := by
  have h := @Emits.for_each_map α (AsyncFileDeleter × World) (List String) String
    (fun _ => True) (fun (x l : List String) => x ++ l)
    (fun (s : AsyncFileDeleter × World) => s.1.handed)
    List.append_nil List.append_assoc path
    (fun x (s : AsyncFileDeleter × World) => AsyncFileDeleter.delete_file env (path x) s.1 s.2)
    xs
    (fun v _ => Emits.of_always _ _ (fun _ _ => trivial)
      (fun s _ => (AsyncFileDeleter.delete_file_frame env _ s.1 s.2).1))
  exact (h s trivial).2

theorem for_each_delete_file_logged {α : Type} (env : Env) (path : α → String) (xs : List α)
    (w0 : World) (s : AsyncFileDeleter × World) (h : AsyncFileDeleter.Logged w0 s) :
    AsyncFileDeleter.Logged w0
      (for_each (fun x (s : AsyncFileDeleter × World) =>
        AsyncFileDeleter.delete_file env (path x) s.1 s.2) xs s).2 :=
  for_each_invariant _ (AsyncFileDeleter.Logged w0) xs
    (fun x _ s hs => AsyncFileDeleter.delete_file_logged env (path x) s.1 s.2 w0 hs) s h

theorem for_each_delete_file_cb {α : Type} (env : Env) (path : α → String) (xs : List α)
    (s : AsyncFileDeleter × World) :
    (for_each (fun x (s : AsyncFileDeleter × World) =>
      AsyncFileDeleter.delete_file env (path x) s.1 s.2) xs s).2.1._cb = s.1._cb :=
  for_each_invariant _ (fun t : AsyncFileDeleter × World => t.1._cb = s.1._cb) xs
    (fun x _ t ht => ((AsyncFileDeleter.delete_file_frame env (path x) t.1 t.2).2.2.1).trans ht)
    s rfl

theorem AsyncFileDeleter.finish_cb (env : Env) (d : AsyncFileDeleter) (w : World) :
    (d.finish env w).2.1._cb = d._cb := by
  unfold AsyncFileDeleter.finish
  split
  · exact d.wait_fields.2.2.2.2.1
  · split
    · exact (AsyncFileDeleter.submit_frame env d w).2.2.1
    · exact ((d.submit env w).2.1.wait_fields.2.2.2.2.1).trans
        (AsyncFileDeleter.submit_frame env d w).2.2.1

/-- The partition-level block, when it returns OK, has given its deleter the
    partition's metadata paths and passed all of them on; the events it adds
    are those of the batches passed on. -/
theorem partition_metafile_deleter_ok (env : Env) (meta_dir : String)
    (tablet_infos : List TabletInfoPB) (range : VacuumTabletMetaVerionRange) (w : World)
    (hok : (partition_metafile_deleter env meta_dir tablet_infos range w).1 = Status.OK) :
    (partition_metafile_deleter env meta_dir tablet_infos range w).2.1.submitted.flatten
      = partition_metafile_paths env meta_dir tablet_infos range ∧
    (partition_metafile_deleter env meta_dir tablet_infos range w).2.1._batch = [] ∧
    (partition_metafile_deleter env meta_dir tablet_infos range w).2.2
      = w ++ (partition_metafile_deleter env meta_dir tablet_infos range w).2.1.submitted.flatMap
          (dispatch_events (some erase_tablet_metadata_from_metacache)) ∧
    (partition_metafile_deleter env meta_dir tablet_infos range w).2.1.delete_count
      = ((partition_metafile_paths env meta_dir tablet_infos range).length : Int) := by
  obtain ⟨d0, hd0⟩ : ∃ d0 : AsyncFileDeleter,
      d0 = { _batch_size := INT64_MAX, _cb := some erase_tablet_metadata_from_metacache } :=
    ⟨_, rfl⟩
  have hd0_handed : d0.handed = [] := by rw [hd0]; rfl
  have hd0_cb : d0._cb = some erase_tablet_metadata_from_metacache := by rw [hd0]
  have hd0_counted : d0.counted := by rw [hd0]; rfl
  have hd0_logged : AsyncFileDeleter.Logged w (d0, w) := by
    rw [hd0]
    show w = w ++ []
    rw [List.append_nil]
  -- the first loop
  obtain ⟨r1, hr1⟩ : ∃ r1 : Status × (AsyncFileDeleter × World),
      r1 = if range.min_version ≤ 1 then
        for_each (fun (tablet_info : TabletInfoPB) (s : AsyncFileDeleter × World) =>
          AsyncFileDeleter.delete_file env
            (env.join_path meta_dir (env.tablet_metadata_filename tablet_info.tablet_id 1))
            s.1 s.2) tablet_infos (d0, w)
      else (Status.OK, (d0, w)) := ⟨_, rfl⟩
  obtain ⟨r2, hr2⟩ : ∃ r2 : Status × (AsyncFileDeleter × World),
      r2 = for_each (fun (v : Int) (s : AsyncFileDeleter × World) =>
          AsyncFileDeleter.delete_file env
            (env.join_path meta_dir (env.tablet_metadata_filename 0 v)) s.1 s.2)
        (version_range range.min_version range.max_version) r1.2 := ⟨_, rfl⟩
  have hdef : partition_metafile_deleter env meta_dir tablet_infos range w
      = RETURN_IF_ERROR r1 fun _ =>
          RETURN_IF_ERROR r2 fun s2 => AsyncFileDeleter.finish env s2.1 s2.2 := by
    rw [hr2, hr1, hd0]
    rfl
  rw [hdef] at hok ⊢
  have h1ok : r1.1 = Status.OK := by
    by_contra hne
    rw [RETURN_IF_ERROR_error _ _ hne] at hok
    exact hne hok
  rw [RETURN_IF_ERROR_ok _ _ h1ok] at hok ⊢
  have h2ok : r2.1 = Status.OK := by
    by_contra hne
    rw [RETURN_IF_ERROR_error _ _ hne] at hok
    exact hne hok
  rw [RETURN_IF_ERROR_ok _ _ h2ok] at hok ⊢
  -- what the two loops have given the deleter
  have h1 : r1.2.1.handed = (if range.min_version ≤ 1 then
      tablet_infos.map fun tablet_info =>
        env.join_path meta_dir (env.tablet_metadata_filename tablet_info.tablet_id 1)
      else []) ∧ r1.2.1._cb = some erase_tablet_metadata_from_metacache ∧
      AsyncFileDeleter.Logged w r1.2 ∧ r1.2.1.counted := by
    by_cases hc : range.min_version ≤ 1
    · rw [if_pos hc] at hr1 ⊢
      obtain ⟨l, _, hl2, hl3⟩ := for_each_delete_file env
        (fun (tablet_info : TabletInfoPB) =>
          env.join_path meta_dir (env.tablet_metadata_filename tablet_info.tablet_id 1))
        tablet_infos (d0, w)
      rw [← hr1] at hl2 hl3
      refine ⟨?_, ?_, ?_, ?_⟩
      · rw [hl2, hl3 h1ok, hd0_handed]
        rfl
      · rw [hr1, for_each_delete_file_cb]
        exact hd0_cb
      · rw [hr1]
        exact for_each_delete_file_logged env _ _ w _ hd0_logged
      · rw [hr1]
        exact for_each_invariant _ (fun t : AsyncFileDeleter × World => t.1.counted) _
          (fun x _ t ht => (AsyncFileDeleter.delete_file_frame env _ t.1 t.2).2.2.2 ht) _
          hd0_counted
    · rw [if_neg hc] at hr1 ⊢
      rw [hr1]
      exact ⟨hd0_handed, hd0_cb, hd0_logged, hd0_counted⟩
  obtain ⟨h1h, h1cb, h1log, h1cnt⟩ := h1
  obtain ⟨l, _, hl2, hl3⟩ := for_each_delete_file env
    (fun (v : Int) => env.join_path meta_dir (env.tablet_metadata_filename 0 v))
    (version_range range.min_version range.max_version) r1.2
  rw [← hr2] at hl2 hl3
  have h2h : r2.2.1.handed = partition_metafile_paths env meta_dir tablet_infos range := by
    rw [hl2, hl3 h2ok, h1h]
    rfl
  have h2cb : r2.2.1._cb = some erase_tablet_metadata_from_metacache := by
    rw [hr2, for_each_delete_file_cb]
    exact h1cb
  have h2log : AsyncFileDeleter.Logged w r2.2 := by
    rw [hr2]
    exact for_each_delete_file_logged env _ _ w _ h1log
  have h2cnt : r2.2.1.counted := by
    rw [hr2]
    exact for_each_invariant _ (fun t : AsyncFileDeleter × World => t.1.counted) _
      (fun x _ t ht => (AsyncFileDeleter.delete_file_frame env _ t.1 t.2).2.2.2 ht) _ h1cnt
  obtain ⟨g1, g2, g3⟩ := AsyncFileDeleter.finish_frame env r2.2.1 r2.2.2
  have hbatch := g3 hok
  have glog := AsyncFileDeleter.finish_logged env r2.2.1 r2.2.2 w h2log
  have hflat : (r2.2.1.finish env r2.2.2).2.1.submitted.flatten
      = partition_metafile_paths env meta_dir tablet_infos range := by
    have : (r2.2.1.finish env r2.2.2).2.1.handed
        = (r2.2.1.finish env r2.2.2).2.1.submitted.flatten := by
      unfold AsyncFileDeleter.handed
      rw [hbatch, List.append_nil]
    rw [← this, g1, h2h]
  refine ⟨hflat, hbatch, ?_, ?_⟩
  · unfold AsyncFileDeleter.Logged at glog
    rw [AsyncFileDeleter.finish_cb, h2cb] at glog
    exact glog
  · rw [AsyncFileDeleter.delete_count_eq _ (g2 h2cnt) hbatch, g1, h2h]

theorem partition_metafile_paths_congr (env : Env) (meta_dir : String)
    (l₁ l₂ : List TabletInfoPB) (range : VacuumTabletMetaVerionRange)
    (h : l₁.map (fun t => t.tablet_id) = l₂.map (fun t => t.tablet_id)) :
    partition_metafile_paths env meta_dir l₁ range
      = partition_metafile_paths env meta_dir l₂ range := by
  unfold partition_metafile_paths
  have e : ∀ l : List TabletInfoPB,
      l.map (fun tablet_info =>
        env.join_path meta_dir (env.tablet_metadata_filename tablet_info.tablet_id 1))
      = (l.map (fun t => t.tablet_id)).map
        (fun id => env.join_path meta_dir (env.tablet_metadata_filename id 1)) := by
    intro l
    rw [List.map_map]
    rfl
  rw [e l₁, e l₂, h]

/-- The partition-level block of the driver, with file bundling, in terms of
    its deleter. -/
theorem vacuum_partition_metafiles_bundling (env : Env) (root_dir : String) (s : DriverState)
    (range : VacuumTabletMetaVerionRange) (h : s.vacuum_version_range = some range) :
    (vacuum_partition_metafiles env root_dir true s).1
      = (partition_metafile_deleter env (env.join_path root_dir env.kMetadataDirectoryName)
          s.tablet_infos range s.world).1 ∧
    (vacuum_partition_metafiles env root_dir true s).2.world
      = (partition_metafile_deleter env (env.join_path root_dir env.kMetadataDirectoryName)
          s.tablet_infos range s.world).2.2 ∧
    ((partition_metafile_deleter env (env.join_path root_dir env.kMetadataDirectoryName)
        s.tablet_infos range s.world).1 = Status.OK →
      (vacuum_partition_metafiles env root_dir true s).2.vacuumed_files
        = s.vacuumed_files +
          (partition_metafile_deleter env (env.join_path root_dir env.kMetadataDirectoryName)
            s.tablet_infos range s.world).2.1.delete_count) := by
  unfold vacuum_partition_metafiles
  rw [h]
  simp only [if_true, Option.getD_some]
  cases hp : (partition_metafile_deleter env (env.join_path root_dir env.kMetadataDirectoryName)
      s.tablet_infos range s.world).1 with
  | OK => exact ⟨rfl, rfl, fun _ => rfl⟩
  | error c m => exact ⟨rfl, rfl, fun h => absurd h (by simp)⟩

/-! ## Cache coherence: erasure comes before deletion -/

theorem ErasedFirst.concat {env : Env} {data_dir : String} {l₁ l₂ : List Event}
    (h₁ : ErasedFirst env data_dir l₁) (h₂ : ErasedFirst env data_dir l₂) :
    ErasedFirst env data_dir (l₁ ++ l₂) := by
  induction h₁ with
  | nil => exact h₂
  | load t v _ ih => exact ErasedFirst.load t v ih
  | data_task files hf _ ih => exact ErasedFirst.data_task files hf ih
  | erased_task files _ ih =>
    rw [List.append_assoc, List.cons_append]
    exact ErasedFirst.erased_task files ih

/-- Where a deletion task lies in a list that starts with events that are not
    deletion tasks. -/
theorem split_at_task (es : List Event) (hes : ∀ e ∈ es, ∀ fs, e ≠ Event.task fs)
    (x : Event) (rest pre post : List Event) (files : List String)
    (h : es ++ x :: rest = pre ++ Event.task files :: post) :
    (pre = es ∧ x = Event.task files) ∨
    ∃ pre', pre = es ++ x :: pre' ∧ rest = pre' ++ Event.task files :: post := by
  rcases List.append_eq_append_iff.1 h with ⟨a', h1, h2⟩ | ⟨c', h1, h2⟩
  · cases a' with
    | nil =>
      rw [List.nil_append] at h2
      injection h2 with h2 _
      exact Or.inl ⟨by rw [h1, List.append_nil], h2⟩
    | cons y a'' =>
      rw [List.cons_append] at h2
      injection h2 with h2 h3
      exact Or.inr ⟨a'', by rw [h1, h2], h3⟩
  · cases c' with
    | nil =>
      rw [List.nil_append] at h2
      injection h2 with h2 _
      exact Or.inl ⟨by rw [h1, List.append_nil], h2.symm⟩
    | cons y c'' =>
      rw [List.cons_append] at h2
      injection h2 with h2 _
      exact absurd h2.symm (hes y (by rw [h1]; simp) files)

/-- In such events, a path of a deletion task that is not a path of the
    segment directory has been erased before the task. -/
theorem ErasedFirst.erased_before {env : Env} {data_dir : String} {events : List Event}
    (h : ErasedFirst env data_dir events) :
    ∀ pre files post, events = pre ++ Event.task files :: post →
      ∀ p ∈ files, ¬ is_data_path env data_dir p → Event.erase p ∈ pre := by
  induction h with
  | nil =>
    intro pre files post he
    exact absurd he (by simp)
  | load t v _ ih =>
    intro pre files post he p hp hnd
    rcases split_at_task [] (fun e he => absurd he (List.not_mem_nil _)) _ _ pre post files he
      with ⟨_, h2⟩ | ⟨pre', h1, h2⟩
    · exact absurd h2 (by simp)
    · rw [h1]
      exact List.mem_cons_of_mem _ (ih pre' files post h2 p hp hnd)
  | data_task files' hf _ ih =>
    intro pre files post he p hp hnd
    rcases split_at_task [] (fun e he => absurd he (List.not_mem_nil _)) _ _ pre post files he
      with ⟨_, h2⟩ | ⟨pre', h1, h2⟩
    · injection h2 with h2
      subst h2
      exact absurd (hf p hp) hnd
    · rw [h1]
      exact List.mem_cons_of_mem _ (ih pre' files post h2 p hp hnd)
  | @erased_task files' events' _ ih =>
    intro pre files post he p hp hnd
    have hes : ∀ e ∈ files'.map Event.erase, ∀ fs, e ≠ Event.task fs := by
      intro e he fs
      obtain ⟨q, _, rfl⟩ := List.mem_map.1 he
      simp
    rcases split_at_task _ hes _ _ pre post files he with ⟨h1, h2⟩ | ⟨pre', h1, h2⟩
    · injection h2 with h2
      subst h2
      rw [h1]
      exact List.mem_map.2 ⟨p, hp, rfl⟩
    · rw [h1]
      exact List.mem_append_right _ (List.mem_cons_of_mem _ (ih pre' files post h2 p hp hnd))

/-- What a call of `submit` adds: at most one batch, and its events. -/
theorem AsyncFileDeleter.submit_dispatched (env : Env) (d : AsyncFileDeleter) (w : World) :
    ∃ batches, (d.submit env w).2.1.submitted = d.submitted ++ batches ∧
      (d.submit env w).2.2 = w ++ batches.flatMap (dispatch_events d._cb) := by
  obtain ⟨f1, f2, f3, f4, f5, f6⟩ := d.wait_fields
  cases hw : d.wait.1 with
  | error c m =>
    rw [AsyncFileDeleter.submit_error env d w c m hw]
    exact ⟨[], by rw [List.append_nil]; exact f2, by simp⟩
  | OK =>
    refine ⟨[d._batch], ?_, ?_⟩
    · rw [AsyncFileDeleter.submit_ok env d w hw]
      simp only [f1, f2]
    · rw [AsyncFileDeleter.submit_ok_events env d w hw]
      simp only [List.flatMap_cons, List.flatMap_nil, List.append_nil]

theorem AsyncFileDeleter.delete_file_dispatched (env : Env) (path : String)
    (d : AsyncFileDeleter) (w : World) :
    ∃ batches, (d.delete_file env path w).2.1.submitted = d.submitted ++ batches ∧
      (d.delete_file env path w).2.2 = w ++ batches.flatMap (dispatch_events d._cb) := by
  obtain ⟨d1, hd1⟩ : ∃ d1 : AsyncFileDeleter, d1 = { d with _batch := d._batch ++ [path] } :=
    ⟨_, rfl⟩
  have e2 : d1._cb = d._cb := by rw [hd1]
  have e3 : d1.submitted = d.submitted := by rw [hd1]
  have hdef : d.delete_file env path w
      = if (d1._batch.length : Int) < d1._batch_size % 2 ^ 64 then (Status.OK, d1, w)
        else d1.submit env w := by
    rw [hd1]
    rfl
  rw [hdef]
  split
  · exact ⟨[], by rw [List.append_nil]; exact e3, by simp⟩
  · obtain ⟨batches, h1, h2⟩ := AsyncFileDeleter.submit_dispatched env d1 w
    exact ⟨batches, by rw [h1, e3], by rw [h2, e2]⟩

theorem AsyncFileDeleter.finish_dispatched (env : Env) (d : AsyncFileDeleter) (w : World) :
    ∃ batches, (d.finish env w).2.1.submitted = d.submitted ++ batches ∧
      (d.finish env w).2.2 = w ++ batches.flatMap (dispatch_events d._cb) := by
  unfold AsyncFileDeleter.finish
  split
  · exact ⟨[], by rw [List.append_nil]; exact d.wait_fields.2.1, by simp⟩
  · obtain ⟨batches, h1, h2⟩ := AsyncFileDeleter.submit_dispatched env d w
    split
    · exact ⟨batches, h1, h2⟩
    · exact ⟨batches, ((d.submit env w).2.1.wait_fields.2.1).trans h1, h2⟩

theorem Orderly.start (env : Env) (data_dir : String) (w : World) : Orderly env data_dir w w :=
  ⟨[], (List.append_nil _).symm, ErasedFirst.nil⟩

theorem Orderly.append_events {env : Env} {data_dir : String} {w0 w : World} {events : List Event}
    (h : Orderly env data_dir w0 w) (he : ErasedFirst env data_dir events) :
    Orderly env data_dir w0 (w ++ events) := by
  obtain ⟨l, h1, h2⟩ := h
  exact ⟨l ++ events, by rw [h1, List.append_assoc], h2.concat he⟩

theorem erased_first_data_batches (env : Env) (data_dir : String) (batches : List (List String))
    (h : ∀ batch ∈ batches, ∀ p ∈ batch, is_data_path env data_dir p) :
    ErasedFirst env data_dir (batches.flatMap (dispatch_events none)) := by
  induction batches with
  | nil => exact ErasedFirst.nil
  | cons batch rest ih =>
    rw [List.flatMap_cons]
    refine ErasedFirst.concat ?_ (ih (fun b hb => h b (List.mem_cons_of_mem _ hb)))
    unfold dispatch_events
    simp only [List.nil_append]
    split
    · exact ErasedFirst.nil
    · exact ErasedFirst.data_task batch (h batch (List.mem_cons_self _ _)) ErasedFirst.nil

theorem erased_first_erased_batches (env : Env) (data_dir : String)
    (batches : List (List String)) :
    ErasedFirst env data_dir
      (batches.flatMap (dispatch_events (some erase_tablet_metadata_from_metacache))) := by
  induction batches with
  | nil => exact ErasedFirst.nil
  | cons batch rest ih =>
    rw [List.flatMap_cons]
    refine ErasedFirst.concat ?_ ih
    unfold dispatch_events erase_tablet_metadata_from_metacache
    simp only
    split
    · rename_i hempty
      rw [List.isEmpty_iff.1 hempty]
      exact ErasedFirst.nil
    · exact ErasedFirst.erased_task batch ErasedFirst.nil

/-- A call of `delete_file` with a path of the segment directory on a data
    deleter keeps it a data deleter and the world orderly. -/
theorem AsyncFileDeleter.delete_file_orderly (env : Env) (data_dir path : String)
    (d : AsyncFileDeleter) (w0 w : World) (hp : is_data_path env data_dir path)
    (hd : d.is_data_deleter env data_dir) (hw : Orderly env data_dir w0 w) :
    (d.delete_file env path w).2.1.is_data_deleter env data_dir ∧
    Orderly env data_dir w0 (d.delete_file env path w).2.2 := by
  obtain ⟨fh, _, fcb, _⟩ := AsyncFileDeleter.delete_file_frame env path d w
  obtain ⟨batches, h1, h2⟩ := AsyncFileDeleter.delete_file_dispatched env path d w
  have hdata : ∀ p ∈ (d.delete_file env path w).2.1.handed, is_data_path env data_dir p := by
    intro p hmem
    rw [fh] at hmem
    rcases List.mem_append.1 hmem with h | h
    · exact hd.2 p h
    · rw [List.mem_singleton.1 h]
      exact hp
  refine ⟨⟨fcb.trans hd.1, hdata⟩, ?_⟩
  rw [h2, hd.1]
  refine hw.append_events (erased_first_data_batches env data_dir batches ?_)
  intro batch hb p hpb
  refine hdata p ?_
  unfold AsyncFileDeleter.handed
  rw [h1]
  exact List.mem_append_left _ (List.mem_flatten.2 ⟨batch, List.mem_append_right _ hb, hpb⟩)

theorem AsyncFileDeleter.finish_orderly (env : Env) (data_dir : String)
    (d : AsyncFileDeleter) (w0 w : World)
    (hd : d.is_data_deleter env data_dir) (hw : Orderly env data_dir w0 w) :
    (d.finish env w).2.1.is_data_deleter env data_dir ∧
    Orderly env data_dir w0 (d.finish env w).2.2 := by
  obtain ⟨fh, _, _⟩ := AsyncFileDeleter.finish_frame env d w
  obtain ⟨batches, h1, h2⟩ := AsyncFileDeleter.finish_dispatched env d w
  have hdata : ∀ p ∈ (d.finish env w).2.1.handed, is_data_path env data_dir p := by
    intro p hmem
    rw [fh] at hmem
    exact hd.2 p hmem
  refine ⟨⟨(AsyncFileDeleter.finish_cb env d w).trans hd.1, hdata⟩, ?_⟩
  rw [h2, hd.1]
  refine hw.append_events (erased_first_data_batches env data_dir batches ?_)
  intro batch hb p hpb
  refine hdata p ?_
  unfold AsyncFileDeleter.handed
  rw [h1]
  exact List.mem_append_left _ (List.mem_flatten.2 ⟨batch, List.mem_append_right _ hb, hpb⟩)

/-- Any call on a deleter whose callback erases from the metacache keeps the
    world orderly. -/
theorem AsyncFileDeleter.delete_file_erasing (env : Env) (data_dir path : String)
    (d : AsyncFileDeleter) (w0 w : World)
    (hd : d._cb = some erase_tablet_metadata_from_metacache)
    (hw : Orderly env data_dir w0 w) :
    (d.delete_file env path w).2.1._cb = some erase_tablet_metadata_from_metacache ∧
    Orderly env data_dir w0 (d.delete_file env path w).2.2 := by
  obtain ⟨batches, _, h2⟩ := AsyncFileDeleter.delete_file_dispatched env path d w
  refine ⟨((AsyncFileDeleter.delete_file_frame env path d w).2.2.1).trans hd, ?_⟩
  rw [h2, hd]
  exact hw.append_events (erased_first_erased_batches env data_dir batches)

theorem AsyncFileDeleter.finish_erasing (env : Env) (data_dir : String)
    (d : AsyncFileDeleter) (w0 w : World)
    (hd : d._cb = some erase_tablet_metadata_from_metacache)
    (hw : Orderly env data_dir w0 w) :
    Orderly env data_dir w0 (d.finish env w).2.2 := by
  obtain ⟨batches, _, h2⟩ := AsyncFileDeleter.finish_dispatched env d w
  rw [h2, hd]
  exact hw.append_events (erased_first_erased_batches env data_dir batches)

theorem RETURN_IF_ERROR_invariant {σ : Type} (P : σ → Prop) (r : Status × σ)
    (rest : σ → Status × σ) (hr : P r.2) (hrest : ∀ s, P s → P (rest s).2) :
    P (RETURN_IF_ERROR r rest).2 := by
  unfold RETURN_IF_ERROR
  split
  · exact hrest _ hr
  · exact hr

theorem GarbageState.delete_file_tidy (env : Env) (data_dir : String) (w0 : World)
    (name : String) (s : GarbageState) (h : s.tidy env data_dir w0) :
    (s.delete_file env (env.join_path data_dir name)).2.tidy env data_dir w0 := by
  obtain ⟨h1, h2, h3⟩ := h
  obtain ⟨g1, g2⟩ := AsyncFileDeleter.delete_file_orderly env data_dir
    (env.join_path data_dir name) s.deleter w0 s.world ⟨name, rfl⟩ h1 h3
  exact ⟨g1, h2, g2⟩

theorem collect_garbage_segment_tidy (env : Env) (data_dir : String) (w0 : World)
    (rowset : RowsetMetadataPB) (segment : String) (s : GarbageState)
    (h : s.tidy env data_dir w0) :
    (collect_garbage_segment env data_dir rowset segment s).2.tidy env data_dir w0 := by
  unfold collect_garbage_segment
  cases hb : s.bundle_file_deleter with
  | none => exact GarbageState.delete_file_tidy env data_dir w0 segment s h
  | some b =>
    simp only
    split
    · obtain ⟨h1, h2, h3⟩ := h
      refine ⟨h1, ?_, h3⟩
      intro b' hb'
      injection hb' with hb'
      rw [← hb']
      obtain ⟨k1, k2⟩ := h2 b hb
      refine ⟨k1, ?_⟩
      intro p hp
      have hp' : p ∈ pending_keys (pending_increment (env.join_path data_dir segment)
          b._pending_files) := hp
      rcases (mem_pending_keys_increment _ _ _).1 hp' with h | h
      · exact ⟨segment, h⟩
      · exact k2 p h
    · exact GarbageState.delete_file_tidy env data_dir w0 segment s h

theorem collect_garbage_files_tidy (env : Env) (data_dir : String) (w0 : World)
    (metadata : TabletMetadataPB) (s : GarbageState) (h : s.tidy env data_dir w0) :
    (collect_garbage_files env metadata data_dir s).2.tidy env data_dir w0 := by
  unfold collect_garbage_files
  refine RETURN_IF_ERROR_invariant (GarbageState.tidy env data_dir w0) _ _ ?_ ?_
  · refine for_each_invariant _ (GarbageState.tidy env data_dir w0) _ ?_ s h
    intro rowset _ s1 hs1
    unfold collect_garbage_rowset
    refine RETURN_IF_ERROR_invariant (GarbageState.tidy env data_dir w0) _ _ ?_ ?_
    · exact for_each_invariant _ (GarbageState.tidy env data_dir w0) _
        (fun segment _ s2 hs2 => collect_garbage_segment_tidy env data_dir w0 rowset segment
          s2 hs2) s1 hs1
    · intro s2 hs2
      refine RETURN_IF_ERROR_invariant (GarbageState.tidy env data_dir w0) _ _ ?_ ?_
      · exact for_each_invariant _ (GarbageState.tidy env data_dir w0) _
          (fun del_file _ s3 hs3 => GarbageState.delete_file_tidy env data_dir w0 del_file
            s3 hs3) s2 hs2
      · intro s3 hs3
        exact hs3
  · intro s1 hs1
    refine for_each_invariant _ (GarbageState.tidy env data_dir w0) _ ?_ s1 hs1
    intro file _ s2 hs2
    unfold collect_garbage_orphan
    refine RETURN_IF_ERROR_invariant (GarbageState.tidy env data_dir w0) _ _ ?_ ?_
    · exact GarbageState.delete_file_tidy env data_dir w0 file.name s2 hs2
    · intro s3 hs3
      exact hs3

theorem walk_body_tidy (env : Env) (data_dir : String) (w0 : World)
    (grace_timestamp min_retain_version : Int) (metadata : TabletMetadataPB) (s : WalkState)
    (h : s.tidy env data_dir w0) :
    (walk_body env data_dir grace_timestamp min_retain_version metadata s).2.tidy env data_dir
      w0 := by
  unfold walk_body
  simp only
  split
  · exact collect_garbage_files_tidy env data_dir w0 metadata _ h
  · split
    · exact collect_garbage_files_tidy env data_dir w0 metadata _ h
    · exact h

theorem WalkState.load_tidy (env : Env) (data_dir : String) (w0 : World) (tablet_id : Int)
    (s : WalkState) (h : s.tidy env data_dir w0) : (s.load tablet_id).tidy env data_dir w0 :=
  ⟨h.1, h.2.1, h.2.2.append_events (ErasedFirst.load _ _ ErasedFirst.nil)⟩

/-- The loop of the planner keeps the deleters data deleters and the world
    orderly, however it ends. -/
theorem walk_tidy (env : Env) (data_dir : String) (w0 : World)
    (tablet_id min_version grace_timestamp min_retain_version : Int) (fuel : Nat)
    (s : WalkState) (h : s.tidy env data_dir w0) :
    (walk env data_dir tablet_id min_version grace_timestamp min_retain_version fuel
      s).state.tidy env data_dir w0 := by
  refine walk_state_rule env data_dir tablet_id min_version grace_timestamp min_retain_version
    (WalkState.tidy env data_dir w0) (WalkState.tidy env data_dir w0) (fun _ hs => hs)
    (fun s hs _ => WalkState.load_tidy env data_dir w0 tablet_id s hs) ?_ fuel s h
  intro s metadata hs _ _
  have := walk_body_tidy env data_dir w0 grace_timestamp min_retain_version metadata
    (s.load tablet_id) (WalkState.load_tidy env data_dir w0 tablet_id s hs)
  exact ⟨this, fun _ _ => this⟩

theorem collect_files_to_vacuum_tail_tidy (env : Env) (data_dir meta_dir : String) (w0 : World)
    (a : VacuumArgs) (s : WalkState) (h : a.tidy env data_dir w0) :
    (collect_files_to_vacuum_tail env meta_dir a s).2.tidy env data_dir w0 := by
  unfold collect_files_to_vacuum_tail
  split
  · exact h
  · simp only
    cases hr : a.vacuum_version_range with
    | some range => exact h
    | none =>
      simp only
      have key : ((for_each (delete_metafile env meta_dir a.tablet_info.tablet_id)
          (version_range (s.version + 1) s.final_retain_version)
          (a.metafile_deleter, a.world)).2.1._cb = some erase_tablet_metadata_from_metacache) ∧
          Orderly env data_dir w0 (for_each (delete_metafile env meta_dir a.tablet_info.tablet_id)
            (version_range (s.version + 1) s.final_retain_version)
            (a.metafile_deleter, a.world)).2.2 :=
        for_each_invariant _
          (fun t : AsyncFileDeleter × World =>
            t.1._cb = some erase_tablet_metadata_from_metacache ∧ Orderly env data_dir w0 t.2)
          _ (fun v _ t ht => AsyncFileDeleter.delete_file_erasing env data_dir _ t.1 w0 t.2
            ht.1 ht.2) _ ⟨h.2.2.1, h.2.2.2⟩
      split
      · exact ⟨h.1, h.2.1, key.1, key.2⟩
      · exact ⟨h.1, h.2.1, key.1, key.2⟩

/-- The planner keeps its deleters and the world tidy, however it ends. -/
theorem collect_files_to_vacuum_tidy (env : Env) (root_dir : String) (w0 : World)
    (a : VacuumArgs) (grace_timestamp min_retain_version : Int)
    (h : a.tidy env (env.join_path root_dir env.kSegmentDirectoryName) w0) :
    (collect_files_to_vacuum env root_dir a grace_timestamp min_retain_version).state.tidy env
      (env.join_path root_dir env.kSegmentDirectoryName) w0 := by
  have hwalk := walk_tidy env (env.join_path root_dir env.kSegmentDirectoryName) w0
    a.tablet_info.tablet_id (walk_min_version a.tablet_info) grace_timestamp min_retain_version
    (walk_fuel a.tablet_info min_retain_version)
    (walk_init a grace_timestamp min_retain_version) ⟨h.1, h.2.1, h.2.2.2⟩
  have hafter : ∀ s : WalkState,
      s.tidy env (env.join_path root_dir env.kSegmentDirectoryName) w0 →
      (a.after_walk s).tidy env (env.join_path root_dir env.kSegmentDirectoryName) w0 :=
    fun s hs => ⟨hs.1, hs.2.1, h.2.2.1, hs.2.2⟩
  unfold collect_files_to_vacuum
  split
  · exact h
  · unfold collect_files_to_vacuum_walk
    split
    · rename_i st s hs
      rw [hs] at hwalk
      exact hafter s hwalk
    · rename_i s hs
      rw [hs] at hwalk
      exact hafter s hwalk
    · rename_i s hs
      rw [hs] at hwalk
      exact hafter s hwalk
    · rename_i s hs
      rw [hs] at hwalk
      exact collect_files_to_vacuum_tail_tidy env _ _ w0 _ s (hafter s hwalk)

theorem vacuum_tablet_finish_tidy (env : Env) (data_dir : String) (w0 : World)
    (enable_file_bundling : Bool) (a : VacuumArgs) (s : DriverState)
    (hd : a.datafile_deleter.is_data_deleter env data_dir)
    (hm : a.metafile_deleter._cb = some erase_tablet_metadata_from_metacache)
    (hs : s.tidy env data_dir w0) :
    (vacuum_tablet_finish env enable_file_bundling a s).2.tidy env data_dir w0 := by
  have h1 := (AsyncFileDeleter.finish_orderly env data_dir a.datafile_deleter w0 s.world hd
    hs.2).2
  have h2 := AsyncFileDeleter.finish_erasing env data_dir a.metafile_deleter w0
    (a.datafile_deleter.finish env s.world).2.2 hm h1
  unfold vacuum_tablet_finish
  simp only
  split
  · exact ⟨hs.1, h1⟩
  · split
    · split
      · exact ⟨hs.1, h2⟩
      · exact ⟨hs.1, h2⟩
    · exact ⟨hs.1, h1⟩

theorem DriverState.planner_args_tidy (env : Env) (data_dir : String) (w0 : World)
    (s : DriverState) (tablet_info : TabletInfoPB) (hs : s.tidy env data_dir w0) :
    (s.planner_args env tablet_info).tidy env data_dir w0 := by
  refine ⟨⟨rfl, ?_⟩, ?_, rfl, hs.2⟩
  · intro p hp
    exact absurd hp (List.not_mem_nil _)
  · intro b hb
    have : b = s.bundle_file_deleter := by
      have hb' : some s.bundle_file_deleter = some b := hb
      injection hb' with hb'
      exact hb'.symm
    rw [this]
    exact hs.1

theorem DriverState.after_planner_tidy (env : Env) (data_dir : String) (w0 : World)
    (s : DriverState) (a : VacuumArgs) (hs : s.tidy env data_dir w0)
    (ha : a.tidy env data_dir w0) : (s.after_planner a).tidy env data_dir w0 := by
  refine ⟨?_, ha.2.2.2⟩
  show (a.bundle_file_deleter.getD s.bundle_file_deleter).is_data_deleter env data_dir
  cases hb : a.bundle_file_deleter with
  | none => exact hs.1
  | some b => exact ha.2.1 b hb

/-- The loop over the tablets keeps the driver's variables tidy, however it
    ends. -/
theorem vacuum_tablets_tidy (env : Env) (root_dir : String) (w0 : World)
    (min_retain_version grace_timestamp : Int) (enable_file_bundling : Bool)
    (tablet_infos : List TabletInfoPB) (s : DriverState)
    (hs : s.tidy env (env.join_path root_dir env.kSegmentDirectoryName) w0) :
    (vacuum_tablets env root_dir min_retain_version grace_timestamp enable_file_bundling
      tablet_infos s).state.tidy env (env.join_path root_dir env.kSegmentDirectoryName) w0 := by
  induction tablet_infos generalizing s with
  | nil => exact hs
  | cons tablet_info rest ih =>
    have hc := collect_files_to_vacuum_tidy env root_dir w0 (s.planner_args env tablet_info)
      grace_timestamp min_retain_version
      (DriverState.planner_args_tidy env _ w0 s tablet_info hs)
    unfold vacuum_tablets
    simp only
    split
    · rename_i a ha
      rw [ha] at hc
      exact DriverState.after_planner_tidy env _ w0 s a hs hc
    · rename_i a ha
      rw [ha] at hc
      exact DriverState.after_planner_tidy env _ w0 s a hs hc
    · rename_i c m a ha
      rw [ha] at hc
      exact DriverState.after_planner_tidy env _ w0 s a hs hc
    · rename_i a ha
      rw [ha] at hc
      have hf := vacuum_tablet_finish_tidy env _ w0 enable_file_bundling a (s.after_planner a)
        hc.1 hc.2.2.1 (DriverState.after_planner_tidy env _ w0 s a hs hc)
      split
      · exact hf
      · exact ih _ hf

theorem AsyncBundleFileDeleter.finish_tidy (env : Env) (data_dir : String) (w0 w : World)
    (b : AsyncBundleFileDeleter) (hb : b.is_data_deleter env data_dir)
    (hw : Orderly env data_dir w0 w) :
    (b.finish env w).2.1.is_data_deleter env data_dir ∧
    Orderly env data_dir w0 (b.finish env w).2.2 := by
  have hinv : ∀ s : AsyncBundleFileDeleter × World,
      (s.1.is_data_deleter env data_dir ∧ s.1._pending_files = b._pending_files ∧
        Orderly env data_dir w0 s.2) →
      ∀ entry ∈ b._pending_files,
      ((AsyncBundleFileDeleter.finish_entry env entry s).2.1.is_data_deleter env data_dir ∧
        (AsyncBundleFileDeleter.finish_entry env entry s).2.1._pending_files
          = b._pending_files ∧
        Orderly env data_dir w0 (AsyncBundleFileDeleter.finish_entry env entry s).2.2) := by
    intro s hs entry hentry
    unfold AsyncBundleFileDeleter.finish_entry
    split
    · exact hs
    · simp only
      have hp : is_data_path env data_dir entry.1 :=
        hb.2 entry.1 (List.mem_map.2 ⟨entry, hentry, rfl⟩)
      obtain ⟨g1, g2⟩ := AsyncFileDeleter.delete_file_orderly env data_dir entry.1
        s.1.toAsyncFileDeleter w0 s.2 hp hs.1.1 hs.2.2
      exact ⟨⟨g1, fun p hpm => hs.1.2 p hpm⟩, hs.2.1, g2⟩
  have hloop := for_each_invariant (AsyncBundleFileDeleter.finish_entry env)
    (fun s : AsyncBundleFileDeleter × World =>
      s.1.is_data_deleter env data_dir ∧ s.1._pending_files = b._pending_files ∧
        Orderly env data_dir w0 s.2)
    b._pending_files (fun entry hentry s hs => hinv s hs entry hentry) (b, w) ⟨hb, rfl, hw⟩
  unfold AsyncBundleFileDeleter.finish
  refine RETURN_IF_ERROR_invariant
    (fun s : AsyncBundleFileDeleter × World =>
      s.1.is_data_deleter env data_dir ∧ Orderly env data_dir w0 s.2) _ _
    ⟨hloop.1, hloop.2.2⟩ ?_
  intro s hs
  obtain ⟨g1, g2⟩ := AsyncFileDeleter.finish_orderly env data_dir s.1.toAsyncFileDeleter w0 s.2
    hs.1.1 hs.2
  exact ⟨⟨g1, fun p hpm => hs.1.2 p hpm⟩, g2⟩

theorem collect_alive_bundle_files_tidy (env : Env) (data_dir : String) (w0 w : World)
    (tablet_infos : List TabletInfoPB) (version : Int) (root_dir : String)
    (b : AsyncBundleFileDeleter) (hb : b.is_data_deleter env data_dir)
    (hw : Orderly env data_dir w0 w) :
    (collect_alive_bundle_files env tablet_infos version root_dir b w).2.1.is_data_deleter env
      data_dir ∧
    Orderly env data_dir w0 (collect_alive_bundle_files env tablet_infos version root_dir b
      w).2.2 := by
  unfold collect_alive_bundle_files
  refine for_each_invariant _
    (fun s : AsyncBundleFileDeleter × World =>
      s.1.is_data_deleter env data_dir ∧ Orderly env data_dir w0 s.2) _ ?_ (b, w) ⟨hb, hw⟩
  intro tablet_info _ s hs
  have hw' : Orderly env data_dir w0 (s.2 ++ [Event.load tablet_info.tablet_id version]) :=
    hs.2.append_events (ErasedFirst.load _ _ ErasedFirst.nil)
  unfold collect_alive_tablet
  simp only
  split
  · exact ⟨hs.1, hw'⟩
  · refine ⟨?_, hw'⟩
    refine for_each_invariant _
      (fun b1 : AsyncBundleFileDeleter => b1.is_data_deleter env data_dir) _ ?_ s.1 hs.1
    intro rowset _ b1 hb1
    unfold collect_alive_rowset
    split
    · refine for_each_invariant _
        (fun b2 : AsyncBundleFileDeleter => b2.is_data_deleter env data_dir) _ ?_ b1 hb1
      intro segment _ b2 hb2
      exact hb2
    · exact hb1

theorem vacuum_bundle_files_tidy (env : Env) (root_dir : String) (w0 : World) (s : DriverState)
    (hs : s.tidy env (env.join_path root_dir env.kSegmentDirectoryName) w0) :
    (vacuum_bundle_files env root_dir s).2.tidy env
      (env.join_path root_dir env.kSegmentDirectoryName) w0 := by
  have h1 := collect_alive_bundle_files_tidy env _ w0 s.world s.tablet_infos
    s.max_vacuum_version root_dir s.bundle_file_deleter hs.1 hs.2
  have h2 := AsyncBundleFileDeleter.finish_tidy env _ w0 _ _ h1.1 h1.2
  unfold vacuum_bundle_files
  simp only
  split
  · split
    · exact h1
    · split
      · exact h2
      · exact h2
  · exact hs

theorem partition_metafile_deleter_orderly (env : Env) (data_dir meta_dir : String)
    (w0 w : World) (tablet_infos : List TabletInfoPB) (range : VacuumTabletMetaVerionRange)
    (hw : Orderly env data_dir w0 w) :
    Orderly env data_dir w0 (partition_metafile_deleter env meta_dir tablet_infos range w).2.2 := by
  unfold partition_metafile_deleter
  simp only
  have key := RETURN_IF_ERROR_invariant
    (fun t : AsyncFileDeleter × World =>
      t.1._cb = some erase_tablet_metadata_from_metacache ∧ Orderly env data_dir w0 t.2)
  refine (key _ _ ?_ ?_).2
  · split
    · exact for_each_invariant _
        (fun t : AsyncFileDeleter × World =>
          t.1._cb = some erase_tablet_metadata_from_metacache ∧ Orderly env data_dir w0 t.2)
        _ (fun v _ t ht => AsyncFileDeleter.delete_file_erasing env data_dir _ t.1 w0 t.2
          ht.1 ht.2) _ ⟨rfl, hw⟩
    · exact ⟨rfl, hw⟩
  · intro s1 hs1
    refine key _ _ ?_ ?_
    · exact for_each_invariant _
        (fun t : AsyncFileDeleter × World =>
          t.1._cb = some erase_tablet_metadata_from_metacache ∧ Orderly env data_dir w0 t.2)
        _ (fun v _ t ht => AsyncFileDeleter.delete_file_erasing env data_dir _ t.1 w0 t.2
          ht.1 ht.2) _ hs1
    · intro s2 hs2
      exact ⟨(AsyncFileDeleter.finish_cb env s2.1 s2.2).trans hs2.1,
        AsyncFileDeleter.finish_erasing env data_dir s2.1 w0 s2.2 hs2.1 hs2.2⟩

/-- The driver keeps the world orderly, however it ends. -/
theorem vacuum_tablet_metadata_orderly (env : Env) (root_dir : String)
    (tablet_infos : List TabletInfoPB) (min_retain_version grace_timestamp : Int)
    (enable_file_bundling : Bool)
    (vacuumed_files vacuumed_file_size vacuumed_version extra_file_size : Int) (w : World) :
    Orderly env (env.join_path root_dir env.kSegmentDirectoryName) w
      (vacuum_tablet_metadata env root_dir tablet_infos min_retain_version grace_timestamp
        enable_file_bundling vacuumed_files vacuumed_file_size vacuumed_version extra_file_size
        w).state.world := by
  have h0 : (driver_init env enable_file_bundling vacuumed_files vacuumed_file_size
      vacuumed_version extra_file_size w).tidy env
      (env.join_path root_dir env.kSegmentDirectoryName) w := by
    refine ⟨⟨⟨rfl, ?_⟩, ?_⟩, Orderly.start _ _ _⟩
    · intro p hp
      exact absurd hp (List.not_mem_nil _)
    · intro p hp
      exact absurd hp (List.not_mem_nil _)
  have h1 := vacuum_tablets_tidy env root_dir w min_retain_version grace_timestamp
    enable_file_bundling tablet_infos _ h0
  unfold vacuum_tablet_metadata
  split
  · rename_i s hs
    rw [hs] at h1
    exact h1.2
  · rename_i s hs
    rw [hs] at h1
    exact h1.2
  · rename_i c m s hs
    rw [hs] at h1
    exact h1.2
  · rename_i s hs
    rw [hs] at h1
    have h2 := vacuum_bundle_files_tidy env root_dir w s h1
    have h3 : Orderly env (env.join_path root_dir env.kSegmentDirectoryName) w
        (vacuum_partition_metafiles env root_dir enable_file_bundling
          (vacuum_bundle_files env root_dir s).2).2.world := by
      unfold vacuum_partition_metafiles
      simp only
      have hp := partition_metafile_deleter_orderly env
        (env.join_path root_dir env.kSegmentDirectoryName)
        (env.join_path root_dir env.kMetadataDirectoryName) w
        (vacuum_bundle_files env root_dir s).2.world
        (vacuum_bundle_files env root_dir s).2.tablet_infos
        ((vacuum_bundle_files env root_dir s).2.vacuum_version_range.getD {}) h2.2
      split
      · split
        · exact hp
        · exact hp
      · exact h2.2
    split
    · exact h2.2
    · simp only
      split
      · exact h3
      · exact h3

/-! ## Sequences of calls on a deleter -/

theorem AsyncFileDeleter.submit_nonempty (env : Env) (d : AsyncFileDeleter) (w : World)
    (hb : d._batch ≠ []) (h : ∀ batch ∈ d.submitted, batch ≠ []) :
    ∀ batch ∈ (d.submit env w).2.1.submitted, batch ≠ [] := by
  obtain ⟨f1, f2, f3, f4, f5, f6⟩ := d.wait_fields
  cases hw : d.wait.1 with
  | error c m =>
    rw [AsyncFileDeleter.submit_error env d w c m hw]
    simp only [f2]
    exact h
  | OK =>
    rw [AsyncFileDeleter.submit_ok env d w hw]
    simp only [f1, f2]
    intro batch hbatch
    rcases List.mem_append.1 hbatch with hm | hm
    · exact h batch hm
    · rw [List.mem_singleton.1 hm]
      exact hb

theorem DeleterOp.run_nonempty (env : Env) (op : DeleterOp) (s : AsyncFileDeleter × World)
    (h : ∀ batch ∈ s.1.submitted, batch ≠ []) :
    ∀ batch ∈ (op.run env s).1.submitted, batch ≠ [] := by
  cases op with
  | delete_file path =>
    show ∀ batch ∈ (s.1.delete_file env path s.2).2.1.submitted, batch ≠ []
    obtain ⟨d1, hd1⟩ : ∃ d1 : AsyncFileDeleter,
        d1 = { s.1 with _batch := s.1._batch ++ [path] } := ⟨_, rfl⟩
    have e3 : d1.submitted = s.1.submitted := by rw [hd1]
    have e4 : d1._batch ≠ [] := by rw [hd1]; simp
    have hdef : s.1.delete_file env path s.2
        = if (d1._batch.length : Int) < d1._batch_size % 2 ^ 64 then (Status.OK, d1, s.2)
          else d1.submit env s.2 := by
      rw [hd1]
      rfl
    rw [hdef]
    split
    · show ∀ batch ∈ d1.submitted, batch ≠ []
      rw [e3]
      exact h
    · exact AsyncFileDeleter.submit_nonempty env d1 s.2 e4 (e3 ▸ h)
  | finish =>
    show ∀ batch ∈ (s.1.finish env s.2).2.1.submitted, batch ≠ []
    unfold AsyncFileDeleter.finish
    split
    · simp only [s.1.wait_fields.2.1]
      exact h
    · rename_i hne
      have hb : s.1._batch ≠ [] := fun hnil => hne (List.isEmpty_iff.2 hnil)
      have := AsyncFileDeleter.submit_nonempty env s.1 s.2 hb h
      split
      · exact this
      · simp only [(s.1.submit env s.2).2.1.wait_fields.2.1]
        exact this

theorem DeleterOp.run_logged (env : Env) (op : DeleterOp) (w0 : World)
    (s : AsyncFileDeleter × World) (h : AsyncFileDeleter.Logged w0 s) :
    AsyncFileDeleter.Logged w0 (op.run env s) := by
  cases op with
  | delete_file path => exact AsyncFileDeleter.delete_file_logged env path s.1 s.2 w0 h
  | finish => exact AsyncFileDeleter.finish_logged env s.1 s.2 w0 h

theorem DeleterOp.run_frame (env : Env) (op : DeleterOp) (s : AsyncFileDeleter × World) :
    (op.run env s).1._cb = s.1._cb ∧
    (op.run env s).1.handed = s.1.handed ++ deleter_op_paths [op] := by
  cases op with
  | delete_file path =>
    exact ⟨(AsyncFileDeleter.delete_file_frame env path s.1 s.2).2.2.1,
      (AsyncFileDeleter.delete_file_frame env path s.1 s.2).1⟩
  | finish =>
    refine ⟨AsyncFileDeleter.finish_cb env s.1 s.2, ?_⟩
    exact ((AsyncFileDeleter.finish_frame env s.1 s.2).1).trans (List.append_nil _).symm

/-- After any sequence of calls on a deleter, the world has grown by the events
    of the batches passed on, none of which is empty, and the deleter holds the
    paths it was given, in order. -/
theorem run_deleter_ops_spec (env : Env) (ops : List DeleterOp) (w0 : World)
    (s : AsyncFileDeleter × World) (hlog : AsyncFileDeleter.Logged w0 s)
    (hne : ∀ batch ∈ s.1.submitted, batch ≠ []) :
    AsyncFileDeleter.Logged w0 (run_deleter_ops env ops s) ∧
    (∀ batch ∈ (run_deleter_ops env ops s).1.submitted, batch ≠ []) ∧
    (run_deleter_ops env ops s).1._cb = s.1._cb ∧
    (run_deleter_ops env ops s).1.handed = s.1.handed ++ deleter_op_paths ops := by
  induction ops generalizing s with
  | nil => exact ⟨hlog, hne, rfl, (List.append_nil _).symm⟩
  | cons op rest ih =>
    obtain ⟨i1, i2, i3, i4⟩ := ih (op.run env s) (DeleterOp.run_logged env op w0 s hlog)
      (DeleterOp.run_nonempty env op s hne)
    obtain ⟨f1, f2⟩ := DeleterOp.run_frame env op s
    refine ⟨i1, i2, i3.trans f1, ?_⟩
    show (run_deleter_ops env rest (op.run env s)).1.handed = _
    rw [i4, f2, List.append_assoc]
    cases op <;> rfl

theorem flatMap_dispatch_events_nonempty (cb : List String → List Event)
    (batches : List (List String)) (h : ∀ batch ∈ batches, batch ≠ []) :
    batches.flatMap (dispatch_events (some cb))
      = batches.flatMap (fun batch => cb batch ++ [Event.task batch]) := by
  induction batches with
  | nil => rfl
  | cons batch rest ih =>
    rw [List.flatMap_cons, List.flatMap_cons, ih (fun b hb => h b (List.mem_cons_of_mem _ hb))]
    have hb : batch.isEmpty = false := by
      cases batch with
      | nil => exact absurd rfl (h [] (List.mem_cons_self _ _))
      | cons x xs => rfl
    unfold dispatch_events
    simp only [hb]
    rfl

/-! ## Orphan data files -/

theorem mem_map_emplace (m : List (String × DirEntry)) (k : String) (v : DirEntry)
    (kv : String × DirEntry) :
    kv ∈ map_emplace m k v ↔ kv ∈ m ∨ (kv = (k, v) ∧ k ∉ m.map Prod.fst) := by
  unfold map_emplace
  split
  · rename_i h
    constructor
    · exact Or.inl
    · rintro (h1 | ⟨_, h2⟩)
      · exact h1
      · exact absurd h h2
  · rename_i h
    rw [List.mem_orderedInsert]
    constructor
    · rintro (h1 | h1)
      · exact Or.inr ⟨h1, h⟩
      · exact Or.inl h1
    · rintro (h1 | ⟨h1, _⟩)
      · exact Or.inr h1
      · exact Or.inl h1

theorem nodup_keys_map_emplace (m : List (String × DirEntry)) (k : String) (v : DirEntry)
    (h : (m.map Prod.fst).Nodup) : ((map_emplace m k v).map Prod.fst).Nodup := by
  unfold map_emplace
  split
  · exact h
  · rename_i hk
    have hp := (List.perm_orderedInsert (fun a b : String × DirEntry => a.1 ≤ b.1) (k, v) m).map
      Prod.fst
    rw [hp.nodup_iff, List.map_cons]
    exact List.nodup_cons.2 ⟨hk, h⟩

theorem mem_map_erase (m : List (String × DirEntry)) (k : String) (kv : String × DirEntry) :
    kv ∈ map_erase m k ↔ kv ∈ m ∧ kv.1 ≠ k := by
  unfold map_erase
  rw [List.mem_filter, decide_eq_true_iff]

theorem nodup_keys_map_erase (m : List (String × DirEntry)) (k : String)
    (h : (m.map Prod.fst).Nodup) : ((map_erase m k).map Prod.fst).Nodup :=
  h.sublist ((List.filter_sublist m).map Prod.fst)

theorem mem_set_emplace (names : List String) (k x : String) :
    x ∈ set_emplace names k ↔ x = k ∨ x ∈ names := by
  unfold set_emplace
  split
  · rename_i h
    constructor
    · exact Or.inr
    · rintro (h1 | h1)
      · rw [h1]
        exact h
      · exact h1
  · exact List.mem_orderedInsert _

theorem OrphanState.filtered_start (s0 : OrphanState) : s0.filtered [] s0 :=
  ⟨fun _ _ => ⟨fun h => ⟨h, List.not_mem_nil _⟩, fun h => h.1⟩,
    fun _ => ⟨Or.inl, fun h => h.elim id (fun h' => absurd h' (List.not_mem_nil _))⟩,
    fun h => h⟩

theorem check_data_file_filtered (s0 s : OrphanState) (names : List String) (name : String)
    (h : s0.filtered names s) : s0.filtered (names ++ [name]) (check_data_file s name) := by
  obtain ⟨h1, h2, h3⟩ := h
  refine ⟨?_, ?_, fun hn => nodup_keys_map_erase _ _ (h3 hn)⟩
  · intro k v
    show (k, v) ∈ map_erase s.data_files name ↔ _
    rw [mem_map_erase, h1, List.mem_append, List.mem_singleton]
    constructor
    · rintro ⟨⟨a, b⟩, c⟩
      exact ⟨a, fun hh => hh.elim b c⟩
    · rintro ⟨a, b⟩
      exact ⟨⟨a, fun hh => b (Or.inl hh)⟩, fun hh => b (Or.inr hh)⟩
  · intro x
    show x ∈ set_emplace s.data_files_in_metadatas name ↔ _
    rw [mem_set_emplace, h2, List.mem_append, List.mem_singleton]
    tauto

theorem foldl_check_data_file_filtered (s0 : OrphanState) (more : List String)
    (s : OrphanState) (names : List String) (h : s0.filtered names s) :
    s0.filtered (names ++ more) (more.foldl check_data_file s) := by
  induction more generalizing s names with
  | nil =>
    rw [List.append_nil]
    exact h
  | cons name rest ih =>
    have := ih (check_data_file s name) (names ++ [name])
      (check_data_file_filtered s0 s names name h)
    rw [List.append_assoc] at this
    exact this

theorem foldl_rowsets_filtered (s0 : OrphanState) (rowsets : List RowsetMetadataPB)
    (s : OrphanState) (names : List String) (h : s0.filtered names s) :
    s0.filtered (names ++ rowsets.flatMap (fun rowset => rowset.segments))
      (rowsets.foldl (fun s1 rowset => rowset.segments.foldl check_data_file s1) s) := by
  induction rowsets generalizing s names with
  | nil =>
    rw [List.flatMap_nil, List.append_nil]
    exact h
  | cons rowset rest ih =>
    have := ih _ _ (foldl_check_data_file_filtered s0 rowset.segments s names h)
    rw [List.append_assoc] at this
    exact this

theorem filter_with_metadata_filtered (env : FsEnv) (metadata_root_location : String)
    (s0 s : OrphanState) (names : List String) (name : String) (h : s0.filtered names s) :
    s0.filtered (names ++ metadata_file_names env metadata_root_location name)
      (filter_with_metadata env metadata_root_location s name) := by
  unfold filter_with_metadata metadata_file_names
  cases env.load_tablet_metadata (env.join_path metadata_root_location name) with
  | error c m =>
    rw [List.append_nil]
    exact h
  | value metadata =>
    have := foldl_check_data_file_filtered s0 metadata.sstable_meta _ _
      (foldl_rowsets_filtered s0 metadata.rowsets s names h)
    rw [List.append_assoc] at this
    exact this

theorem foldl_filter_with_metadata_filtered (env : FsEnv) (metadata_root_location : String)
    (s0 : OrphanState) (meta_files : List String) (s : OrphanState) (names : List String)
    (h : s0.filtered names s) :
    s0.filtered (names ++ meta_files.flatMap (metadata_file_names env metadata_root_location))
      (meta_files.foldl (filter_with_metadata env metadata_root_location) s) := by
  induction meta_files generalizing s names with
  | nil =>
    rw [List.flatMap_nil, List.append_nil]
    exact h
  | cons name rest ih =>
    have := ih _ _ (filter_with_metadata_filtered env metadata_root_location s0 s names name h)
    rw [List.append_assoc] at this
    exact this

theorem list_data_files_visit_eq (env : FsEnv) (expired_seconds : Int) (entry : DirEntry)
    (m : List (String × DirEntry)) :
    list_data_files_visit env expired_seconds entry m
      = (true, if is_gc_candidate env expired_seconds entry = true then
          map_emplace m entry.name entry else m) := by
  unfold list_data_files_visit is_gc_candidate
  cases h1 : env.is_segment entry.name <;> cases h2 : env.is_sst entry.name <;>
    cases h3 : entry.mtime <;> simp [ge_iff_le] <;> split <;> rfl

/-- The listing of `list_data_files` visits every entry; over entries with
    distinct names that are not yet keys, the map gains exactly the entries
    that are candidates, under their names. -/
theorem visit_entries_list_data_files (env : FsEnv) (expired_seconds : Int)
    (entries : List DirEntry) (m : List (String × DirEntry))
    (hnodup : (entries.map (fun e => e.name)).Nodup)
    (hfresh : ∀ e ∈ entries, e.name ∉ m.map Prod.fst) :
    (visit_entries (list_data_files_visit env expired_seconds) entries m).1 = false ∧
    (∀ kv, kv ∈ (visit_entries (list_data_files_visit env expired_seconds) entries m).2 ↔
      kv ∈ m ∨ (kv.2 ∈ entries ∧ kv.2.name = kv.1 ∧
        is_gc_candidate env expired_seconds kv.2 = true)) ∧
    ((m.map Prod.fst).Nodup →
      ((visit_entries (list_data_files_visit env expired_seconds) entries m).2.map
        Prod.fst).Nodup) := by
  induction entries generalizing m with
  | nil =>
    refine ⟨rfl, ?_, fun h => h⟩
    intro kv
    exact ⟨Or.inl, fun h => h.elim id (fun h' => absurd h'.1 (List.not_mem_nil _))⟩
  | cons entry rest ih =>
    unfold visit_entries
    rw [list_data_files_visit_eq]
    simp only [if_true]
    rw [List.map_cons, List.nodup_cons] at hnodup
    obtain ⟨hhead, htail⟩ := hnodup
    have hentry : entry.name ∉ m.map Prod.fst := hfresh entry (List.mem_cons_self _ _)
    by_cases hc : is_gc_candidate env expired_seconds entry = true
    · rw [if_pos hc]
      have hfresh' : ∀ e ∈ rest, e.name ∉ (map_emplace m entry.name entry).map Prod.fst := by
        intro e he hmem
        obtain ⟨kv, hkv, hk⟩ := List.mem_map.1 hmem
        rcases (mem_map_emplace m entry.name entry kv).1 hkv with h | ⟨h, _⟩
        · exact hfresh e (List.mem_cons_of_mem _ he) (List.mem_map.2 ⟨kv, h, hk⟩)
        · rw [h] at hk
          exact hhead (List.mem_map.2 ⟨e, he, hk.symm⟩)
      obtain ⟨i1, i2, i3⟩ := ih (map_emplace m entry.name entry) htail hfresh'
      refine ⟨i1, ?_, fun hn => i3 (nodup_keys_map_emplace m _ _ hn)⟩
      intro kv
      rw [i2, mem_map_emplace, List.mem_cons]
      constructor
      · rintro ((h | ⟨h, _⟩) | ⟨h1, h2, h3⟩)
        · exact Or.inl h
        · rw [h]
          exact Or.inr ⟨Or.inl rfl, rfl, hc⟩
        · exact Or.inr ⟨Or.inr h1, h2, h3⟩
      · rintro (h | ⟨h1 | h1, h2, h3⟩)
        · exact Or.inl (Or.inl h)
        · left
          right
          refine ⟨?_, hentry⟩
          rw [← h1, h2]
        · exact Or.inr ⟨h1, h2, h3⟩
    · rw [if_neg hc]
      obtain ⟨i1, i2, i3⟩ := ih m htail (fun e he => hfresh e (List.mem_cons_of_mem _ he))
      refine ⟨i1, ?_, i3⟩
      intro kv
      rw [i2, List.mem_cons]
      constructor
      · rintro (h | ⟨h1, h2, h3⟩)
        · exact Or.inl h
        · exact Or.inr ⟨Or.inr h1, h2, h3⟩
      · rintro (h | ⟨h1 | h1, h2, h3⟩)
        · exact Or.inl h
        · rw [h1] at h3
          exact absurd h3 hc
        · exact Or.inr ⟨h1, h2, h3⟩

theorem visit_names_list_meta_files (env : FsEnv) (names : List String) (acc : List String) :
    visit_names (fun name (meta_files : List String) =>
      if ¬ env.is_tablet_metadata name then (true, meta_files)
      else (true, meta_files ++ [name])) names acc
      = (false, acc ++ names.filter env.is_tablet_metadata) := by
  induction names generalizing acc with
  | nil => simp [visit_names]
  | cons name rest ih =>
    unfold visit_names
    by_cases h : env.is_tablet_metadata name = true
    · rw [if_neg (not_not.2 h)]
      simp only [if_true]
      rw [ih, List.filter_cons_of_pos h, List.append_assoc]
      rfl
    · rw [if_pos h]
      simp only [if_true]
      rw [ih, List.filter_cons_of_neg h]

theorem list_data_files_spec (env : FsEnv) (segment_root_location : String)
    (expired_seconds : Int)
    (hseg : ignore_not_found (env.iterate_dir2 segment_root_location).2 = Status.OK)
    (hnames : ((env.iterate_dir2 segment_root_location).1.map (fun e => e.name)).Nodup) :
    ∃ data_files,
      list_data_files env segment_root_location expired_seconds = StatusOr.value data_files ∧
      (∀ kv, kv ∈ data_files ↔
        kv.2 ∈ (env.iterate_dir2 segment_root_location).1 ∧ kv.2.name = kv.1 ∧
          is_gc_candidate env expired_seconds kv.2 = true) ∧
      (data_files.map Prod.fst).Nodup := by
  obtain ⟨h1, h2, h3⟩ := visit_entries_list_data_files env expired_seconds
    (env.iterate_dir2 segment_root_location).1 [] hnames
    (fun e _ h => absurd h (List.not_mem_nil _))
  refine ⟨_, ?_, ?_, h3 List.nodup_nil⟩
  · unfold list_data_files iterate_dir2
    simp only [h1, Bool.false_eq_true, if_false]
    rw [hseg]
  · intro kv
    rw [h2]
    exact ⟨fun h => h.elim (fun h' => absurd h' (List.not_mem_nil _)) id, Or.inr⟩

theorem list_meta_files_spec (env : FsEnv) (metadata_root_location : String)
    (hmeta : ignore_not_found (env.iterate_dir metadata_root_location).2 = Status.OK) :
    list_meta_files env metadata_root_location
      = StatusOr.value ((env.iterate_dir metadata_root_location).1.filter
          env.is_tablet_metadata) := by
  unfold list_meta_files iterate_dir
  simp only [visit_names_list_meta_files, Bool.false_eq_true, if_false, List.nil_append]
  rw [hmeta]

/-- Function `find_orphan_data_files`, when the two listings succeed and the
    segment directory lists each name once: it returns the candidates that no
    listed metadata file names. -/
theorem find_orphan_data_files_spec (env : FsEnv) (root_location : String)
    (expired_seconds : Int)
    (hseg : ignore_not_found (env.iterate_dir2
      (env.join_path root_location env.kSegmentDirectoryName)).2 = Status.OK)
    (hmeta : ignore_not_found (env.iterate_dir
      (env.join_path root_location env.kMetadataDirectoryName)).2 = Status.OK)
    (hnames : ((env.iterate_dir2
      (env.join_path root_location env.kSegmentDirectoryName)).1.map (fun e => e.name)).Nodup) :
    ∃ orphans,
      find_orphan_data_files env root_location expired_seconds = StatusOr.value orphans ∧
      (∀ kv, kv ∈ orphans ↔
        kv.2 ∈ (env.iterate_dir2 (env.join_path root_location env.kSegmentDirectoryName)).1 ∧
        kv.2.name = kv.1 ∧ is_gc_candidate env expired_seconds kv.2 = true ∧
        kv.1 ∉ referenced_data_files env
          (env.join_path root_location env.kMetadataDirectoryName)) ∧
      (orphans.map Prod.fst).Nodup := by
  obtain ⟨data_files, hd1, hd2, hd3⟩ := list_data_files_spec env
    (env.join_path root_location env.kSegmentDirectoryName) expired_seconds hseg hnames
  unfold find_orphan_data_files
  simp only [hd1]
  by_cases hempty : data_files.isEmpty = true
  · rw [if_pos hempty]
    have hnil : data_files = [] := List.isEmpty_iff.1 hempty
    refine ⟨data_files, rfl, ?_, hd3⟩
    intro kv
    constructor
    · intro h
      rw [hnil] at h
      exact absurd h (List.not_mem_nil _)
    · rintro ⟨h1, h2, h3, _⟩
      exact (hd2 kv).2 ⟨h1, h2, h3⟩
  · rw [if_neg hempty]
    simp only [list_meta_files_spec env _ hmeta]
    obtain ⟨f1, f2, f3⟩ := foldl_filter_with_metadata_filtered env
      (env.join_path root_location env.kMetadataDirectoryName) { data_files := data_files }
      ((env.iterate_dir (env.join_path root_location env.kMetadataDirectoryName)).1.filter
        env.is_tablet_metadata)
      { data_files := data_files } [] (OrphanState.filtered_start _)
    rw [List.nil_append] at f1 f2
    have hcheck : ((List.foldl
        (filter_with_metadata env (env.join_path root_location env.kMetadataDirectoryName))
        { data_files := data_files }
        ((env.iterate_dir (env.join_path root_location env.kMetadataDirectoryName)).1.filter
          env.is_tablet_metadata)).data_files.any fun kv =>
        decide (kv.1 ∈ (List.foldl
          (filter_with_metadata env (env.join_path root_location env.kMetadataDirectoryName))
          { data_files := data_files }
          ((env.iterate_dir (env.join_path root_location env.kMetadataDirectoryName)).1.filter
            env.is_tablet_metadata)).data_files_in_metadatas)) = false := by
      rw [Bool.eq_false_iff]
      intro hany
      obtain ⟨kv, hkv, hin⟩ := List.any_eq_true.1 hany
      rw [decide_eq_true_iff] at hin
      rcases (f2 kv.1).1 hin with h | h
      · exact absurd h (List.not_mem_nil _)
      · exact ((f1 kv.1 kv.2).1 hkv).2 h
    rw [hcheck]
    simp only [Bool.false_eq_true, if_false]
    refine ⟨_, rfl, ?_, f3 hd3⟩
    intro kv
    rw [f1 kv.1 kv.2]
    show (kv ∈ data_files ∧ _) ↔ _
    rw [hd2]
    unfold referenced_data_files
    tauto

/-! ## binary_search -/

theorem sorted_getD_le (l : List Int) (hs : l.Sorted (fun a b => a ≤ b)) (i j : Nat)
    (hij : i ≤ j) (hj : j < l.length) : l.getD i 0 ≤ l.getD j 0 := by
  have hi : i < l.length := lt_of_le_of_lt hij hj
  rw [List.getD_eq_getElem l 0 hi, List.getD_eq_getElem l 0 hj]
  rcases Nat.eq_or_lt_of_le hij with h | h
  · subst h
    exact le_refl _
  · exact List.pairwise_iff_getElem.1 hs i j hi hj h

/-- The loop of `std::lower_bound` on a sorted vector ends at the first index
    whose element is not below `value`. -/
theorem lower_bound_spec (l : List Int) (value : Int) (hs : l.Sorted (fun a b => a ≤ b))
    (fuel first count : Nat) (hfuel : count ≤ fuel) (hlen : first + count ≤ l.length)
    (hbelow : ∀ i, i < first → l.getD i 0 < value)
    (habove : ∀ i, first + count ≤ i → i < l.length → ¬ l.getD i 0 < value) :
    (∀ i, i < lower_bound l value fuel first count → l.getD i 0 < value) ∧
    (∀ i, lower_bound l value fuel first count ≤ i → i < l.length → ¬ l.getD i 0 < value) ∧
    lower_bound l value fuel first count ≤ l.length := by
  induction fuel generalizing first count with
  | zero =>
    have hc : count = 0 := Nat.le_zero.1 hfuel
    subst hc
    exact ⟨hbelow, habove, by simpa using hlen⟩
  | succ fuel ih =>
    unfold lower_bound
    by_cases hc : count = 0
    · rw [if_pos hc]
      subst hc
      exact ⟨hbelow, habove, by simpa using hlen⟩
    · rw [if_neg hc]
      have hstep : count / 2 < count := Nat.div_lt_self (Nat.pos_of_ne_zero hc) (by decide)
      by_cases hlt : l.getD (first + count / 2) 0 < value
      · rw [if_pos hlt]
        refine ih (first + count / 2 + 1) (count - (count / 2 + 1)) (by omega) (by omega) ?_ ?_
        · intro i hi
          exact lt_of_le_of_lt (sorted_getD_le l hs i (first + count / 2) (by omega) (by omega))
            hlt
        · intro i hi hil
          exact habove i (by omega) hil
      · rw [if_neg hlt]
        refine ih first (count / 2) (by omega) (by omega) hbelow ?_
        · intro i hi hil h
          exact hlt (lt_of_le_of_lt
            (sorted_getD_le l hs (first + count / 2) i hi hil) h)

/-- On a sorted vector `std::binary_search` answers membership. -/
theorem binary_search_iff (l : List Int) (value : Int) (hs : l.Sorted (fun a b => a ≤ b)) :
    binary_search l value = true ↔ value ∈ l := by
  obtain ⟨h1, h2, h3⟩ := lower_bound_spec l value hs l.length 0 l.length (le_refl _)
    (by omega) (fun i hi => absurd hi (Nat.not_lt_zero _)) (fun i hi hil => by omega)
  unfold binary_search
  rw [Bool.and_eq_true, decide_eq_true_iff, Bool.not_eq_true', decide_eq_false_iff_not]
  constructor
  · rintro ⟨hlt, hnot⟩
    have hge : ¬ l.getD (lower_bound l value l.length 0 l.length) 0 < value :=
      h2 _ (le_refl _) hlt
    have heq : l.getD (lower_bound l value l.length 0 l.length) 0 = value :=
      le_antisymm (not_lt.1 hnot) (not_lt.1 hge)
    rw [← heq, List.getD_eq_getElem l 0 hlt]
    exact List.getElem_mem hlt
  · intro hmem
    obtain ⟨j, hj, hjv⟩ := List.getElem_of_mem hmem
    have hjd : l.getD j 0 = value := by rw [List.getD_eq_getElem l 0 hj, hjv]
    have hrj : lower_bound l value l.length 0 l.length ≤ j := by
      by_contra hcon
      have := h1 j (not_le.1 hcon)
      rw [hjd] at this
      exact lt_irrefl _ this
    have hlt : lower_bound l value l.length 0 l.length < l.length := lt_of_le_of_lt hrj hj
    refine ⟨hlt, ?_⟩
    have := sorted_getD_le l hs _ j hrj hj
    rw [hjd] at this
    exact not_lt.2 this

/-! ## delete_tablets_impl -/

theorem hands_seq {g₁ g₂ : List String}
    {f rest : AsyncFileDeleter × World → Status × (AsyncFileDeleter × World)}
    (h₁ : Hands g₁ f) (h₂ : Hands g₂ rest) :
    Hands (g₁ ++ g₂) (fun s => RETURN_IF_ERROR (f s) rest) :=
  Emits.seq List.append_assoc h₁ h₂

theorem hands_skip : Hands [] (fun s => (Status.OK, s)) :=
  Emits.of_frame List.append_nil _ (fun _ _ => trivial) (fun _ _ => rfl)

theorem delete_in_hands (env : FsEnv) (dir name : String) :
    Hands [env.join_path dir name] (delete_in env dir name) :=
  Emits.of_always _ _ (fun _ _ => trivial)
    (fun s _ => (AsyncFileDeleter.delete_file_frame env.toEnv _ s.1 s.2).1)

theorem hands_for_each {α : Type} (g : α → List String)
    (body : α → AsyncFileDeleter × World → Status × (AsyncFileDeleter × World)) (xs : List α)
    (h : ∀ x ∈ xs, Hands (g x) (body x)) :
    Hands (xs.flatMap g) (starrocks.lake.for_each body xs) :=
  Emits.for_each List.append_nil List.append_assoc g body xs h

theorem hands_for_each_map {α : Type} (g : α → String)
    (body : α → AsyncFileDeleter × World → Status × (AsyncFileDeleter × World)) (xs : List α)
    (h : ∀ x ∈ xs, Hands [g x] (body x)) :
    Hands (xs.map g) (starrocks.lake.for_each body xs) :=
  Emits.for_each_map List.append_nil List.append_assoc g body xs h

theorem for_each_delete_in_hands (env : FsEnv) (dir : String) (names : List String) :
    Hands (names.map (env.join_path dir)) (for_each (delete_in env dir) names) :=
  hands_for_each_map _ _ names (fun x _ => delete_in_hands env dir x)

theorem delete_latest_hands (env : FsEnv) (data_dir : String) (metadata : TabletMetadataPB) :
    Hands (live_paths env data_dir metadata) (delete_latest env data_dir metadata) := by
  have h1 : Hands (metadata.rowsets.flatMap fun rowset =>
      rowset.segments.map (env.join_path data_dir))
      (for_each (fun (rowset : RowsetMetadataPB) s0 =>
        for_each (delete_in env data_dir) rowset.segments s0) metadata.rowsets) :=
    hands_for_each _ _ _ (fun rowset _ => for_each_delete_in_hands env data_dir rowset.segments)
  have h2 : Hands ((metadata.delvec_meta.getD []).map fun vf => env.join_path data_dir vf.2.name)
      (fun s1 => match metadata.delvec_meta with
        | some version_to_file =>
          for_each (fun (vf : Int × FileMetaPB) s0 => delete_in env data_dir vf.2.name s0)
            version_to_file s1
        | none => (Status.OK, s1)) := by
    cases metadata.delvec_meta with
    | none => exact hands_skip
    | some version_to_file =>
      exact hands_for_each_map (fun vf : Int × FileMetaPB => env.join_path data_dir vf.2.name)
        _ version_to_file (fun vf _ => delete_in_hands env data_dir vf.2.name)
  have h3 := for_each_delete_in_hands env data_dir metadata.sstable_meta
  exact hands_seq h1 (hands_seq h2 h3)

theorem delete_txn_log_hands (env : FsEnv) (data_dir log_dir log_name : String) :
    Hands (txn_log_paths env data_dir log_dir log_name)
      (delete_txn_log env data_dir log_dir log_name) := by
  unfold txn_log_paths delete_txn_log
  cases env.get_txn_log (env.join_path log_dir log_name) with
  | error c m =>
    intro s _
    refine ⟨trivial, [], List.prefix_rfl, ?_, fun _ => rfl⟩
    simp only
    split <;> exact (List.append_nil _).symm
  | value log =>
    simp only
    have h1 : Hands (match log.op_write with
        | some op =>
          op.rowset.segments.map (env.join_path data_dir) ++ op.dels.map (env.join_path data_dir)
        | none => [])
        (fun s => match log.op_write with
          | some op =>
            RETURN_IF_ERROR (for_each (delete_in env data_dir) op.rowset.segments s) fun s1 =>
            for_each (delete_in env data_dir) op.dels s1
          | none => (Status.OK, s)) := by
      cases log.op_write with
      | none => exact hands_skip
      | some op =>
        exact hands_seq (for_each_delete_in_hands env data_dir _)
          (for_each_delete_in_hands env data_dir _)
    have h2 : Hands (match log.op_compaction with
        | some op => op.output_rowset.segments.map (env.join_path data_dir)
        | none => [])
        (fun s1 => match log.op_compaction with
          | some op => for_each (delete_in env data_dir) op.output_rowset.segments s1
          | none => (Status.OK, s1)) := by
      cases log.op_compaction with
      | none => exact hands_skip
      | some op => exact for_each_delete_in_hands env data_dir _
    have h3 : Hands (match log.op_schema_change with
        | some op =>
          op.rowsets.flatMap fun rowset => rowset.segments.map (env.join_path data_dir)
        | none => [])
        (fun s2 => match log.op_schema_change with
          | some op =>
            for_each (fun (rowset : RowsetMetadataPB) s3 =>
              for_each (delete_in env data_dir) rowset.segments s3) op.rowsets s2
          | none => (Status.OK, s2)) := by
      cases log.op_schema_change with
      | none => exact hands_skip
      | some op =>
        exact hands_for_each _ _ _
          (fun rowset _ => for_each_delete_in_hands env data_dir rowset.segments)
    exact hands_seq h1 (hands_seq h2 (hands_seq h3 (delete_in_hands env log_dir log_name)))

theorem mem_live_paths_data (env : FsEnv) (data_dir : String) (metadata : TabletMetadataPB)
    (p : String) (h : p ∈ live_paths env data_dir metadata) :
    is_data_path env.toEnv data_dir p := by
  unfold live_paths at h
  rcases List.mem_append.1 h with h | h
  · obtain ⟨rowset, _, hp⟩ := List.mem_flatMap.1 h
    obtain ⟨x, _, rfl⟩ := List.mem_map.1 hp
    exact ⟨x, rfl⟩
  · rcases List.mem_append.1 h with h | h
    · obtain ⟨x, _, rfl⟩ := List.mem_map.1 h
      exact ⟨_, rfl⟩
    · obtain ⟨x, _, rfl⟩ := List.mem_map.1 h
      exact ⟨x, rfl⟩

theorem mem_txn_log_paths (env : FsEnv) (data_dir log_dir log_name : String) (p : String)
    (h : p ∈ txn_log_paths env data_dir log_dir log_name) :
    is_data_path env.toEnv data_dir p ∨ p = env.join_path log_dir log_name := by
  unfold txn_log_paths at h
  cases hl : env.get_txn_log (env.join_path log_dir log_name) with
  | error c m =>
    rw [hl] at h
    exact absurd h (List.not_mem_nil p)
  | value log =>
    rw [hl] at h
    simp only at h
    rcases List.mem_append.1 h with h | h
    · left
      cases hw : log.op_write with
      | none => rw [hw] at h; exact absurd h (List.not_mem_nil p)
      | some op =>
        rw [hw] at h
        rcases List.mem_append.1 h with h | h
        · obtain ⟨x, _, rfl⟩ := List.mem_map.1 h
          exact ⟨x, rfl⟩
        · obtain ⟨x, _, rfl⟩ := List.mem_map.1 h
          exact ⟨x, rfl⟩
    · rcases List.mem_append.1 h with h | h
      · left
        cases hw : log.op_compaction with
        | none => rw [hw] at h; exact absurd h (List.not_mem_nil p)
        | some op =>
          rw [hw] at h
          obtain ⟨x, _, rfl⟩ := List.mem_map.1 h
          exact ⟨x, rfl⟩
      · rcases List.mem_append.1 h with h | h
        · left
          cases hw : log.op_schema_change with
          | none => rw [hw] at h; exact absurd h (List.not_mem_nil p)
          | some op =>
            rw [hw] at h
            obtain ⟨rowset, _, hp⟩ := List.mem_flatMap.1 h
            obtain ⟨x, _, rfl⟩ := List.mem_map.1 hp
            exact ⟨x, rfl⟩
        · right
          exact List.mem_singleton.1 h

theorem is_garbage_path_data (env : Env) (base_dir : String) (metadata : TabletMetadataPB)
    (p : String) (h : is_garbage_path env base_dir metadata p) : is_data_path env base_dir p := by
  rcases h with ⟨rowset, _, ⟨x, _, rfl⟩ | ⟨x, _, rfl⟩⟩ | ⟨file, _, rfl⟩
  · exact ⟨x, rfl⟩
  · exact ⟨x, rfl⟩
  · exact ⟨_, rfl⟩

/-- The loop over the garbage versions hands the deleter paths of the segment
    directory only, however it ends. -/
theorem find_garbage_handed (env : FsEnv) (data_dir : String) (tablet_id min_v : Int) :
    ∀ (fuel : Nat) (v : Int) (s : Option TabletMetadataPB × (AsyncFileDeleter × World)),
      ∃ l, (find_garbage env data_dir tablet_id min_v fuel v s).state.2.1.handed
          = s.2.1.handed ++ l ∧
        ∀ p ∈ l, is_data_path env.toEnv data_dir p := by
  intro fuel
  induction fuel with
  | zero =>
    intro v s
    refine ⟨[], ?_, fun p hp => absurd hp (List.not_mem_nil p)⟩
    unfold find_garbage
    split <;> exact (List.append_nil _).symm
  | succ fuel ih =>
    intro v s
    unfold find_garbage
    by_cases hv : v ≥ min_v
    · rw [if_pos hv]
      simp only
      cases hg : env.get_tablet_metadata tablet_id v with
      | error c m =>
        refine ⟨[], ?_, fun p hp => absurd hp (List.not_mem_nil p)⟩
        simp only
        split <;> exact (List.append_nil _).symm
      | value metadata =>
        simp only
        obtain ⟨_, ⟨l, hl1, hl2, _⟩, _⟩ := collect_garbage_files_spec env.toEnv metadata data_dir
          { deleter := s.2.1, bundle_file_deleter := none, garbage_data_size := 0,
            world := s.2.2 ++ [Event.load tablet_id v] }
        have hdata : ∀ p ∈ l, is_data_path env.toEnv data_dir p := fun p hp =>
          is_garbage_path_data env.toEnv data_dir metadata p
            (mem_plain_garbage_paths env.toEnv data_dir _ metadata p (hl1.subset hp))
        split
        · exact ⟨l, hl2, hdata⟩
        · split
          · obtain ⟨l2, h1, h2⟩ := ih metadata.prev_garbage_version
              ((match s.1 with
                | none => some metadata
                | some latest => some latest),
               ((collect_garbage_files env.toEnv metadata data_dir
                  { deleter := s.2.1, bundle_file_deleter := none, garbage_data_size := 0,
                    world := s.2.2 ++ [Event.load tablet_id v] }).2.deleter,
                (collect_garbage_files env.toEnv metadata data_dir
                  { deleter := s.2.1, bundle_file_deleter := none, garbage_data_size := 0,
                    world := s.2.2 ++ [Event.load tablet_id v] }).2.world))
            refine ⟨l ++ l2, ?_, ?_⟩
            · rw [h1]
              show _ ++ l2 = _
              rw [hl2, List.append_assoc]
            · intro p hp
              rcases List.mem_append.1 hp with hp | hp
              · exact hdata p hp
              · exact h2 p hp
          · exact ⟨l, hl2, hdata⟩
    · rw [if_neg hv]
      exact ⟨[], (List.append_nil _).symm, fun p hp => absurd hp (List.not_mem_nil p)⟩

/-- When the loop over the garbage versions ends by its condition or a `break`,
    `latest_metadata` is what it was if it was set, and otherwise the metadata
    of the version the loop starts at, if the loop is entered and that loads. -/
theorem find_garbage_latest (env : FsEnv) (data_dir : String) (tablet_id min_v : Int) :
    ∀ (fuel : Nat) (v : Int) (s r : Option TabletMetadataPB × (AsyncFileDeleter × World)),
      find_garbage env data_dir tablet_id min_v fuel v s = LoopResult.done r →
      (∀ md, s.1 = some md → r.1 = some md) ∧
      (s.1 = none → v ≥ min_v → ∀ md, env.get_tablet_metadata tablet_id v = StatusOr.value md →
        r.1 = some md) := by
  intro fuel
  induction fuel with
  | zero =>
    intro v s r h
    unfold find_garbage at h
    by_cases hv : v ≥ min_v
    · rw [if_pos hv] at h
      exact LoopResult.noConfusion h
    · rw [if_neg hv] at h
      injection h with h
      subst h
      exact ⟨fun md h => h, fun _ h2 => absurd h2 hv⟩
  | succ fuel ih =>
    intro v s r h
    unfold find_garbage at h
    by_cases hv : v ≥ min_v
    · rw [if_pos hv] at h
      simp only at h
      cases hg : env.get_tablet_metadata tablet_id v with
      | error c m =>
        rw [hg] at h
        simp only at h
        split at h
        · injection h with h
          subst h
          exact ⟨fun md h => h, fun _ _ md hmd => StatusOr.noConfusion hmd⟩
        · exact LoopResult.noConfusion h
      | value metadata =>
        rw [hg] at h
        simp only at h
        have key : ∀ latest : Option TabletMetadataPB,
            latest = (match s.1 with
              | none => some metadata
              | some latest => some latest) →
            (∀ md, s.1 = some md → latest = some md) ∧
            (s.1 = none → latest = some metadata) := by
          intro latest hl
          cases hs : s.1 with
          | none => rw [hs] at hl; exact ⟨fun md h => Option.noConfusion h, fun _ => hl⟩
          | some x => rw [hs] at hl; exact ⟨fun md h => h ▸ hl, fun h => Option.noConfusion h⟩
        split at h
        · exact LoopResult.noConfusion h
        · split at h
          · obtain ⟨i1, _⟩ := ih _ _ _ h
            obtain ⟨k1, k2⟩ := key _ rfl
            refine ⟨fun md hmd => i1 md (k1 md hmd), fun hn _ md hmd => ?_⟩
            injection hmd with hmd
            subst hmd
            exact i1 _ (k2 hn)
          · injection h with h
            subst h
            obtain ⟨k1, k2⟩ := key _ rfl
            refine ⟨fun md hmd => k1 md hmd, fun hn _ md hmd => ?_⟩
            injection hmd with hmd
            subst hmd
            exact k2 hn
    · rw [if_neg hv] at h
      injection h with h
      subst h
      exact ⟨fun md h => h, fun _ h2 => absurd h2 hv⟩

theorem find_garbage_returned (env : FsEnv) (data_dir : String) (tablet_id min_v : Int) :
    ∀ (fuel : Nat) (v : Int) (s r : Option TabletMetadataPB × (AsyncFileDeleter × World))
      (st : Status),
      find_garbage env data_dir tablet_id min_v fuel v s = LoopResult.returned st r →
      st ≠ Status.OK := by
  intro fuel
  induction fuel with
  | zero =>
    intro v s r st h
    unfold find_garbage at h
    split at h <;> exact LoopResult.noConfusion h
  | succ fuel ih =>
    intro v s r st h
    unfold find_garbage at h
    split at h
    · simp only at h
      split at h
      · split at h
        · exact LoopResult.noConfusion h
        · injection h with h1 h2
          rw [← h1]
          exact fun e => Status.noConfusion e
      · split at h
        · injection h with h1 h2
          rw [← h1]
          exact fun e => Status.noConfusion e
        · split at h
          · exact ih _ _ _ _ h
          · exact LoopResult.noConfusion h
    · exact LoopResult.noConfusion h

/-- What a run of the body of the loop over the tablets that goes through
    hands to the deleter. -/
theorem delete_tablet_spec (env : FsEnv) (fuel : Nat) (data_dir meta_dir : String)
    (entry : Int × List Int) (s s1 : AsyncFileDeleter × World)
    (hle : entry.2.headD 0 ≤ entry.2.getLastD 0)
    (h : delete_tablet env fuel data_dir meta_dir entry s = Outcome.returned Status.OK s1) :
    ∃ part, s1.1.handed = s.1.handed ++ part ∧ purged_tablet env data_dir meta_dir entry part := by
  unfold delete_tablet at h
  cases hf : find_garbage env data_dir entry.1 (entry.2.headD 0) fuel (entry.2.getLastD 0)
      (none, s) with
  | returned st r =>
    rw [hf] at h
    simp only at h
    injection h with h1 h2
    exact absurd h1 (find_garbage_returned env data_dir _ _ _ _ _ _ _ hf)
  | aborted r => rw [hf] at h; exact Outcome.noConfusion h
  | out_of_fuel r => rw [hf] at h; exact Outcome.noConfusion h
  | done r =>
    rw [hf] at h
    simp only at h
    obtain ⟨l, hl1, hl2⟩ := find_garbage_handed env data_dir entry.1 (entry.2.headD 0) fuel
      (entry.2.getLastD 0) (none, s)
    rw [hf] at hl1
    have hl1 : r.2.1.handed = s.1.handed ++ l := hl1
    obtain ⟨_, hlatest⟩ := find_garbage_latest env data_dir _ _ _ _ _ _ hf
    have hlatest := hlatest rfl hle
    obtain ⟨purge, hpurge⟩ : ∃ purge, purge = (match r.1 with
      | some latest_metadata => delete_latest env data_dir latest_metadata r.2
      | none => (Status.OK, r.2)) := ⟨_, rfl⟩
    rw [← hpurge] at h
    have hp : ∃ l2, purge.2.1.handed = r.2.1.handed ++ l2 ∧
        (∀ p ∈ l2, is_data_path env.toEnv data_dir p) ∧
        (purge.1 = Status.OK → ∀ metadata,
          env.get_tablet_metadata entry.1 (entry.2.getLastD 0) = StatusOr.value metadata →
          ∀ p ∈ live_paths env data_dir metadata, p ∈ l2) := by
      cases hr : r.1 with
      | none =>
        rw [hr] at hpurge
        refine ⟨[], by rw [hpurge, List.append_nil], fun p hp => absurd hp (List.not_mem_nil p),
          fun _ metadata hmd => ?_⟩
        have := hlatest metadata hmd
        rw [hr] at this
        exact Option.noConfusion this
      | some latest_metadata =>
        rw [hr] at hpurge
        obtain ⟨_, l2, h1, h2, h3⟩ := delete_latest_hands env data_dir latest_metadata r.2 trivial
        have hpurge : purge = delete_latest env data_dir latest_metadata r.2 := hpurge
        have h2 : (delete_latest env data_dir latest_metadata r.2).2.1.handed
            = r.2.1.handed ++ l2 := h2
        rw [← hpurge] at h2 h3
        refine ⟨l2, h2, fun p hp => mem_live_paths_data env data_dir latest_metadata p
          (h1.subset hp), fun hok metadata hmd p hp => ?_⟩
        have := hlatest metadata hmd
        rw [hr] at this
        injection this with this
        rw [h3 hok, this]
        exact hp
    obtain ⟨l2, hp1, hp2, hp3⟩ := hp
    cases hst : purge.1 with
    | error c m => rw [hst] at h; exact Outcome.noConfusion h (fun e _ => Status.noConfusion e)
    | OK =>
      rw [hst] at h
      simp only at h
      injection h with h1 h2
      obtain ⟨_, l3, _, h5, h6⟩ := hands_for_each_map (metadata_path env meta_dir entry.1)
        (fun (version : Int) s0 =>
          delete_in env meta_dir (env.tablet_metadata_filename entry.1 version) s0)
        entry.2 (fun v _ => delete_in_hands env meta_dir _) purge.2 trivial
      have h5 : (for_each (fun (version : Int) s0 =>
          delete_in env meta_dir (env.tablet_metadata_filename entry.1 version) s0)
          entry.2 purge.2).2.1.handed = purge.2.1.handed ++ l3 := h5
      rw [h2] at h5
      rw [h6 h1, hp1, hl1] at h5
      refine ⟨(l ++ l2) ++ entry.2.map (metadata_path env meta_dir entry.1), ?_, l ++ l2, rfl,
        ?_, ?_⟩
      · rw [h5]
        simp only [List.append_assoc]
      · intro p hp
        rcases List.mem_append.1 hp with hp | hp
        · exact hl2 p hp
        · exact hp2 p hp
      · intro metadata hmd p hp
        exact List.mem_append_right _ (hp3 hst metadata hmd p hp)

/-- What a run of the loop over the tablets that goes through hands to the
    deleter: one part for each tablet, in order. -/
theorem delete_tablets_loop_spec (env : FsEnv) (fuel : Nat) (data_dir meta_dir : String) :
    ∀ (tablets : List (Int × List Int)) (s s1 : AsyncFileDeleter × World),
      (∀ entry ∈ tablets, entry.2.headD 0 ≤ entry.2.getLastD 0) →
      delete_tablets_loop env fuel data_dir meta_dir tablets s = Outcome.returned Status.OK s1 →
      ∃ parts, s1.1.handed = s.1.handed ++ parts.flatten ∧
        List.Forall₂ (purged_tablet env data_dir meta_dir) tablets parts := by
  intro tablets
  induction tablets with
  | nil =>
    intro s s1 _ h
    unfold delete_tablets_loop at h
    injection h with h1 h2
    subst h2
    exact ⟨[], by simp, List.Forall₂.nil⟩
  | cons entry rest ih =>
    intro s s1 hle h
    unfold delete_tablets_loop at h
    cases hd : delete_tablet env fuel data_dir meta_dir entry s with
    | aborted r => rw [hd] at h; exact Outcome.noConfusion h
    | out_of_fuel r => rw [hd] at h; exact Outcome.noConfusion h
    | returned st r =>
      rw [hd] at h
      cases st with
      | error c m => exact Outcome.noConfusion h (fun e _ => Status.noConfusion e)
      | OK =>
        simp only at h
        obtain ⟨part, hp1, hp2⟩ := delete_tablet_spec env fuel data_dir meta_dir entry s r
          (hle entry (List.mem_cons_self _ _)) hd
        obtain ⟨parts, hq1, hq2⟩ := ih r s1 (fun e he => hle e (List.mem_cons_of_mem _ he)) h
        refine ⟨part :: parts, ?_, List.Forall₂.cons hp2 hq2⟩
        rw [hq1, hp1, List.flatten_cons, List.append_assoc]

/-- The names the first listing of `delete_tablets_impl` keeps are names of
    the listing that pass the test of the callback. -/
theorem collect_txn_log_listing (env : FsEnv) (tablet_ids : List Int) :
    ∀ (names acc logs : List String),
      (visit_names (collect_txn_log env tablet_ids) names (some acc)).2 = some logs →
      ∀ x ∈ logs, x ∈ acc ∨ (x ∈ names ∧ txn_log_of_tablets env tablet_ids x = true) := by
  intro names
  induction names with
  | nil =>
    intro acc logs h x hx
    unfold visit_names at h
    injection h with h
    subst h
    exact Or.inl hx
  | cons name rest ih =>
    intro acc logs h x hx
    unfold visit_names at h
    by_cases hsel : txn_log_of_tablets env tablet_ids name = true
    · by_cases hmem : name ∈ acc
      · have e : collect_txn_log env tablet_ids name (some acc) = (false, none) := by
          unfold collect_txn_log
          simp only
          rw [if_neg (not_not.2 hsel), if_pos hmem]
        rw [e] at h
        exact Option.noConfusion h
      · have e : collect_txn_log env tablet_ids name (some acc)
            = (true, some (acc.orderedInsert (fun a b => a ≤ b) name)) := by
          unfold collect_txn_log
          simp only
          rw [if_neg (not_not.2 hsel), if_neg hmem]
        rw [e] at h
        simp only [if_true] at h
        rcases ih _ _ h x hx with h1 | ⟨h1, h2⟩
        · rcases (List.mem_orderedInsert _).1 h1 with h1 | h1
          · exact Or.inr ⟨h1 ▸ List.mem_cons_self _ _, h1 ▸ hsel⟩
          · exact Or.inl h1
        · exact Or.inr ⟨List.mem_cons_of_mem _ h1, h2⟩
    · have e : collect_txn_log env tablet_ids name (some acc) = (true, some acc) := by
        unfold collect_txn_log
        simp only
        rw [if_pos hsel]
      rw [e] at h
      simp only [if_true] at h
      rcases ih _ _ h x hx with h1 | ⟨h1, h2⟩
      · exact Or.inl h1
      · exact Or.inr ⟨List.mem_cons_of_mem _ h1, h2⟩

theorem txn_log_of_tablets_iff (env : FsEnv) (tablet_ids : List Int) (name : String)
    (hs : tablet_ids.Sorted (fun a b => a ≤ b)) :
    txn_log_of_tablets env tablet_ids name = true ↔
      ∃ id, txn_log_tablet_id env name = some id ∧ id ∈ tablet_ids := by
  unfold txn_log_of_tablets txn_log_tablet_id
  split
  · rw [binary_search_iff _ _ hs]
    simp
  · split
    · rw [binary_search_iff _ _ hs]
      simp
    · split
      · rw [binary_search_iff _ _ hs]
        simp
      · simp

theorem version_pairs_cons (entry : Int × List Int) (rest : List (Int × List Int)) :
    version_pairs (entry :: rest)
      = entry.2.map (fun version => (entry.1, version)) ++ version_pairs rest := by
  unfold version_pairs
  rw [List.flatMap_cons]

theorem mem_version_pairs (tablet_versions : List (Int × List Int)) (t v : Int) :
    (t, v) ∈ version_pairs tablet_versions ↔ ∃ versions, (t, versions) ∈ tablet_versions ∧
      v ∈ versions := by
  unfold version_pairs
  rw [List.mem_flatMap]
  constructor
  · rintro ⟨⟨t0, vs⟩, h1, h2⟩
    obtain ⟨x, hx, e⟩ := List.mem_map.1 h2
    injection e with e1 e2
    simp only at e1 e2
    subst e1 e2
    exact ⟨vs, h1, hx⟩
  · rintro ⟨vs, h1, h2⟩
    exact ⟨(t, vs), h1, List.mem_map.2 ⟨v, h2, rfl⟩⟩

/-- An insertion into `tablet_versions` that finds the version new keeps the
    map well formed and adds the one pair. -/
theorem versions_insert_spec (tablet_id version : Int) :
    ∀ (tv tv1 : List (Int × List Int)), versions_wf tv →
      versions_insert tv tablet_id version = some tv1 →
      versions_wf tv1 ∧
      (∀ k, k ∈ tv1.map Prod.fst ↔ k ∈ tv.map Prod.fst ∨ k = tablet_id) ∧
      ∀ p, p ∈ version_pairs tv1 ↔ p ∈ version_pairs tv ∨ p = (tablet_id, version) := by
  intro tv
  induction tv with
  | nil =>
    intro tv1 _ h
    unfold versions_insert at h
    injection h with h
    subst h
    refine ⟨⟨by simp, ?_⟩, by simp, by simp [version_pairs]⟩
    intro entry he
    rw [List.mem_singleton] at he
    subst he
    exact ⟨by simp, List.sorted_singleton _, List.nodup_singleton _⟩
  | cons entry rest ih =>
    intro tv1 hwf h
    obtain ⟨t0, vs⟩ := entry
    obtain ⟨hk, he⟩ := hwf
    have hwf_rest : versions_wf rest :=
      ⟨(List.nodup_cons.1 hk).2, fun e h => he e (List.mem_cons_of_mem _ h)⟩
    unfold versions_insert at h
    by_cases ht : t0 = tablet_id
    · rw [if_pos ht] at h
      by_cases hv : version ∈ vs
      · rw [if_pos hv] at h
        exact Option.noConfusion h
      · rw [if_neg hv] at h
        injection h with h
        subst h
        obtain ⟨h1, h2, h3⟩ := he (t0, vs) (List.mem_cons_self _ _)
        refine ⟨⟨hk, ?_⟩, ?_, ?_⟩
        · intro e hmem
          rcases List.mem_cons.1 hmem with hmem | hmem
          · subst hmem
            refine ⟨?_, List.Sorted.orderedInsert _ _ h2, ?_⟩
            · intro hnil
              have := List.orderedInsert_length (fun a b : Int => a ≤ b) vs version
              simp only at hnil
              rw [hnil] at this
              exact absurd this (by simp)
            · exact ((List.perm_orderedInsert _ version vs).nodup_iff).2
                (List.nodup_cons.2 ⟨hv, h3⟩)
          · exact he e (List.mem_cons_of_mem _ hmem)
        · intro k
          simp only [List.map_cons, List.mem_cons]
          constructor
          · exact Or.inl
          · rintro (h | h)
            · exact h
            · exact Or.inl (h.trans ht.symm)
        · intro p
          rw [version_pairs_cons, version_pairs_cons]
          simp only [List.mem_append, List.mem_map, List.mem_orderedInsert]
          constructor
          · rintro (⟨x, hx | hx, rfl⟩ | h)
            · right
              rw [hx, ht]
            · exact Or.inl (Or.inl ⟨x, hx, rfl⟩)
            · exact Or.inl (Or.inr h)
          · rintro ((⟨x, hx, rfl⟩ | h) | h)
            · exact Or.inl ⟨x, Or.inr hx, rfl⟩
            · exact Or.inr h
            · refine Or.inl ⟨version, Or.inl rfl, ?_⟩
              rw [h, ht]
    · rw [if_neg ht] at h
      cases hr : versions_insert rest tablet_id version with
      | none => rw [hr] at h; exact Option.noConfusion h
      | some r =>
        rw [hr] at h
        injection h with h
        subst h
        obtain ⟨⟨w1, w2⟩, i2, i3⟩ := ih r hwf_rest hr
        refine ⟨⟨?_, ?_⟩, ?_, ?_⟩
        · rw [List.map_cons, List.nodup_cons]
          refine ⟨fun hmem => ?_, w1⟩
          rcases (i2 t0).1 hmem with h | h
          · exact (List.nodup_cons.1 hk).1 h
          · exact ht h
        · intro e hmem
          rcases List.mem_cons.1 hmem with hmem | hmem
          · subst hmem
            exact he _ (List.mem_cons_self _ _)
          · exact w2 e hmem
        · intro k
          simp only [List.map_cons, List.mem_cons]
          rw [i2 k]
          exact or_assoc.symm
        · intro p
          rw [version_pairs_cons, version_pairs_cons]
          simp only [List.mem_append]
          rw [i3 p]
          exact or_assoc.symm

/-- The map the second listing of `delete_tablets_impl` builds is well formed
    and holds the pairs parsed from the names of tablet metadata files of the
    given tablets. -/
theorem collect_tablet_version_listing (env : FsEnv) (tablet_ids : List Int) :
    ∀ (names : List String) (acc tv : List (Int × List Int)), versions_wf acc →
      (visit_names (collect_tablet_version env tablet_ids) names (some acc)).2 = some tv →
      versions_wf tv ∧
      ∀ p, p ∈ version_pairs tv ↔ p ∈ version_pairs acc ∨
        ∃ name ∈ names, env.is_tablet_metadata name = true ∧
          binary_search tablet_ids (env.parse_tablet_metadata_filename name).1 = true ∧
          env.parse_tablet_metadata_filename name = p := by
  intro names
  induction names with
  | nil =>
    intro acc tv hwf h
    unfold visit_names at h
    injection h with h
    subst h
    exact ⟨hwf, fun p => by simp⟩
  | cons name rest ih =>
    intro acc tv hwf h
    unfold visit_names at h
    by_cases hm : env.is_tablet_metadata name = true
    · by_cases hb : binary_search tablet_ids (env.parse_tablet_metadata_filename name).1 = true
      · cases hi : versions_insert acc (env.parse_tablet_metadata_filename name).1
            (env.parse_tablet_metadata_filename name).2 with
        | none =>
          have e : collect_tablet_version env tablet_ids name (some acc) = (false, none) := by
            unfold collect_tablet_version
            simp only
            rw [if_neg (not_not.2 hm), if_neg (not_not.2 hb), hi]
          rw [e] at h
          exact Option.noConfusion h
        | some tv1 =>
          have e : collect_tablet_version env tablet_ids name (some acc) = (true, some tv1) := by
            unfold collect_tablet_version
            simp only
            rw [if_neg (not_not.2 hm), if_neg (not_not.2 hb), hi]
          rw [e] at h
          simp only [if_true] at h
          obtain ⟨w1, _, w3⟩ := versions_insert_spec _ _ acc tv1 hwf hi
          obtain ⟨i1, i2⟩ := ih tv1 tv w1 h
          refine ⟨i1, fun p => ?_⟩
          rw [i2 p, w3 p]
          constructor
          · rintro ((h1 | h1) | ⟨n, hn, h2⟩)
            · exact Or.inl h1
            · exact Or.inr ⟨name, List.mem_cons_self _ _, hm, hb, h1.symm⟩
            · exact Or.inr ⟨n, List.mem_cons_of_mem _ hn, h2⟩
          · rintro (h1 | ⟨n, hn, h2⟩)
            · exact Or.inl (Or.inl h1)
            · rcases List.mem_cons.1 hn with hn | hn
              · subst hn
                exact Or.inl (Or.inr h2.2.2.symm)
              · exact Or.inr ⟨n, hn, h2⟩
      · have e : collect_tablet_version env tablet_ids name (some acc) = (true, some acc) := by
          unfold collect_tablet_version
          simp only
          rw [if_neg (not_not.2 hm), if_pos hb]
        rw [e] at h
        simp only [if_true] at h
        obtain ⟨i1, i2⟩ := ih acc tv hwf h
        refine ⟨i1, fun p => ?_⟩
        rw [i2 p]
        constructor
        · rintro (h1 | ⟨n, hn, h2⟩)
          · exact Or.inl h1
          · exact Or.inr ⟨n, List.mem_cons_of_mem _ hn, h2⟩
        · rintro (h1 | ⟨n, hn, h2⟩)
          · exact Or.inl h1
          · rcases List.mem_cons.1 hn with hn | hn
            · subst hn
              exact absurd h2.2.1 hb
            · exact Or.inr ⟨n, hn, h2⟩
    · have e : collect_tablet_version env tablet_ids name (some acc) = (true, some acc) := by
        unfold collect_tablet_version
        simp only
        rw [if_pos hm]
      rw [e] at h
      simp only [if_true] at h
      obtain ⟨i1, i2⟩ := ih acc tv hwf h
      refine ⟨i1, fun p => ?_⟩
      rw [i2 p]
      constructor
      · rintro (h1 | ⟨n, hn, h2⟩)
        · exact Or.inl h1
        · exact Or.inr ⟨n, List.mem_cons_of_mem _ hn, h2⟩
      · rintro (h1 | ⟨n, hn, h2⟩)
        · exact Or.inl h1
        · rcases List.mem_cons.1 hn with hn | hn
          · subst hn
            exact absurd h2.1 hm
          · exact Or.inr ⟨n, hn, h2⟩

theorem version_pairs_nodup (tv : List (Int × List Int)) (h : versions_wf tv) :
    (version_pairs tv).Nodup := by
  unfold version_pairs
  rw [List.nodup_flatMap]
  refine ⟨fun entry he => ?_, ?_⟩
  · exact (h.2 entry he).2.2.map (fun a b e => (Prod.mk.inj e).2)
  · have hk := List.pairwise_map.1 h.1
    refine hk.imp ?_
    intro a b hab
    show List.Disjoint _ _
    intro p h1 h2
    obtain ⟨x, _, rfl⟩ := List.mem_map.1 h1
    obtain ⟨y, _, e⟩ := List.mem_map.1 h2
    exact hab (Prod.mk.inj e).1.symm

theorem sorted_le_getLastD (l : List Int) (hs : l.Sorted (fun a b => a ≤ b)) :
    ∀ v ∈ l, v ≤ l.getLastD 0 := by
  induction l with
  | nil => intro v hv; exact absurd hv (List.not_mem_nil v)
  | cons a rest ih =>
    intro v hv
    cases rest with
    | nil =>
      rw [List.mem_singleton] at hv
      subst hv
      exact le_refl _
    | cons b rest2 =>
      have hs2 := List.sorted_cons.1 hs
      have e : (a :: b :: rest2).getLastD 0 = (b :: rest2).getLastD 0 := by
        simp [List.getLastD]
      rw [e]
      rcases List.mem_cons.1 hv with hv | hv
      · subst hv
        exact le_trans (hs2.1 b (List.mem_cons_self _ _))
          (ih hs2.2 b (List.mem_cons_self _ _))
      · exact ih hs2.2 v hv

theorem getLastD_mem (l : List Int) (h : l ≠ []) : l.getLastD 0 ∈ l := by
  induction l with
  | nil => exact absurd rfl h
  | cons a rest ih =>
    cases rest with
    | nil => exact List.mem_singleton.2 rfl
    | cons b rest2 =>
      have e : (a :: b :: rest2).getLastD 0 = (b :: rest2).getLastD 0 := by
        simp [List.getLastD]
      rw [e]
      exact List.mem_cons_of_mem _ (ih (List.cons_ne_nil _ _))

theorem headD_le_getLastD (l : List Int) (hs : l.Sorted (fun a b => a ≤ b)) :
    l.headD 0 ≤ l.getLastD 0 := by
  cases l with
  | nil => exact le_refl _
  | cons a rest => exact sorted_le_getLastD _ hs a (List.mem_cons_self _ _)

theorem versions_wf_nil : versions_wf [] :=
  ⟨List.nodup_nil, fun e he => absurd he (List.not_mem_nil e)⟩

theorem delete_tablets_impl_spec (env : FsEnv) (fuel : Nat) (root_dir : String)
    (tablet_ids : List Int) (w : World) (d : AsyncFileDeleter) (w1 : World)
    (hsorted : tablet_ids.Sorted (fun a b => a ≤ b))
    (hok : delete_tablets_impl env fuel root_dir tablet_ids w
      = Outcome.returned Status.OK (d, w1)) :
    ∃ (log_part : List String) (tablets : List (Int × List Int)) (parts : List (List String)),
      d.submitted.flatten = log_part ++ parts.flatten ∧ d._batch = [] ∧
      (∀ p ∈ log_part,
        is_data_path env.toEnv (env.join_path root_dir env.kSegmentDirectoryName) p ∨
        ∃ name, listed_txn_log env (env.join_path root_dir env.kTxnLogDirectoryName)
            tablet_ids name ∧
          p = env.join_path (env.join_path root_dir env.kTxnLogDirectoryName) name) ∧
      versions_wf tablets ∧
      (∀ t v, (t, v) ∈ version_pairs tablets ↔
        listed_version env (env.join_path root_dir env.kMetadataDirectoryName) tablet_ids t v) ∧
      List.Forall₂ (purged_tablet env (env.join_path root_dir env.kSegmentDirectoryName)
        (env.join_path root_dir env.kMetadataDirectoryName)) tablets parts := by
  unfold delete_tablets_impl at hok
  simp only at hok
  cases hfs : env.create_fs root_dir with
  | error c m => rw [hfs] at hok; exact Outcome.noConfusion hok (fun e _ => Status.noConfusion e)
  | OK =>
    rw [hfs] at hok
    simp only at hok
    cases hl1 : (iterate_dir env (env.join_path root_dir env.kTxnLogDirectoryName)
        (collect_txn_log env tablet_ids) (some [])).2 with
    | none => rw [hl1] at hok; exact Outcome.noConfusion hok
    | some txn_logs =>
      rw [hl1] at hok
      simp only at hok
      split at hok
      · exact Outcome.noConfusion hok (fun e _ => Status.noConfusion e)
      · obtain ⟨r1, hr1⟩ : ∃ r1, r1 = for_each (delete_txn_log env
            (env.join_path root_dir env.kSegmentDirectoryName)
            (env.join_path root_dir env.kTxnLogDirectoryName)) txn_logs
            (({ _batch_size := env.lake_vacuum_min_batch_delete_size } : AsyncFileDeleter), w) :=
          ⟨_, rfl⟩
        rw [← hr1] at hok
        cases hs1 : r1.1 with
        | error c m =>
          rw [hs1] at hok
          exact Outcome.noConfusion hok (fun e _ => Status.noConfusion e)
        | OK =>
          rw [hs1] at hok
          simp only at hok
          cases hl2 : (iterate_dir env (env.join_path root_dir env.kMetadataDirectoryName)
              (collect_tablet_version env tablet_ids) (some [])).2 with
          | none => rw [hl2] at hok; exact Outcome.noConfusion hok
          | some tablet_versions =>
            rw [hl2] at hok
            simp only at hok
            split at hok
            · exact Outcome.noConfusion hok (fun e _ => Status.noConfusion e)
            · cases hloop : delete_tablets_loop env fuel
                  (env.join_path root_dir env.kSegmentDirectoryName)
                  (env.join_path root_dir env.kMetadataDirectoryName) tablet_versions r1.2 with
              | aborted r => rw [hloop] at hok; exact Outcome.noConfusion hok
              | out_of_fuel r => rw [hloop] at hok; exact Outcome.noConfusion hok
              | returned st s =>
                rw [hloop] at hok
                cases st with
                | error c m => exact Outcome.noConfusion hok (fun e _ => Status.noConfusion e)
                | OK =>
                  simp only at hok
                  injection hok with hfin1 hfin2
                  -- the txn logs
                  obtain ⟨_, l1, hp1, hh1, _⟩ := hands_for_each
                    (txn_log_paths env (env.join_path root_dir env.kSegmentDirectoryName)
                      (env.join_path root_dir env.kTxnLogDirectoryName))
                    (delete_txn_log env (env.join_path root_dir env.kSegmentDirectoryName)
                      (env.join_path root_dir env.kTxnLogDirectoryName)) txn_logs
                    (fun x _ => delete_txn_log_hands env _ _ x)
                    (({ _batch_size := env.lake_vacuum_min_batch_delete_size } :
                      AsyncFileDeleter), w) trivial
                  rw [← hr1] at hh1
                  have hh1 : r1.2.1.handed = l1 := by
                    have e : r1.2.1.handed = [] ++ l1 := hh1
                    rw [e, List.nil_append]
                  have hlisted := collect_txn_log_listing env tablet_ids _ _ _ hl1
                  -- the listing of the metadata
                  obtain ⟨wf, hpairs⟩ := collect_tablet_version_listing env tablet_ids _ _ _
                    versions_wf_nil hl2
                  -- the tablets
                  obtain ⟨parts, hparts, hforall⟩ := delete_tablets_loop_spec env fuel _ _
                    tablet_versions r1.2 s
                    (fun entry he => headD_le_getLastD _ (wf.2 entry he).2.1) hloop
                  -- the end
                  obtain ⟨hf1, _, hf3⟩ := AsyncFileDeleter.finish_frame env.toEnv s.1 s.2
                  have hd : (s.1.finish env.toEnv s.2).2.1 = d := congrArg Prod.fst hfin2
                  rw [hd] at hf1 hf3
                  have hbatch := hf3 hfin1
                  refine ⟨l1, tablet_versions, parts, ?_, hbatch, ?_, wf, ?_, hforall⟩
                  · have e : d.handed = d.submitted.flatten := by
                      unfold AsyncFileDeleter.handed
                      rw [hbatch, List.append_nil]
                    rw [← e, hf1, hparts, hh1]
                  · intro p hp
                    obtain ⟨x, hx, hpx⟩ := List.mem_flatMap.1 (hp1.subset hp)
                    rcases mem_txn_log_paths env _ _ x p hpx with h | h
                    · exact Or.inl h
                    · right
                      rcases hlisted x hx with h2 | ⟨h2, h3⟩
                      · exact absurd h2 (List.not_mem_nil x)
                      · exact ⟨x, ⟨h2, (txn_log_of_tablets_iff env tablet_ids x hsorted).1 h3⟩,
                          h⟩
                  · intro t v
                    rw [hpairs (t, v)]
                    constructor
                    · rintro (h | ⟨name, hn, h1, h2, h3⟩)
                      · exact absurd h (List.not_mem_nil _)
                      · refine ⟨?_, name, hn, h1, h3⟩
                        rw [h3] at h2
                        exact (binary_search_iff _ _ hsorted).1 h2
                    · rintro ⟨h1, name, hn, h2, h3⟩
                      refine Or.inr ⟨name, hn, h2, ?_, h3⟩
                      rw [h3]
                      exact (binary_search_iff _ _ hsorted).2 h1

theorem purged_parts_count (env : FsEnv) (data_dir meta_dir : String) (x : String)
    (hx : ¬ is_data_path env.toEnv data_dir x) :
    ∀ (tablets : List (Int × List Int)) (parts : List (List String)),
      List.Forall₂ (purged_tablet env data_dir meta_dir) tablets parts →
      parts.flatten.count x
        = ((version_pairs tablets).map fun p => metadata_path env meta_dir p.1 p.2).count x := by
  intro tablets parts h
  induction h with
  | nil => rfl
  | cons hp _ ih =>
    obtain ⟨data, h1, h2, _⟩ := hp
    rw [List.flatten_cons, version_pairs_cons, List.map_append, List.count_append,
      List.count_append, ih, h1, List.count_append,
      List.count_eq_zero_of_not_mem (fun hm => hx (h2 x hm)), zero_add, List.map_map]
    rfl

/-- When the names keep the listed metadata files apart, the path of each of
    them occurs once among the paths that make up the log part and the parts
    of the tablets. -/
theorem purged_metadata_count (env : FsEnv) (root_dir : String) (tablet_ids : List Int)
    (log_part : List String) (tablets : List (Int × List Int)) (parts : List (List String))
    (hlog : ∀ p ∈ log_part,
      is_data_path env.toEnv (env.join_path root_dir env.kSegmentDirectoryName) p ∨
      ∃ name, listed_txn_log env (env.join_path root_dir env.kTxnLogDirectoryName)
          tablet_ids name ∧
        p = env.join_path (env.join_path root_dir env.kTxnLogDirectoryName) name)
    (hnodup : (version_pairs tablets).Nodup)
    (hpairs : ∀ t v, (t, v) ∈ version_pairs tablets ↔
      listed_version env (env.join_path root_dir env.kMetadataDirectoryName) tablet_ids t v)
    (hparts : List.Forall₂ (purged_tablet env (env.join_path root_dir env.kSegmentDirectoryName)
      (env.join_path root_dir env.kMetadataDirectoryName)) tablets parts)
    (hapart : metadata_paths_apart env root_dir tablet_ids) (t v : Int)
    (hl : listed_version env (env.join_path root_dir env.kMetadataDirectoryName) tablet_ids t v) :
    (log_part ++ parts.flatten).count
      (metadata_path env (env.join_path root_dir env.kMetadataDirectoryName) t v) = 1 := by
  obtain ⟨a1, a2, a3⟩ := hapart
  have hx : ¬ is_data_path env.toEnv (env.join_path root_dir env.kSegmentDirectoryName)
      (metadata_path env (env.join_path root_dir env.kMetadataDirectoryName) t v) := by
    rintro ⟨name, hn⟩
    exact a1 name t v hl hn.symm
  have h0 : metadata_path env (env.join_path root_dir env.kMetadataDirectoryName) t v
      ∉ log_part := by
    intro hm
    rcases hlog _ hm with h | ⟨name, _, h⟩
    · exact hx h
    · exact a2 name t v hl h.symm
  rw [List.count_append, List.count_eq_zero_of_not_mem h0, zero_add,
    purged_parts_count env _ _ _ hx tablets parts hparts]
  have hnd : ((version_pairs tablets).map fun p =>
      metadata_path env (env.join_path root_dir env.kMetadataDirectoryName) p.1 p.2).Nodup := by
    refine List.Nodup.map_on ?_ hnodup
    rintro ⟨t1, v1⟩ h1 ⟨t2, v2⟩ h2 e
    obtain ⟨e1, e2⟩ := a3 t1 v1 t2 v2 ((hpairs t1 v1).1 h1) ((hpairs t2 v2).1 h2) e
    rw [e1, e2]
  exact List.count_eq_one_of_mem hnd
    (List.mem_map.2 ⟨(t, v), (hpairs t v).2 hl, rfl⟩)

theorem purge_env_listed (t v : Int)
    (h : listed_version purge_env (purge_env.join_path "root" purge_env.kMetadataDirectoryName)
      [7] t v) :
    (t = 7 ∧ v = 3) ∨ (t = 7 ∧ v = 2) := by
  obtain ⟨h1, name, hn, _, hp⟩ := h
  have ht : t = 7 := List.mem_singleton.1 h1
  have hn : name ∈ ["7_3.meta", "8_1.meta", "7_2.meta", "readme"] := hn
  simp only [List.mem_cons, List.mem_singleton, List.not_mem_nil, or_false] at hn
  rcases hn with rfl | rfl | rfl | rfl
  · have e : ((7 : Int), (3 : Int)) = (t, v) := hp
    exact Or.inl ⟨ht, (Prod.mk.inj e).2.symm⟩
  · have e : ((8 : Int), (1 : Int)) = (t, v) := hp
    rw [ht] at e
    exact absurd (Prod.mk.inj e).1 (by decide)
  · have e : ((7 : Int), (2 : Int)) = (t, v) := hp
    exact Or.inr ⟨ht, (Prod.mk.inj e).2.symm⟩
  · have e : ((8 : Int), (1 : Int)) = (t, v) := hp
    rw [ht] at e
    exact absurd (Prod.mk.inj e).1 (by decide)

theorem purge_env_apart : metadata_paths_apart purge_env "root" [7] := by
  have p3 : metadata_path purge_env (purge_env.join_path "root" purge_env.kMetadataDirectoryName)
      7 3 = "root/meta/7_3.meta" := by decide
  have p2 : metadata_path purge_env (purge_env.join_path "root" purge_env.kMetadataDirectoryName)
      7 2 = "root/meta/7_2.meta" := by decide
  refine ⟨?_, ?_, ?_⟩
  · intro name t v hl h
    have h2 : "root/data" ++ "/" ++ name = metadata_path purge_env
      (purge_env.join_path "root" purge_env.kMetadataDirectoryName) t v := h
    rcases purge_env_listed t v hl with ⟨rfl, rfl⟩ | ⟨rfl, rfl⟩
    · rw [p3] at h2
      have h3 := congrArg (fun s : String => s.data.take 6) h2
      simp [String.data_append] at h3
    · rw [p2] at h2
      have h3 := congrArg (fun s : String => s.data.take 6) h2
      simp [String.data_append] at h3
  · intro name t v hl h
    have h2 : "root/log" ++ "/" ++ name = metadata_path purge_env
      (purge_env.join_path "root" purge_env.kMetadataDirectoryName) t v := h
    rcases purge_env_listed t v hl with ⟨rfl, rfl⟩ | ⟨rfl, rfl⟩
    · rw [p3] at h2
      have h3 := congrArg (fun s : String => s.data.take 6) h2
      simp [String.data_append] at h3
    · rw [p2] at h2
      have h3 := congrArg (fun s : String => s.data.take 6) h2
      simp [String.data_append] at h3
  · intro t v t1 v1 hl hl1 h
    rcases purge_env_listed t v hl with ⟨rfl, rfl⟩ | ⟨rfl, rfl⟩ <;>
      rcases purge_env_listed t1 v1 hl1 with ⟨rfl, rfl⟩ | ⟨rfl, rfl⟩
    · exact ⟨rfl, rfl⟩
    · rw [p3, p2] at h
      exact absurd h (by decide)
    · rw [p3, p2] at h
      exact absurd h (by decide)
    · exact ⟨rfl, rfl⟩

theorem list_meta_files_value (env : FsEnv) (metadata_root_location : String)
    (meta_files : List String)
    (h : list_meta_files env metadata_root_location = StatusOr.value meta_files) :
    meta_files = (env.iterate_dir metadata_root_location).1.filter env.is_tablet_metadata := by
  unfold list_meta_files iterate_dir at h
  simp only [visit_names_list_meta_files, List.nil_append] at h
  split at h
  · exact StatusOr.noConfusion h
  · injection h with h
    exact h.symm

/-- After the loop over the metadata files, started on any candidates, no
    remaining candidate is in `data_files_in_metadatas`. -/
theorem filter_loop_disjoint (env : FsEnv) (metadata_root_location : String)
    (data_files : List (String × DirEntry)) (meta_files : List String) :
    (∀ kv ∈ (meta_files.foldl (filter_with_metadata env metadata_root_location)
        { data_files := data_files }).data_files,
      kv.1 ∉ (meta_files.foldl (filter_with_metadata env metadata_root_location)
        { data_files := data_files }).data_files_in_metadatas) ∧
    ∀ kv ∈ (meta_files.foldl (filter_with_metadata env metadata_root_location)
        { data_files := data_files }).data_files,
      kv ∈ data_files ∧
      kv.1 ∉ meta_files.flatMap (metadata_file_names env metadata_root_location) := by
  obtain ⟨f1, f2, _⟩ := foldl_filter_with_metadata_filtered env metadata_root_location
    { data_files := data_files } meta_files { data_files := data_files } []
    (OrphanState.filtered_start _)
  rw [List.nil_append] at f1 f2
  refine ⟨fun kv hkv hin => ?_, fun kv hkv => (f1 kv.1 kv.2).1 hkv⟩
  rcases (f2 kv.1).1 hin with h | h
  · exact absurd h (List.not_mem_nil _)
  · exact ((f1 kv.1 kv.2).1 hkv).2 h

theorem filter_loop_check (env : FsEnv) (metadata_root_location : String)
    (data_files : List (String × DirEntry)) (meta_files : List String) :
    ((meta_files.foldl (filter_with_metadata env metadata_root_location)
        { data_files := data_files }).data_files.any fun kv =>
      decide (kv.1 ∈ (meta_files.foldl (filter_with_metadata env metadata_root_location)
        { data_files := data_files }).data_files_in_metadatas)) = false := by
  rw [Bool.eq_false_iff]
  intro hany
  obtain ⟨kv, hkv, hin⟩ := List.any_eq_true.1 hany
  rw [decide_eq_true_iff] at hin
  exact (filter_loop_disjoint env metadata_root_location data_files meta_files).1 kv hkv hin

/-- Function `find_orphan_data_files` is the function without its double
    check. -/
theorem find_orphan_data_files_eq (env : FsEnv) (root_location : String)
    (expired_seconds : Int) :
    find_orphan_data_files env root_location expired_seconds
      = match list_data_files env (env.join_path root_location env.kSegmentDirectoryName)
          expired_seconds with
        | StatusOr.error c m => StatusOr.error c m
        | StatusOr.value data_files =>
          if data_files.isEmpty then StatusOr.value data_files
          else
            match list_meta_files env
                (env.join_path root_location env.kMetadataDirectoryName) with
            | StatusOr.error c m => StatusOr.error c m
            | StatusOr.value meta_files =>
              StatusOr.value (meta_files.foldl
                (filter_with_metadata env
                  (env.join_path root_location env.kMetadataDirectoryName))
                { data_files := data_files }).data_files := by
  unfold find_orphan_data_files
  simp only
  cases list_data_files env (env.join_path root_location env.kSegmentDirectoryName)
      expired_seconds with
  | error c m => rfl
  | value data_files =>
    simp only
    split
    · rfl
    · cases list_meta_files env (env.join_path root_location env.kMetadataDirectoryName) with
      | error c m => rfl
      | value meta_files =>
        simp only
        rw [filter_loop_check]
        simp

/-- No file that `find_orphan_data_files` returns is named by a listed metadata
    file that loads. -/
theorem find_orphan_data_files_unreferenced (env : FsEnv) (root_location : String)
    (expired_seconds : Int) (orphans : List (String × DirEntry))
    (h : find_orphan_data_files env root_location expired_seconds = StatusOr.value orphans) :
    ∀ kv ∈ orphans, kv.1 ∉ referenced_data_files env
      (env.join_path root_location env.kMetadataDirectoryName) := by
  rw [find_orphan_data_files_eq] at h
  cases hd : list_data_files env (env.join_path root_location env.kSegmentDirectoryName)
      expired_seconds with
  | error c m => rw [hd] at h; exact StatusOr.noConfusion h
  | value data_files =>
    rw [hd] at h
    simp only at h
    split at h
    · rename_i hempty
      injection h with h
      subst h
      rw [List.isEmpty_iff.1 hempty]
      intro kv hkv
      exact absurd hkv (List.not_mem_nil _)
    · cases hm : list_meta_files env
          (env.join_path root_location env.kMetadataDirectoryName) with
      | error c m => rw [hm] at h; exact StatusOr.noConfusion h
      | value meta_files =>
        rw [hm] at h
        simp only at h
        injection h with h
        subst h
        intro kv hkv
        have := ((filter_loop_disjoint env _ data_files meta_files).2 kv hkv).2
        rw [list_meta_files_value env _ meta_files hm] at this
        exact this

theorem fs_deleted_paths_append (l₁ l₂ : List FsEvent) :
    fs_deleted_paths (l₁ ++ l₂) = fs_deleted_paths l₁ ++ fs_deleted_paths l₂ := by
  unfold fs_deleted_paths
  rw [List.flatMap_append]

/-- The loop of `delete_files_with_retry` gives the file system no path but
    those of `paths`, however it ends. -/
theorem delete_files_with_retry_loop_paths (env : FsEnv) (paths : List String) :
    ∀ (fuel : Nat) (k : Int) (trace : List FsEvent),
      ∀ p ∈ fs_deleted_paths (delete_files_with_retry_loop env paths fuel k trace).state,
        p ∈ fs_deleted_paths trace ∨ p ∈ paths := by
  intro fuel
  induction fuel with
  | zero =>
    intro k trace p hp
    exact Or.inl hp
  | succ fuel ih =>
    intro k trace p hp
    unfold delete_files_with_retry_loop at hp
    simp only at hp
    split at hp
    · rcases ih _ _ p hp with h | h
      · rw [fs_deleted_paths_append, fs_deleted_paths_append] at h
        rcases List.mem_append.1 h with h | h
        · rcases List.mem_append.1 h with h | h
          · exact Or.inl h
          · right
            simpa [fs_deleted_paths] using h
        · simp [fs_deleted_paths] at h
      · exact Or.inr h
    · have hp : p ∈ fs_deleted_paths (trace ++ [FsEvent.delete_files paths]) := hp
      rw [fs_deleted_paths_append] at hp
      rcases List.mem_append.1 hp with h | h
      · exact Or.inl h
      · right
        simpa [fs_deleted_paths] using h

theorem delete_single_batch_paths (env : FsEnv) (batch : List String) (trace : List FsEvent) :
    ∀ p ∈ fs_deleted_paths (delete_single_batch env batch trace).state,
      p ∈ fs_deleted_paths trace ∨ p ∈ batch := by
  intro p hp
  unfold delete_single_batch delete_files_with_retry at hp
  rcases delete_files_with_retry_loop_paths env batch _ _ _ p hp with h | h
  · left
    split at h
    · rw [fs_deleted_paths_append] at h
      rcases List.mem_append.1 h with h | h
      · exact h
      · simp [fs_deleted_paths] at h
    · exact h
  · exact Or.inr h

theorem do_delete_batches_paths (env : FsEnv) (paths : List String) (batch_size : Int) :
    ∀ (remaining i : Nat) (trace : List FsEvent),
      ∀ p ∈ fs_deleted_paths (do_delete_batches env paths batch_size remaining i trace).state,
        p ∈ fs_deleted_paths trace ∨ p ∈ paths := by
  intro remaining
  induction remaining with
  | zero =>
    intro i trace p hp
    exact Or.inl hp
  | succ remaining ih =>
    intro i trace p hp
    unfold do_delete_batches at hp
    split at hp
    · exact Or.inl hp
    · have hb := delete_single_batch_paths env
        ((paths.drop (i * batch_size.toNat)).take batch_size.toNat) trace
      cases hd : delete_single_batch env
          ((paths.drop (i * batch_size.toNat)).take batch_size.toNat) trace with
      | returned st trace1 =>
        rw [hd] at hp hb
        have hmem : ∀ q, q ∈ fs_deleted_paths trace1 → q ∈ fs_deleted_paths trace ∨ q ∈ paths := by
          intro q hq
          rcases hb q hq with h | h
          · exact Or.inl h
          · exact Or.inr (List.mem_of_mem_drop (List.mem_of_mem_take h))
        cases st with
        | OK =>
          simp only at hp
          rcases ih _ _ p hp with h | h
          · exact hmem p h
          · exact Or.inr h
        | error c m => exact hmem p hp
      | aborted trace1 =>
        rw [hd] at hp hb
        rcases hb p hp with h | h
        · exact Or.inl h
        · exact Or.inr (List.mem_of_mem_drop (List.mem_of_mem_take h))
      | out_of_fuel trace1 =>
        rw [hd] at hp hb
        rcases hb p hp with h | h
        · exact Or.inl h
        · exact Or.inr (List.mem_of_mem_drop (List.mem_of_mem_take h))

theorem do_delete_files_paths (env : FsEnv) (paths : List String) (trace : List FsEvent) :
    ∀ p ∈ fs_deleted_paths (do_delete_files env paths trace).state,
      p ∈ fs_deleted_paths trace ∨ p ∈ paths := by
  intro p hp
  unfold do_delete_files at hp
  split at hp
  · exact Or.inl hp
  · simp only at hp
    split at hp
    · exact Or.inl hp
    · exact do_delete_batches_paths env paths _ _ _ _ p hp

/-- Function `partition_datafile_gc` gives the file system no path but those of
    the orphans that `find_orphan_data_files` returns. -/
theorem partition_datafile_gc_paths (env : FsEnv) (root_location : String)
    (expired_seconds : Int) (do_delete : Bool) (trace : List FsEvent) :
    ∀ p ∈ fs_deleted_paths
        (partition_datafile_gc env root_location expired_seconds do_delete trace).state.2,
      p ∈ fs_deleted_paths trace ∨
      ∃ orphans kv, find_orphan_data_files env root_location expired_seconds
          = StatusOr.value orphans ∧ kv ∈ orphans ∧
        p = env.join_path (env.join_path root_location env.kSegmentDirectoryName) kv.1 := by
  intro p hp
  unfold partition_datafile_gc at hp
  split at hp
  · exact Or.inl hp
  · cases hf : find_orphan_data_files env root_location expired_seconds with
    | error c m =>
      rw [hf] at hp
      exact Or.inl hp
    | value orphans =>
      rw [hf] at hp
      simp only at hp
      split at hp
      · exact Or.inl hp
      · have hd := do_delete_files_paths env
          (orphans.map fun kv =>
            env.join_path (env.join_path root_location env.kSegmentDirectoryName) kv.1) trace
        have hmem : ∀ q, q ∈ fs_deleted_paths (do_delete_files env
            (orphans.map fun kv =>
              env.join_path (env.join_path root_location env.kSegmentDirectoryName) kv.1)
            trace).state →
            q ∈ fs_deleted_paths trace ∨
            ∃ orphans' kv, StatusOr.value orphans = StatusOr.value orphans' ∧ kv ∈ orphans' ∧
              q = env.join_path (env.join_path root_location env.kSegmentDirectoryName)
                kv.1 := by
          intro q hq
          rcases hd q hq with h | h
          · exact Or.inl h
          · obtain ⟨kv, hkv, rfl⟩ := List.mem_map.1 h
            exact Or.inr ⟨orphans, kv, rfl, hkv, rfl⟩
        cases hdel : do_delete_files env
            (orphans.map fun kv =>
              env.join_path (env.join_path root_location env.kSegmentDirectoryName) kv.1)
            trace with
        | returned st trace1 =>
          rw [hdel] at hp hmem
          cases st with
          | OK => exact hmem p hp
          | error c m => exact hmem p hp
        | aborted trace1 =>
          rw [hdel] at hp hmem
          exact hmem p hp
        | out_of_fuel trace1 =>
          rw [hdel] at hp hmem
          exact hmem p hp

/-! ## The versions a walk loads -/

theorem loads_of_append (w₁ w₂ : World) : loads_of (w₁ ++ w₂) = loads_of w₁ ++ loads_of w₂ := by
  unfold loads_of
  rw [List.filterMap_append]

theorem loads_of_dispatched (cb : Option (List String → List Event)) (h : quiet_callback cb)
    (batches : List (List String)) : loads_of (batches.flatMap (dispatch_events cb)) = [] := by
  induction batches with
  | nil => rfl
  | cons b rest ih => rw [List.flatMap_cons, loads_of_append, h b, ih, List.append_nil]

/-- A call of `delete_file` on a deleter with a quiet callback loads nothing. -/
theorem AsyncFileDeleter.delete_file_loads (env : Env) (path : String)
    (cb : Option (List String → List Event)) (hcb : quiet_callback cb) (L : List (Int × Int))
    (s : AsyncFileDeleter × World) (h : s.1._cb = cb ∧ loads_of s.2 = L) :
    (AsyncFileDeleter.delete_file env path s.1 s.2).2.1._cb = cb ∧
    loads_of (AsyncFileDeleter.delete_file env path s.1 s.2).2.2 = L := by
  obtain ⟨batches, _, h2⟩ := AsyncFileDeleter.delete_file_dispatched env path s.1 s.2
  refine ⟨((AsyncFileDeleter.delete_file_frame env path s.1 s.2).2.2.1).trans h.1, ?_⟩
  rw [h2, loads_of_append, h.1, loads_of_dispatched cb hcb, List.append_nil]
  exact h.2

theorem AsyncFileDeleter.finish_loads (env : Env)
    (cb : Option (List String → List Event)) (hcb : quiet_callback cb) (L : List (Int × Int))
    (s : AsyncFileDeleter × World) (h : s.1._cb = cb ∧ loads_of s.2 = L) :
    (AsyncFileDeleter.finish env s.1 s.2).2.1._cb = cb ∧
    loads_of (AsyncFileDeleter.finish env s.1 s.2).2.2 = L := by
  obtain ⟨batches, _, h2⟩ := AsyncFileDeleter.finish_dispatched env s.1 s.2
  refine ⟨(AsyncFileDeleter.finish_cb env s.1 s.2).trans h.1, ?_⟩
  rw [h2, loads_of_append, h.1, loads_of_dispatched cb hcb, List.append_nil]
  exact h.2

/-- What the calls of `delete_file` on the plain deleter keep,
    `collect_garbage_files` keeps. -/
theorem collect_garbage_files_invariant (env : Env) (P : AsyncFileDeleter × World → Prop)
    (hP : ∀ path s, P s → P (AsyncFileDeleter.delete_file env path s.1 s.2).2)
    (metadata : TabletMetadataPB) (base_dir : String) (s : GarbageState)
    (h : P (s.deleter, s.world)) :
    P ((collect_garbage_files env metadata base_dir s).2.deleter,
      (collect_garbage_files env metadata base_dir s).2.world) := by
  have hdel : ∀ path (s1 : GarbageState), P (s1.deleter, s1.world) →
      P ((s1.delete_file env path).2.deleter, (s1.delete_file env path).2.world) :=
    fun path s1 h1 => hP path (s1.deleter, s1.world) h1
  unfold collect_garbage_files
  refine RETURN_IF_ERROR_invariant (fun s1 : GarbageState => P (s1.deleter, s1.world)) _ _ ?_ ?_
  · refine for_each_invariant _ (fun s1 : GarbageState => P (s1.deleter, s1.world)) _ ?_ s h
    intro rowset _ s1 hs1
    unfold collect_garbage_rowset
    refine RETURN_IF_ERROR_invariant (fun s1 : GarbageState => P (s1.deleter, s1.world)) _ _
      ?_ ?_
    · refine for_each_invariant _ (fun s1 : GarbageState => P (s1.deleter, s1.world)) _ ?_ s1
        hs1
      intro segment _ s2 hs2
      unfold collect_garbage_segment
      split
      · split
        · exact hs2
        · exact hdel _ s2 hs2
      · exact hdel _ s2 hs2
    · intro s2 hs2
      refine RETURN_IF_ERROR_invariant (fun s1 : GarbageState => P (s1.deleter, s1.world)) _ _
        ?_ ?_
      · exact for_each_invariant _ (fun s1 : GarbageState => P (s1.deleter, s1.world)) _
          (fun del_file _ s3 hs3 => hdel _ s3 hs3) s2 hs2
      · intro s3 hs3
        exact hs3
  · intro s1 hs1
    refine for_each_invariant _ (fun s1 : GarbageState => P (s1.deleter, s1.world)) _ ?_ s1 hs1
    intro file _ s2 hs2
    unfold collect_garbage_orphan
    refine RETURN_IF_ERROR_invariant (fun s1 : GarbageState => P (s1.deleter, s1.world)) _ _
      ?_ ?_
    · exact hdel _ s2 hs2
    · intro s3 hs3
      exact hs3

theorem walk_body_invariant (env : Env) (P : AsyncFileDeleter × World → Prop)
    (hP : ∀ path s, P s → P (AsyncFileDeleter.delete_file env path s.1 s.2).2)
    (data_dir : String) (grace_timestamp min_retain_version : Int)
    (metadata : TabletMetadataPB) (s : WalkState) (h : P (s.datafile_deleter, s.world)) :
    P ((walk_body env data_dir grace_timestamp min_retain_version metadata s).2.datafile_deleter,
      (walk_body env data_dir grace_timestamp min_retain_version metadata s).2.world) := by
  unfold walk_body
  simp only
  split
  · exact collect_garbage_files_invariant env P hP metadata data_dir _ h
  · split
    · exact collect_garbage_files_invariant env P hP metadata data_dir _ h
    · exact h

theorem walk_body_loads (env : Env) (data_dir : String) (grace_timestamp min_retain_version : Int)
    (metadata : TabletMetadataPB) (s : WalkState) (h : quiet_callback s.datafile_deleter._cb) :
    quiet_callback (walk_body env data_dir grace_timestamp min_retain_version metadata
      s).2.datafile_deleter._cb ∧
    loads_of (walk_body env data_dir grace_timestamp min_retain_version metadata s).2.world
      = loads_of s.world := by
  obtain ⟨h1, h2⟩ := walk_body_invariant env
    (fun t => t.1._cb = s.datafile_deleter._cb ∧ loads_of t.2 = loads_of s.world)
    (fun path t ht => AsyncFileDeleter.delete_file_loads env path _ h _ t ht)
    data_dir grace_timestamp min_retain_version metadata s ⟨rfl, rfl⟩
  refine ⟨?_, h2⟩
  have e : (walk_body env data_dir grace_timestamp min_retain_version metadata
      s).2.datafile_deleter._cb = s.datafile_deleter._cb := h1
  rw [e]
  exact h

theorem getLast?_cons_of_getLast? (a v : Int) (l : List Int) (h : l.getLast? = some v) :
    (a :: l).getLast? = some v := by
  cases l with
  | nil => exact Option.noConfusion h
  | cons b rest =>
    rw [List.getLast?_cons_cons]
    exact h

/-- The versions the loop of `collect_files_to_vacuum` loads, from the state
    `s` on: strictly decreasing, between the lower bound and the version of
    `s`; a snapshot whose `prev_garbage_version` is not below the version it
    was loaded at is the last one loaded, and the loop ends by the failed
    `CHECK_LT` or by an error. -/
theorem walk_loads (env : Env) (data_dir : String)
    (tablet_id min_version grace_timestamp min_retain_version : Int) :
    ∀ (fuel : Nat) (s : WalkState), quiet_callback s.datafile_deleter._cb →
      ∃ versions : List Int,
        loads_of (walk env data_dir tablet_id min_version grace_timestamp min_retain_version
          fuel s).state.world = loads_of s.world ++ versions.map (fun v => (tablet_id, v)) ∧
        versions.Sorted (fun a b => a > b) ∧
        (∀ v ∈ versions, min_version ≤ v ∧ v ≤ s.version) ∧
        ∀ v ∈ versions, ∀ metadata,
          env.get_tablet_metadata tablet_id v = StatusOr.value metadata →
          metadata.prev_garbage_version ≥ v →
          versions.getLast? = some v ∧
          ((∃ s', walk env data_dir tablet_id min_version grace_timestamp min_retain_version
              fuel s = LoopResult.aborted s') ∨
            ∃ c m s', walk env data_dir tablet_id min_version grace_timestamp
              min_retain_version fuel s = LoopResult.returned (Status.error c m) s') := by
  intro fuel
  induction fuel with
  | zero =>
    intro s _
    refine ⟨[], ?_, List.sorted_nil, fun v hv => absurd hv (List.not_mem_nil v),
      fun v hv => absurd hv (List.not_mem_nil v)⟩
    unfold walk
    split <;> simp [LoopResult.state]
  | succ n ih =>
    intro s hq
    by_cases hv : s.version ≥ min_version
    · have hload : loads_of (s.load tablet_id).world
          = loads_of s.world ++ [(tablet_id, s.version)] := by
        show loads_of (s.world ++ [Event.load tablet_id s.version]) = _
        rw [loads_of_append]
        rfl
      have single : ∀ (r : LoopResult WalkState),
          loads_of r.state.world = loads_of (s.load tablet_id).world →
          (∀ metadata, env.get_tablet_metadata tablet_id s.version = StatusOr.value metadata →
            metadata.prev_garbage_version ≥ s.version →
            (∃ s', r = LoopResult.aborted s') ∨
            ∃ c m s', r = LoopResult.returned (Status.error c m) s') →
          ∃ versions : List Int,
            loads_of r.state.world = loads_of s.world ++ versions.map (fun v => (tablet_id, v)) ∧
            versions.Sorted (fun a b => a > b) ∧
            (∀ v ∈ versions, min_version ≤ v ∧ v ≤ s.version) ∧
            ∀ v ∈ versions, ∀ metadata,
              env.get_tablet_metadata tablet_id v = StatusOr.value metadata →
              metadata.prev_garbage_version ≥ v →
              versions.getLast? = some v ∧
              ((∃ s', r = LoopResult.aborted s') ∨
                ∃ c m s', r = LoopResult.returned (Status.error c m) s') := by
        intro r hr habort
        refine ⟨[s.version], ?_, List.sorted_singleton _, ?_, ?_⟩
        · rw [hr, hload]
          rfl
        · intro v hv'
          rw [List.mem_singleton] at hv'
          subst hv'
          exact ⟨hv, le_refl _⟩
        · intro v hv' metadata hg hp
          rw [List.mem_singleton] at hv'
          subst hv'
          exact ⟨rfl, habort metadata hg hp⟩
      cases hg : env.get_tablet_metadata tablet_id s.version with
      | error c m =>
        rw [walk_load_failed _ _ _ _ _ _ _ _ c m hv hg]
        refine single _ ?_ ?_
        · split <;> rfl
        · intro metadata hg' _
          rw [hg] at hg'
          exact StatusOr.noConfusion hg'
      | value metadata =>
        obtain ⟨hq2, hl2⟩ := walk_body_loads env data_dir grace_timestamp min_retain_version
          metadata (s.load tablet_id) hq
        cases hb : (walk_body env data_dir grace_timestamp min_retain_version metadata
            (s.load tablet_id)).1 with
        | error c m =>
          rw [walk_body_failed _ _ _ _ _ _ _ _ metadata c m hv hg hb]
          exact single _ hl2 (fun _ _ _ => Or.inr ⟨c, m, _, rfl⟩)
        | OK =>
          by_cases hp : metadata.prev_garbage_version < s.version
          · rw [walk_step _ _ _ _ _ _ _ _ metadata hv hg hb hp]
            obtain ⟨vs, i1, i2, i3, i4⟩ := ih
              { (walk_body env data_dir grace_timestamp min_retain_version metadata
                (s.load tablet_id)).2 with version := metadata.prev_garbage_version } hq2
            refine ⟨s.version :: vs, ?_, ?_, ?_, ?_⟩
            · rw [i1]
              show loads_of (walk_body env data_dir grace_timestamp min_retain_version metadata
                (s.load tablet_id)).2.world ++ _ = _
              rw [hl2, hload, List.append_assoc]
              rfl
            · refine List.sorted_cons.2 ⟨fun b hb' => ?_, i2⟩
              have := (i3 b hb').2
              have e : ({ (walk_body env data_dir grace_timestamp min_retain_version metadata
                  (s.load tablet_id)).2 with
                  version := metadata.prev_garbage_version } : WalkState).version
                  = metadata.prev_garbage_version := rfl
              rw [e] at this
              omega
            · intro v hv'
              rcases List.mem_cons.1 hv' with h | h
              · subst h
                exact ⟨hv, le_refl _⟩
              · have := i3 v h
                have e : ({ (walk_body env data_dir grace_timestamp min_retain_version metadata
                    (s.load tablet_id)).2 with
                    version := metadata.prev_garbage_version } : WalkState).version
                    = metadata.prev_garbage_version := rfl
                rw [e] at this
                exact ⟨this.1, by omega⟩
            · intro v hv' md hg' hp'
              rcases List.mem_cons.1 hv' with h | h
              · subst h
                rw [hg] at hg'
                injection hg' with hg'
                subst hg'
                omega
              · obtain ⟨j1, j2⟩ := i4 v h md hg' hp'
                exact ⟨getLast?_cons_of_getLast? _ _ _ j1, j2⟩
          · rw [walk_check_failed _ _ _ _ _ _ _ _ metadata hv hg hb hp]
            exact single _ hl2 (fun _ _ _ => Or.inl ⟨_, rfl⟩)
    · rw [walk_below _ _ _ _ _ _ _ _ hv]
      exact ⟨[], by simp [LoopResult.state], List.sorted_nil,
        fun v hv => absurd hv (List.not_mem_nil v), fun v hv => absurd hv (List.not_mem_nil v)⟩

theorem quiet_callback_none : quiet_callback none := by
  intro files
  show loads_of ([] ++ if files.isEmpty then [] else [Event.task files]) = []
  rw [List.nil_append]
  split <;> rfl

theorem quiet_callback_erase : quiet_callback (some erase_tablet_metadata_from_metacache) := by
  intro files
  have h1 : loads_of (erase_tablet_metadata_from_metacache files) = [] := by
    unfold erase_tablet_metadata_from_metacache loads_of
    induction files with
    | nil => rfl
    | cons f rest ih =>
      rw [List.map_cons, List.filterMap_cons]
      exact ih
  show loads_of (erase_tablet_metadata_from_metacache files
    ++ if files.isEmpty then [] else [Event.task files]) = []
  rw [loads_of_append, h1, List.nil_append]
  split <;> rfl

theorem sorted_gt_length (l : List Int) (h : l.Sorted (fun a b => a > b)) :
    ∀ lo hi : Int, (∀ v ∈ l, lo ≤ v ∧ v ≤ hi) → l.length ≤ (hi - lo + 1).toNat := by
  induction l with
  | nil => intro lo hi _; exact Nat.zero_le _
  | cons a rest ih =>
    intro lo hi hb
    have hs := List.sorted_cons.1 h
    have h1 := ih hs.2 lo (a - 1) (fun v hv =>
      ⟨(hb v (List.mem_cons_of_mem _ hv)).1, by have := hs.1 v hv; omega⟩)
    have h2 := hb a (List.mem_cons_self _ _)
    rw [List.length_cons]
    omega

/-- The part of `collect_files_to_vacuum` after the loop loads nothing. -/
theorem collect_files_to_vacuum_tail_loads (env : Env) (meta_dir : String) (a : VacuumArgs)
    (s : WalkState) (hmeta : quiet_callback a.metafile_deleter._cb) :
    loads_of (collect_files_to_vacuum_tail env meta_dir a s).2.world = loads_of a.world := by
  unfold collect_files_to_vacuum_tail
  split
  · rfl
  · simp only
    cases hr : a.vacuum_version_range with
    | some range => rfl
    | none =>
      simp only
      have := for_each_invariant (delete_metafile env meta_dir a.tablet_info.tablet_id)
        (fun t : AsyncFileDeleter × World =>
          t.1._cb = a.metafile_deleter._cb ∧ loads_of t.2 = loads_of a.world)
        (version_range (s.version + 1) s.final_retain_version)
        (fun v _ t ht => AsyncFileDeleter.delete_file_loads env _ _ hmeta _ t ht)
        (a.metafile_deleter, a.world) ⟨rfl, rfl⟩
      split
      · exact this.2
      · exact this.2

/-- The loop body leaves `final_retain_version` as it is or sets it to the
    version being visited. -/
theorem walk_body_final (env : Env) (data_dir : String) (grace_timestamp min_retain_version : Int)
    (metadata : TabletMetadataPB) (s : WalkState) :
    (walk_body env data_dir grace_timestamp min_retain_version metadata s).2.final_retain_version
      = s.final_retain_version ∨
    (walk_body env data_dir grace_timestamp min_retain_version metadata s).2.final_retain_version
      = s.version := by
  cases hskip : s.skip_check_grace_timestamp with
  | true =>
    rw [walk_body_skip env data_dir grace_timestamp min_retain_version metadata s hskip]
    exact Or.inl (WalkState.collect_garbage_prepare_spec env metadata data_dir
      _).1.final_retain_version
  | false =>
    by_cases hc : compare_time metadata < grace_timestamp
    · rw [walk_body_flip env data_dir grace_timestamp min_retain_version metadata s hskip hc]
      exact Or.inr (WalkState.collect_garbage_total_spec env metadata data_dir
        _).1.final_retain_version
    · rw [walk_body_recent env data_dir grace_timestamp min_retain_version metadata s hskip hc]
      exact Or.inr rfl

/-- However long the loop runs, `final_retain_version` stays at or above the
    lower bound once it is there. -/
theorem walk_final_ge (env : Env) (data_dir : String)
    (tablet_id min_version grace_timestamp min_retain_version : Int) (fuel : Nat)
    (s : WalkState) (h : min_version ≤ s.final_retain_version) :
    min_version ≤ (walk env data_dir tablet_id min_version grace_timestamp min_retain_version
      fuel s).state.final_retain_version := by
  refine walk_state_rule env data_dir tablet_id min_version grace_timestamp min_retain_version
    (fun s => min_version ≤ s.final_retain_version)
    (fun s => min_version ≤ s.final_retain_version) (fun _ hs => hs) (fun _ hs _ => hs) ?_
    fuel s h
  intro s metadata hs hv _
  have key : min_version ≤ (walk_body env data_dir grace_timestamp min_retain_version metadata
      (s.load tablet_id)).2.final_retain_version := by
    rcases walk_body_final env data_dir grace_timestamp min_retain_version metadata
      (s.load tablet_id) with e | e
    · rw [e]
      exact hs
    · rw [e]
      exact hv
  exact ⟨key, fun _ _ => key⟩

theorem collect_garbage_files_loads (env : Env) (metadata : TabletMetadataPB)
    (base_dir : String) (s : GarbageState) (h : quiet_callback s.deleter._cb) :
    quiet_callback (collect_garbage_files env metadata base_dir s).2.deleter._cb ∧
    loads_of (collect_garbage_files env metadata base_dir s).2.world = loads_of s.world := by
  obtain ⟨h1, h2⟩ := collect_garbage_files_invariant env
    (fun t => t.1._cb = s.deleter._cb ∧ loads_of t.2 = loads_of s.world)
    (fun path t ht => AsyncFileDeleter.delete_file_loads env path _ h _ t ht)
    metadata base_dir s ⟨rfl, rfl⟩
  refine ⟨?_, h2⟩
  have e : (collect_garbage_files env metadata base_dir s).2.deleter._cb = s.deleter._cb := h1
  rw [e]
  exact h

/-- The versions the loop over the garbage versions of `delete_tablets_impl`
    loads, from `v` on: all at or above `min_v`, the first of them `v`; when
    every snapshot that names a previous version names a lower one, they are
    strictly decreasing and at most `v`, and `v - min_v + 1` iterations are
    enough. -/
theorem find_garbage_loads (env : FsEnv) (data_dir : String) (tablet_id min_v : Int) :
    ∀ (fuel : Nat) (v : Int) (s : Option TabletMetadataPB × (AsyncFileDeleter × World)),
      quiet_callback s.2.1._cb →
      ∃ versions : List Int,
        loads_of (find_garbage env data_dir tablet_id min_v fuel v s).state.2.2
          = loads_of s.2.2 ++ versions.map (fun x => (tablet_id, x)) ∧
        quiet_callback (find_garbage env data_dir tablet_id min_v fuel v s).state.2.1._cb ∧
        (∀ x ∈ versions, min_v ≤ x) ∧
        ((∀ x metadata, env.get_tablet_metadata tablet_id x = StatusOr.value metadata →
            metadata.has_prev_garbage_version = true → metadata.prev_garbage_version < x) →
          versions.Sorted (fun a b => a > b) ∧ (∀ x ∈ versions, x ≤ v) ∧
          ((v - min_v + 1).toNat ≤ fuel →
            ∀ s', find_garbage env data_dir tablet_id min_v fuel v s
              ≠ LoopResult.out_of_fuel s')) := by
  intro fuel
  induction fuel with
  | zero =>
    intro v s hq
    refine ⟨[], ?_, ?_, fun x hx => absurd hx (List.not_mem_nil x), fun _ =>
      ⟨List.sorted_nil, fun x hx => absurd hx (List.not_mem_nil x), fun hf s' => ?_⟩⟩
    · unfold find_garbage
      split <;> simp [LoopResult.state]
    · unfold find_garbage
      split <;> exact hq
    · unfold find_garbage
      have hv : ¬ v ≥ min_v := by omega
      rw [if_neg hv]
      exact fun e => LoopResult.noConfusion e
  | succ n ih =>
    intro v s hq
    unfold find_garbage
    by_cases hv : v ≥ min_v
    · rw [if_pos hv]
      simp only
      have hload : loads_of (s.2.2 ++ [Event.load tablet_id v])
          = loads_of s.2.2 ++ [(tablet_id, v)] := by
        rw [loads_of_append]
        rfl
      cases hg : env.get_tablet_metadata tablet_id v with
      | error c m =>
        simp only
        refine ⟨[v], ?_, ?_, ?_, fun _ => ⟨List.sorted_singleton _, ?_, fun _ s' => ?_⟩⟩
        · split <;> exact hload
        · split <;> exact hq
        · intro x hx
          rw [List.mem_singleton] at hx
          rw [hx]
          exact hv
        · intro x hx
          rw [List.mem_singleton] at hx
          rw [hx]
        · split <;> exact fun e => LoopResult.noConfusion e
      | value metadata =>
        simp only
        obtain ⟨gq, gl⟩ := collect_garbage_files_loads env.toEnv metadata data_dir
          { deleter := s.2.1, bundle_file_deleter := none, garbage_data_size := 0,
            world := s.2.2 ++ [Event.load tablet_id v] } hq
        have gl : loads_of (collect_garbage_files env.toEnv metadata data_dir
            { deleter := s.2.1, bundle_file_deleter := none, garbage_data_size := 0,
              world := s.2.2 ++ [Event.load tablet_id v] }).2.world
            = loads_of s.2.2 ++ [(tablet_id, v)] := gl.trans hload
        have single : ∀ x ∈ [v], min_v ≤ x := by
          intro x hx
          rw [List.mem_singleton] at hx
          rw [hx]
          exact hv
        have single_le : ∀ x ∈ [v], x ≤ v := by
          intro x hx
          rw [List.mem_singleton] at hx
          rw [hx]
        split
        · exact ⟨[v], gl, gq, single, fun _ => ⟨List.sorted_singleton _, single_le,
            fun _ s' e => LoopResult.noConfusion e⟩⟩
        · split
          · rename_i hprev
            obtain ⟨vs, i1, i2, i3, i4⟩ := ih metadata.prev_garbage_version
              ((match s.1 with
                | none => some metadata
                | some latest => some latest),
               ((collect_garbage_files env.toEnv metadata data_dir
                  { deleter := s.2.1, bundle_file_deleter := none, garbage_data_size := 0,
                    world := s.2.2 ++ [Event.load tablet_id v] }).2.deleter,
                (collect_garbage_files env.toEnv metadata data_dir
                  { deleter := s.2.1, bundle_file_deleter := none, garbage_data_size := 0,
                    world := s.2.2 ++ [Event.load tablet_id v] }).2.world)) gq
            refine ⟨v :: vs, ?_, i2, ?_, fun hdec => ?_⟩
            · rw [i1]
              show loads_of (collect_garbage_files env.toEnv metadata data_dir _).2.world ++ _
                = _
              rw [gl, List.append_assoc]
              rfl
            · intro x hx
              rcases List.mem_cons.1 hx with h | h
              · rw [h]
                exact hv
              · exact i3 x h
            · obtain ⟨j1, j2, j3⟩ := i4 hdec
              have hlt := hdec v metadata hg hprev
              refine ⟨List.sorted_cons.2 ⟨fun b hb => ?_, j1⟩, ?_, fun hf s' => ?_⟩
              · have := j2 b hb
                omega
              · intro x hx
                rcases List.mem_cons.1 hx with h | h
                · rw [h]
                · have := j2 x h
                  omega
              · exact j3 (by omega) s'
          · exact ⟨[v], gl, gq, single, fun _ => ⟨List.sorted_singleton _, single_le,
              fun _ s' e => LoopResult.noConfusion e⟩⟩
    · rw [if_neg hv]
      exact ⟨[], by simp [LoopResult.state], hq, fun x hx => absurd hx (List.not_mem_nil x),
        fun _ => ⟨List.sorted_nil, fun x hx => absurd hx (List.not_mem_nil x),
          fun _ s' e => LoopResult.noConfusion e⟩⟩

/-- A snapshot without garbage that names its own version as the previous one
    is loaded again and again: the loop over the garbage versions does not
    end. -/
theorem find_garbage_cycle (env : FsEnv) (data_dir : String) (tablet_id min_v v : Int)
    (metadata : TabletMetadataPB) (hv : v ≥ min_v)
    (hg : env.get_tablet_metadata tablet_id v = StatusOr.value metadata)
    (hprev : metadata.has_prev_garbage_version = true)
    (hself : metadata.prev_garbage_version = v)
    (hc : metadata.compaction_inputs = []) (ho : metadata.orphan_files = []) :
    ∀ (fuel : Nat) (s : Option TabletMetadataPB × (AsyncFileDeleter × World)),
      ∃ s', find_garbage env data_dir tablet_id min_v fuel v s = LoopResult.out_of_fuel s' ∧
        loads_of s'.2.2 = loads_of s.2.2 ++ List.replicate fuel (tablet_id, v) := by
  intro fuel
  induction fuel with
  | zero =>
    intro s
    refine ⟨s, ?_, by simp⟩
    unfold find_garbage
    rw [if_pos hv]
  | succ n ih =>
    intro s
    have hcg : ∀ g : GarbageState, collect_garbage_files env.toEnv metadata data_dir g
        = (Status.OK, g) := by
      intro g
      unfold collect_garbage_files
      rw [hc, ho]
      rfl
    unfold find_garbage
    rw [if_pos hv]
    simp only [hg, hcg, hprev, if_true, hself]
    obtain ⟨s', h1, h2⟩ := ih
      ((match s.1 with
        | none => some metadata
        | some latest => some latest), (s.2.1, s.2.2 ++ [Event.load tablet_id v]))
    refine ⟨s', h1, ?_⟩
    rw [h2]
    show loads_of (s.2.2 ++ [Event.load tablet_id v]) ++ _ = _
    rw [loads_of_append, List.append_assoc]
    rfl

theorem delete_in_quiet (env : FsEnv) (dir name : String) (s : AsyncFileDeleter × World)
    (h : quiet_callback s.1._cb) : quiet_callback (delete_in env dir name s).2.1._cb := by
  have e : (delete_in env dir name s).2.1._cb = s.1._cb :=
    (AsyncFileDeleter.delete_file_frame env.toEnv _ s.1 s.2).2.2.1
  rw [e]
  exact h

theorem for_each_delete_in_quiet (env : FsEnv) (dir : String) (names : List String)
    (s : AsyncFileDeleter × World) (h : quiet_callback s.1._cb) :
    quiet_callback (for_each (delete_in env dir) names s).2.1._cb :=
  for_each_invariant _ (fun t : AsyncFileDeleter × World => quiet_callback t.1._cb) names
    (fun name _ t ht => delete_in_quiet env dir name t ht) s h

theorem delete_txn_log_quiet (env : FsEnv) (data_dir log_dir log_name : String)
    (s : AsyncFileDeleter × World) (h : quiet_callback s.1._cb) :
    quiet_callback (delete_txn_log env data_dir log_dir log_name s).2.1._cb := by
  unfold delete_txn_log
  cases env.get_txn_log (env.join_path log_dir log_name) with
  | error c m =>
    simp only
    split <;> exact h
  | value log =>
    simp only
    refine RETURN_IF_ERROR_invariant
      (fun t : AsyncFileDeleter × World => quiet_callback t.1._cb) _ _ ?_ ?_
    · cases log.op_write with
      | none => exact h
      | some op =>
        exact RETURN_IF_ERROR_invariant
          (fun t : AsyncFileDeleter × World => quiet_callback t.1._cb) _ _
          (for_each_delete_in_quiet env data_dir _ s h)
          (fun t ht => for_each_delete_in_quiet env data_dir _ t ht)
    · intro s1 h1
      refine RETURN_IF_ERROR_invariant
        (fun t : AsyncFileDeleter × World => quiet_callback t.1._cb) _ _ ?_ ?_
      · cases log.op_compaction with
        | none => exact h1
        | some op => exact for_each_delete_in_quiet env data_dir _ s1 h1
      · intro s2 h2
        refine RETURN_IF_ERROR_invariant
          (fun t : AsyncFileDeleter × World => quiet_callback t.1._cb) _ _ ?_ ?_
        · cases log.op_schema_change with
          | none => exact h2
          | some op =>
            exact for_each_invariant _
              (fun t : AsyncFileDeleter × World => quiet_callback t.1._cb) op.rowsets
              (fun rowset _ t ht => for_each_delete_in_quiet env data_dir _ t ht) s2 h2
        · intro s3 h3
          exact delete_in_quiet env log_dir log_name s3 h3

theorem delete_latest_quiet (env : FsEnv) (data_dir : String) (metadata : TabletMetadataPB)
    (s : AsyncFileDeleter × World) (h : quiet_callback s.1._cb) :
    quiet_callback (delete_latest env data_dir metadata s).2.1._cb := by
  unfold delete_latest
  refine RETURN_IF_ERROR_invariant
    (fun t : AsyncFileDeleter × World => quiet_callback t.1._cb) _ _ ?_ ?_
  · exact for_each_invariant _
      (fun t : AsyncFileDeleter × World => quiet_callback t.1._cb) metadata.rowsets
      (fun rowset _ t ht => for_each_delete_in_quiet env data_dir _ t ht) s h
  · intro s1 h1
    refine RETURN_IF_ERROR_invariant
      (fun t : AsyncFileDeleter × World => quiet_callback t.1._cb) _ _ ?_ ?_
    · cases metadata.delvec_meta with
      | none => exact h1
      | some version_to_file =>
        exact for_each_invariant _
          (fun t : AsyncFileDeleter × World => quiet_callback t.1._cb) version_to_file
          (fun vf _ t ht => delete_in_quiet env data_dir _ t ht) s1 h1
    · intro s2 h2
      exact for_each_delete_in_quiet env data_dir _ s2 h2

/-- The body of the loop over the tablets does not run out of fuel when the
    chains of the store decrease and the fuel covers the listed versions; it
    keeps the callback of the deleter quiet. -/
theorem delete_tablet_fuel (env : FsEnv) (fuel : Nat) (data_dir meta_dir : String)
    (entry : Int × List Int) (s : AsyncFileDeleter × World) (hq : quiet_callback s.1._cb) :
    quiet_callback (delete_tablet env fuel data_dir meta_dir entry s).state.1._cb ∧
    ((∀ x metadata, env.get_tablet_metadata entry.1 x = StatusOr.value metadata →
        metadata.has_prev_garbage_version = true → metadata.prev_garbage_version < x) →
      (entry.2.getLastD 0 - entry.2.headD 0 + 1).toNat ≤ fuel →
      (delete_tablet env fuel data_dir meta_dir entry s).is_out_of_fuel = false) := by
  obtain ⟨vs, _, h2, _, h4⟩ := find_garbage_loads env data_dir entry.1 (entry.2.headD 0) fuel
    (entry.2.getLastD 0) (none, s) hq
  unfold delete_tablet
  cases hf : find_garbage env data_dir entry.1 (entry.2.headD 0) fuel (entry.2.getLastD 0)
      (none, s) with
  | returned st r =>
    rw [hf] at h2
    exact ⟨h2, fun _ _ => rfl⟩
  | aborted r =>
    rw [hf] at h2
    exact ⟨h2, fun _ _ => rfl⟩
  | out_of_fuel r =>
    rw [hf] at h2
    exact ⟨h2, fun hdec hfuel => absurd hf ((h4 hdec).2.2 hfuel r)⟩
  | done r =>
    rw [hf] at h2
    have h2 : quiet_callback r.2.1._cb := h2
    simp only
    have hp : quiet_callback (match r.1 with
        | some latest_metadata => delete_latest env data_dir latest_metadata r.2
        | none => (Status.OK, r.2)).2.1._cb := by
      cases r.1 with
      | none => exact h2
      | some md => exact delete_latest_quiet env data_dir md r.2 h2
    split
    · exact ⟨hp, fun _ _ => rfl⟩
    · refine ⟨?_, fun _ _ => rfl⟩
      exact for_each_invariant _
        (fun t : AsyncFileDeleter × World => quiet_callback t.1._cb) entry.2
        (fun version _ t ht => delete_in_quiet env meta_dir _ t ht) _ hp

theorem delete_tablets_loop_fuel (env : FsEnv) (fuel : Nat) (data_dir meta_dir : String)
    (hdec : ∀ t x metadata, env.get_tablet_metadata t x = StatusOr.value metadata →
      metadata.has_prev_garbage_version = true → metadata.prev_garbage_version < x) :
    ∀ (tablets : List (Int × List Int)) (s : AsyncFileDeleter × World),
      quiet_callback s.1._cb →
      (∀ entry ∈ tablets, (entry.2.getLastD 0 - entry.2.headD 0 + 1).toNat ≤ fuel) →
      (delete_tablets_loop env fuel data_dir meta_dir tablets s).is_out_of_fuel = false := by
  intro tablets
  induction tablets with
  | nil => intro s _ _; rfl
  | cons entry rest ih =>
    intro s hq hf
    obtain ⟨g1, g2⟩ := delete_tablet_fuel env fuel data_dir meta_dir entry s hq
    have g2 := g2 (hdec entry.1) (hf entry (List.mem_cons_self _ _))
    unfold delete_tablets_loop
    cases hd : delete_tablet env fuel data_dir meta_dir entry s with
    | returned st r =>
      rw [hd] at g1
      cases st with
      | OK => exact ih r g1 (fun e he => hf e (List.mem_cons_of_mem _ he))
      | error c m => rfl
    | aborted r => rfl
    | out_of_fuel r =>
      rw [hd] at g2
      exact absurd g2 (by simp [Outcome.is_out_of_fuel])

theorem headD_mem (l : List Int) (h : l ≠ []) : l.headD 0 ∈ l := by
  cases l with
  | nil => exact absurd rfl h
  | cons a rest => exact List.mem_cons_self _ _

/-- The map of the second listing holds the listed versions of the tablets of
    `tablet_ids`. -/
theorem tablet_versions_listed (env : FsEnv) (meta_dir : String) (tablet_ids : List Int)
    (hsorted : tablet_ids.Sorted (fun a b => a ≤ b)) (tablet_versions : List (Int × List Int))
    (h : (iterate_dir env meta_dir (collect_tablet_version env tablet_ids) (some [])).2
      = some tablet_versions) :
    versions_wf tablet_versions ∧
    ∀ t v, (t, v) ∈ version_pairs tablet_versions ↔
      listed_version env meta_dir tablet_ids t v := by
  obtain ⟨wf, hpairs⟩ := collect_tablet_version_listing env tablet_ids _ _ _ versions_wf_nil h
  refine ⟨wf, fun t v => ?_⟩
  rw [hpairs (t, v)]
  constructor
  · rintro (h | ⟨name, hn, h1, h2, h3⟩)
    · exact absurd h (List.not_mem_nil _)
    · refine ⟨?_, name, hn, h1, h3⟩
      rw [h3] at h2
      exact (binary_search_iff _ _ hsorted).1 h2
  · rintro ⟨h1, name, hn, h2, h3⟩
    refine Or.inr ⟨name, hn, h2, ?_, h3⟩
    rw [h3]
    exact (binary_search_iff _ _ hsorted).2 h1

/-- Function `delete_tablets_impl` does not run out of fuel when the chains of
    the store decrease and the fuel covers the listed versions of each tablet. -/
theorem delete_tablets_impl_fuel (env : FsEnv) (fuel : Nat) (root_dir : String)
    (tablet_ids : List Int) (w : World)
    (hsorted : tablet_ids.Sorted (fun a b => a ≤ b))
    (hdec : ∀ t x metadata, env.get_tablet_metadata t x = StatusOr.value metadata →
      metadata.has_prev_garbage_version = true → metadata.prev_garbage_version < x)
    (hfuel : ∀ t v v',
      listed_version env (env.join_path root_dir env.kMetadataDirectoryName) tablet_ids t v →
      listed_version env (env.join_path root_dir env.kMetadataDirectoryName) tablet_ids t v' →
      (v - v' + 1).toNat ≤ fuel) :
    (delete_tablets_impl env fuel root_dir tablet_ids w).is_out_of_fuel = false := by
  unfold delete_tablets_impl
  simp only
  cases hfs : env.create_fs root_dir with
  | error c m => rfl
  | OK =>
    simp only
    cases hl1 : (iterate_dir env (env.join_path root_dir env.kTxnLogDirectoryName)
        (collect_txn_log env tablet_ids) (some [])).2 with
    | none => rfl
    | some txn_logs =>
      simp only
      split
      · rfl
      · obtain ⟨r1, hr1⟩ : ∃ r1, r1 = for_each (delete_txn_log env
            (env.join_path root_dir env.kSegmentDirectoryName)
            (env.join_path root_dir env.kTxnLogDirectoryName)) txn_logs
            (({ _batch_size := env.lake_vacuum_min_batch_delete_size } : AsyncFileDeleter), w) :=
          ⟨_, rfl⟩
        have hq : quiet_callback r1.2.1._cb := by
          rw [hr1]
          exact for_each_invariant _
            (fun t : AsyncFileDeleter × World => quiet_callback t.1._cb) txn_logs
            (fun name _ t ht => delete_txn_log_quiet env _ _ name t ht) _ quiet_callback_none
        rw [← hr1]
        cases hs1 : r1.1 with
        | error c m => rfl
        | OK =>
          simp only
          cases hl2 : (iterate_dir env (env.join_path root_dir env.kMetadataDirectoryName)
              (collect_tablet_version env tablet_ids) (some [])).2 with
          | none => rfl
          | some tablet_versions =>
            simp only
            split
            · rfl
            · obtain ⟨wf, hpairs⟩ := tablet_versions_listed env _ tablet_ids hsorted
                tablet_versions hl2
              have hloop := delete_tablets_loop_fuel env fuel
                (env.join_path root_dir env.kSegmentDirectoryName)
                (env.join_path root_dir env.kMetadataDirectoryName) hdec tablet_versions r1.2
                hq
                (fun entry he => by
                  obtain ⟨g1, _, _⟩ := wf.2 entry he
                  exact hfuel entry.1 _ _
                    ((hpairs _ _).1 ((mem_version_pairs _ _ _).2
                      ⟨entry.2, he, getLastD_mem _ g1⟩))
                    ((hpairs _ _).1 ((mem_version_pairs _ _ _).2
                      ⟨entry.2, he, headD_mem _ g1⟩)))
              cases hr : delete_tablets_loop env fuel
                  (env.join_path root_dir env.kSegmentDirectoryName)
                  (env.join_path root_dir env.kMetadataDirectoryName) tablet_versions r1.2 with
              | returned st r =>
                cases st with
                | OK => rfl
                | error c m => rfl
              | aborted r => rfl
              | out_of_fuel r =>
                rw [hr] at hloop
                exact absurd hloop (by simp [Outcome.is_out_of_fuel])

/-- Function `delete_tablets_impl` runs out of fuel when, the listings and the
    removal of the txn logs having gone through, the loop over the tablets
    does. -/
theorem delete_tablets_impl_out_of_fuel (env : FsEnv) (fuel : Nat) (root_dir : String)
    (tablet_ids : List Int) (w : World) (st1 st2 : Status) (txn_logs : List String)
    (tablet_versions : List (Int × List Int)) (s' : AsyncFileDeleter × World)
    (hfs : env.create_fs root_dir = Status.OK)
    (hl1 : iterate_dir env (env.join_path root_dir env.kTxnLogDirectoryName)
      (collect_txn_log env tablet_ids) (some []) = (st1, some txn_logs))
    (hs1 : ignore_not_found st1 = Status.OK)
    (hr1 : (for_each (delete_txn_log env (env.join_path root_dir env.kSegmentDirectoryName)
      (env.join_path root_dir env.kTxnLogDirectoryName)) txn_logs
      (({ _batch_size := env.lake_vacuum_min_batch_delete_size } : AsyncFileDeleter), w)).1
      = Status.OK)
    (hl2 : iterate_dir env (env.join_path root_dir env.kMetadataDirectoryName)
      (collect_tablet_version env tablet_ids) (some []) = (st2, some tablet_versions))
    (hs2 : ignore_not_found st2 = Status.OK)
    (hloop : delete_tablets_loop env fuel (env.join_path root_dir env.kSegmentDirectoryName)
      (env.join_path root_dir env.kMetadataDirectoryName) tablet_versions
      (for_each (delete_txn_log env (env.join_path root_dir env.kSegmentDirectoryName)
        (env.join_path root_dir env.kTxnLogDirectoryName)) txn_logs
        (({ _batch_size := env.lake_vacuum_min_batch_delete_size } : AsyncFileDeleter), w)).2
      = Outcome.out_of_fuel s') :
    delete_tablets_impl env fuel root_dir tablet_ids w = Outcome.out_of_fuel s' := by
  unfold delete_tablets_impl
  simp only [hfs, hl1, hs1, hr1, hl2, hs2, hloop]

/-- On the store in which snapshot 3 of tablet 7 names itself as the previous
    version, the removal of tablet 7 loads version 3 as many times as it has
    fuel for, and does not end. -/
theorem purge_env_self_cycle (fuel : Nat) :
    (delete_tablets_impl purge_env_self fuel "root" [7] []).is_out_of_fuel = true ∧
    loads_of (delete_tablets_impl purge_env_self fuel "root" [7] []).state.2
      = List.replicate fuel (7, 3) := by
  obtain ⟨s', h1, h2⟩ := find_garbage_cycle purge_env_self
    (purge_env_self.join_path "root" purge_env_self.kSegmentDirectoryName) 7 2 3
    { id := 7, version := 3, prev_garbage_version_field := some 3,
      rowsets := [{ segments := ["s1.dat"] }] }
    (by decide) rfl rfl rfl rfl rfl fuel
    (none, (for_each (delete_txn_log purge_env_self
      (purge_env_self.join_path "root" purge_env_self.kSegmentDirectoryName)
      (purge_env_self.join_path "root" purge_env_self.kTxnLogDirectoryName)) ["7_99.log"]
      (({ _batch_size := purge_env_self.lake_vacuum_min_batch_delete_size } :
        AsyncFileDeleter), [])).2)
  have hloop : delete_tablets_loop purge_env_self fuel
      (purge_env_self.join_path "root" purge_env_self.kSegmentDirectoryName)
      (purge_env_self.join_path "root" purge_env_self.kMetadataDirectoryName) [(7, [2, 3])]
      (for_each (delete_txn_log purge_env_self
        (purge_env_self.join_path "root" purge_env_self.kSegmentDirectoryName)
        (purge_env_self.join_path "root" purge_env_self.kTxnLogDirectoryName)) ["7_99.log"]
        (({ _batch_size := purge_env_self.lake_vacuum_min_batch_delete_size } :
          AsyncFileDeleter), [])).2
      = Outcome.out_of_fuel s'.2 := by
    unfold delete_tablets_loop delete_tablet
    have e1 : ([2, 3] : List Int).headD 0 = 2 := rfl
    have e2 : ([2, 3] : List Int).getLastD 0 = 3 := rfl
    simp only [e1, e2, h1]
  have himpl := delete_tablets_impl_out_of_fuel purge_env_self fuel "root" [7] [] Status.OK
    Status.OK ["7_99.log"] [(7, [2, 3])] s'.2 rfl (by decide) rfl (by decide) (by decide) rfl
    hloop
  rw [himpl]
  refine ⟨rfl, ?_⟩
  show loads_of s'.2.2 = _
  rw [h2]
  have e : loads_of (for_each (delete_txn_log purge_env_self
      (purge_env_self.join_path "root" purge_env_self.kSegmentDirectoryName)
      (purge_env_self.join_path "root" purge_env_self.kTxnLogDirectoryName)) ["7_99.log"]
      (({ _batch_size := purge_env_self.lake_vacuum_min_batch_delete_size } :
        AsyncFileDeleter), [])).2.2 = [] := by decide
  exact (congrArg (fun l => l ++ List.replicate fuel ((7 : Int), (3 : Int))) e).trans
    (List.nil_append _)

theorem store_7_3_decreasing (t x : Int) (metadata : TabletMetadataPB)
    (h : store_7_3 t x = StatusOr.value metadata)
    (_hp : metadata.has_prev_garbage_version = true) : metadata.prev_garbage_version < x := by
  unfold store_7_3 at h
  split at h
  · rename_i hc
    injection h with h
    rw [← h, hc.2]
    decide
  · exact StatusOr.noConfusion h

/-! ## SegmentCacheUpdater -/

theorem cache_calls_append (path : String) (l₁ l₂ : List CacheEvent) :
    cache_calls path (l₁ ++ l₂) = cache_calls path l₁ ++ cache_calls path l₂ := by
  unfold cache_calls
  rw [List.filterMap_append]

theorem CacheRun.quiet_step (env : CacheEnv) (processed : List String)
    (added more : List CacheEvent) (h : CacheRun env processed added)
    (hm : ∀ path, cache_calls path more = []) : CacheRun env processed (added ++ more) := by
  intro path
  rw [cache_calls_append, hm path, List.append_nil]
  exact h path

theorem process_tasks_loop_run (env : CacheEnv) (trace : List CacheEvent) :
    ∀ (tasks : List (String × Int)) (processed : List String) (added : List CacheEvent),
      CacheRun env processed added →
      ∃ processed' added',
        process_tasks_loop env tasks (processed, trace ++ added)
          = (processed', trace ++ added') ∧
        CacheRun env processed' added' := by
  intro tasks
  induction tasks with
  | nil =>
    intro processed added h
    exact ⟨processed, added, rfl, h⟩
  | cons task rest ih =>
    intro processed added h
    have h0 : CacheRun env processed (added ++ [CacheEvent.read_stopped]) :=
      h.quiet_step env processed added _ (fun _ => rfl)
    have h1 : CacheRun env processed
        (added ++ [CacheEvent.read_stopped, CacheEvent.lookup_segment task.1]) :=
      h.quiet_step env processed added _ (fun _ => rfl)
    unfold process_tasks_loop
    simp only
    split
    · exact ⟨processed, added ++ [CacheEvent.read_stopped],
        by rw [List.append_assoc], h0⟩
    · split
      · have := ih processed (added ++ [CacheEvent.read_stopped]) h0
        rw [← List.append_assoc] at this
        exact this
      · rename_i hnot
        have e1 : trace ++ added ++ [CacheEvent.read_stopped]
            ++ [CacheEvent.lookup_segment task.1]
            = trace ++ (added ++ [CacheEvent.read_stopped, CacheEvent.lookup_segment task.1]) := by
          simp only [List.append_assoc, List.singleton_append]
        split
        · have := ih processed _ h1
          rw [← e1] at this
          exact this
        · rename_i seg _
          split
          · have := ih processed _ h1
            rw [← e1] at this
            exact this
          · obtain ⟨done, hdone⟩ : ∃ done, done = env.cache_segment_if_present
                (trace ++ added ++ [CacheEvent.read_stopped]
                  ++ [CacheEvent.lookup_segment task.1]) task.1 seg.mem_usage task.2 :=
              ⟨_, rfl⟩
            rw [← hdone]
            have e2 : trace ++ added ++ [CacheEvent.read_stopped]
                ++ [CacheEvent.lookup_segment task.1]
                ++ [CacheEvent.cache_segment_if_present task.1 seg.mem_usage task.2 done]
                = trace ++ (added ++ [CacheEvent.read_stopped,
                    CacheEvent.lookup_segment task.1,
                    CacheEvent.cache_segment_if_present task.1 seg.mem_usage task.2 done]) := by
              simp only [List.append_assoc, List.singleton_append, List.cons_append,
                List.nil_append]
            have hcalls : ∀ path, cache_calls path
                (added ++ [CacheEvent.read_stopped, CacheEvent.lookup_segment task.1,
                  CacheEvent.cache_segment_if_present task.1 seg.mem_usage task.2 done])
                = cache_calls path added ++ (if task.1 = path then [done] else []) := by
              intro path
              rw [cache_calls_append]
              congr 1
              by_cases hp : task.1 = path
              · rw [if_pos hp]
                simp [cache_calls, hp]
              · rw [if_neg hp]
                simp [cache_calls, hp]
            have hans : ∀ path, ∀ d ∈ cache_calls path
                (added ++ [CacheEvent.read_stopped, CacheEvent.lookup_segment task.1,
                  CacheEvent.cache_segment_if_present task.1 seg.mem_usage task.2 done]),
                ∃ h m a, d = env.cache_segment_if_present h path m a := by
              intro path d hd
              rw [hcalls] at hd
              rcases List.mem_append.1 hd with hd | hd
              · exact (h path).2.2 d hd
              · split at hd
                · rename_i hp
                  rw [List.mem_singleton] at hd
                  rw [hd, hdone, ← hp]
                  exact ⟨_, _, _, rfl⟩
                · exact absurd hd (List.not_mem_nil _)
            split
            · rename_i hnz
              have hnz : done ≠ 0 := hnz
              have := ih (set_emplace processed task.1) (added ++ [CacheEvent.read_stopped,
                CacheEvent.lookup_segment task.1,
                CacheEvent.cache_segment_if_present task.1 seg.mem_usage task.2 done]) (by
                  intro path
                  refine ⟨fun hin => ?_, fun hout => ?_, hans path⟩
                  · rw [hcalls]
                    by_cases hp : task.1 = path
                    · rw [if_pos hp]
                      obtain ⟨n, hn⟩ := (h path).2.1 (hp ▸ hnot)
                      exact ⟨n, done, hnz, by rw [hn]⟩
                    · rw [if_neg hp, List.append_nil]
                      rcases (mem_set_emplace _ _ _).1 hin with h' | h'
                      · exact absurd h'.symm hp
                      · exact (h path).1 h'
                  · rw [hcalls]
                    have hp : ¬ task.1 = path := fun hp =>
                      hout ((mem_set_emplace _ _ _).2 (Or.inl hp.symm))
                    rw [if_neg hp, List.append_nil]
                    exact (h path).2.1 (fun hin =>
                      hout ((mem_set_emplace _ _ _).2 (Or.inr hin))))
              rw [← e2] at this
              exact this
            · rename_i hz
              have hz : done = 0 := by
                by_contra hne
                exact hz hne
              have := ih processed (added ++ [CacheEvent.read_stopped,
                CacheEvent.lookup_segment task.1,
                CacheEvent.cache_segment_if_present task.1 seg.mem_usage task.2 done]) (by
                  intro path
                  refine ⟨fun hin => ?_, fun hout => ?_, hans path⟩
                  · rw [hcalls]
                    have hp : ¬ task.1 = path := fun hp => hnot (hp ▸ hin)
                    rw [if_neg hp, List.append_nil]
                    exact (h path).1 hin
                  · rw [hcalls]
                    obtain ⟨n, hn⟩ := (h path).2.1 hout
                    by_cases hp : task.1 = path
                    · rw [if_pos hp, hn, hz]
                      exact ⟨n + 1, (List.replicate_succ' n 0).symm⟩
                    · rw [if_neg hp, List.append_nil]
                      exact ⟨n, hn⟩)
              rw [← e2] at this
              exact this

/-! ## The range of file bundling and the vacuumed versions -/

/-- C1. In `collect_files_to_vacuum` with `grace_timestamp > 0`: when the walk
    from `min_retain_version` along `prev_garbage_version`, bounded below by
    `max(1, tablet_info.min_version)` and stopping at the first version that is
    not found, reaches a snapshot whose `compare_time` is below
    `grace_timestamp`, then on success `*vacuumed_version` and the updated
    `tablet_info.min_version` both equal the version `r` of the first such
    snapshot. -/
theorem C1_first_pre_grace_snapshot_is_retained (env : Env) (root_dir : String)
    (a a' : VacuumArgs) (grace_timestamp min_retain_version r : Int)
    (hgrace : 0 < grace_timestamp)
    (hfirst : FirstPreGrace env a.tablet_info.tablet_id (walk_min_version a.tablet_info)
      grace_timestamp min_retain_version r)
    (hok : collect_files_to_vacuum env root_dir a grace_timestamp min_retain_version
      = Outcome.returned Status.OK a') :
    a'.vacuumed_version = r ∧ a'.tablet_info.min_version = r := by
  obtain ⟨_, s, hw, ht⟩ := collect_files_to_vacuum_ok env root_dir a a' grace_timestamp
    min_retain_version hok
  have hskip0 : (walk_init a grace_timestamp min_retain_version).skip_check_grace_timestamp
      = false := by
    simp only [walk_init, decide_eq_false_iff_not, not_le]
    exact hgrace
  obtain ⟨hs1, hs2⟩ := walk_first_pre_grace env _ _ _ _ _ _ _ s min_retain_version r rfl hskip0
    hfirst hw
  obtain ⟨h1, h2, _⟩ := collect_files_to_vacuum_tail_flip env _ _ a' s hs1 ht
  exact ⟨h1.trans hs2, by rw [h2]; exact hs2⟩

/-- C1, witness: the chain 10 -> 5 with commit times 200 and 100,
    `min_retain_version = 10` and `grace_timestamp = 150` gives
    `vacuumed_version = 5` and `min_version = 5`. -/
theorem C1_first_pre_grace_snapshot_is_retained_witness :
    (collect_files_to_vacuum (example_env store_10_5) "root"
      (example_args { tablet_id := 1, min_version := 0 }) 150 10).state.vacuumed_version = 5 ∧
    (collect_files_to_vacuum (example_env store_10_5) "root"
      (example_args { tablet_id := 1, min_version := 0 }) 150 10).state.tablet_info.min_version
      = 5 :=
  C1_first_pre_grace_snapshot_is_retained (example_env store_10_5) "root"
    (example_args { tablet_id := 1, min_version := 0 }) _ 150 10 5 (by decide)
    (@FirstPreGrace.older (example_env store_10_5) 1 _ 150 10 5
      { id := 1, version := 10, commit_time_field := some 200,
        prev_garbage_version_field := some 5 }
      (by decide) rfl (by decide)
      (@FirstPreGrace.found (example_env store_10_5) 1 _ 150 5
        { id := 1, version := 5, commit_time_field := some 100,
          prev_garbage_version_field := some 0,
          compaction_inputs := [{ segments := ["a.dat"], data_size := 7 }] }
        (by decide) rfl (by decide)))
    (Outcome.eq_of_succeeded _ (by decide))

/-- C2, counterexample: on the chain 20 -> 15 -> 10 -> 5 with commit times 250,
    200, 150, 100, `min_retain_version = 20` and `grace_timestamp = 180`, the
    call succeeds with `vacuumed_version = 10` and `min_version = 10`, not 15,
    and hands the data-file deleter the garbage of snapshots 10 and 5 only;
    the files recorded in snapshot 15 are not handed over. -/
theorem C2_chain_retains_version_15_counterexample :
    (collect_files_to_vacuum (example_env store_20_15_10_5) "root"
      (example_args { tablet_id := 1, min_version := 0 }) 180 20).succeeded = true ∧
    (collect_files_to_vacuum (example_env store_20_15_10_5) "root"
      (example_args { tablet_id := 1, min_version := 0 }) 180 20).state.vacuumed_version = 10 ∧
    (collect_files_to_vacuum (example_env store_20_15_10_5) "root"
      (example_args { tablet_id := 1, min_version := 0 }) 180 20).state.vacuumed_version ≠ 15 ∧
    (collect_files_to_vacuum (example_env store_20_15_10_5) "root"
      (example_args { tablet_id := 1, min_version := 0 }) 180 20).state.tablet_info.min_version
      = 10 ∧
    (collect_files_to_vacuum (example_env store_20_15_10_5) "root"
      (example_args { tablet_id := 1, min_version := 0 }) 180 20).state.datafile_deleter.handed
      = ["root/data/c10.dat", "root/data/o10.dat", "root/data/c5.dat", "root/data/o5.dat"] ∧
    pending_of (collect_files_to_vacuum (example_env store_20_15_10_5) "root"
      (example_args { tablet_id := 1, min_version := 0 }) 180 20).state.bundle_file_deleter
      = [] := by
  decide

/-- C2, amended. For a tablet whose chain is 20 -> 15 -> 10 -> 5 along
    `prev_garbage_version` with commit times 250, 200, 150 (and any commit time
    for 5, where the chain ends), `collect_files_to_vacuum` called with
    `min_retain_version = 20`, `grace_timestamp = 180` and a `min_version` of
    at most 5 retains, on success, version 10 (`vacuumed_version = 10`,
    `tablet_info.min_version = 10`) and hands the deleters exactly the
    compaction-input and orphan files recorded in snapshots 10 and 5, in that
    order. -/
theorem C2_chain_retains_version_10 (env : Env) (root_dir : String) (a a' : VacuumArgs)
    (m20 m15 m10 m5 : TabletMetadataPB)
    (hmin : a.tablet_info.min_version ≤ 5)
    (h20 : env.get_tablet_metadata a.tablet_info.tablet_id 20 = StatusOr.value m20)
    (c20 : m20.commit_time_field = some 250) (p20 : m20.prev_garbage_version = 15)
    (h15 : env.get_tablet_metadata a.tablet_info.tablet_id 15 = StatusOr.value m15)
    (c15 : m15.commit_time_field = some 200) (p15 : m15.prev_garbage_version = 10)
    (h10 : env.get_tablet_metadata a.tablet_info.tablet_id 10 = StatusOr.value m10)
    (c10 : m10.commit_time_field = some 150) (p10 : m10.prev_garbage_version = 5)
    (h5 : env.get_tablet_metadata a.tablet_info.tablet_id 5 = StatusOr.value m5)
    (p5 : m5.prev_garbage_version < 1)
    (hok : collect_files_to_vacuum env root_dir a 180 20 = Outcome.returned Status.OK a') :
    a'.vacuumed_version = 10 ∧ a'.tablet_info.min_version = 10 ∧
    a'.datafile_deleter.handed = a.datafile_deleter.handed ++
      (plain_garbage_paths env (env.join_path root_dir env.kSegmentDirectoryName)
          a.bundle_file_deleter.isSome m10 ++
        plain_garbage_paths env (env.join_path root_dir env.kSegmentDirectoryName)
          a.bundle_file_deleter.isSome m5) ∧
    pending_of a'.bundle_file_deleter = pending_add (pending_of a.bundle_file_deleter)
      (bundle_garbage_paths env (env.join_path root_dir env.kSegmentDirectoryName)
          a.bundle_file_deleter.isSome m10 ++
        bundle_garbage_paths env (env.join_path root_dir env.kSegmentDirectoryName)
          a.bundle_file_deleter.isSome m5) := by
  obtain ⟨_, s, hw, ht⟩ := collect_files_to_vacuum_ok env root_dir a a' 180 20 hok
  unfold collect_files_to_vacuum_walk at hw
  have hlo : walk_min_version a.tablet_info ≤ 5 := by
    unfold walk_min_version
    exact max_le (by decide) hmin
  have hlo1 : 1 ≤ walk_min_version a.tablet_info := le_max_left _ _
  have e20 : compare_time m20 = 250 := compare_time_of_commit_time m20 250 c20 (by decide)
  have e15 : compare_time m15 = 200 := compare_time_of_commit_time m15 200 c15 (by decide)
  have e10 : compare_time m10 = 150 := compare_time_of_commit_time m10 150 c10 (by decide)
  -- snapshot 20: committed after the grace timestamp
  obtain ⟨_, n1, s1, hw1, v1, k1, f1, d1, b1, t1, r1⟩ := walk_done_recent env _ _ _ _ _ _
    (walk_init a 180 20) s m20 (by show (20 : Int) ≥ _; omega) h20 rfl
    (by rw [e20]; decide) hw
  rw [p20] at v1
  -- snapshot 15: committed after the grace timestamp
  obtain ⟨_, n2, s2, hw2, v2, k2, f2, d2, b2, t2, r2⟩ := walk_done_recent env _ _ _ _ _ _
    s1 s m15 (by rw [v1]; omega) (by rw [v1]; exact h15) k1 (by rw [e15]; decide) hw1
  rw [p15] at v2
  -- snapshot 10: the first one committed before the grace timestamp
  obtain ⟨_, n3, s3, hw3, v3, k3, f3, r3, i3, g3, q3⟩ := walk_done_flip env _ _ _ _ _ _
    s2 s m10 (by rw [v2]; omega) (by rw [v2]; exact h10) k2 (by rw [e10]; decide) hw2
  rw [p10] at v3
  -- snapshot 5
  obtain ⟨_, n4, s4, hw4, v4, k4, f4, t4, i4, g4, q4⟩ := walk_done_skip env _ _ _ _ _ _
    s3 s m5 (by rw [v3]; omega) (by rw [v3]; exact h5) k3 hw3
  have hs : s = s4 := walk_done_below env _ _ _ _ _ _ s4 s (by rw [v4]; omega) hw4
  subst hs
  obtain ⟨hvv, hti, hdd, hbd, _⟩ := collect_files_to_vacuum_tail_flip env _ _ a' s k4 ht
  have hfinal : s.final_retain_version = 10 := by rw [f4, f3, v2]
  have hsome : s2.bundle_file_deleter.isSome = a.bundle_file_deleter.isSome := by
    rw [b2, b1]
    rfl
  refine ⟨hvv.trans hfinal, by rw [hti]; exact hfinal, ?_, ?_⟩
  · rw [hdd]
    show s.datafile_deleter.handed = _
    rw [g4, g3, i3, hsome, d2, d1, List.append_assoc]
    rfl
  · rw [hbd]
    show pending_of s.bundle_file_deleter = _
    rw [q4, q3, i3, hsome, b2, b1, pending_add_append]
    rfl

/-- C2, witness of the amended claim on a concrete store. -/
theorem C2_chain_retains_version_10_witness :
    (collect_files_to_vacuum (example_env store_20_15_10_5) "root"
      (example_args { tablet_id := 1, min_version := 0 }) 180 20).state.vacuumed_version = 10 ∧
    (collect_files_to_vacuum (example_env store_20_15_10_5) "root"
      (example_args { tablet_id := 1, min_version := 0 }) 180 20).state.tablet_info.min_version
      = 10 ∧
    (collect_files_to_vacuum (example_env store_20_15_10_5) "root"
      (example_args { tablet_id := 1, min_version := 0 }) 180 20).state.datafile_deleter.handed
      = [] ++ (["root/data/c10.dat", "root/data/o10.dat"]
        ++ ["root/data/c5.dat", "root/data/o5.dat"]) ∧
    pending_of (collect_files_to_vacuum (example_env store_20_15_10_5) "root"
      (example_args { tablet_id := 1, min_version := 0 }) 180 20).state.bundle_file_deleter
      = pending_add [] ([] ++ []) :=
  C2_chain_retains_version_10 (example_env store_20_15_10_5) "root"
    (example_args { tablet_id := 1, min_version := 0 }) _
    { id := 1, version := 20, commit_time_field := some 250,
      prev_garbage_version_field := some 15 }
    { id := 1, version := 15, commit_time_field := some 200,
      prev_garbage_version_field := some 10,
      compaction_inputs := [{ segments := ["c15.dat"], data_size := 1 }],
      orphan_files := [{ name := "o15.dat", size := 1 }] }
    { id := 1, version := 10, commit_time_field := some 150,
      prev_garbage_version_field := some 5,
      compaction_inputs := [{ segments := ["c10.dat"], data_size := 1 }],
      orphan_files := [{ name := "o10.dat", size := 1 }] }
    { id := 1, version := 5, commit_time_field := some 100,
      prev_garbage_version_field := some 0,
      compaction_inputs := [{ segments := ["c5.dat"], data_size := 1 }],
      orphan_files := [{ name := "o5.dat", size := 1 }] }
    (by decide) rfl rfl rfl rfl rfl rfl rfl rfl rfl rfl (by decide)
    (Outcome.eq_of_succeeded _ (by decide))

/-- C3. For every metadata store and every input, whatever the call returns:
    the paths `collect_files_to_vacuum` hands to the data-file deleter (`plain`)
    and to the bundle deleter (`bundle`) are each the path, under the segment
    directory, of a `compaction_inputs` segment, a `compaction_inputs` del file
    or an `orphan_files` entry of a snapshot that the walk loaded at a version
    not above the final retained version; the deleter underlying the bundle
    deleter is handed nothing; and the outcome is the same when `rowsets`,
    `delvec_meta` and `sstable_meta` are removed from every snapshot, so no
    path is taken from the live state. -/
theorem C3_planner_hands_over_only_recorded_garbage (env : Env) (root_dir : String)
    (a : VacuumArgs) (grace_timestamp min_retain_version : Int) :
    (∃ events plain bundle,
      (collect_files_to_vacuum_walk env root_dir a grace_timestamp
        min_retain_version).state.world = a.world ++ events ∧
      (collect_files_to_vacuum env root_dir a grace_timestamp
        min_retain_version).state.datafile_deleter.handed
        = a.datafile_deleter.handed ++ plain ∧
      pending_of (collect_files_to_vacuum env root_dir a grace_timestamp
        min_retain_version).state.bundle_file_deleter
        = pending_add (pending_of a.bundle_file_deleter) bundle ∧
      ∀ p ∈ plain ++ bundle,
        FromWalked env (env.join_path root_dir env.kSegmentDirectoryName)
          a.tablet_info.tablet_id events
          (collect_files_to_vacuum_walk env root_dir a grace_timestamp
            min_retain_version).state.final_retain_version p) ∧
    (collect_files_to_vacuum env root_dir a grace_timestamp
      min_retain_version).state.bundle_file_deleter.map
        (fun b => b.toAsyncFileDeleter.handed)
      = a.bundle_file_deleter.map (fun b => b.toAsyncFileDeleter.handed) ∧
    collect_files_to_vacuum env.without_live root_dir a grace_timestamp min_retain_version
      = collect_files_to_vacuum env root_dir a grace_timestamp min_retain_version := by
  obtain ⟨hF, events, plain, bundle, hT⟩ := walk_inv env
    (env.join_path root_dir env.kSegmentDirectoryName) a.tablet_info.tablet_id
    (walk_min_version a.tablet_info) grace_timestamp min_retain_version
    (walk_fuel a.tablet_info min_retain_version)
    (walk_init a grace_timestamp min_retain_version) (le_refl _)
  refine ⟨?_, ?_, collect_files_to_vacuum_without_live env root_dir a grace_timestamp
    min_retain_version⟩
  · cases hfs : env.create_fs root_dir with
    | error c m =>
      refine ⟨events, [], [], hT.world, ?_, ?_, fun p hp => absurd hp (List.not_mem_nil p)⟩
      · unfold collect_files_to_vacuum
        rw [hfs, List.append_nil]
        rfl
      · unfold collect_files_to_vacuum
        rw [hfs]
        rfl
    | OK =>
      obtain ⟨hd, hb⟩ := collect_files_to_vacuum_deleters env root_dir a grace_timestamp
        min_retain_version hfs
      refine ⟨events, plain, bundle, hT.world, ?_, ?_, ?_⟩
      · rw [hd]
        exact hT.handed
      · rw [hb]
        exact hT.pending
      · intro p hp
        rcases List.mem_append.1 hp with hp | hp
        · exact hT.plain_from p hp
        · exact hT.bundle_from p hp
  · cases hfs : env.create_fs root_dir with
    | error c m =>
      unfold collect_files_to_vacuum
      rw [hfs]
      rfl
    | OK =>
      rw [(collect_files_to_vacuum_deleters env root_dir a grace_timestamp
        min_retain_version hfs).2]
      exact hF.bundle_handed

/-- C4. When `vacuum_version_range` is null and the walk reached a snapshot
    older than the grace timestamp (or `grace_timestamp <= 0`), a successful
    `collect_files_to_vacuum` hands the metafile deleter exactly the path of
    `tablet_metadata_filename(tablet_id, v)` for every `v` with
    `stop_version < v < final_retain_version`, in ascending order of `v`, where
    `stop_version = s.version` and `final_retain_version` are the values the
    loop ended with; so no version at or above `final_retain_version`, which is
    the returned `*vacuumed_version`, is among them. -/
theorem C4_metafiles_between_stop_and_retained_version (env : Env) (root_dir : String)
    (a a' : VacuumArgs) (grace_timestamp min_retain_version : Int) (s : WalkState)
    (hnull : a.vacuum_version_range = none)
    (hreach : grace_timestamp ≤ 0 ∨
      ∃ r, FirstPreGrace env a.tablet_info.tablet_id (walk_min_version a.tablet_info)
        grace_timestamp min_retain_version r)
    (hw : collect_files_to_vacuum_walk env root_dir a grace_timestamp min_retain_version
      = LoopResult.done s)
    (hok : collect_files_to_vacuum env root_dir a grace_timestamp min_retain_version
      = Outcome.returned Status.OK a') :
    a'.metafile_deleter.handed = a.metafile_deleter.handed ++
      (version_range (s.version + 1) s.final_retain_version).map (fun v =>
        env.join_path (env.join_path root_dir env.kMetadataDirectoryName)
          (env.tablet_metadata_filename a.tablet_info.tablet_id v)) ∧
    (∀ v, v ∈ version_range (s.version + 1) s.final_retain_version ↔
      s.version < v ∧ v < s.final_retain_version) ∧
    (version_range (s.version + 1) s.final_retain_version).Pairwise (fun v w => v < w) ∧
    a'.vacuumed_version = s.final_retain_version := by
  obtain ⟨_, s0, hw0, ht⟩ := collect_files_to_vacuum_ok env root_dir a a' grace_timestamp
    min_retain_version hok
  rw [hw] at hw0
  injection hw0 with hs
  subst hs
  have hskip : s.skip_check_grace_timestamp = true := by
    by_cases hg : grace_timestamp ≤ 0
    · exact walk_init_skip env root_dir a grace_timestamp min_retain_version s hg hw
    · rcases hreach with h | ⟨r, h⟩
      · exact absurd h hg
      · exact (walk_first_pre_grace env _ _ _ _ _ _ _ s min_retain_version r rfl
          (by simp [walk_init, hg]) h hw).1
  obtain ⟨hvv, _, _, _, _, _, hnone, _⟩ := collect_files_to_vacuum_tail_flip env _ _ a' s
    hskip ht
  refine ⟨(hnone hnull).2, fun v => ?_, version_range_pairwise _ _, hvv⟩
  rw [mem_version_range]
  constructor
  · rintro ⟨h1, h2⟩
    exact ⟨by omega, h2⟩
  · rintro ⟨h1, h2⟩
    exact ⟨by omega, h2⟩

/-- C4, witness: on the chain 10 -> 5 with `grace_timestamp = 150` the walk
    stops at version 0 with version 5 retained, and the metadata files of
    versions 1 to 4 are handed over in this order. -/
theorem C4_metafiles_between_stop_and_retained_version_witness :
    (collect_files_to_vacuum (example_env store_10_5) "root"
      (example_args { tablet_id := 1, min_version := 0 }) 150 10).state.metafile_deleter.handed
      = [] ++ [(1 : Int), 2, 3, 4].map (fun v =>
        (example_env store_10_5).join_path ((example_env store_10_5).join_path "root" "meta")
          ((example_env store_10_5).tablet_metadata_filename 1 v)) ∧
    (∀ v, v ∈ version_range (0 + 1) 5 ↔ (0 : Int) < v ∧ v < 5) ∧
    (version_range (0 + 1) 5).Pairwise (fun v w => v < w) ∧
    (collect_files_to_vacuum (example_env store_10_5) "root"
      (example_args { tablet_id := 1, min_version := 0 }) 150 10).state.vacuumed_version = 5 :=
  C4_metafiles_between_stop_and_retained_version (example_env store_10_5) "root"
    (example_args { tablet_id := 1, min_version := 0 }) _ 150 10
    (collect_files_to_vacuum_walk (example_env store_10_5) "root"
      (example_args { tablet_id := 1, min_version := 0 }) 150 10).state
    rfl
    (Or.inr ⟨5, @FirstPreGrace.older (example_env store_10_5) 1 _ 150 10 5
      { id := 1, version := 10, commit_time_field := some 200,
        prev_garbage_version_field := some 5 }
      (by decide) rfl (by decide)
      (@FirstPreGrace.found (example_env store_10_5) 1 _ 150 5
        { id := 1, version := 5, commit_time_field := some 100,
          prev_garbage_version_field := some 0,
          compaction_inputs := [{ segments := ["a.dat"], data_size := 7 }] }
        (by decide) rfl (by decide))⟩)
    (LoopResult.eq_done_of_is_done _ (by decide))
    (Outcome.eq_of_succeeded _ (by decide))

/-- C5, counterexample: with `grace_timestamp = 150 > 0` and a metadata store
    in which every load fails with an I/O error, no snapshot is loaded at all,
    and `collect_files_to_vacuum` does not return OK: it returns the error of
    the first load. -/
theorem C5_returns_ok_without_pre_grace_snapshot_counterexample :
    (collect_files_to_vacuum (example_env store_io_error) "root"
      (example_args { tablet_id := 1, min_version := 0 }) 150 10).succeeded = false ∧
    (collect_files_to_vacuum (example_env store_io_error) "root"
      (example_args { tablet_id := 1, min_version := 0 }) 150 10).state.world
      = [Event.load 1 10] := by
  decide

/-- C5, amended. If `grace_timestamp > 0`, the file-system handle is created,
    and the walk ends, at a version below the lower bound or at a version that
    is not found, after loading only snapshots whose `compare_time` is not
    below `grace_timestamp` (each with `prev_garbage_version` below its
    version), then `collect_files_to_vacuum` returns OK with
    `*vacuumed_version = final_retain_version - 1`, where
    `final_retain_version = r` is the lowest loaded version, or
    `min_retain_version` when nothing was loaded; it does nothing but load
    snapshots, and every other argument (the data, metadata and bundle
    deleters, `tablet_info`, the shared version range, `*total_datafile_size`
    and `*extra_datafile_size`) is left as it was. -/
theorem C5_no_pre_grace_snapshot_leaves_all_unchanged (env : Env) (root_dir : String)
    (a : VacuumArgs) (grace_timestamp min_retain_version r : Int)
    (hgrace : 0 < grace_timestamp)
    (hfs : env.create_fs root_dir = Status.OK)
    (hends : WalkEndsRecent env a.tablet_info.tablet_id (walk_min_version a.tablet_info)
      grace_timestamp min_retain_version min_retain_version r) :
    ∃ events,
      collect_files_to_vacuum env root_dir a grace_timestamp min_retain_version
        = Outcome.returned Status.OK
          { a with vacuumed_version := r - 1, world := a.world ++ events } ∧
      ∀ e ∈ events, ∃ v, e = Event.load a.tablet_info.tablet_id v := by
  have hskip0 : (walk_init a grace_timestamp min_retain_version).skip_check_grace_timestamp
      = false := by
    simp only [walk_init, decide_eq_false_iff_not, not_le]
    exact hgrace
  obtain ⟨v', x, events, hw, hev⟩ := walk_ends_recent env
    (env.join_path root_dir env.kSegmentDirectoryName) a.tablet_info.tablet_id
    (walk_min_version a.tablet_info) grace_timestamp min_retain_version
    min_retain_version min_retain_version r hends
    (walk_fuel a.tablet_info min_retain_version)
    (walk_init a grace_timestamp min_retain_version) rfl rfl hskip0 (le_refl _)
  refine ⟨events, ?_, hev⟩
  obtain ⟨s', hs'⟩ : ∃ s' : WalkState, s' =
      { walk_init a grace_timestamp min_retain_version with
        version := v', final_retain_version := r, extra_file_size := x,
        world := (walk_init a grace_timestamp min_retain_version).world ++ events } :=
    ⟨_, rfl⟩
  rw [← hs'] at hw
  have hskip' : s'.skip_check_grace_timestamp = false := by
    rw [hs']
    exact hskip0
  unfold collect_files_to_vacuum
  rw [hfs]
  simp only
  unfold collect_files_to_vacuum_walk
  rw [hw]
  simp only
  rw [collect_files_to_vacuum_tail_recent env _ _ s' hskip', hs']
  rfl

/-- C5, witness of the amended claim: tablet 1 with the single snapshot 10
    committed at 200, `grace_timestamp = 150`: the call returns OK with
    `vacuumed_version = 10 - 1`. -/
theorem C5_no_pre_grace_snapshot_leaves_all_unchanged_witness :
    ∃ events,
      collect_files_to_vacuum (example_env store_10) "root"
        (example_args { tablet_id := 1, min_version := 0 }) 150 10
        = Outcome.returned Status.OK
          { example_args { tablet_id := 1, min_version := 0 } with
            vacuumed_version := 10 - 1
            world := (example_args { tablet_id := 1, min_version := 0 }).world ++ events } ∧
      ∀ e ∈ events, ∃ v, e = Event.load 1 v :=
  C5_no_pre_grace_snapshot_leaves_all_unchanged (example_env store_10) "root"
    (example_args { tablet_id := 1, min_version := 0 }) 150 10 10 (by decide) rfl
    (@WalkEndsRecent.step_recent (example_env store_10) 1 _ 150 10 10 10
      { id := 1, version := 10, commit_time_field := some 200,
        prev_garbage_version_field := some 9,
        compaction_inputs := [{ segments := ["a.dat"], data_size := 7 }] }
      (by decide) rfl (by decide) (by decide)
      (@WalkEndsRecent.stop_not_found (example_env store_10) 1 _ 150 9 10
        ErrorCode.NotFound "not found" (by decide) rfl rfl))

/-- C7. `AsyncBundleFileDeleter`: `delete_file(p)` returns OK and only
    increments `_pending_files[p]`; the underlying batched deleter, and with it
    `delete_count`, is untouched by any sequence `ops` of `delete_file` and
    `delay_delete` calls on a new deleter. A `finish` that returns OK has
    handed the underlying deleter exactly the paths that were given to
    `delete_file` and not to `delay_delete`, each once, has dispatched all of
    them, and leaves `delete_count()` equal to the number of such paths,
    whatever the reference counts and the order of the calls. -/
theorem C7_bundle_deleter_deletes_pending_minus_delayed (env : Env) (batch_size : Int)
    (ops : List BundleOp) (w : World) (b : AsyncBundleFileDeleter) (path : String)
    (hok : ((bundle_after batch_size ops).finish env w).1 = Status.OK) :
    ((b.delete_file path).1 = Status.OK ∧
      (b.delete_file path).2.toAsyncFileDeleter = b.toAsyncFileDeleter ∧
      (b.delete_file path).2._delay_delete_files = b._delay_delete_files ∧
      (b.delete_file path).2._pending_files = pending_increment path b._pending_files) ∧
    ((bundle_after batch_size ops).toAsyncFileDeleter.delete_count = 0 ∧
      (bundle_after batch_size ops).toAsyncFileDeleter.handed = []) ∧
    (((bundle_after batch_size ops).finish env w).2.1.toAsyncFileDeleter.handed.Nodup ∧
      (∀ p, p ∈ ((bundle_after batch_size ops).finish env w).2.1.toAsyncFileDeleter.handed ↔
        p ∈ deleted_paths ops ∧ p ∉ delayed_paths ops) ∧
      ((bundle_after batch_size ops).finish env w).2.1.toAsyncFileDeleter.submitted.flatten
        = ((bundle_after batch_size ops).finish env w).2.1.toAsyncFileDeleter.handed ∧
      ((bundle_after batch_size ops).finish env w).2.1.toAsyncFileDeleter.delete_count
        = (((deleted_paths ops).toFinset \ (delayed_paths ops).toFinset).card : Int)) := by
  obtain ⟨hbase, hnodup, hkeys, hdelay⟩ := bundle_after_spec batch_size ops
  obtain ⟨_, _, hcount, hbatch, l, _, hl2, hl3⟩ :=
    AsyncBundleFileDeleter.finish_spec env (bundle_after batch_size ops) w
  have hhanded0 : (bundle_after batch_size ops).toAsyncFileDeleter.handed = [] := by
    rw [hbase]
    rfl
  have hcounted0 : (bundle_after batch_size ops).toAsyncFileDeleter.counted := by
    rw [hbase]
    rfl
  rw [hl3 hok, hhanded0, List.nil_append] at hl2
  have hmem : ∀ p, p ∈ deletable_paths (bundle_after batch_size ops) ↔
      p ∈ deleted_paths ops ∧ p ∉ delayed_paths ops := by
    intro p
    unfold deletable_paths
    rw [List.mem_filter, hkeys, decide_eq_true_iff, hdelay]
  have hnd : (deletable_paths (bundle_after batch_size ops)).Nodup := hnodup.filter _
  refine ⟨⟨rfl, rfl, rfl, rfl⟩, ⟨by rw [hbase]; rfl, hhanded0⟩, ?_, ?_, ?_, ?_⟩
  · rw [hl2]
    exact hnd
  · intro p
    rw [hl2]
    exact hmem p
  · have hb := hbatch hok
    have : ((bundle_after batch_size ops).finish env w).2.1.toAsyncFileDeleter.handed
        = ((bundle_after batch_size ops).finish env w).2.1.toAsyncFileDeleter.submitted.flatten
          ++ [] := by
      rw [← hb]
      rfl
    rw [this, List.append_nil]
  · rw [AsyncFileDeleter.delete_count_eq _ (hcount hcounted0) (hbatch hok), hl2,
      ← List.toFinset_card_of_nodup hnd]
    congr 2
    ext p
    rw [List.mem_toFinset, hmem, Finset.mem_sdiff, List.mem_toFinset, List.mem_toFinset]

/-- C7, witness: the calls `delete_file a`, `delete_file b`, `delay_delete b`,
    `delete_file a` leave exactly `a` to be deleted, and `delete_count()` is 1. -/
theorem C7_bundle_deleter_deletes_pending_minus_delayed_witness :
    ((bundle_after 100 [BundleOp.delete_file "a", BundleOp.delete_file "b",
      BundleOp.delay_delete "b", BundleOp.delete_file "a"]).finish
        (example_env store_10_5) []).2.1.toAsyncFileDeleter.delete_count
      = (((deleted_paths [BundleOp.delete_file "a", BundleOp.delete_file "b",
          BundleOp.delay_delete "b", BundleOp.delete_file "a"]).toFinset \
        (delayed_paths [BundleOp.delete_file "a", BundleOp.delete_file "b",
          BundleOp.delay_delete "b", BundleOp.delete_file "a"]).toFinset).card : Int) :=
  (C7_bundle_deleter_deletes_pending_minus_delayed (example_env store_10_5) 100
    [BundleOp.delete_file "a", BundleOp.delete_file "b", BundleOp.delay_delete "b",
      BundleOp.delete_file "a"] [] { _batch_size := 100 } "a" (by decide)).2.2.2.2.2

/-- C10. For every tablet and every request with `grace_timestamp > 0`, over a
    metadata store whose snapshots have versions of at least 1 (the data
    model): if some snapshot on the chain reachable from `min_retain_version`
    along `prev_garbage_version` has `commit_time < grace_timestamp` and a
    version below `min_retain_version`, then a successful
    `collect_files_to_vacuum` returns `*vacuumed_version >= 1`. -/
theorem C10_progress_when_chain_has_pre_grace_snapshot (env : Env) (root_dir : String)
    (a a' : VacuumArgs) (grace_timestamp min_retain_version p : Int)
    (metadata : TabletMetadataPB)
    (hgrace : 0 < grace_timestamp)
    (hversions : ∀ v snapshot,
      env.get_tablet_metadata a.tablet_info.tablet_id v = StatusOr.value snapshot → 1 ≤ v)
    (hchain : OnChain env a.tablet_info.tablet_id min_retain_version p metadata)
    (hcommit : metadata.commit_time < grace_timestamp)
    (hbelow : p < min_retain_version)
    (hok : collect_files_to_vacuum env root_dir a grace_timestamp min_retain_version
      = Outcome.returned Status.OK a') :
    1 ≤ a'.vacuumed_version := by
  obtain ⟨_, s, hw, ht⟩ := collect_files_to_vacuum_ok env root_dir a a' grace_timestamp
    min_retain_version hok
  have hp1 : 1 ≤ p := hversions p metadata hchain.found_last
  have hskip0 : (walk_init a grace_timestamp min_retain_version).skip_check_grace_timestamp
      = false := by
    simp only [walk_init, decide_eq_false_iff_not, not_le]
    exact hgrace
  obtain ⟨h1, h2⟩ := walk_progress env (env.join_path root_dir env.kSegmentDirectoryName)
    a.tablet_info.tablet_id (walk_min_version a.tablet_info) grace_timestamp
    min_retain_version (le_max_left _ _) hversions
    (walk_fuel a.tablet_info min_retain_version)
    (walk_init a grace_timestamp min_retain_version) s
    ⟨fun hk => by rw [hskip0] at hk; exact absurd hk (by simp),
      fun _ => ⟨⟨p, metadata, hchain,
        compare_time_lt_of_commit_time_lt metadata grace_timestamp hgrace hcommit⟩,
        Or.inr (by show 2 ≤ min_retain_version; omega)⟩⟩
    hw
  cases hskip : s.skip_check_grace_timestamp with
  | true =>
    obtain ⟨hvv, _⟩ := collect_files_to_vacuum_tail_flip env _ _ a' s hskip ht
    rw [hvv]
    exact h1 hskip
  | false =>
    rw [collect_files_to_vacuum_tail_recent env _ _ s hskip] at ht
    injection ht with _ ha
    rw [← ha]
    show 1 ≤ s.final_retain_version - 1
    have := h2 hskip
    omega

/-- C10, witness: on the chain 10 -> 5 with commit times 200 and 100,
    `min_retain_version = 10` and `grace_timestamp = 150`, snapshot 5 is older
    than the grace timestamp and the returned version is at least 1. -/
theorem C10_progress_when_chain_has_pre_grace_snapshot_witness :
    1 ≤ (collect_files_to_vacuum (example_env store_10_5) "root"
      (example_args { tablet_id := 1, min_version := 0 }) 150 10).state.vacuumed_version :=
  C10_progress_when_chain_has_pre_grace_snapshot (example_env store_10_5) "root"
    (example_args { tablet_id := 1, min_version := 0 }) _ 150 10 5
    { id := 1, version := 5, commit_time_field := some 100,
      prev_garbage_version_field := some 0,
      compaction_inputs := [{ segments := ["a.dat"], data_size := 7 }] }
    (by decide)
    (by
      intro v snapshot h
      have h' : store_10_5 1 v = StatusOr.value snapshot := h
      unfold store_10_5 at h'
      split at h'
      · omega
      · split at h'
        · omega
        · exact absurd h' (by simp))
    (@OnChain.next (example_env store_10_5) 1 10 5
      { id := 1, version := 10, commit_time_field := some 200,
        prev_garbage_version_field := some 5 }
      _ rfl (OnChain.head rfl))
    (by decide) (by decide)
    (Outcome.eq_of_succeeded _ (by decide))

/-- C8. For every successful `vacuum_impl` call, the tablet infos echoed in the
    response are, in order, those of the request sorted by tablet id (a
    permutation of the request's), each with the same tablet id and a
    `min_version` not below the one supplied for that tablet; for tablets given
    only by `tablet_ids` the supplied value is 0. Applied to each call in turn,
    this says that successive successful vacuums that feed back the echoed
    tablet infos never decrease a tablet's `min_version`. -/
theorem C8_echoed_min_version_never_decreases (env : Env) (tablet_mgr_is_null : Bool)
    (request : VacuumRequest) (response response' : VacuumResponse) (w w' : World)
    (hok : vacuum_impl env tablet_mgr_is_null request response w
      = Outcome.returned Status.OK (response', w')) :
    ∃ echoed, response'.tablet_infos = response.tablet_infos ++ echoed ∧
      List.Forall₂ Echoes (sort_tablet_infos (request_tablet_infos request)) echoed ∧
      (sort_tablet_infos (request_tablet_infos request)).Perm (request_tablet_infos request) ∧
      (request.tablet_infos = [] → ∀ info ∈ echoed, 0 ≤ info.min_version) := by
  obtain ⟨_, hgrace, s, hd, hecho, _⟩ := vacuum_impl_ok env tablet_mgr_is_null request response
    response' w w' hok
  have hall := vacuum_tablet_metadata_forall₂ env _ _ _ _ _ 0 0 0 0 w s Echoes
    (fun a a' h => collect_files_to_vacuum_echoes env _ a a' _ _ hgrace h) hd
  refine ⟨s.tablet_infos, hecho, hall, List.perm_insertionSort _ _, ?_⟩
  intro hempty info hinfo
  obtain ⟨req, hreq, _, hle⟩ := forall₂_exists_left Echoes _ _ hall info hinfo
  have hreq' : req ∈ request_tablet_infos request :=
    (List.perm_insertionSort _ _).subset hreq
  unfold request_tablet_infos at hreq'
  rw [hempty] at hreq'
  simp only [List.length_nil, gt_iff_lt, lt_self_iff_false, if_false] at hreq'
  obtain ⟨tablet_id, _, rfl⟩ := List.mem_map.1 hreq'
  exact hle

/-- C8, witness: a request for tablet 1 by `tablet_ids`, with the chain
    10 -> 5, `min_retain_version = 10` and `grace_timestamp = 150`. -/
theorem C8_echoed_min_version_never_decreases_witness :
    ∃ echoed,
      (vacuum_impl (example_env store_10_5) false
        { tablet_ids := [1], min_retain_version := 10, grace_timestamp := 150 } {}
        []).state.1.tablet_infos = ({} : VacuumResponse).tablet_infos ++ echoed ∧
      List.Forall₂ Echoes
        (sort_tablet_infos (request_tablet_infos
          { tablet_ids := [1], min_retain_version := 10, grace_timestamp := 150 })) echoed ∧
      (sort_tablet_infos (request_tablet_infos
        { tablet_ids := [1], min_retain_version := 10, grace_timestamp := 150 })).Perm
        (request_tablet_infos
          { tablet_ids := [1], min_retain_version := 10, grace_timestamp := 150 }) ∧
      ((({ tablet_ids := [1], min_retain_version := 10, grace_timestamp := 150 } :
          VacuumRequest).tablet_infos = []) → ∀ info ∈ echoed, 0 ≤ info.min_version) :=
  C8_echoed_min_version_never_decreases (example_env store_10_5) false
    { tablet_ids := [1], min_retain_version := 10, grace_timestamp := 150 } {} _ [] _
    (Outcome.eq_of_succeeded _ (by decide))

/-- C6, counterexample: tablet 1 has one snapshot, of version 10, that lists
    the file `B` both in a live rowset with bundle file offsets and in a
    compaction input without bundle file offsets. The call succeeds with
    maximum vacuumed version 10, the snapshot at version 10 references
    `root/data/B` as a bundle file, and the tablet's data-file deleter has
    submitted `root/data/B` for deletion. -/
theorem C6_no_deleter_submits_alive_bundle_file_counterexample :
    (vacuum_tablet_metadata (example_env store_clash) "root"
      [{ tablet_id := 1, min_version := 0 }] 10 150 false 0 0 0 0 []).succeeded = true ∧
    (vacuum_tablet_metadata (example_env store_clash) "root"
      [{ tablet_id := 1, min_version := 0 }] 10 150 false 0 0 0 0 []).state.max_vacuum_version
      = 10 ∧
    (example_env store_clash).get_tablet_metadata 1 10 = StatusOr.value clash_snapshot ∧
    is_alive_bundle_path (example_env store_clash) "root/data" clash_snapshot "root/data/B" ∧
    Event.task ["root/data/B"] ∈
      (vacuum_tablet_metadata (example_env store_clash) "root"
        [{ tablet_id := 1, min_version := 0 }] 10 150 false 0 0 0 0 []).state.world :=
  ⟨by decide, by decide, rfl,
    ⟨{ segments := ["B"], bundle_file_offsets := [0] }, by decide, by decide, "B", by decide,
      by decide⟩,
    by decide⟩

/-- C6, amended. For every successful `vacuum_tablet_metadata` call, let `M` be
    `max_vacuum_version`, the maximum of the per-tablet vacuumed versions. For
    every requested tablet and every rowset with non-empty
    `bundle_file_offsets` in that tablet's snapshot at version `M`, no segment
    path of that rowset (under the segment directory) is handed by the bundle
    file deleter to its underlying deleter, so the bundle file deleter never
    submits it for deletion. -/
theorem C6_bundle_deleter_spares_alive_bundle_files (env : Env) (root_dir : String)
    (tablet_infos : List TabletInfoPB) (min_retain_version grace_timestamp : Int)
    (enable_file_bundling : Bool)
    (vacuumed_files vacuumed_file_size vacuumed_version extra_file_size : Int) (w : World)
    (s' : DriverState)
    (hok : vacuum_tablet_metadata env root_dir tablet_infos min_retain_version grace_timestamp
      enable_file_bundling vacuumed_files vacuumed_file_size vacuumed_version extra_file_size w
      = Outcome.returned Status.OK s') :
    ∀ tablet_info ∈ tablet_infos, ∀ metadata,
      env.get_tablet_metadata tablet_info.tablet_id s'.max_vacuum_version
        = StatusOr.value metadata →
      ∀ path, is_alive_bundle_path env (env.join_path root_dir env.kSegmentDirectoryName)
        metadata path →
      path ∉ s'.bundle_file_deleter.toAsyncFileDeleter.handed := by
  intro tablet_info ht metadata hm path hp
  obtain ⟨s1, hl, hb, _, hs'⟩ := vacuum_tablet_metadata_ok env root_dir tablet_infos
    min_retain_version grace_timestamp enable_file_bundling vacuumed_files vacuumed_file_size
    vacuumed_version extra_file_size w s' hok
  have hbase := vacuum_tablets_bundle_untouched env root_dir min_retain_version
    grace_timestamp enable_file_bundling tablet_infos
    (driver_init env enable_file_bundling vacuumed_files vacuumed_file_size vacuumed_version
      extra_file_size w) s1 ⟨rfl, rfl⟩ hl
  obtain ⟨echoed, he1, he2⟩ := vacuum_tablets_forall₂ env root_dir min_retain_version
    grace_timestamp enable_file_bundling (fun req resp => resp.tablet_id = req.tablet_id)
    (fun a a' h => collect_files_to_vacuum_tablet_id env root_dir a a' _ _ h)
    tablet_infos _ s1 hl
  obtain ⟨echo, hecho, hid⟩ := forall₂_exists_right _ _ _ he2 tablet_info ht
  have hecho' : echo ∈ s1.tablet_infos := by
    rw [he1]
    exact List.mem_append_right _ hecho
  have hmax : s'.max_vacuum_version = s1.max_vacuum_version := by
    rw [hs']
    show (vacuum_partition_metafiles env root_dir enable_file_bundling
      (vacuum_bundle_files env root_dir s1).2).2.max_vacuum_version = _
    rw [(vacuum_partition_metafiles_bundle env root_dir enable_file_bundling _).2,
      vacuum_bundle_files_max]
  have hbundle : s'.bundle_file_deleter
      = (vacuum_bundle_files env root_dir s1).2.bundle_file_deleter := by
    rw [hs']
    exact (vacuum_partition_metafiles_bundle env root_dir enable_file_bundling _).1
  rw [hbundle]
  rw [hmax, ← hid] at hm
  exact vacuum_bundle_files_safe env root_dir s1 hbase hb echo hecho' metadata hm path hp

/-- C6, witness of the amended claim: tablet 1 records the bundle files `B` and
    `C` as garbage, tablet 2 still references `B` at version 10, the maximum
    vacuumed version; the bundle file deleter does not hand over `root/data/B`. -/
theorem C6_bundle_deleter_spares_alive_bundle_files_witness :
    is_alive_bundle_path (example_env store_shared_bundle)
      ((example_env store_shared_bundle).join_path "root"
        (example_env store_shared_bundle).kSegmentDirectoryName)
      { id := 2, version := 10, commit_time_field := some 100,
        prev_garbage_version_field := some 0,
        rowsets := [{ segments := ["B"], bundle_file_offsets := [0] }] } "root/data/B" ∧
    "root/data/B" ∉ (vacuum_tablet_metadata (example_env store_shared_bundle) "root"
        [{ tablet_id := 1, min_version := 0 }, { tablet_id := 2, min_version := 0 }]
        10 150 true 0 0 0 0 []).state.bundle_file_deleter.toAsyncFileDeleter.handed :=
  ⟨⟨{ segments := ["B"], bundle_file_offsets := [0] }, by decide, by decide, "B", by decide,
      by decide⟩,
    C6_bundle_deleter_spares_alive_bundle_files (example_env store_shared_bundle) "root"
      [{ tablet_id := 1, min_version := 0 }, { tablet_id := 2, min_version := 0 }]
      10 150 true 0 0 0 0 [] _ (Outcome.eq_of_succeeded _ (by decide))
      { tablet_id := 2, min_version := 0 } (by decide)
      { id := 2, version := 10, commit_time_field := some 100,
        prev_garbage_version_field := some 0,
        rowsets := [{ segments := ["B"], bundle_file_offsets := [0] }] }
      rfl "root/data/B"
      ⟨{ segments := ["B"], bundle_file_offsets := [0] }, by decide, by decide, "B", by decide,
        by decide⟩⟩

/-- C9, counterexample: tablet 1 with the chain 10 -> 5 (commit times 200 and
    100), `min_retain_version = 10`, `grace_timestamp = 150`. The first vacuum
    succeeds and echoes `min_version = 5`. The second vacuum, run with the same
    parameters on the echoed tablet info, after the events of the first and on
    the same metadata store (the first run deleted no snapshot that exists),
    succeeds and reports `vacuumed_files = 5`, not 0: it submits again the
    compaction input of the retained snapshot 5 and the metadata files of
    versions 1 to 4. -/
theorem C9_second_vacuum_deletes_nothing_counterexample :
    (vacuum_impl (example_env store_10_5) false
      { tablet_ids := [1], min_retain_version := 10, grace_timestamp := 150 } {}
      []).succeeded = true ∧
    (vacuum_impl (example_env store_10_5) false
      { tablet_ids := [1], min_retain_version := 10, grace_timestamp := 150 } {}
      []).state.1.tablet_infos = [{ tablet_id := 1, min_version := 5 }] ∧
    (vacuum_impl (example_env store_10_5) false
      { tablet_infos := [{ tablet_id := 1, min_version := 5 }], min_retain_version := 10,
        grace_timestamp := 150 } {}
      (vacuum_impl (example_env store_10_5) false
        { tablet_ids := [1], min_retain_version := 10, grace_timestamp := 150 } {}
        []).state.2).succeeded = true ∧
    (vacuum_impl (example_env store_10_5) false
      { tablet_infos := [{ tablet_id := 1, min_version := 5 }], min_retain_version := 10,
        grace_timestamp := 150 } {}
      (vacuum_impl (example_env store_10_5) false
        { tablet_ids := [1], min_retain_version := 10, grace_timestamp := 150 } {}
        []).state.2).state.1.vacuumed_files = 5 := by
  decide

/-- C9, amended. Let a first successful `collect_files_to_vacuum` with
    `grace_timestamp > 0` retain the snapshot `retained` of version `r`, the
    first one older than the grace timestamp. Run it again with the same
    `min_retain_version` and `grace_timestamp` on the echoed tablet info, in
    any later state of the storage that still serves the snapshots of versions
    `r` and above (vacuum deletes none of them), whatever the deletion tasks
    return. If the second run succeeds, it retains version `r` again and hands
    the deleters exactly the garbage files recorded in `retained` and, with a
    null version range, the metadata files of the versions strictly between
    `retained.prev_garbage_version` and `r`; every one of these paths had
    already been handed to a deleter by the first run. (So the second run
    submits nothing new, and submits nothing at all when `retained` records no
    garbage and `prev_garbage_version = r - 1`.) -/
theorem C9_second_run_resubmits_only_what_the_first_submitted (env : Env)
    (store : Int → Int → StatusOr TabletMetadataPB)
    (task_status : World → List String → Status) (root_dir : String)
    (a a1 a2 a2' : VacuumArgs) (grace_timestamp min_retain_version r : Int)
    (retained : TabletMetadataPB)
    (hgrace : 0 < grace_timestamp)
    (hfirst : FirstPreGrace env a.tablet_info.tablet_id (walk_min_version a.tablet_info)
      grace_timestamp min_retain_version r)
    (hr : env.get_tablet_metadata a.tablet_info.tablet_id r = StatusOr.value retained)
    (hok1 : collect_files_to_vacuum env root_dir a grace_timestamp min_retain_version
      = Outcome.returned Status.OK a1)
    (hkept : ∀ v, r ≤ v →
      store a.tablet_info.tablet_id v = env.get_tablet_metadata a.tablet_info.tablet_id v)
    (hecho : a2.tablet_info = a1.tablet_info)
    (hok2 : collect_files_to_vacuum (env.later store task_status) root_dir a2 grace_timestamp
      min_retain_version = Outcome.returned Status.OK a2') :
    a2'.vacuumed_version = r ∧ a2'.tablet_info = a1.tablet_info ∧
    a2'.datafile_deleter.handed = a2.datafile_deleter.handed ++
      plain_garbage_paths env (env.join_path root_dir env.kSegmentDirectoryName)
        a2.bundle_file_deleter.isSome retained ∧
    pending_of a2'.bundle_file_deleter = pending_add (pending_of a2.bundle_file_deleter)
      (bundle_garbage_paths env (env.join_path root_dir env.kSegmentDirectoryName)
        a2.bundle_file_deleter.isSome retained) ∧
    (a2.vacuum_version_range = none →
      a2'.metafile_deleter.handed = a2.metafile_deleter.handed ++
        metafile_paths env (env.join_path root_dir env.kMetadataDirectoryName)
          a.tablet_info.tablet_id (retained.prev_garbage_version + 1) r) ∧
    (∀ p, is_garbage_path env (env.join_path root_dir env.kSegmentDirectoryName) retained p →
      p ∈ a1.datafile_deleter.handed ∨
      p ∈ pending_keys (pending_of a1.bundle_file_deleter)) ∧
    (a.vacuum_version_range = none →
      ∀ p ∈ metafile_paths env (env.join_path root_dir env.kMetadataDirectoryName)
          a.tablet_info.tablet_id (retained.prev_garbage_version + 1) r,
        p ∈ a1.metafile_deleter.handed) := by
  have hskip0 : ∀ x : VacuumArgs,
      (walk_init x grace_timestamp min_retain_version).skip_check_grace_timestamp = false := by
    intro x
    simp only [walk_init, decide_eq_false_iff_not, not_le]
    exact hgrace
  -- the first run
  obtain ⟨_, s, hw, ht⟩ := collect_files_to_vacuum_ok env root_dir a a1 grace_timestamp
    min_retain_version hok1
  unfold collect_files_to_vacuum_walk at hw
  obtain ⟨hprev, n, s1, hw1, v1, k1, f1, _, i1, g1, q1⟩ := walk_first_pre_grace_exact env _ _ _
    _ _ _ _ s min_retain_version r retained rfl (hskip0 a) hfirst hr hw
  have hend := walk_skip_final env (env.join_path root_dir env.kSegmentDirectoryName)
    a.tablet_info.tablet_id (walk_min_version a.tablet_info) grace_timestamp
    min_retain_version n s1 (by rw [v1, f1]; exact le_of_lt hprev) k1
  have hver := walk_version_le env (env.join_path root_dir env.kSegmentDirectoryName)
    a.tablet_info.tablet_id (walk_min_version a.tablet_info) grace_timestamp
    min_retain_version n s1
  obtain ⟨_, events, plain, bundle, hT⟩ := walk_inv env
    (env.join_path root_dir env.kSegmentDirectoryName) a.tablet_info.tablet_id
    (walk_min_version a.tablet_info) grace_timestamp min_retain_version n s1
    (by rw [v1, f1]; exact le_of_lt hprev)
  rw [hw1] at hend hver hT
  simp only [LoopResult.state] at hend hver hT
  obtain ⟨_, hti1, hdd1, hbd1, _, _, hmeta1, _⟩ := collect_files_to_vacuum_tail_flip env _ _ a1
    s hend.1 ht
  have hfin1 : s.final_retain_version = r := hend.2.trans f1
  have hr1 : 1 ≤ r := le_trans (le_max_left 1 _) hfirst.lower_bound
  -- the second run
  have hid : a2.tablet_info.tablet_id = a.tablet_info.tablet_id := by
    rw [hecho, hti1]
    rfl
  have hmin2 : walk_min_version a2.tablet_info = r := by
    unfold walk_min_version
    rw [hecho, hti1]
    show max 1 s.final_retain_version = r
    rw [hfin1]
    exact max_eq_right hr1
  have hfirst2 : FirstPreGrace (env.later store task_status) a2.tablet_info.tablet_id
      (walk_min_version a2.tablet_info) grace_timestamp min_retain_version r := by
    rw [hmin2, hid]
    exact first_pre_grace_kept env store task_status _ _ _ _ _ _ _ s min_retain_version r rfl
      (hskip0 a) hkept hfirst hw
  have hr2 : (env.later store task_status).get_tablet_metadata a2.tablet_info.tablet_id r
      = StatusOr.value retained := by
    rw [hid]
    exact (hkept r (le_refl _)).trans hr
  obtain ⟨_, s2, hw2, ht2⟩ := collect_files_to_vacuum_ok (env.later store task_status) root_dir
    a2 a2' grace_timestamp min_retain_version hok2
  unfold collect_files_to_vacuum_walk at hw2
  obtain ⟨_, n2, s3, hw3, v3, k3, f3, _, i3, g3, q3⟩ := walk_first_pre_grace_exact
    (env.later store task_status) _ _ _ _ _ _ _ s2 min_retain_version r retained rfl (hskip0 a2)
    hfirst2 hr2 hw2
  have hs2 : s2 = s3 := walk_done_below (env.later store task_status) _ _ _ _ _ _ s3 s2
    (by rw [v3, hmin2]; exact hprev) hw3
  subst hs2
  obtain ⟨hvv2, hti2, hdd2, hbd2, _, _, hmeta2, _⟩ := collect_files_to_vacuum_tail_flip
    (env.later store task_status) _ _ a2' s2 k3 ht2
  refine ⟨hvv2.trans f3, ?_, ?_, ?_, ?_, ?_, ?_⟩
  · rw [hti2, f3]
    show ({ a2.tablet_info with min_version := r } : TabletInfoPB) = a1.tablet_info
    rw [hecho, hti1, hfin1]
  · rw [hdd2]
    exact g3
  · rw [hbd2]
    exact q3
  · intro hnone
    rw [(hmeta2 hnone).2, v3, f3]
    show a2.metafile_deleter.handed ++ metafile_paths env
      (env.join_path root_dir env.kMetadataDirectoryName) a2.tablet_info.tablet_id
      (retained.prev_garbage_version + 1) r = _
    rw [hid]
  · intro p hp
    rcases garbage_path_routed env _ a.bundle_file_deleter.isSome retained p hp with h | h
    · left
      rw [hdd1]
      show p ∈ s.datafile_deleter.handed
      rw [hT.handed, g1]
      exact List.mem_append_left _ (List.mem_append_right _ h)
    · right
      rw [hbd1]
      show p ∈ pending_keys (pending_of s.bundle_file_deleter)
      rw [hT.pending, q1, mem_pending_keys_add, mem_pending_keys_add]
      exact Or.inl (Or.inr h)
  · intro hnone p hp
    rw [(hmeta1 hnone).2]
    refine List.mem_append_right _ ?_
    unfold metafile_paths at hp ⊢
    obtain ⟨v, hv, rfl⟩ := List.mem_map.1 hp
    refine List.mem_map.2 ⟨v, ?_, rfl⟩
    rw [mem_version_range] at hv ⊢
    rw [hfin1]
    rw [v1] at hver
    exact ⟨by omega, hv.2⟩

/-- C9, witness of the amended claim: tablet 1 with the chain 10 -> 5, run
    twice with `min_retain_version = 10` and `grace_timestamp = 150`; the
    second run retains version 5 again. -/
theorem C9_second_run_resubmits_only_what_the_first_submitted_witness :
    (collect_files_to_vacuum ((example_env store_10_5).later store_10_5 (fun _ _ => Status.OK))
      "root" (example_args { tablet_id := 1, min_version := 5 }) 150 10).state.vacuumed_version
      = 5 :=
  (C9_second_run_resubmits_only_what_the_first_submitted (example_env store_10_5) store_10_5
    (fun _ _ => Status.OK) "root" (example_args { tablet_id := 1, min_version := 0 })
    (collect_files_to_vacuum (example_env store_10_5) "root"
      (example_args { tablet_id := 1, min_version := 0 }) 150 10).state
    (example_args { tablet_id := 1, min_version := 5 }) _ 150 10 5
    { id := 1, version := 5, commit_time_field := some 100,
      prev_garbage_version_field := some 0,
      compaction_inputs := [{ segments := ["a.dat"], data_size := 7 }] }
    (by decide)
    (@FirstPreGrace.older (example_env store_10_5) 1 _ 150 10 5
      { id := 1, version := 10, commit_time_field := some 200,
        prev_garbage_version_field := some 5 }
      (by decide) rfl (by decide)
      (@FirstPreGrace.found (example_env store_10_5) 1 _ 150 5
        { id := 1, version := 5, commit_time_field := some 100,
          prev_garbage_version_field := some 0,
          compaction_inputs := [{ segments := ["a.dat"], data_size := 7 }] }
        (by decide) rfl (by decide)))
    rfl
    (Outcome.eq_of_succeeded _ (by decide))
    (fun _ _ => rfl)
    (by decide)
    (Outcome.eq_of_succeeded _ (by decide))).1

/-- C11. For a batch size `1 <= batch_size` (an `int64_t`) and any sequence of
    `delete_file` calls followed by `finish` on a new `AsyncFileDeleter`, with
    every batch deletion succeeding: each `delete_file` returns OK and leaves
    fewer than `batch_size` paths in the pending batch; `finish` returns OK;
    the batches passed on, concatenated in order, are the paths in call order;
    none is empty and every one except possibly the last has exactly
    `batch_size` paths; the pending batch is empty after `finish`;
    `delete_count()` is the number of paths; and the world has grown by the
    events of these batches, in order. -/
theorem C11_batches_cover_the_paths_in_call_order (env : Env) (batch_size : Int)
    (cb : Option (List String → List Event)) (paths : List String) (w : World)
    (hsize : 1 ≤ batch_size) (hmax : batch_size ≤ INT64_MAX)
    (hsucc : ∀ w files, env.task_status w files = Status.OK) :
    (∀ k path, paths[k]? = some path →
      ((AsyncFileDeleter.delete_each env (paths.take k)
          (AsyncFileDeleter.create batch_size cb, w)).1.delete_file env path
        (AsyncFileDeleter.delete_each env (paths.take k)
          (AsyncFileDeleter.create batch_size cb, w)).2).1 = Status.OK ∧
      ((AsyncFileDeleter.delete_each env (paths.take (k + 1))
          (AsyncFileDeleter.create batch_size cb, w)).1._batch.length : Int) < batch_size) ∧
    (AsyncFileDeleter.delete_each_then_finish env paths
      (AsyncFileDeleter.create batch_size cb, w)).1 = Status.OK ∧
    (AsyncFileDeleter.delete_each_then_finish env paths
      (AsyncFileDeleter.create batch_size cb, w)).2.1.submitted.flatten = paths ∧
    (∀ batch ∈ (AsyncFileDeleter.delete_each_then_finish env paths
      (AsyncFileDeleter.create batch_size cb, w)).2.1.submitted, batch ≠ []) ∧
    (∀ batch ∈ (AsyncFileDeleter.delete_each_then_finish env paths
      (AsyncFileDeleter.create batch_size cb, w)).2.1.submitted.dropLast,
        (batch.length : Int) = batch_size) ∧
    (AsyncFileDeleter.delete_each_then_finish env paths
      (AsyncFileDeleter.create batch_size cb, w)).2.1._batch = [] ∧
    (AsyncFileDeleter.delete_each_then_finish env paths
      (AsyncFileDeleter.create batch_size cb, w)).2.1.delete_count = (paths.length : Int) ∧
    (AsyncFileDeleter.delete_each_then_finish env paths
      (AsyncFileDeleter.create batch_size cb, w)).2.2
      = w ++ (AsyncFileDeleter.delete_each_then_finish env paths
          (AsyncFileDeleter.create batch_size cb, w)).2.1.submitted.flatMap
            (dispatch_events cb) := by
  have h0 := AsyncFileDeleter.steady_new batch_size cb w hsize
  refine ⟨?_, ?_⟩
  · intro k path hk
    have hs := (AsyncFileDeleter.delete_each_steady env batch_size cb w hsize hmax hsucc
      (paths.take k) _ h0).1
    have hstep := AsyncFileDeleter.delete_file_steady env batch_size cb w path _ hsize hmax
      hsucc hs
    refine ⟨hstep.1, ?_⟩
    rw [List.take_succ, hk, Option.toList_some, AsyncFileDeleter.delete_each_concat]
    exact hstep.2.2.2.2.1
  · obtain ⟨hs, hh⟩ := AsyncFileDeleter.delete_each_steady env batch_size cb w hsize hmax
      hsucc paths _ h0
    obtain ⟨f1, f2, f3, f4, f5, f6, f7⟩ := AsyncFileDeleter.finish_steady env batch_size cb w
      hsize hsucc _ hs
    have hpaths : (AsyncFileDeleter.delete_each env paths
        (AsyncFileDeleter.create batch_size cb, w)).1.handed = paths :=
      hh.trans (List.nil_append _)
    unfold AsyncFileDeleter.delete_each_then_finish
    refine ⟨f1, f2.trans hpaths, f3, f4, f5, ?_, f7⟩
    rw [AsyncFileDeleter.delete_count_eq _ f6 f5,
      (AsyncFileDeleter.finish_frame env _ _).1, hpaths]

/-- C11, witness: batch size 2 and the paths `a`, `b`, `c`; the batches are
    `[a, b]` and `[c]`. -/
theorem C11_batches_cover_the_paths_in_call_order_witness :
    (AsyncFileDeleter.delete_each_then_finish (example_env store_10_5) ["a", "b", "c"]
      (AsyncFileDeleter.create 2 none, [])).2.1.submitted = [["a", "b"], ["c"]] ∧
    (AsyncFileDeleter.delete_each_then_finish (example_env store_10_5) ["a", "b", "c"]
      (AsyncFileDeleter.create 2 none, [])).2.1.submitted.flatten = ["a", "b", "c"] :=
  ⟨by decide,
    (C11_batches_cover_the_paths_in_call_order (example_env store_10_5) 2 none
      ["a", "b", "c"] [] (by decide) (by decide) (fun _ _ => rfl)).2.2.1⟩

/-- C12, counterexample: a deleter of batch size 1 whose task for `a` fails.
    `delete_file a` passes `[a]` on; `delete_file b` returns the failure of
    that batch and leaves `b` in the pending batch; the later call
    `delete_file c` returns OK and passes the batch `[b, c]` on, and
    `delete_count` grows from 1 to 3. -/
theorem C12_no_batch_after_a_returned_failure_counterexample :
    ((AsyncFileDeleter.create 1 none).delete_file env_task_a_fails "a" []).1 = Status.OK ∧
    (AsyncFileDeleter.delete_each env_task_a_fails ["a"]
      (AsyncFileDeleter.create 1 none, [])).1.submitted = [["a"]] ∧
    ((AsyncFileDeleter.delete_each env_task_a_fails ["a"]
        (AsyncFileDeleter.create 1 none, [])).1.delete_file env_task_a_fails "b"
      (AsyncFileDeleter.delete_each env_task_a_fails ["a"]
        (AsyncFileDeleter.create 1 none, [])).2).1 = Status.error ErrorCode.IOError "disk" ∧
    (AsyncFileDeleter.delete_each env_task_a_fails ["a", "b"]
      (AsyncFileDeleter.create 1 none, [])).1.delete_count = 1 ∧
    ((AsyncFileDeleter.delete_each env_task_a_fails ["a", "b"]
        (AsyncFileDeleter.create 1 none, [])).1.delete_file env_task_a_fails "c"
      (AsyncFileDeleter.delete_each env_task_a_fails ["a", "b"]
        (AsyncFileDeleter.create 1 none, [])).2).1 = Status.OK ∧
    (AsyncFileDeleter.delete_each env_task_a_fails ["a", "b", "c"]
      (AsyncFileDeleter.create 1 none, [])).1.submitted = [["a"], ["b", "c"]] ∧
    (AsyncFileDeleter.delete_each env_task_a_fails ["a", "b", "c"]
      (AsyncFileDeleter.create 1 none, [])).1.delete_count = 3 ∧
    (AsyncFileDeleter.delete_each env_task_a_fails ["a", "b", "c"]
      (AsyncFileDeleter.create 1 none, [])).2 = [Event.task ["a"], Event.task ["b", "c"]] := by
  decide

/-- C12, amended. When a batch passed on by an `AsyncFileDeleter` has failed
    and the failure has not been returned yet, the next `finish` call returns
    that failure, and the next `delete_file` call returns it when the pending
    batch is full (and OK, keeping the failure for later, when it is not);
    each of these calls passes no batch on, adds no event and leaves
    `delete_count` unchanged. The failure is returned once: the call that
    returns it leaves the deleter without a pending failure. -/
theorem C12_call_returning_a_failure_passes_nothing_on (env : Env) (d : AsyncFileDeleter)
    (w : World) (path : String) (c : ErrorCode) (m : String)
    (hfailed : d._prev_task_status = some (Status.error c m)) :
    ((d.finish env w).1 = Status.error c m ∧
      (d.finish env w).2.1.submitted = d.submitted ∧
      (d.finish env w).2.1.delete_count = d.delete_count ∧
      (d.finish env w).2.2 = w ∧
      (d.finish env w).2.1._prev_task_status = none) ∧
    ((d.delete_file env path w).2.1.submitted = d.submitted ∧
      (d.delete_file env path w).2.1.delete_count = d.delete_count ∧
      (d.delete_file env path w).2.2 = w ∧
      (d.delete_file env path w).2.1._batch = d._batch ++ [path] ∧
      (((d._batch.length : Int) + 1 < d._batch_size % 2 ^ 64 ∧
          (d.delete_file env path w).1 = Status.OK ∧
          (d.delete_file env path w).2.1._prev_task_status = some (Status.error c m)) ∨
        (¬ (d._batch.length : Int) + 1 < d._batch_size % 2 ^ 64 ∧
          (d.delete_file env path w).1 = Status.error c m ∧
          (d.delete_file env path w).2.1._prev_task_status = none))) := by
  have hwait : ∀ d1 : AsyncFileDeleter, d1._prev_task_status = some (Status.error c m) →
      d1.wait.1 = Status.error c m := by
    intro d1 h
    rw [AsyncFileDeleter.wait_status, h]
    rfl
  refine ⟨?_, ?_⟩
  · obtain ⟨f1, f2, f3, f4, f5, f6⟩ := d.wait_fields
    unfold AsyncFileDeleter.finish
    by_cases hempty : d._batch.isEmpty = true
    · rw [if_pos hempty]
      exact ⟨hwait d hfailed, f2, f4, rfl, f6⟩
    · rw [if_neg hempty, AsyncFileDeleter.submit_error env d w c m (hwait d hfailed)]
      exact ⟨rfl, f2, f4, rfl, f6⟩
  · obtain ⟨d1, hd1⟩ : ∃ d1 : AsyncFileDeleter,
        d1 = { d with _batch := d._batch ++ [path] } := ⟨_, rfl⟩
    have e1 : d1._batch_size = d._batch_size := by rw [hd1]
    have e3 : d1.submitted = d.submitted := by rw [hd1]
    have e4 : d1._batch = d._batch ++ [path] := by rw [hd1]
    have e5 : d1._prev_task_status = some (Status.error c m) := by rw [hd1]; exact hfailed
    have e6 : d1._delete_count = d._delete_count := by rw [hd1]
    have hlen : (d1._batch.length : Int) = (d._batch.length : Int) + 1 := by
      rw [e4]
      simp only [List.length_append, List.length_singleton]
      push_cast
      rfl
    have hdef : d.delete_file env path w
        = if (d1._batch.length : Int) < d1._batch_size % 2 ^ 64 then (Status.OK, d1, w)
          else d1.submit env w := by
      rw [hd1]
      rfl
    rw [hdef, hlen, e1]
    by_cases hlt : (d._batch.length : Int) + 1 < d._batch_size % 2 ^ 64
    · rw [if_pos hlt]
      exact ⟨e3, e6, rfl, e4, Or.inl ⟨hlt, rfl, e5⟩⟩
    · rw [if_neg hlt, AsyncFileDeleter.submit_error env d1 w c m (hwait d1 e5)]
      obtain ⟨f1, f2, f3, f4, f5, f6⟩ := d1.wait_fields
      exact ⟨f2.trans e3, f4.trans e6, rfl, f1.trans e4, Or.inr ⟨hlt, rfl, f6⟩⟩

/-- C12, witness of the amended claim: a deleter of batch size 1 with a failed
    batch pending; `finish` returns the failure. -/
theorem C12_call_returning_a_failure_passes_nothing_on_witness :
    (({ _batch_size := 1, _prev_task_status := some (Status.error ErrorCode.IOError "disk"),
        submitted := [["a"]], _delete_count := 1 } : AsyncFileDeleter).finish
      env_task_a_fails [Event.task ["a"]]).1 = Status.error ErrorCode.IOError "disk" :=
  (C12_call_returning_a_failure_passes_nothing_on env_task_a_fails
    { _batch_size := 1, _prev_task_status := some (Status.error ErrorCode.IOError "disk"),
      submitted := [["a"]], _delete_count := 1 }
    [Event.task ["a"]] "b" ErrorCode.IOError "disk" rfl).1.1

/-- C14. `should_retry` answers true for a failed attempt number `k` (from 0)
    exactly when `k < lake_vacuum_retry_max_attempts` and the status is
    resource-busy or its message matches `lake_vacuum_retry_pattern`. For every
    behaviour of the file system, `delete_files_with_retry` returns after some
    attempt `n <= max(0, lake_vacuum_retry_max_attempts)`, having called
    `fs->delete_files` `n + 1` times: every attempt before `n` failed and was to
    be retried, attempt `n` succeeded or was not to be retried, and the status
    returned is that of attempt `n`. -/
theorem C14_retries_while_should_retry_and_returns_last_status (env : FsEnv)
    (paths : List String) (trace : List FsEvent) :
    (∀ st k, should_retry env st k = true ↔
      k < env.lake_vacuum_retry_max_attempts ∧
      (st.is_resource_busy = true ∨
        env.MatchPattern st.message env.lake_vacuum_retry_pattern = true)) ∧
    ∃ n : Nat, (n : Int) ≤ Max.max 0 env.lake_vacuum_retry_max_attempts ∧
      delete_files_with_retry env paths trace
        = Outcome.returned (retry_attempt env paths trace n)
            (retry_trace env paths trace n ++ [FsEvent.delete_files paths]) ∧
      delete_files_calls (delete_files_with_retry env paths trace).state
        = delete_files_calls trace + (n + 1) ∧
      (∀ k, k < n →
        (retry_attempt env paths trace k).ok = false ∧
        (k : Int) < env.lake_vacuum_retry_max_attempts ∧
        ((retry_attempt env paths trace k).is_resource_busy = true ∨
          env.MatchPattern (retry_attempt env paths trace k).message
            env.lake_vacuum_retry_pattern = true)) ∧
      ((retry_attempt env paths trace n).ok = true ∨
        ¬ ((n : Int) < env.lake_vacuum_retry_max_attempts ∧
          ((retry_attempt env paths trace n).is_resource_busy = true ∨
            env.MatchPattern (retry_attempt env paths trace n).message
              env.lake_vacuum_retry_pattern = true))) := by
  refine ⟨should_retry_iff env, ?_⟩
  obtain ⟨n, _, h2, h3, h4, h5⟩ := delete_files_with_retry_loop_spec env paths trace
    (env.lake_vacuum_retry_max_attempts.toNat + 1) 0 (by simp)
  have h3' : delete_files_with_retry env paths trace
      = Outcome.returned (retry_attempt env paths trace n)
          (retry_trace env paths trace n ++ [FsEvent.delete_files paths]) := h3
  refine ⟨n, ?_, h3', ?_, ?_, ?_⟩
  · rcases h2 with h2 | h2
    · rw [h2]
      exact le_max_left _ _
    · exact le_trans h2 (le_max_right _ _)
  · rw [h3']
    show delete_files_calls (retry_trace env paths trace n ++ [FsEvent.delete_files paths]) = _
    rw [delete_files_calls_append, delete_files_calls_retry_trace]
    rfl
  · intro k hk
    obtain ⟨a, b⟩ := h4 k (Nat.zero_le _) hk
    exact ⟨a, (should_retry_iff env _ _).1 b⟩
  · rcases h5 with h5 | h5
    · exact Or.inl h5
    · right
      intro h
      rw [(should_retry_iff env _ _).2 h] at h5
      exact absurd h5 (by simp)

/-- C17. Whenever `tablet_mgr` is null, or both `request.tablet_ids` and
    `request.tablet_infos` are empty, or `request.min_retain_version <= 0`, or
    `request.grace_timestamp <= 0`, `vacuum_impl` returns InvalidArgument and
    leaves the response and the world as they were: no deletion is issued, no
    snapshot is loaded, no response counter is set and no tablet info is added. -/
theorem C17_invalid_request_is_rejected_without_effect (env : Env) (tablet_mgr_is_null : Bool)
    (request : VacuumRequest) (response : VacuumResponse) (w : World)
    (hinvalid : tablet_mgr_is_null = true ∨
      (request.tablet_ids = [] ∧ request.tablet_infos = []) ∨
      request.min_retain_version ≤ 0 ∨ request.grace_timestamp ≤ 0) :
    ∃ message, vacuum_impl env tablet_mgr_is_null request response w
      = Outcome.returned (Status.error ErrorCode.InvalidArgument message) (response, w) := by
  unfold vacuum_impl
  by_cases h1 : tablet_mgr_is_null = true
  · rw [if_pos h1]
    exact ⟨_, rfl⟩
  · rw [if_neg h1]
    by_cases h2 : request.tablet_ids.length = 0 ∧ request.tablet_infos.length = 0
    · rw [if_pos h2]
      exact ⟨_, rfl⟩
    · rw [if_neg h2]
      by_cases h3 : request.min_retain_version ≤ 0
      · rw [if_pos h3]
        exact ⟨_, rfl⟩
      · rw [if_neg h3]
        by_cases h4 : request.grace_timestamp ≤ 0
        · rw [if_pos h4]
          exact ⟨_, rfl⟩
        · rcases hinvalid with h | h | h | h
          · exact absurd h h1
          · exact absurd ⟨by rw [h.1]; rfl, by rw [h.2]; rfl⟩ h2
          · exact absurd h h3
          · exact absurd h h4

/-- C17, witness: a request for tablet 1 with `min_retain_version = 10` and
    `grace_timestamp = 0`. -/
theorem C17_invalid_request_is_rejected_without_effect_witness :
    ∃ message, vacuum_impl (example_env store_10_5) false
      { tablet_ids := [1], min_retain_version := 10, grace_timestamp := 0 } {} []
      = Outcome.returned (Status.error ErrorCode.InvalidArgument message) ({}, []) :=
  C17_invalid_request_is_rejected_without_effect (example_env store_10_5) false
    { tablet_ids := [1], min_retain_version := 10, grace_timestamp := 0 } {} []
    (Or.inr (Or.inr (Or.inr (by decide))))

/-- C15. `vacuum_tablet_metadata`, called with a non-empty tablet list (and a
    `min_retain_version` that is an `int64_t`), returns on success
    `*vacuumed_version` equal to the minimum of the vacuumed versions that the
    calls of `collect_files_to_vacuum` returned for the requested tablets: it is
    the vacuumed version of one of them and is not above that of any of them. -/
theorem C15_partition_vacuumed_version_is_the_minimum (env : Env) (root_dir : String)
    (tablet_infos : List TabletInfoPB) (min_retain_version grace_timestamp : Int)
    (enable_file_bundling : Bool)
    (vacuumed_files vacuumed_file_size vacuumed_version extra_file_size : Int) (w : World)
    (s' : DriverState)
    (hne : tablet_infos ≠ []) (hmax : min_retain_version ≤ INT64_MAX)
    (hok : vacuum_tablet_metadata env root_dir tablet_infos min_retain_version grace_timestamp
      enable_file_bundling vacuumed_files vacuumed_file_size vacuumed_version extra_file_size w
      = Outcome.returned Status.OK s') :
    ∃ s1 runs,
      TabletRuns env root_dir min_retain_version grace_timestamp enable_file_bundling
        tablet_infos
        (driver_init env enable_file_bundling vacuumed_files vacuumed_file_size vacuumed_version
          extra_file_size w) runs s1 ∧
      runs.length = tablet_infos.length ∧
      (∀ run ∈ runs, s'.vacuumed_version ≤ run.result.vacuumed_version) ∧
      (∃ run ∈ runs, s'.vacuumed_version = run.result.vacuumed_version) := by
  obtain ⟨s1, hl, _, _, hs'⟩ := vacuum_tablet_metadata_ok env root_dir tablet_infos
    min_retain_version grace_timestamp enable_file_bundling vacuumed_files vacuumed_file_size
    vacuumed_version extra_file_size w s' hok
  obtain ⟨runs, hruns⟩ := vacuum_tablets_runs env root_dir min_retain_version
    grace_timestamp enable_file_bundling tablet_infos _ s1 hl
  have hv : s'.vacuumed_version
      = runs.foldl (fun m run => Min.min m run.result.vacuumed_version) INT64_MAX := by
    rw [hs']
    show (vacuum_partition_metafiles env root_dir enable_file_bundling
      (vacuum_bundle_files env root_dir s1).2).2.final_vacuum_version = _
    rw [vacuum_partition_metafiles_final, vacuum_bundle_files_final,
      hruns.final_vacuum_version_eq]
    rfl
  have hlen := hruns.length_eq
  have hle := hruns.vacuumed_le
  refine ⟨s1, runs, hruns, hlen, ?_, ?_⟩
  · intro run hrun
    rw [hv]
    exact foldl_min_le_mem (fun run : TabletRun => run.result.vacuumed_version) runs _ run hrun
  · rcases foldl_min_mem (fun run : TabletRun => run.result.vacuumed_version) runs INT64_MAX
      with h | ⟨run, hrun, h⟩
    · cases hres : runs with
      | nil =>
        rw [hres] at hlen
        exact absurd (List.length_eq_zero.1 hlen.symm) hne
      | cons run rest =>
        refine ⟨run, List.mem_cons_self _ _, ?_⟩
        have hrun : run ∈ runs := by
          rw [hres]
          exact List.mem_cons_self _ _
        have h1 := foldl_min_le_mem (fun run : TabletRun => run.result.vacuumed_version) runs
          INT64_MAX run hrun
        have h2 := hle run hrun
        rw [hv]
        rw [h] at h1 ⊢
        exact le_antisymm h1 (le_trans h2 hmax)
    · exact ⟨run, hrun, hv.trans h⟩

/-- C15, witness: tablet 1 with the chain 10 -> 5, whose vacuumed version is
    5, and tablet 2 without snapshots, whose vacuumed version is 9; the
    partition's vacuumed version is 5. -/
theorem C15_partition_vacuumed_version_is_the_minimum_witness :
    (vacuum_tablet_metadata (example_env store_10_5) "root"
      [{ tablet_id := 1, min_version := 0 }, { tablet_id := 2, min_version := 0 }]
      10 150 false 0 0 0 0 []).state.vacuumed_version = 5 ∧
    ∃ s1 runs,
      TabletRuns (example_env store_10_5) "root" 10 150 false
        [{ tablet_id := 1, min_version := 0 }, { tablet_id := 2, min_version := 0 }]
        (driver_init (example_env store_10_5) false 0 0 0 0 []) runs s1 ∧
      runs.length
        = [({ tablet_id := 1, min_version := 0 } : TabletInfoPB),
            { tablet_id := 2, min_version := 0 }].length ∧
      (∀ run ∈ runs,
        (vacuum_tablet_metadata (example_env store_10_5) "root"
          [{ tablet_id := 1, min_version := 0 }, { tablet_id := 2, min_version := 0 }]
          10 150 false 0 0 0 0 []).state.vacuumed_version ≤ run.result.vacuumed_version) ∧
      (∃ run ∈ runs,
        (vacuum_tablet_metadata (example_env store_10_5) "root"
          [{ tablet_id := 1, min_version := 0 }, { tablet_id := 2, min_version := 0 }]
          10 150 false 0 0 0 0 []).state.vacuumed_version = run.result.vacuumed_version) :=
  ⟨by decide,
    C15_partition_vacuumed_version_is_the_minimum (example_env store_10_5) "root"
      [{ tablet_id := 1, min_version := 0 }, { tablet_id := 2, min_version := 0 }]
      10 150 false 0 0 0 0 [] _ (by decide) (by decide)
      (Outcome.eq_of_succeeded _ (by decide))⟩

/-- C18. When the file system of `root_location` is created and every deletion
    task succeeds, then for every listing of the txn log directory
    `vacuum_txn_log` hands the deleter exactly the entries whose name is
    classified as txn log, txn slog or combined txn log and whose parsed
    transaction id is below `min_active_txn_id`, in listing order, and all of
    them are passed on for deletion in batches; the events added to the world
    are those of these batches; `*vacuumed_files` grows by the number of these
    entries and `*vacuumed_file_size` by the sum of their sizes (an absent size
    counting as 0); the status returned is that of the listing, not-found
    counting as OK. -/
theorem C18_txn_logs_below_min_active_txn_id_are_deleted (env : Env) (root_location : String)
    (min_active_txn_id vacuumed_files vacuumed_file_size : Int) (w : World)
    (hfs : env.create_fs root_location = Status.OK)
    (hsucc : ∀ w files, env.task_status w files = Status.OK) :
    (vacuum_txn_log env root_location min_active_txn_id vacuumed_files vacuumed_file_size
      w).2.deleter.submitted.flatten
      = (expired_txn_logs env min_active_txn_id
          (env.iterate_dir2 (env.join_path root_location env.kTxnLogDirectoryName)).1).map
        (fun entry =>
          env.join_path (env.join_path root_location env.kTxnLogDirectoryName) entry.name) ∧
    (vacuum_txn_log env root_location min_active_txn_id vacuumed_files vacuumed_file_size
      w).2.deleter._batch = [] ∧
    (vacuum_txn_log env root_location min_active_txn_id vacuumed_files vacuumed_file_size
      w).2.world
      = w ++ (vacuum_txn_log env root_location min_active_txn_id vacuumed_files
          vacuumed_file_size w).2.deleter.submitted.flatMap (dispatch_events none) ∧
    (vacuum_txn_log env root_location min_active_txn_id vacuumed_files vacuumed_file_size
      w).2.vacuumed_files
      = vacuumed_files + ((expired_txn_logs env min_active_txn_id
          (env.iterate_dir2
            (env.join_path root_location env.kTxnLogDirectoryName)).1).length : Int) ∧
    (vacuum_txn_log env root_location min_active_txn_id vacuumed_files vacuumed_file_size
      w).2.vacuumed_file_size
      = vacuumed_file_size + ((expired_txn_logs env min_active_txn_id
          (env.iterate_dir2 (env.join_path root_location env.kTxnLogDirectoryName)).1).map
        (fun entry => entry.size.getD 0)).sum ∧
    (vacuum_txn_log env root_location min_active_txn_id vacuumed_files vacuumed_file_size
      w).1
      = ignore_not_found
          (env.iterate_dir2 (env.join_path root_location env.kTxnLogDirectoryName)).2 := by
  obtain ⟨v, hv⟩ : ∃ v, v = visit_entries
      (vacuum_txn_log_visit env (env.join_path root_location env.kTxnLogDirectoryName)
        min_active_txn_id)
      (env.iterate_dir2 (env.join_path root_location env.kTxnLogDirectoryName)).1
      (txn_log_init env vacuumed_files vacuumed_file_size w) := ⟨_, rfl⟩
  obtain ⟨h1, h2, h3, _, h5, h6, h7⟩ := vacuum_txn_log_visit_entries env
    (env.join_path root_location env.kTxnLogDirectoryName) min_active_txn_id hsucc
    (env.iterate_dir2 (env.join_path root_location env.kTxnLogDirectoryName)).1
    (txn_log_init env vacuumed_files vacuumed_file_size w) (Or.inl rfl)
  have hlog : AsyncFileDeleter.Logged w (v.2.deleter, v.2.world) := by
    rw [hv]
    refine visit_entries_invariant _
      (fun s => AsyncFileDeleter.Logged w (s.deleter, s.world))
      (fun entry s hs => vacuum_txn_log_visit_logged env _ min_active_txn_id w entry s hs)
      _ _ ?_
    show w = w ++ []
    rw [List.append_nil]
  rw [← hv] at h1 h2 h3 h5 h6 h7
  have hcb : v.2.deleter._cb = none := by
    rw [hv]
    refine visit_entries_invariant _ (fun s : TxnLogState => s.deleter._cb = none) ?_ _ _ rfl
    intro entry s hs
    unfold vacuum_txn_log_visit
    split
    · exact hs
    · exact ((AsyncFileDeleter.delete_file_frame env _ s.deleter s.world).2.2.1).trans hs
  obtain ⟨g1, _, g3⟩ := AsyncFileDeleter.finish_frame env v.2.deleter v.2.world
  have gok := AsyncFileDeleter.finish_no_failure env v.2.deleter v.2.world hsucc h2
  have glog := AsyncFileDeleter.finish_logged env v.2.deleter v.2.world w hlog
  have gcb : (v.2.deleter.finish env v.2.world).2.1._cb = none := by
    have : (v.2.deleter.finish env v.2.world).2.1._cb = v.2.deleter._cb := by
      unfold AsyncFileDeleter.finish
      split
      · exact v.2.deleter.wait_fields.2.2.2.2.1
      · split
        · exact (AsyncFileDeleter.submit_frame env v.2.deleter v.2.world).2.2.1
        · exact ((v.2.deleter.submit env v.2.world).2.1.wait_fields.2.2.2.2.1).trans
            (AsyncFileDeleter.submit_frame env v.2.deleter v.2.world).2.2.1
    exact this.trans hcb
  rw [vacuum_txn_log_eq env root_location min_active_txn_id vacuumed_files vacuumed_file_size
    w hfs v hv]
  simp only
  have hbatch := g3 gok
  refine ⟨?_, hbatch, ?_, h6, h7, ?_⟩
  · have : (v.2.deleter.finish env v.2.world).2.1.handed
        = (v.2.deleter.finish env v.2.world).2.1.submitted.flatten := by
      unfold AsyncFileDeleter.handed
      rw [hbatch, List.append_nil]
    rw [← this, g1, h3]
    exact List.nil_append _
  · have := glog
    unfold AsyncFileDeleter.Logged at this
    rw [gcb] at this
    exact this
  · rw [h5, gok, h1, Status.update_OK]
    exact Status.OK_update _

/-- C18, witness: with `min_active_txn_id = 1000` and the entries txn log
    (1, 999), txn log (1, 1000), combined txn log 998 and `foo.txt`, exactly the
    txn log (1, 999) and the combined txn log 998 are passed on for deletion;
    two files of 40 bytes in all are counted. -/
theorem C18_txn_logs_below_min_active_txn_id_are_deleted_witness :
    (vacuum_txn_log env_txn_logs "root" 1000 0 0 []).2.deleter.submitted.flatten
      = ["root/log/1_999.log", "root/log/998.logs"] ∧
    (vacuum_txn_log env_txn_logs "root" 1000 0 0 []).2.world
      = [Event.task ["root/log/1_999.log", "root/log/998.logs"]] ∧
    (vacuum_txn_log env_txn_logs "root" 1000 0 0 []).2.vacuumed_files = 2 ∧
    (vacuum_txn_log env_txn_logs "root" 1000 0 0 []).2.vacuumed_file_size = 40 ∧
    (vacuum_txn_log env_txn_logs "root" 1000 0 0 []).2.deleter.submitted.flatten
      = (expired_txn_logs env_txn_logs 1000
          (env_txn_logs.iterate_dir2
            (env_txn_logs.join_path "root" env_txn_logs.kTxnLogDirectoryName)).1).map
        (fun entry =>
          env_txn_logs.join_path (env_txn_logs.join_path "root"
            env_txn_logs.kTxnLogDirectoryName) entry.name) :=
  ⟨by decide, by decide, by decide, by decide,
    (C18_txn_logs_below_min_active_txn_id_are_deleted env_txn_logs "root" 1000 0 0 [] rfl
      (fun _ _ => rfl)).1⟩

/-- C16. With `enable_file_bundling`, let `range = [lo, hi)` be the
    `VacuumTabletMetaVerionRange` accumulated by merging
    `[stop_version + 1, final_retain_version)` of every requested tablet whose
    walk reached a snapshot older than the grace timestamp. A successful
    `vacuum_tablet_metadata` gives no metadata file to the per-tablet
    metadata-file deleters, and its partition-level deleter is given, and passes
    on for deletion, exactly `tablet_metadata_filename(tablet_id, 1)` for every
    requested tablet when `lo <= 1`, followed by
    `tablet_metadata_filename(0, v)` for every `lo <= v < hi`; the events this
    adds to the world are the last of the call, and `*vacuumed_files` counts
    these files. -/
theorem C16_bundled_metadata_files_of_the_merged_range (env : Env) (root_dir : String)
    (tablet_infos : List TabletInfoPB) (min_retain_version grace_timestamp : Int)
    (vacuumed_files vacuumed_file_size vacuumed_version extra_file_size : Int) (w : World)
    (s' : DriverState)
    (hok : vacuum_tablet_metadata env root_dir tablet_infos min_retain_version grace_timestamp
      true vacuumed_files vacuumed_file_size vacuumed_version extra_file_size w
      = Outcome.returned Status.OK s') :
    ∃ s1 runs d,
      TabletRuns env root_dir min_retain_version grace_timestamp true tablet_infos
        (driver_init env true vacuumed_files vacuumed_file_size vacuumed_version
          extra_file_size w) runs s1 ∧
      (∀ run ∈ runs, run.result.metafile_deleter.handed = []) ∧
      partition_metafile_deleter env (env.join_path root_dir env.kMetadataDirectoryName)
        (vacuum_bundle_files env root_dir s1).2.tablet_infos (merged_range {} runs)
        (vacuum_bundle_files env root_dir s1).2.world = (Status.OK, (d, s'.world)) ∧
      d.submitted.flatten
        = partition_metafile_paths env (env.join_path root_dir env.kMetadataDirectoryName)
            tablet_infos (merged_range {} runs) ∧
      d._batch = [] ∧
      s'.world = (vacuum_bundle_files env root_dir s1).2.world ++
        d.submitted.flatMap (dispatch_events (some erase_tablet_metadata_from_metacache)) ∧
      s'.vacuumed_files = (vacuum_bundle_files env root_dir s1).2.vacuumed_files +
        ((partition_metafile_paths env (env.join_path root_dir env.kMetadataDirectoryName)
          tablet_infos (merged_range {} runs)).length : Int) := by
  obtain ⟨s1, hl, _, hp, hs'⟩ := vacuum_tablet_metadata_ok env root_dir tablet_infos
    min_retain_version grace_timestamp true vacuumed_files vacuumed_file_size
    vacuumed_version extra_file_size w s' hok
  obtain ⟨runs, hruns⟩ := vacuum_tablets_runs env root_dir min_retain_version
    grace_timestamp true tablet_infos _ s1 hl
  obtain ⟨hrange, hmeta⟩ := hruns.range_eq {} rfl
  obtain ⟨echoed, he1, he2⟩ := vacuum_tablets_forall₂ env root_dir min_retain_version
    grace_timestamp true (fun req resp => resp.tablet_id = req.tablet_id)
    (fun a a' h => collect_files_to_vacuum_tablet_id env root_dir a a' _ _ h)
    tablet_infos _ s1 hl
  have hids : (vacuum_bundle_files env root_dir s1).2.tablet_infos.map (fun t => t.tablet_id)
      = tablet_infos.map (fun t => t.tablet_id) := by
    rw [vacuum_bundle_files_tablet_infos, he1]
    exact forall₂_map_eq (fun t : TabletInfoPB => t.tablet_id)
      (fun t : TabletInfoPB => t.tablet_id) tablet_infos echoed he2
  have hr2 : (vacuum_bundle_files env root_dir s1).2.vacuum_version_range
      = some (merged_range {} runs) := by
    rw [vacuum_bundle_files_range]
    exact hrange
  obtain ⟨p, hpdef⟩ : ∃ p, p = partition_metafile_deleter env
      (env.join_path root_dir env.kMetadataDirectoryName)
      (vacuum_bundle_files env root_dir s1).2.tablet_infos (merged_range {} runs)
      (vacuum_bundle_files env root_dir s1).2.world := ⟨_, rfl⟩
  obtain ⟨m1, m2, m3⟩ := vacuum_partition_metafiles_bundling env root_dir
    (vacuum_bundle_files env root_dir s1).2 (merged_range {} runs) hr2
  rw [← hpdef] at m1 m2 m3
  have hpok : p.1 = Status.OK := m1.symm.trans hp
  have hspec := partition_metafile_deleter_ok env
    (env.join_path root_dir env.kMetadataDirectoryName)
    (vacuum_bundle_files env root_dir s1).2.tablet_infos (merged_range {} runs)
    (vacuum_bundle_files env root_dir s1).2.world (by rw [← hpdef]; exact hpok)
  rw [← hpdef] at hspec
  obtain ⟨q1, q2, q3, q4⟩ := hspec
  rw [partition_metafile_paths_congr env _ _ tablet_infos _ hids] at q1 q4
  have hw' : s'.world = p.2.2 := by
    rw [hs']
    exact m2
  have hvf : s'.vacuumed_files
      = (vacuum_bundle_files env root_dir s1).2.vacuumed_files + p.2.1.delete_count := by
    rw [hs']
    exact m3 hpok
  refine ⟨s1, runs, p.2.1, hruns, ?_, ?_, q1, q2, ?_, ?_⟩
  · intro run hrun
    rw [hmeta run hrun]
    rfl
  · rw [← hpdef, hw', ← hpok]
  · rw [hw']
    exact q3
  · rw [hvf, q4]

/-- C16, witness: tablets 1 and 2 of the store in which both have the single
    snapshot 10, older than the grace timestamp, with file bundling; the merged
    range is `[1, 10)`. -/
theorem C16_bundled_metadata_files_of_the_merged_range_witness :
    (vacuum_tablet_metadata (example_env store_shared_bundle) "root"
      [{ tablet_id := 1, min_version := 0 }, { tablet_id := 2, min_version := 0 }]
      10 150 true 0 0 0 0 []).state.vacuum_version_range
      = some { min_version := 1, max_version := 10 } ∧
    ∃ s1 runs d,
      TabletRuns (example_env store_shared_bundle) "root" 10 150 true
        [{ tablet_id := 1, min_version := 0 }, { tablet_id := 2, min_version := 0 }]
        (driver_init (example_env store_shared_bundle) true 0 0 0 0 []) runs s1 ∧
      (∀ run ∈ runs, run.result.metafile_deleter.handed = []) ∧
      partition_metafile_deleter (example_env store_shared_bundle)
        ((example_env store_shared_bundle).join_path "root"
          (example_env store_shared_bundle).kMetadataDirectoryName)
        (vacuum_bundle_files (example_env store_shared_bundle) "root" s1).2.tablet_infos
        (merged_range {} runs)
        (vacuum_bundle_files (example_env store_shared_bundle) "root" s1).2.world
        = (Status.OK, (d,
          (vacuum_tablet_metadata (example_env store_shared_bundle) "root"
            [{ tablet_id := 1, min_version := 0 }, { tablet_id := 2, min_version := 0 }]
            10 150 true 0 0 0 0 []).state.world)) ∧
      d.submitted.flatten
        = partition_metafile_paths (example_env store_shared_bundle)
            ((example_env store_shared_bundle).join_path "root"
              (example_env store_shared_bundle).kMetadataDirectoryName)
            [{ tablet_id := 1, min_version := 0 }, { tablet_id := 2, min_version := 0 }]
            (merged_range {} runs) ∧
      d._batch = [] ∧
      (vacuum_tablet_metadata (example_env store_shared_bundle) "root"
        [{ tablet_id := 1, min_version := 0 }, { tablet_id := 2, min_version := 0 }]
        10 150 true 0 0 0 0 []).state.world
        = (vacuum_bundle_files (example_env store_shared_bundle) "root" s1).2.world ++
          d.submitted.flatMap (dispatch_events (some erase_tablet_metadata_from_metacache)) ∧
      (vacuum_tablet_metadata (example_env store_shared_bundle) "root"
        [{ tablet_id := 1, min_version := 0 }, { tablet_id := 2, min_version := 0 }]
        10 150 true 0 0 0 0 []).state.vacuumed_files
        = (vacuum_bundle_files (example_env store_shared_bundle) "root" s1).2.vacuumed_files +
          ((partition_metafile_paths (example_env store_shared_bundle)
            ((example_env store_shared_bundle).join_path "root"
              (example_env store_shared_bundle).kMetadataDirectoryName)
            [{ tablet_id := 1, min_version := 0 }, { tablet_id := 2, min_version := 0 }]
            (merged_range {} runs)).length : Int) :=
  ⟨by decide,
    C16_bundled_metadata_files_of_the_merged_range (example_env store_shared_bundle) "root"
      [{ tablet_id := 1, min_version := 0 }, { tablet_id := 2, min_version := 0 }]
      10 150 0 0 0 0 [] _ (Outcome.eq_of_succeeded _ (by decide))⟩

/-- C13. For an `AsyncFileDeleter` constructed with a callback and any sequence
    of `delete_file` and `finish` calls, whatever the deletion tasks return: the
    events added to the world are, for each batch passed on, in order, those of
    one invocation of the callback on exactly that batch followed by the
    deletion task of the batch; no batch is empty, and the batches consist of
    paths given to `delete_file`. Consequently, in the events of any call of
    `vacuum_tablet_metadata`, however it ends, every deletion task either
    consists of paths of the segment directory only or comes right after the
    metacache erasure of each of its paths; so every path of a deletion task
    that is not a data-file path, as every metadata path is, has been erased
    from the metacache before the task is issued. -/
theorem C13_callback_runs_on_each_batch_before_its_deletion (env : Env) (batch_size : Int)
    (cb : List String → List Event) (ops : List DeleterOp) (w : World) (root_dir : String)
    (tablet_infos : List TabletInfoPB) (min_retain_version grace_timestamp : Int)
    (enable_file_bundling : Bool)
    (vacuumed_files vacuumed_file_size vacuumed_version extra_file_size : Int) :
    ((run_deleter_ops env ops (AsyncFileDeleter.create batch_size (some cb), w)).2
        = w ++ (run_deleter_ops env ops
            (AsyncFileDeleter.create batch_size (some cb), w)).1.submitted.flatMap
              (fun batch => cb batch ++ [Event.task batch]) ∧
      (∀ batch ∈ (run_deleter_ops env ops
          (AsyncFileDeleter.create batch_size (some cb), w)).1.submitted, batch ≠ []) ∧
      (run_deleter_ops env ops
          (AsyncFileDeleter.create batch_size (some cb), w)).1.submitted.flatten ++
        (run_deleter_ops env ops (AsyncFileDeleter.create batch_size (some cb), w)).1._batch
        = deleter_op_paths ops) ∧
    ∃ events,
      (vacuum_tablet_metadata env root_dir tablet_infos min_retain_version grace_timestamp
        enable_file_bundling vacuumed_files vacuumed_file_size vacuumed_version extra_file_size
        w).state.world = w ++ events ∧
      ErasedFirst env (env.join_path root_dir env.kSegmentDirectoryName) events ∧
      ∀ pre files post, events = pre ++ Event.task files :: post →
        ∀ p ∈ files, ¬ is_data_path env (env.join_path root_dir env.kSegmentDirectoryName) p →
          Event.erase p ∈ pre := by
  refine ⟨?_, ?_⟩
  · obtain ⟨h1, h2, h3, h4⟩ := run_deleter_ops_spec env ops w
      (AsyncFileDeleter.create batch_size (some cb), w)
      (by show w = w ++ []; rw [List.append_nil])
      (fun batch hb => absurd hb (List.not_mem_nil _))
    refine ⟨?_, h2, ?_⟩
    · have h1' : (run_deleter_ops env ops (AsyncFileDeleter.create batch_size (some cb), w)).2
          = w ++ (run_deleter_ops env ops
              (AsyncFileDeleter.create batch_size (some cb), w)).1.submitted.flatMap
            (dispatch_events (run_deleter_ops env ops
              (AsyncFileDeleter.create batch_size (some cb), w)).1._cb) := h1
      rw [h3] at h1'
      rw [h1']
      exact congrArg (fun l => w ++ l) (flatMap_dispatch_events_nonempty cb _ h2)
    · exact h4.trans (List.nil_append _)
  · obtain ⟨events, h1, h2⟩ := vacuum_tablet_metadata_orderly env root_dir tablet_infos
      min_retain_version grace_timestamp enable_file_bundling vacuumed_files vacuumed_file_size
      vacuumed_version extra_file_size w
    exact ⟨events, h1, h2, h2.erased_before⟩

/-- C20. When the listings of the segment directory and of the metadata
    directory succeed (not-found counting as success) and the segment directory
    lists each name once, `find_orphan_data_files` returns exactly the entries of
    the segment directory that (a) have a segment or SST name, (b) carry an
    mtime with `mtime + expired_seconds <= now`, and (c) are named in no rowset
    segment list and no `sstable_meta` of any listed tablet metadata file that
    loads (so of any listed one, when all of them load), each under its name;
    `partition_datafile_gc`, when the file system is created, returns the
    number of these entries and the sum of their sizes (an absent size counting
    as 0) whenever it returns a pair, and with `do_delete` false it returns OK
    and calls nothing on the file system. -/
theorem C20_orphans_are_expired_data_files_no_metadata_names (env : FsEnv)
    (root_location : String) (expired_seconds : Int) (trace : List FsEvent)
    (hfs : env.create_fs root_location = Status.OK)
    (hseg : ignore_not_found (env.iterate_dir2
      (env.join_path root_location env.kSegmentDirectoryName)).2 = Status.OK)
    (hmeta : ignore_not_found (env.iterate_dir
      (env.join_path root_location env.kMetadataDirectoryName)).2 = Status.OK)
    (hnames : ((env.iterate_dir2
      (env.join_path root_location env.kSegmentDirectoryName)).1.map (fun e => e.name)).Nodup) :
    ∃ orphans,
      find_orphan_data_files env root_location expired_seconds = StatusOr.value orphans ∧
      (∀ kv, kv ∈ orphans ↔
        kv.2 ∈ (env.iterate_dir2 (env.join_path root_location env.kSegmentDirectoryName)).1 ∧
        kv.2.name = kv.1 ∧ is_gc_candidate env expired_seconds kv.2 = true ∧
        kv.1 ∉ referenced_data_files env
          (env.join_path root_location env.kMetadataDirectoryName)) ∧
      (orphans.map Prod.fst).Nodup ∧
      partition_datafile_gc env root_location expired_seconds false trace
        = Outcome.returned Status.OK
            (some ((orphans.length : Int), (orphans.map fun kv => kv.2.size.getD 0).sum),
              trace) ∧
      ∀ do_delete st result trace',
        partition_datafile_gc env root_location expired_seconds do_delete trace
          = Outcome.returned st (some result, trace') →
        result = ((orphans.length : Int), (orphans.map fun kv => kv.2.size.getD 0).sum) := by
  obtain ⟨orphans, h1, h2, h3⟩ := find_orphan_data_files_spec env root_location
    expired_seconds hseg hmeta hnames
  refine ⟨orphans, h1, h2, h3, ?_, ?_⟩
  · unfold partition_datafile_gc
    simp only [hfs, h1]
    rfl
  · intro do_delete st result trace' h
    unfold partition_datafile_gc at h
    simp only [hfs, h1] at h
    split at h
    · injection h with _ h
      injection h with h _
      injection h with h
      exact h.symm
    · split at h
      · injection h with _ h
        injection h with h _
        injection h with h
        exact h.symm
      · injection h with _ h
        injection h with h _
        exact absurd h (by simp)
      · exact absurd h (by simp)
      · exact absurd h (by simp)

/-- C20, witness: at time 1000 with `expired_seconds = 500`, of the entries
    `a.dat` (modified at 100), `c.dat` (modified at 990) and `notes.txt` only
    `a.dat` is returned; `partition_datafile_gc` without deletion returns one
    file of 7 bytes. -/
theorem C20_orphans_are_expired_data_files_no_metadata_names_witness :
    (partition_datafile_gc example_fs_env "root" 500 false []).succeeded = true ∧
    (partition_datafile_gc example_fs_env "root" 500 false []).state = (some (1, 7), []) ∧
    ∃ orphans,
      find_orphan_data_files example_fs_env "root" 500 = StatusOr.value orphans ∧
      (∀ kv, kv ∈ orphans ↔
        kv.2 ∈ (example_fs_env.iterate_dir2
          (example_fs_env.join_path "root" example_fs_env.kSegmentDirectoryName)).1 ∧
        kv.2.name = kv.1 ∧ is_gc_candidate example_fs_env 500 kv.2 = true ∧
        kv.1 ∉ referenced_data_files example_fs_env
          (example_fs_env.join_path "root" example_fs_env.kMetadataDirectoryName)) ∧
      (orphans.map Prod.fst).Nodup ∧
      partition_datafile_gc example_fs_env "root" 500 false []
        = Outcome.returned Status.OK
            (some ((orphans.length : Int), (orphans.map fun kv => kv.2.size.getD 0).sum),
              []) ∧
      ∀ do_delete st result trace',
        partition_datafile_gc example_fs_env "root" 500 do_delete []
          = Outcome.returned st (some result, trace') →
        result = ((orphans.length : Int), (orphans.map fun kv => kv.2.size.getD 0).sum) :=
  ⟨by decide, by decide,
    C20_orphans_are_expired_data_files_no_metadata_names example_fs_env "root" 500 [] rfl
      (by decide) (by decide) (by decide)⟩

/-- C19. A call of `delete_tablets_impl` on sorted `tablet_ids` that returns OK
    has passed on for deletion every path it gave its deleter, and these are,
    in order, a part for the txn logs and then one part for each tablet found
    in the listing of the metadata directory. The versions found are exactly
    those of the listed metadata files of tablets in `tablet_ids`, each once.
    The part of a tablet ends with the metadata file of each of its listed
    versions, and before them holds paths of the segment directory only, among
    them, when the highest listed version loads, every segment of every live
    rowset, every file of `delvec_meta` and every sstable of that snapshot. A
    path of the txn-log part is in the segment directory or is a listed txn
    log, slog or vlog whose parsed tablet id is in `tablet_ids`. When the names
    keep the metadata files apart, the path of each listed metadata file is
    passed on exactly once. -/
theorem C19_purge_deletes_listed_metadata_and_latest_live_files (env : FsEnv) (fuel : Nat)
    (root_dir : String) (tablet_ids : List Int) (w : World) (d : AsyncFileDeleter) (w1 : World)
    (hsorted : tablet_ids.Sorted (fun a b => a ≤ b))
    (hok : delete_tablets_impl env fuel root_dir tablet_ids w
      = Outcome.returned Status.OK (d, w1)) :
    ∃ (log_part : List String) (tablets : List (Int × List Int)) (parts : List (List String)),
      d.submitted.flatten = log_part ++ parts.flatten ∧ d._batch = [] ∧
      (∀ p ∈ log_part,
        is_data_path env.toEnv (env.join_path root_dir env.kSegmentDirectoryName) p ∨
        ∃ name, listed_txn_log env (env.join_path root_dir env.kTxnLogDirectoryName)
            tablet_ids name ∧
          p = env.join_path (env.join_path root_dir env.kTxnLogDirectoryName) name) ∧
      (version_pairs tablets).Nodup ∧
      (∀ t v, (t, v) ∈ version_pairs tablets ↔
        listed_version env (env.join_path root_dir env.kMetadataDirectoryName) tablet_ids t v) ∧
      (∀ entry ∈ tablets,
        entry.2.getLastD 0 ∈ entry.2 ∧ ∀ v ∈ entry.2, v ≤ entry.2.getLastD 0) ∧
      List.Forall₂ (purged_tablet env (env.join_path root_dir env.kSegmentDirectoryName)
        (env.join_path root_dir env.kMetadataDirectoryName)) tablets parts ∧
      (metadata_paths_apart env root_dir tablet_ids → ∀ t v,
        listed_version env (env.join_path root_dir env.kMetadataDirectoryName) tablet_ids t v →
        d.submitted.flatten.count
          (metadata_path env (env.join_path root_dir env.kMetadataDirectoryName) t v) = 1) := by
  obtain ⟨log_part, tablets, parts, h1, h2, h3, h4, h5, h6⟩ :=
    delete_tablets_impl_spec env fuel root_dir tablet_ids w d w1 hsorted hok
  refine ⟨log_part, tablets, parts, h1, h2, h3, version_pairs_nodup tablets h4, h5, ?_, h6, ?_⟩
  · intro entry he
    obtain ⟨g1, g2, _⟩ := h4.2 entry he
    exact ⟨getLastD_mem _ g1, sorted_le_getLastD _ g2⟩
  · intro hapart t v hl
    rw [h1]
    exact purged_metadata_count env root_dir tablet_ids log_part tablets parts h3
      (version_pairs_nodup tablets h4) h5 h6 hapart t v hl

/-- C19, witness: the removal of tablet 7 from a root that lists a txn log and
    the metadata versions 3 and 2 of tablet 7 next to files of tablet 8
    succeeds; the files of tablet 8 are left alone, and the live segment, the
    delvec file and the sstable of version 3 are among the paths passed on. -/
theorem C19_purge_deletes_listed_metadata_and_latest_live_files_witness :
    (delete_tablets_impl purge_env 2 "root" [7] []).succeeded = true ∧
    (delete_tablets_impl purge_env 2 "root" [7] []).state.1.submitted.flatten
      = ["root/data/w.dat", "root/data/w.del", "root/log/7_99.log", "root/data/old.dat",
         "root/data/s1.dat", "root/data/d1.delvec", "root/data/k1.sst", "root/meta/7_2.meta",
         "root/meta/7_3.meta"] ∧
    metadata_paths_apart purge_env "root" [7] ∧
    ∃ (log_part : List String) (tablets : List (Int × List Int)) (parts : List (List String)),
      (delete_tablets_impl purge_env 2 "root" [7] []).state.1.submitted.flatten
        = log_part ++ parts.flatten ∧
      (delete_tablets_impl purge_env 2 "root" [7] []).state.1._batch = [] ∧
      (∀ p ∈ log_part,
        is_data_path purge_env.toEnv
          (purge_env.join_path "root" purge_env.kSegmentDirectoryName) p ∨
        ∃ name, listed_txn_log purge_env
            (purge_env.join_path "root" purge_env.kTxnLogDirectoryName) [7] name ∧
          p = purge_env.join_path
            (purge_env.join_path "root" purge_env.kTxnLogDirectoryName) name) ∧
      (version_pairs tablets).Nodup ∧
      (∀ t v, (t, v) ∈ version_pairs tablets ↔
        listed_version purge_env
          (purge_env.join_path "root" purge_env.kMetadataDirectoryName) [7] t v) ∧
      (∀ entry ∈ tablets,
        entry.2.getLastD 0 ∈ entry.2 ∧ ∀ v ∈ entry.2, v ≤ entry.2.getLastD 0) ∧
      List.Forall₂ (purged_tablet purge_env
        (purge_env.join_path "root" purge_env.kSegmentDirectoryName)
        (purge_env.join_path "root" purge_env.kMetadataDirectoryName)) tablets parts ∧
      (metadata_paths_apart purge_env "root" [7] → ∀ t v,
        listed_version purge_env
          (purge_env.join_path "root" purge_env.kMetadataDirectoryName) [7] t v →
        (delete_tablets_impl purge_env 2 "root" [7] []).state.1.submitted.flatten.count
          (metadata_path purge_env
            (purge_env.join_path "root" purge_env.kMetadataDirectoryName) t v) = 1) :=
  ⟨by decide, by decide, purge_env_apart,
    C19_purge_deletes_listed_metadata_and_latest_live_files purge_env 2 "root" [7] []
      (delete_tablets_impl purge_env 2 "root" [7] []).state.1
      (delete_tablets_impl purge_env 2 "root" [7] []).state.2
      (List.sorted_singleton 7) (Outcome.eq_of_succeeded _ (by decide))⟩

/-- C27, counterexample: the range is `(0, 0)` and `merge(5, 15)` is called; the
    range becomes `(5, 15)`, not `(min(0, 5), min(0, 15)) = (0, 0)`. -/
theorem C27_merge_takes_elementwise_min_counterexample :
    VacuumTabletMetaVerionRange.merge { min_version := 0, max_version := 0 } 5 15
      = { min_version := 5, max_version := 15 } ∧
    VacuumTabletMetaVerionRange.merge { min_version := 0, max_version := 0 } 5 15
      ≠ { min_version := Min.min 0 5, max_version := Min.min 0 15 } := by
  decide

/-- C27, amended. For every state `(a, b)` of a `VacuumTabletMetaVerionRange`
    other than `(0, 0)` and every `(min, max)`, `merge(min, max)` leaves the
    range equal to `(min(a, min), min(b, max))`, so neither bound grows; in the
    state `(0, 0)`, that of a new range, `merge(min, max)` sets the range to
    `(min, max)`. -/
theorem C27_merge_takes_elementwise_min_unless_unset (r : VacuumTabletMetaVerionRange)
    (min max : Int) :
    (¬ (r.min_version = 0 ∧ r.max_version = 0) →
      r.merge min max
        = { min_version := Min.min r.min_version min, max_version := Min.min r.max_version max } ∧
      (r.merge min max).min_version ≤ r.min_version ∧
      (r.merge min max).max_version ≤ r.max_version ∧
      (r.merge min max).min_version ≤ min ∧ (r.merge min max).max_version ≤ max) ∧
    (r.min_version = 0 ∧ r.max_version = 0 →
      r.merge min max = { min_version := min, max_version := max }) := by
  constructor
  · intro h
    have e : r.merge min max
        = { min_version := Min.min r.min_version min,
            max_version := Min.min r.max_version max } := by
      unfold VacuumTabletMetaVerionRange.merge
      rw [if_neg h]
    rw [e]
    exact ⟨rfl, min_le_left _ _, min_le_left _ _, min_le_right _ _, min_le_right _ _⟩
  · intro h
    unfold VacuumTabletMetaVerionRange.merge
    rw [if_pos h]

/-- C27, witness of the amended claim: merging `[5, 15)` into `[1, 10)` gives
    `[1, 10)`. -/
theorem C27_merge_takes_elementwise_min_unless_unset_witness :
    VacuumTabletMetaVerionRange.merge { min_version := 1, max_version := 10 } 5 15
      = { min_version := 1, max_version := 10 } :=
  ((C27_merge_takes_elementwise_min_unless_unset { min_version := 1, max_version := 10 } 5
    15).1 (by decide)).1

/-- C22, counterexample: with `min_retain_version = 10`, a snapshot of version
    5, which is not above 10, that records 7 + 3 bytes of garbage contributes
    10, and the same snapshot at version 11, which is above 10, contributes 0. -/
theorem C22_extra_size_counts_versions_above_counterexample :
    snapshot_5_with_garbage.version ≤ 10 ∧
    collect_extra_files_size snapshot_5_with_garbage 10 = 10 ∧
    ({ snapshot_5_with_garbage with version := 11 } : TabletMetadataPB).version > 10 ∧
    collect_extra_files_size { snapshot_5_with_garbage with version := 11 } 10 = 0 := by
  decide

/-- C22, amended. `collect_extra_files_size(metadata, min_retain_version)` is 0
    for a snapshot whose version is above `min_retain_version`, and for a
    snapshot whose version is at or below `min_retain_version` it is the sum of
    the `data_size` of its `compaction_inputs` plus the `size` of its
    `orphan_files`, taken in `size_t`: modulo `2 ^ 64`, and so the sum itself
    when that lies in `[0, 2 ^ 64)`. -/
theorem C22_extra_size_counts_versions_at_or_below (metadata : TabletMetadataPB)
    (min_retain_version : Int) :
    (metadata.version > min_retain_version →
      collect_extra_files_size metadata min_retain_version = 0) ∧
    (metadata.version ≤ min_retain_version →
      collect_extra_files_size metadata min_retain_version
        = ((metadata.compaction_inputs.map (fun rowset => rowset.data_size)).sum
          + (metadata.orphan_files.map (fun file => file.size)).sum) % 2 ^ 64 ∧
      (0 ≤ (metadata.compaction_inputs.map (fun rowset => rowset.data_size)).sum
          + (metadata.orphan_files.map (fun file => file.size)).sum →
        (metadata.compaction_inputs.map (fun rowset => rowset.data_size)).sum
          + (metadata.orphan_files.map (fun file => file.size)).sum < 2 ^ 64 →
        collect_extra_files_size metadata min_retain_version
          = (metadata.compaction_inputs.map (fun rowset => rowset.data_size)).sum
            + (metadata.orphan_files.map (fun file => file.size)).sum)) := by
  constructor
  · intro h
    unfold collect_extra_files_size
    rw [if_pos h]
  · intro h
    have e : collect_extra_files_size metadata min_retain_version
        = ((metadata.compaction_inputs.map (fun rowset => rowset.data_size)).sum
          + (metadata.orphan_files.map (fun file => file.size)).sum) % 2 ^ 64 := by
      unfold collect_extra_files_size
      rw [if_neg (not_lt.2 h)]
    refine ⟨e, fun h0 h1 => ?_⟩
    rw [e]
    exact Int.emod_eq_of_lt h0 h1

/-- C22, witness of the amended claim: the snapshot of version 5 with 7 + 3
    bytes of garbage and `min_retain_version = 10`. -/
theorem C22_extra_size_counts_versions_at_or_below_witness :
    collect_extra_files_size snapshot_5_with_garbage 10
      = (snapshot_5_with_garbage.compaction_inputs.map (fun rowset => rowset.data_size)).sum
        + (snapshot_5_with_garbage.orphan_files.map (fun file => file.size)).sum :=
  ((C22_extra_size_counts_versions_at_or_below snapshot_5_with_garbage 10).2 (by decide)).2
    (by decide) (by decide)

/-- C28, counterexample: with 40 attempts allowed and a minimal delay of 100 ms,
    attempt 31 is within the bound, yet `1 << 31` is computed in `int` and is
    negative: the delay is `-214748364800`, not `100 * 2 ^ 31`; for attempt 32
    the shift is not defined at all. -/
theorem C28_retry_delay_is_min_delay_times_power_counterexample :
    (0 : Int) ≤ 31 ∧ (31 : Int) < env_40_attempts.lake_vacuum_retry_max_attempts ∧
    0 ≤ env_40_attempts.lake_vacuum_retry_min_delay_ms ∧
    calculate_retry_delay env_40_attempts 31 = some (-214748364800) ∧
    calculate_retry_delay env_40_attempts 31
      ≠ some (env_40_attempts.lake_vacuum_retry_min_delay_ms * 2 ^ 31) ∧
    (32 : Int) < env_40_attempts.lake_vacuum_retry_max_attempts ∧
    calculate_retry_delay env_40_attempts 32 = none := by
  decide

/-- C28, amended. For `0 <= attempted_retries < 31` and a configured
    `lake_vacuum_retry_min_delay_ms = d >= 0` with
    `d * 2 ^ attempted_retries <= INT64_MAX`,
    `calculate_retry_delay(attempted_retries)` returns exactly
    `d * 2 ^ attempted_retries`, which is non-negative, and under the same
    conditions the next attempt's delay is twice that. -/
theorem C28_retry_delay_is_min_delay_times_power_below_31 (env : FsEnv)
    (attempted_retries : Int) (h0 : 0 ≤ attempted_retries) (h31 : attempted_retries < 31)
    (hd : 0 ≤ env.lake_vacuum_retry_min_delay_ms)
    (hfit : env.lake_vacuum_retry_min_delay_ms * 2 ^ attempted_retries.toNat ≤ INT64_MAX) :
    calculate_retry_delay env attempted_retries
      = some (env.lake_vacuum_retry_min_delay_ms * 2 ^ attempted_retries.toNat) ∧
    0 ≤ env.lake_vacuum_retry_min_delay_ms * 2 ^ attempted_retries.toNat ∧
    (attempted_retries + 1 < 31 →
      env.lake_vacuum_retry_min_delay_ms * 2 ^ (attempted_retries + 1).toNat ≤ INT64_MAX →
      calculate_retry_delay env (attempted_retries + 1)
        = some (2 * (env.lake_vacuum_retry_min_delay_ms * 2 ^ attempted_retries.toNat))) := by
  have key : ∀ k : Int, 0 ≤ k → k < 31 →
      env.lake_vacuum_retry_min_delay_ms * 2 ^ k.toNat ≤ INT64_MAX →
      calculate_retry_delay env k = some (env.lake_vacuum_retry_min_delay_ms * 2 ^ k.toNat) := by
    intro k hk0 hk31 hkfit
    have hnn : 0 ≤ env.lake_vacuum_retry_min_delay_ms * 2 ^ k.toNat :=
      mul_nonneg hd (pow_nonneg (by norm_num) _)
    unfold calculate_retry_delay shift_left_one
    rw [if_pos ⟨hk0, hk31⟩]
    simp only
    rw [if_pos ⟨le_trans (by norm_num) hnn, hkfit⟩]
  refine ⟨key _ h0 h31 hfit, mul_nonneg hd (pow_nonneg (by norm_num) _), fun h1 h2 => ?_⟩
  rw [key _ (by omega) h1 h2]
  have e : (attempted_retries + 1).toNat = attempted_retries.toNat + 1 := by omega
  rw [e, pow_succ]
  congr 1
  ring

/-- C28, witness of the amended claim: a minimal delay of 100 ms and attempt 2
    give 400 ms, and attempt 3 gives 800 ms. -/
theorem C28_retry_delay_is_min_delay_times_power_below_31_witness :
    calculate_retry_delay example_fs_env 2 = some (100 * 2 ^ 2) ∧
    (0 : Int) ≤ 100 * 2 ^ 2 ∧
    ((2 : Int) + 1 < 31 → (100 : Int) * 2 ^ ((2 : Int) + 1).toNat ≤ INT64_MAX →
      calculate_retry_delay example_fs_env (2 + 1) = some (2 * (100 * 2 ^ 2))) :=
  C28_retry_delay_is_min_delay_times_power_below_31 example_fs_env 2 (by decide) (by decide)
    (by decide) (by decide)

/-- C30. In `find_orphan_data_files`, after the loop over the metadata files,
    started on any candidate map and any list of metadata files, no key of the
    remaining candidate map is in `data_files_in_metadatas`; so the double check
    never fails, and the function is the function without it: every error it
    returns is that of one of the two listings. -/
theorem C30_double_check_never_fails (env : FsEnv) (root_location : String)
    (expired_seconds : Int) :
    (∀ (data_files : List (String × DirEntry)) (meta_files : List String),
      ∀ kv ∈ (meta_files.foldl (filter_with_metadata env
          (env.join_path root_location env.kMetadataDirectoryName))
          { data_files := data_files }).data_files,
        kv.1 ∉ (meta_files.foldl (filter_with_metadata env
          (env.join_path root_location env.kMetadataDirectoryName))
          { data_files := data_files }).data_files_in_metadatas) ∧
    find_orphan_data_files env root_location expired_seconds
      = (match list_data_files env (env.join_path root_location env.kSegmentDirectoryName)
          expired_seconds with
        | StatusOr.error c m => StatusOr.error c m
        | StatusOr.value data_files =>
          if data_files.isEmpty then StatusOr.value data_files
          else
            match list_meta_files env
                (env.join_path root_location env.kMetadataDirectoryName) with
            | StatusOr.error c m => StatusOr.error c m
            | StatusOr.value meta_files =>
              StatusOr.value (meta_files.foldl
                (filter_with_metadata env
                  (env.join_path root_location env.kMetadataDirectoryName))
                { data_files := data_files }).data_files) ∧
    ∀ c m, find_orphan_data_files env root_location expired_seconds = StatusOr.error c m →
      list_data_files env (env.join_path root_location env.kSegmentDirectoryName)
        expired_seconds = StatusOr.error c m ∨
      list_meta_files env (env.join_path root_location env.kMetadataDirectoryName)
        = StatusOr.error c m := by
  refine ⟨fun data_files meta_files =>
    (filter_loop_disjoint env _ data_files meta_files).1,
    find_orphan_data_files_eq env root_location expired_seconds, ?_⟩
  intro c m h
  rw [find_orphan_data_files_eq] at h
  cases hd : list_data_files env (env.join_path root_location env.kSegmentDirectoryName)
      expired_seconds with
  | error c1 m1 =>
    rw [hd] at h
    exact Or.inl h
  | value data_files =>
    rw [hd] at h
    simp only at h
    split at h
    · exact StatusOr.noConfusion h
    · cases hm : list_meta_files env
          (env.join_path root_location env.kMetadataDirectoryName) with
      | error c1 m1 =>
        rw [hm] at h
        simp only at h
        injection h with h1 h2
        rw [h1, h2]
        exact Or.inr rfl
      | value meta_files =>
        rw [hm] at h
        exact StatusOr.noConfusion h

/-- C21, counterexample: the segment directory lists the expired segment
    `a.dat` and the metadata directory lists `1_10.meta`, a metadata file that
    names `a.dat`. When the file loads, `a.dat` is not returned; when its load
    fails with an I/O error, the file is passed over, `a.dat` is returned as an
    orphan, and `partition_datafile_gc` with `do_delete` deletes it. -/
theorem C21_files_named_by_a_metadata_file_are_kept_counterexample :
    "1_10.meta" ∈ ((orphan_env (StatusOr.value metadata_naming_a)).iterate_dir "root/meta").1 ∧
    "a.dat" ∈ metadata_naming_a.data_file_names ∧
    find_orphan_data_files (orphan_env (StatusOr.value metadata_naming_a)) "root" 500
      = StatusOr.value [] ∧
    find_orphan_data_files (orphan_env (StatusOr.error ErrorCode.IOError "read failed"))
      "root" 500
      = StatusOr.value [("a.dat", { name := "a.dat", size := some 7, mtime := some 100 })] ∧
    (partition_datafile_gc (orphan_env (StatusOr.error ErrorCode.IOError "read failed"))
      "root" 500 true []).state
      = (some (1, 7), [FsEvent.delete_files ["root/data/a.dat"]]) :=
  ⟨by decide, by decide, rfl, rfl, by decide⟩

/-- C21, amended. For every partition state and every outcome of the metadata
    loads, a file that is named in the rowsets or the `sstable_meta` of a
    metadata file that is listed under the metadata directory and that loads is
    not returned by `find_orphan_data_files`, and every path that
    `partition_datafile_gc` gives to `delete_files`, however it ends, is the
    path in the segment directory of a name that no such metadata file names. A
    listed metadata file whose load fails protects nothing. -/
theorem C21_files_named_by_a_loaded_metadata_file_are_kept (env : FsEnv)
    (root_location : String) (expired_seconds : Int) (do_delete : Bool)
    (trace : List FsEvent) :
    (∀ orphans, find_orphan_data_files env root_location expired_seconds
        = StatusOr.value orphans →
      ∀ kv ∈ orphans, kv.1 ∉ referenced_data_files env
        (env.join_path root_location env.kMetadataDirectoryName)) ∧
    (∀ name metadata, name ∈ (env.iterate_dir
        (env.join_path root_location env.kMetadataDirectoryName)).1 →
      env.is_tablet_metadata name = true →
      env.load_tablet_metadata
        (env.join_path (env.join_path root_location env.kMetadataDirectoryName) name)
        = StatusOr.value metadata →
      ∀ file ∈ metadata.data_file_names,
        file ∈ referenced_data_files env
          (env.join_path root_location env.kMetadataDirectoryName)) ∧
    ∀ p ∈ fs_deleted_paths
        (partition_datafile_gc env root_location expired_seconds do_delete trace).state.2,
      p ∈ fs_deleted_paths trace ∨
      ∃ name, p = env.join_path (env.join_path root_location env.kSegmentDirectoryName) name ∧
        name ∉ referenced_data_files env
          (env.join_path root_location env.kMetadataDirectoryName) := by
  refine ⟨fun orphans h => find_orphan_data_files_unreferenced env _ _ orphans h, ?_, ?_⟩
  · intro name metadata hn hm hl file hf
    unfold referenced_data_files
    refine List.mem_flatMap.2 ⟨name, List.mem_filter.2 ⟨hn, hm⟩, ?_⟩
    unfold metadata_file_names
    rw [hl]
    exact hf
  · intro p hp
    rcases partition_datafile_gc_paths env root_location expired_seconds do_delete trace p hp
      with h | ⟨orphans, kv, h1, h2, h3⟩
    · exact Or.inl h
    · exact Or.inr ⟨kv.1, h3, find_orphan_data_files_unreferenced env _ _ orphans h1 kv h2⟩

/-- C21, witness of the amended claim: when the metadata file that names `a.dat`
    loads, `a.dat` is among the names the listed metadata files name, nothing
    is returned as an orphan and nothing is deleted. -/
theorem C21_files_named_by_a_loaded_metadata_file_are_kept_witness :
    "a.dat" ∈ referenced_data_files (orphan_env (StatusOr.value metadata_naming_a))
      ((orphan_env (StatusOr.value metadata_naming_a)).join_path "root"
        (orphan_env (StatusOr.value metadata_naming_a)).kMetadataDirectoryName) ∧
    find_orphan_data_files (orphan_env (StatusOr.value metadata_naming_a)) "root" 500
      = StatusOr.value [] ∧
    (partition_datafile_gc (orphan_env (StatusOr.value metadata_naming_a)) "root" 500 true
      []).state = (some (0, 0), []) :=
  ⟨(C21_files_named_by_a_loaded_metadata_file_are_kept
      (orphan_env (StatusOr.value metadata_naming_a)) "root" 500 true []).2.1
      "1_10.meta" metadata_naming_a (by decide) (by decide) rfl "a.dat" (by decide),
    rfl, by decide⟩

/-- C24, counterexample: snapshot 10 of tablet 1 names itself as the previous
    version and records the compaction inputs `a` and `b`; the data-file deleter
    has batch size 1 and deletion tasks fail. Version 10 is loaded, the task for
    `a` is handed over, and giving `b` to the deleter returns the error of that
    task: `collect_files_to_vacuum` returns the error before it reaches
    `CHECK_LT`, so the process does not abort. -/
theorem C24_self_reference_always_aborts_counterexample :
    (∃ metadata, env_failing_tasks.get_tablet_metadata 1 10 = StatusOr.value metadata ∧
      metadata.prev_garbage_version ≥ 10) ∧
    loads_of (collect_files_to_vacuum env_failing_tasks "root"
      (example_args_batch_1 { tablet_id := 1, min_version := 0 }) 150 10).state.world
      = [(1, 10)] ∧
    (collect_files_to_vacuum env_failing_tasks "root"
      (example_args_batch_1 { tablet_id := 1, min_version := 0 }) 150 10).is_aborted = false ∧
    (collect_files_to_vacuum env_failing_tasks "root"
      (example_args_batch_1 { tablet_id := 1, min_version := 0 }) 150 10).is_out_of_fuel
      = false ∧
    (collect_files_to_vacuum env_failing_tasks "root"
      (example_args_batch_1 { tablet_id := 1, min_version := 0 }) 150 10).succeeded = false ∧
    (collect_files_to_vacuum env_failing_tasks "root"
      (example_args_batch_1 { tablet_id := 1, min_version := 0 }) 150 10).state.world
      = [Event.load 1 10, Event.task ["root/data/a"]] := by
  refine ⟨⟨_, rfl, by decide⟩, by decide, by decide, by decide, by decide, by decide⟩

/-- C24, amended. The versions `collect_files_to_vacuum` loads (the callbacks of the two
    deleters it is given loading nothing) are strictly decreasing and all lie
    in `[max(1, tablet_info.min_version), min_retain_version]`, so there are at
    most `min_retain_version - max(1, tablet_info.min_version) + 1` of them and
    the loop ends within that many iterations for every metadata store; a
    loaded snapshot whose `prev_garbage_version` is not below the version it
    was loaded at is the last one loaded: it is never followed, and the call
    ends in the abort of `CHECK_LT`, or in the error that collecting the
    snapshot's garbage returned before the check. -/
theorem C24_walk_loads_strictly_decreasing_versions (env : Env) (root_dir : String)
    (a : VacuumArgs) (grace_timestamp min_retain_version : Int)
    (hdata : quiet_callback a.datafile_deleter._cb)
    (hmeta : quiet_callback a.metafile_deleter._cb) :
    (collect_files_to_vacuum env root_dir a grace_timestamp min_retain_version).is_out_of_fuel
      = false ∧
    ∃ versions : List Int,
      loads_of (collect_files_to_vacuum env root_dir a grace_timestamp
          min_retain_version).state.world
        = loads_of a.world ++ versions.map (fun v => (a.tablet_info.tablet_id, v)) ∧
      versions.Sorted (fun v v' => v > v') ∧
      (∀ v ∈ versions, Max.max 1 a.tablet_info.min_version ≤ v ∧ v ≤ min_retain_version) ∧
      versions.length
        ≤ (min_retain_version - Max.max 1 a.tablet_info.min_version + 1).toNat ∧
      ∀ v ∈ versions, ∀ metadata,
        env.get_tablet_metadata a.tablet_info.tablet_id v = StatusOr.value metadata →
        metadata.prev_garbage_version ≥ v →
        versions.getLast? = some v ∧
        ((collect_files_to_vacuum env root_dir a grace_timestamp
            min_retain_version).is_aborted = true ∨
          ∃ c m a', collect_files_to_vacuum env root_dir a grace_timestamp min_retain_version
            = Outcome.returned (Status.error c m) a') := by
  unfold collect_files_to_vacuum
  cases hfs : env.create_fs root_dir with
  | error c m =>
    simp only
    refine ⟨rfl, [], by simp [Outcome.state], List.sorted_nil,
      fun v hv => absurd hv (List.not_mem_nil v), Nat.zero_le _,
      fun v hv => absurd hv (List.not_mem_nil v)⟩
  | OK =>
    simp only
    obtain ⟨versions, h1, h2, h3, h4⟩ := walk_loads env
      (env.join_path root_dir env.kSegmentDirectoryName) a.tablet_info.tablet_id
      (walk_min_version a.tablet_info) grace_timestamp min_retain_version
      (walk_fuel a.tablet_info min_retain_version)
      (walk_init a grace_timestamp min_retain_version) hdata
    have hfuel := walk_fuel_enough env (env.join_path root_dir env.kSegmentDirectoryName)
      a.tablet_info.tablet_id (walk_min_version a.tablet_info) grace_timestamp
      min_retain_version (walk_fuel a.tablet_info min_retain_version)
      (walk_init a grace_timestamp min_retain_version) (le_refl _)
    have h3' : ∀ v ∈ versions,
        Max.max 1 a.tablet_info.min_version ≤ v ∧ v ≤ min_retain_version := h3
    have hlen := sorted_gt_length versions h2 _ _ h3'
    have hw : loads_of (walk_init a grace_timestamp min_retain_version).world
        = loads_of a.world := rfl
    rw [hw] at h1
    unfold collect_files_to_vacuum_walk
    cases hwalk : walk env (env.join_path root_dir env.kSegmentDirectoryName)
        a.tablet_info.tablet_id (walk_min_version a.tablet_info) grace_timestamp
        min_retain_version (walk_fuel a.tablet_info min_retain_version)
        (walk_init a grace_timestamp min_retain_version) with
    | out_of_fuel s => exact absurd hwalk (hfuel s)
    | returned st s =>
      rw [hwalk] at h1 h4
      refine ⟨rfl, versions, h1, h2, h3', hlen, fun v hv md hg hp => ?_⟩
      obtain ⟨g1, g2⟩ := h4 v hv md hg hp
      refine ⟨g1, ?_⟩
      rcases g2 with ⟨s', e⟩ | ⟨c, m, s', e⟩
      · exact LoopResult.noConfusion e
      · injection e with e1 e2
        rw [e1]
        exact Or.inr ⟨c, m, _, rfl⟩
    | aborted s =>
      rw [hwalk] at h1
      exact ⟨rfl, versions, h1, h2, h3', hlen, fun v hv md hg hp =>
        ⟨(h4 v hv md hg hp).1, Or.inl rfl⟩⟩
    | done s =>
      rw [hwalk] at h1 h4
      simp only
      refine ⟨rfl, versions, ?_, h2, h3', hlen, fun v hv md hg hp => ?_⟩
      · show loads_of (collect_files_to_vacuum_tail env _ (a.after_walk s) s).2.world = _
        rw [collect_files_to_vacuum_tail_loads env _ (a.after_walk s) s hmeta]
        exact h1
      · rcases (h4 v hv md hg hp).2 with ⟨s', e⟩ | ⟨c, m, s', e⟩
        · exact LoopResult.noConfusion e
        · exact LoopResult.noConfusion e

/-- C24, witness of the amended claim: tablet 1 with `min_retain_version = 10`
    whose snapshot 10 names itself as the previous version: version 10 is
    loaded, once, and the process aborts. On the chain 10 -> 5 the versions 10
    and 5 are loaded. -/
theorem C24_walk_loads_strictly_decreasing_versions_witness :
    loads_of (collect_files_to_vacuum (example_env store_10_self) "root"
      (example_args { tablet_id := 1, min_version := 0 }) 150 10).state.world = [(1, 10)] ∧
    (collect_files_to_vacuum (example_env store_10_self) "root"
      (example_args { tablet_id := 1, min_version := 0 }) 150 10).is_aborted = true ∧
    loads_of (collect_files_to_vacuum (example_env store_10_5) "root"
      (example_args { tablet_id := 1, min_version := 0 }) 150 10).state.world
      = [(1, 10), (1, 5)] ∧
    (collect_files_to_vacuum (example_env store_10_self) "root"
      (example_args { tablet_id := 1, min_version := 0 }) 150 10).is_out_of_fuel = false ∧
    ∃ versions : List Int,
      loads_of (collect_files_to_vacuum (example_env store_10_self) "root"
          (example_args { tablet_id := 1, min_version := 0 }) 150 10).state.world
        = loads_of [] ++ versions.map (fun v => ((1 : Int), v)) ∧
      versions.Sorted (fun v v' => v > v') ∧
      (∀ v ∈ versions, Max.max 1 (0 : Int) ≤ v ∧ v ≤ 10) ∧
      versions.length ≤ ((10 : Int) - Max.max 1 0 + 1).toNat ∧
      ∀ v ∈ versions, ∀ metadata,
        store_10_self 1 v = StatusOr.value metadata →
        metadata.prev_garbage_version ≥ v →
        versions.getLast? = some v ∧
        ((collect_files_to_vacuum (example_env store_10_self) "root"
            (example_args { tablet_id := 1, min_version := 0 }) 150 10).is_aborted = true ∨
          ∃ c m a', collect_files_to_vacuum (example_env store_10_self) "root"
            (example_args { tablet_id := 1, min_version := 0 }) 150 10
            = Outcome.returned (Status.error c m) a') :=
  ⟨by decide, by decide, by decide,
    C24_walk_loads_strictly_decreasing_versions (example_env store_10_self) "root"
      (example_args { tablet_id := 1, min_version := 0 }) 150 10 quiet_callback_none
      quiet_callback_erase⟩

/-- C26, counterexample: a tablet whose `min_version` is 20, vacuumed with
    `min_retain_version = 10`: the lower bound of the walk is 20, while
    `final_retain_version` is 10 when the loop is entered and when it is left. -/
theorem C26_lower_bound_le_final_retain_version_counterexample :
    walk_min_version (example_args { tablet_id := 1, min_version := 20 }).tablet_info = 20 ∧
    (walk_init (example_args { tablet_id := 1, min_version := 20 }) 150
      10).final_retain_version = 10 ∧
    (collect_files_to_vacuum_walk (example_env store_10_5) "root"
      (example_args { tablet_id := 1, min_version := 20 }) 150
      10).state.final_retain_version = 10 ∧
    (collect_files_to_vacuum (example_env store_10_5) "root"
      (example_args { tablet_id := 1, min_version := 20 }) 150 10).succeeded = true := by
  decide

/-- C26, amended. The lower bound `min_version = max(1, tablet_info.min_version)`
    of the walk of `collect_files_to_vacuum` satisfies
    `min_version <= final_retain_version` in the state the loop stands in after
    any number of iterations (and so when it is left) exactly when
    `max(1, tablet_info.min_version) <= min_retain_version`:
    `final_retain_version` starts as `min_retain_version` and is only ever set
    to a version the loop visits. -/
theorem C26_lower_bound_le_final_retain_version_iff (env : Env) (root_dir : String)
    (a : VacuumArgs) (grace_timestamp min_retain_version : Int) :
    Max.max 1 a.tablet_info.min_version ≤ min_retain_version ↔
      ∀ fuel : Nat,
        Max.max 1 a.tablet_info.min_version ≤
          (walk env (env.join_path root_dir env.kSegmentDirectoryName) a.tablet_info.tablet_id
            (Max.max 1 a.tablet_info.min_version) grace_timestamp min_retain_version fuel
            (walk_init a grace_timestamp min_retain_version)).state.final_retain_version := by
  constructor
  · intro h fuel
    exact walk_final_ge env _ _ _ _ _ fuel (walk_init a grace_timestamp min_retain_version) h
  · intro h
    by_contra hlt
    have h0 := h 0
    unfold walk at h0
    split at h0
    · exact hlt h0
    · exact hlt h0

/-- C26, witness of the amended claim: tablet 1 with `min_version = 0` on the
    chain 10 -> 5 and `min_retain_version = 10`: after one iteration, and when
    the loop is left, `final_retain_version` is at least 1. -/
theorem C26_lower_bound_le_final_retain_version_iff_witness :
    Max.max 1 (0 : Int) ≤
      (walk (example_env store_10_5) "root/data" 1 (Max.max 1 0) 150 10 1
        (walk_init (example_args { tablet_id := 1, min_version := 0 }) 150
          10)).state.final_retain_version ∧
    (collect_files_to_vacuum_walk (example_env store_10_5) "root"
      (example_args { tablet_id := 1, min_version := 0 }) 150
      10).state.final_retain_version = 5 :=
  ⟨(C26_lower_bound_le_final_retain_version_iff (example_env store_10_5) "root"
      (example_args { tablet_id := 1, min_version := 0 }) 150 10).1 (by decide) 1,
    by decide⟩

/-- C25, failing input: the metadata directory lists versions 3 and 2 of
    tablet 7, and snapshot 3 names version 3 as its `prev_garbage_version`.
    `delete_tablets_impl` does not abort but follows the pointer: whatever the
    number of iterations allowed, the call has not ended by then and has loaded
    version 3 that many times; with 5 iterations, five loads of version 3. -/
theorem C25_purge_walk_aborts_on_non_decreasing_chain_counterexample :
    (∃ metadata, purge_env_self.get_tablet_metadata 7 3 = StatusOr.value metadata ∧
      metadata.has_prev_garbage_version = true ∧ metadata.prev_garbage_version ≥ 3) ∧
    (∀ fuel : Nat,
      (delete_tablets_impl purge_env_self fuel "root" [7] []).is_out_of_fuel = true ∧
      (delete_tablets_impl purge_env_self fuel "root" [7] []).is_aborted = false ∧
      loads_of (delete_tablets_impl purge_env_self fuel "root" [7] []).state.2
        = List.replicate fuel (7, 3)) ∧
    loads_of (delete_tablets_impl purge_env_self 5 "root" [7] []).state.2
      = [(7, 3), (7, 3), (7, 3), (7, 3), (7, 3)] := by
  refine ⟨⟨_, rfl, rfl, by decide⟩, fun fuel => ?_, by decide⟩
  obtain ⟨h1, h2⟩ := purge_env_self_cycle fuel
  refine ⟨h1, ?_, h2⟩
  cases h : delete_tablets_impl purge_env_self fuel "root" [7] [] with
  | returned st s => rfl
  | out_of_fuel s => rfl
  | aborted s =>
    rw [h] at h1
    exact absurd h1 (by simp [Outcome.is_out_of_fuel])

/-- C25, on stores without the failing input. The loop of
    `delete_tablets_impl` lacks the `CHECK_LT` of `collect_files_to_vacuum`, so
    that the walk loads strictly decreasing versions and ends is shown only for
    stores in which every snapshot that has a `prev_garbage_version` has it
    below its own version: there the walk over the garbage versions of a
    tablet, from `v` down to `min_v`, loads strictly decreasing versions within
    `[min_v, v]`, at most `v - min_v + 1` of them, and ends within that many
    iterations; so `delete_tablets_impl` on sorted `tablet_ids` ends once each
    walk is allowed as many iterations as there are versions between the lowest
    and the highest listed version of its tablet. -/
theorem C25_purge_walk_ends_on_decreasing_chains (env : FsEnv) (fuel : Nat)
    (root_dir : String) (tablet_ids : List Int) (w : World)
    (hsorted : tablet_ids.Sorted (fun a b => a ≤ b))
    (hdec : ∀ t x metadata, env.get_tablet_metadata t x = StatusOr.value metadata →
      metadata.has_prev_garbage_version = true → metadata.prev_garbage_version < x)
    (hfuel : ∀ t v v',
      listed_version env (env.join_path root_dir env.kMetadataDirectoryName) tablet_ids t v →
      listed_version env (env.join_path root_dir env.kMetadataDirectoryName) tablet_ids t v' →
      (v - v' + 1).toNat ≤ fuel) :
    (delete_tablets_impl env fuel root_dir tablet_ids w).is_out_of_fuel = false ∧
    ∀ (data_dir : String) (tablet_id min_v : Int) (n : Nat) (v : Int)
      (s : Option TabletMetadataPB × (AsyncFileDeleter × World)),
      quiet_callback s.2.1._cb →
      ∃ versions : List Int,
        loads_of (find_garbage env data_dir tablet_id min_v n v s).state.2.2
          = loads_of s.2.2 ++ versions.map (fun x => (tablet_id, x)) ∧
        versions.Sorted (fun a b => a > b) ∧
        (∀ x ∈ versions, min_v ≤ x ∧ x ≤ v) ∧
        versions.length ≤ (v - min_v + 1).toNat ∧
        ((v - min_v + 1).toNat ≤ n →
          ∀ s', find_garbage env data_dir tablet_id min_v n v s
            ≠ LoopResult.out_of_fuel s') := by
  refine ⟨delete_tablets_impl_fuel env fuel root_dir tablet_ids w hsorted hdec hfuel, ?_⟩
  intro data_dir tablet_id min_v n v s hq
  obtain ⟨versions, h1, _, h3, h4⟩ := find_garbage_loads env data_dir tablet_id min_v n v s hq
  obtain ⟨j1, j2, j3⟩ := h4 (hdec tablet_id)
  have hb : ∀ x ∈ versions, min_v ≤ x ∧ x ≤ v := fun x hx => ⟨h3 x hx, j2 x hx⟩
  exact ⟨versions, h1, j1, hb, sorted_gt_length versions j1 _ _ hb, j3⟩

/-- C25, witness on a decreasing chain: the removal of tablet 7 over the store
    in which snapshot 3 names version 2, with two iterations allowed, ends,
    having loaded versions 3 and 2. -/
theorem C25_purge_walk_ends_on_decreasing_chains_witness :
    loads_of (delete_tablets_impl purge_env 2 "root" [7] []).state.2 = [(7, 3), (7, 2)] ∧
    (delete_tablets_impl purge_env 2 "root" [7] []).succeeded = true ∧
    (delete_tablets_impl purge_env 2 "root" [7] []).is_out_of_fuel = false :=
  ⟨by decide, by decide,
    (C25_purge_walk_ends_on_decreasing_chains purge_env 2 "root" [7] []
      (List.sorted_singleton 7) store_7_3_decreasing
      (fun t v v' h h' => by
        rcases purge_env_listed t v h with ⟨_, rfl⟩ | ⟨_, rfl⟩ <;>
          rcases purge_env_listed t v' h' with ⟨_, rfl⟩ | ⟨_, rfl⟩ <;> decide)).1⟩

/-- C23, counterexample: two pending tasks for the same path `p` and a
    metacache whose `cache_segment_if_present` answers 0: the path is not put
    into `processed_paths`, and `cache_segment_if_present` is called for `p`
    twice in the one run. -/
theorem C23_cache_segment_called_once_per_path_counterexample :
    (SegmentCacheUpdater._process_tasks (cache_env 0) [("p", 0), ("p", 0)] []).2
      = [CacheEvent.read_stopped, CacheEvent.lookup_segment "p",
         CacheEvent.cache_segment_if_present "p" 10 0 0,
         CacheEvent.read_stopped, CacheEvent.lookup_segment "p",
         CacheEvent.cache_segment_if_present "p" 10 0 0] ∧
    (cache_calls "p"
      (SegmentCacheUpdater._process_tasks (cache_env 0) [("p", 0), ("p", 0)] []).2).length
      = 2 := by
  decide

/-- C23, amended. In one `_process_tasks` run of `SegmentCacheUpdater`, for
    every pending task list and every behaviour of the metacache and of
    `_stopped`, the calls of `cache_segment_if_present` for one path all
    return 0, except possibly the last: once a call for a path has returned a
    non-zero value there is no further call for that path. So
    `cache_segment_if_present` is called at most once for each path when it
    never returns 0. The run leaves `_segments` empty. -/
theorem C23_no_call_after_a_call_that_cached (env : CacheEnv)
    (_segments : List (String × Int)) (trace : List CacheEvent) :
    (SegmentCacheUpdater._process_tasks env _segments trace).1 = [] ∧
    ∃ added, (SegmentCacheUpdater._process_tasks env _segments trace).2 = trace ++ added ∧
      (∀ path, ∃ n,
        cache_calls path added = List.replicate n 0 ∨
        ∃ d, d ≠ 0 ∧ cache_calls path added = List.replicate n 0 ++ [d]) ∧
      ((∀ h p m a, env.cache_segment_if_present h p m a ≠ 0) →
        ∀ path, (cache_calls path added).length ≤ 1) := by
  obtain ⟨processed, added, h1, h2⟩ := process_tasks_loop_run env trace _segments [] []
    (fun path => ⟨fun hin => absurd hin (List.not_mem_nil _), fun _ => ⟨0, rfl⟩,
      fun d hd => absurd hd (List.not_mem_nil _)⟩)
  rw [List.append_nil] at h1
  have shape : ∀ path, ∃ n,
      cache_calls path added = List.replicate n 0 ∨
      ∃ d, d ≠ 0 ∧ cache_calls path added = List.replicate n 0 ++ [d] := by
    intro path
    by_cases hin : path ∈ processed
    · obtain ⟨n, d, hd, e⟩ := (h2 path).1 hin
      exact ⟨n, Or.inr ⟨d, hd, e⟩⟩
    · obtain ⟨n, e⟩ := (h2 path).2.1 hin
      exact ⟨n, Or.inl e⟩
  refine ⟨rfl, added, ?_, shape, ?_⟩
  · show (process_tasks_loop env _segments ([], trace)).2 = _
    rw [h1]
  · intro hnz path
    have hzero : (0 : Int) ∉ cache_calls path added := by
      intro h0
      obtain ⟨h, m, a, e⟩ := (h2 path).2.2 0 h0
      exact hnz h path m a e.symm
    obtain ⟨n, e | ⟨d, _, e⟩⟩ := shape path
    · cases n with
      | zero => rw [e]; exact Nat.zero_le _
      | succ n =>
        rw [e] at hzero
        exact absurd (List.mem_replicate.2 ⟨Nat.succ_ne_zero n, rfl⟩) hzero
    · cases n with
      | zero => rw [e]; exact le_refl _
      | succ n =>
        rw [e] at hzero
        exact absurd (List.mem_append_left _ (List.mem_replicate.2 ⟨Nat.succ_ne_zero n, rfl⟩))
          hzero

/-- C23, witness of the amended claim: the pending tasks `p`, `p`, `q` and a
    metacache that answers 1: `cache_segment_if_present` is called once for `p`
    and once for `q`. -/
theorem C23_no_call_after_a_call_that_cached_witness :
    (SegmentCacheUpdater._process_tasks (cache_env 1) [("p", 0), ("p", 0), ("q", 0)] []).2
      = [CacheEvent.read_stopped, CacheEvent.lookup_segment "p",
         CacheEvent.cache_segment_if_present "p" 10 0 1,
         CacheEvent.read_stopped,
         CacheEvent.read_stopped, CacheEvent.lookup_segment "q",
         CacheEvent.cache_segment_if_present "q" 10 0 1] ∧
    (SegmentCacheUpdater._process_tasks (cache_env 1) [("p", 0), ("p", 0), ("q", 0)] []).1
      = [] ∧
    ∃ added,
      (SegmentCacheUpdater._process_tasks (cache_env 1) [("p", 0), ("p", 0), ("q", 0)] []).2
        = [] ++ added ∧
      (∀ path, ∃ n,
        cache_calls path added = List.replicate n 0 ∨
        ∃ d, d ≠ 0 ∧ cache_calls path added = List.replicate n 0 ++ [d]) ∧
      ((∀ h p m a, (cache_env 1).cache_segment_if_present h p m a ≠ 0) →
        ∀ path, (cache_calls path added).length ≤ 1) :=
  ⟨by decide,
    C23_no_call_after_a_call_that_cached (cache_env 1) [("p", 0), ("p", 0), ("q", 0)] []⟩

end starrocks.lake
